import Mathlib

/-!
# The `rpolator` table interpolation engine (`src/include/rpolator.c`)

A shallow embedding of the interpolation engine, the dispatch facade and the
table registry of `rpolator.c`, followed by the properties proved about them.

Modelling conventions.

* A C `double` is a rational number (`ℚ`): arithmetic is exact, so rounding,
  infinities and NaN are outside the model.  Where rounding decides a result
  beyond the last digits (the choice of `rpol_nearest` at the middle of an
  interval, the Lagrange fits of `rpol_2nd_order` far from their supporting
  points) the functions have a second reading in which every operation is
  rounded to double precision (`to_double`, `rpol_nearest_dbl`, ...).
* A C `int` is an integer (`ℤ`).  Signed overflow is undefined in C and is not
  modelled; theorems state the size bounds under which no `int` expression of
  the code leaves the 32-bit range.
* A `double *` argument is a function from the index to the value read there
  (`Arr`).  Theorems quantify over all such functions, so nothing proved can
  depend on what lies outside the `n` supporting points.
* The C integer division and the `(int)` cast of a `double` truncate towards
  zero (`Int.tdiv`).
* Diagnostic output (`printf`, `fprintf`) has no effect on any value and is
  left out.
-/

namespace Rpolator

/-! ## Interpolation engine -/

/-- Memory read through a `double *`: the value at each index. -/
abbrev Arr := ℤ → ℚ

/-- The C cast `(int) q` of a `double`: truncation towards zero. -/
def truncToInt (q : ℚ) : ℤ := Int.tdiv q.num q.den

/-- The `for (i=1; i<=30; i++)` loop of `interp` with `fuel` iterations left,
current `l` and `m`.  `lm` is 0 for ascending and 1 for descending tables.
`none` is the fall-through to `"Interpolation error."`, in which the outputs
are not written. -/
def interpLoop (x : ℚ) (v : Arr) (n lm : ℤ) : ℕ → ℤ → ℤ → Option (ℤ × ℚ)
  | 0, _, _ => none
  | fuel + 1, l, m =>
    let j := l
    let j := if j < 1 then 1 else j
    let j := if j > n - 1 then n - 1 else j
    if x ≥ v (j + lm - 1) ∧ x ≤ v (j - lm) then
      some (j, if v j ≠ v (j - 1) then (x - v (j - 1)) / (v j - v (j - 1)) else 1 / 2)
    else
      let m := Int.tdiv (m + 1) 2
      if x > v (j - 1) then interpLoop x v n lm fuel (l + (1 - 2 * lm) * m) m
      else interpLoop x v n lm fuel (l - (1 - 2 * lm) * m) m

/-- The function `interp(x, v, n, &ipl, &rpl)`: binary search for the interval
holding `x`.  The arguments `ipl`, `rpl` are the values the output variables
hold on entry; the result is the pair they hold on return. -/
def interp (x : ℚ) (v : Arr) (n : ℤ) (ipl : ℤ) (rpl : ℚ) : ℤ × ℚ :=
  if v 0 < v (n - 1) then
    if x ≤ v 0 then (1, 0)
    else if x ≥ v (n - 1) then (n - 1, 1)
    else (interpLoop x v n 0 30 (Int.tdiv (n + 1) 2 - 1) (Int.tdiv (n + 1) 2)).getD (ipl, rpl)
  else
    if x ≥ v 0 then (1, 0)
    else if x ≤ v (n - 1) then (n - 1, 1)
    else (interpLoop x v n 1 30 (Int.tdiv (n + 1) 2 - 1) (Int.tdiv (n + 1) 2)).getD (ipl, rpl)

/-- The old-style `rpol(x, y, n, xp)`. -/
def rpol (x y : Arr) (n : ℤ) (xp : ℚ) : ℚ :=
  let p := interp xp x n 1 0
  y (p.1 - 1) * (1 - p.2) + y p.1 * p.2

/-- The interval search shared verbatim by `rpol_nearest`, `rpol_linear` and
`rpol_2nd_order`: direct index arithmetic `if ( eq )`, else `interp`.
The result is `(ipl, rpl)`. -/
def locate (x : Arr) (n : ℤ) (xp : ℚ) (eq : ℤ) : ℤ × ℚ :=
  if eq ≠ 0 then
    let dxi := 1 / (x 1 - x 0)
    let ipl := truncToInt ((xp - x 0) * dxi) + 1
    let ipl := if ipl > n - 1 then n - 1 else ipl
    (ipl, (xp - x (ipl - 1)) * dxi)
  else interp xp x n 1 0

/-- The function `rpol_nearest(x, y, n, xp, eq, clip)`. -/
def rpol_nearest (x y : Arr) (n : ℤ) (xp : ℚ) (eq clip : ℤ) : ℚ :=
  if n < 2 then 0
  else if x 1 ≤ x 0 then 0
  else if xp < x 0 then (if clip ≠ 0 then 0 else y 0)
  else if xp > x (n - 1) then (if clip ≠ 0 then 0 else y (n - 1))
  else
    let p := locate x n xp eq
    if p.2 < 1 / 2 then y (p.1 - 1) else y p.1

/-- The function `rpol_linear(x, y, n, xp, eq, clip)`. -/
def rpol_linear (x y : Arr) (n : ℤ) (xp : ℚ) (eq clip : ℤ) : ℚ :=
  if n < 2 then 0
  else if x 1 ≤ x 0 then 0
  else if xp < x 0 then (if clip ≠ 0 then 0 else y 0)
  else if xp > x (n - 1) then (if clip ≠ 0 then 0 else y (n - 1))
  else
    let p := locate x n xp eq
    y (p.1 - 1) * (1 - p.2) + y p.1 * p.2

/-- The weighted mean of the left- and right-sided second order Lagrange
fits that ends `rpol_2nd_order`, for the interval `ipl` and fraction `rpl`.
The selections `if ( ipl < 2 )` and `if ( ipl < n-1 )` each pick three
consecutive points; `il` and `ir` are the index of the first of them
(`ipl-1` for the points `ipl-1, ipl, ipl+1`, `ipl-2` for `ipl-2, ipl-1, ipl`). -/
def blend2 (x y : Arr) (n : ℤ) (xp : ℚ) (ipl : ℤ) (rpl : ℚ) : ℚ :=
  let il := if ipl < 2 then ipl - 1 else ipl - 2
  let x0l := x il
  let y0l := y il
  let x1l := x (il + 1)
  let y1l := y (il + 1)
  let x2l := x (il + 2)
  let y2l := y (il + 2)
  let ir := if ipl < n - 1 then ipl - 1 else ipl - 2
  let x0r := x ir
  let y0r := y ir
  let x1r := x (ir + 1)
  let y1r := y (ir + 1)
  let x2r := x (ir + 2)
  let y2r := y (ir + 2)
  let L0l := ((xp - x1l) * (xp - x2l)) / ((x0l - x1l) * (x0l - x2l))
  let L1l := ((xp - x0l) * (xp - x2l)) / ((x1l - x0l) * (x1l - x2l))
  let L2l := ((xp - x0l) * (xp - x1l)) / ((x2l - x0l) * (x2l - x1l))
  let L0r := ((xp - x1r) * (xp - x2r)) / ((x0r - x1r) * (x0r - x2r))
  let L1r := ((xp - x0r) * (xp - x2r)) / ((x1r - x0r) * (x1r - x2r))
  let L2r := ((xp - x0r) * (xp - x1r)) / ((x2r - x0r) * (x2r - x1r))
  let P2l := y0l * L0l + y1l * L1l + y2l * L2l
  let P2r := y0r * L0r + y1r * L1r + y2r * L2r
  (1 - rpl) * P2l + rpl * P2r

/-- The function `rpol_2nd_order(x, y, n, xp, eq, clip)`. -/
def rpol_2nd_order (x y : Arr) (n : ℤ) (xp : ℚ) (eq clip : ℤ) : ℚ :=
  if n < 3 then rpol_linear x y n xp eq clip
  else if x 1 ≤ x 0 then 0
  else if xp < x 0 then (if clip ≠ 0 then 0 else y 0)
  else if xp > x (n - 1) then (if clip ≠ 0 then 0 else y (n - 1))
  else
    let p := locate x n xp eq
    if p.1 > n - 1 then y (n - 1)
    else if p.1 < 1 then y 0
    else blend2 x y n xp p.1 p.2

/-- The structure `struct cubic_params`: the polynomial
`((d*r + c)*r + b)*r + a` of one interval. -/
structure CsplinePar where
  a : ℚ
  b : ℚ
  c : ℚ
  d : ℚ
  deriving DecidableEq

/-- The array `h` of `set_1d_cubic_params`: `h[i] = x[i+1] - x[i]`. -/
def cs_h (x : Arr) (i : ℤ) : ℚ := x (i + 1) - x i

/-- The array `A` of `set_1d_cubic_params` as it stands after all its
assignments (`a[i] = y[i]`; `deriv_left = deriv_right = 0`). -/
def cs_A (x y : Arr) (n clamped : ℤ) (i : ℤ) : ℚ :=
  if i = 0 then
    (if clamped ≠ 0 then 3 * (y 1 - y 0) / cs_h x 0 - 3 * 0 else 0)
  else if i = n - 1 then
    (if clamped ≠ 0 then 3 * 0 - 3 * (y (n - 1) - y (n - 2)) / cs_h x (n - 2) else 0)
  else 3 * (y (i + 1) - y i) / cs_h x i - 3 * (y i - y (i - 1)) / cs_h x (i - 1)

/-- The forward sweep of `set_1d_cubic_params`: the triple
`(l[i], M[i], z[i])` for `0 ≤ i ≤ n-2`. -/
def cs_fwd (x y : Arr) (n clamped : ℤ) : ℕ → ℚ × ℚ × ℚ
  | 0 =>
    if clamped ≠ 0 then (2 * cs_h x 0, 1 / 2, cs_A x y n clamped 0 / (2 * cs_h x 0))
    else (1, 0, 0)
  | i + 1 =>
    let p := cs_fwd x y n clamped i
    let l := 2 * (x ((i : ℤ) + 2) - x i) - cs_h x i * p.2.1
    (l, cs_h x ((i : ℤ) + 1) / l, (cs_A x y n clamped ((i : ℤ) + 1) - cs_h x i * p.2.2) / l)

/-- The backward sweep of `set_1d_cubic_params`: `cs_c .. k` is `c[n-1-k]`. -/
def cs_c (x y : Arr) (n clamped : ℤ) : ℕ → ℚ
  | 0 =>
    if clamped ≠ 0 then
      let p := cs_fwd x y n clamped (n - 2).toNat
      (cs_A x y n clamped (n - 1) - cs_h x (n - 2) * p.2.2) / (cs_h x (n - 2) * (2 - p.2.1))
    else 0
  | k + 1 =>
    let p := cs_fwd x y n clamped (n - 2 - k).toNat
    p.2.2 - p.2.1 * cs_c x y n clamped k

/-- The function `set_1d_cubic_params(x, y, n, clamped)`: `none` is the NULL
return; otherwise the `n` entries of the allocated array, of which the last
one keeps the zeros of `calloc`. -/
def set_1d_cubic_params (x y : Arr) (n clamped : ℤ) : Option (ℤ → CsplinePar) :=
  if n < 4 then none
  else if (List.range (n - 1).toNat).any (fun i => decide (x ((i : ℤ) + 1) ≤ x i)) then none
  else
    let c : ℤ → ℚ := fun j => cs_c x y n clamped (n - 1 - j).toNat
    let b : ℤ → ℚ := fun j => (y (j + 1) - y j) / cs_h x j - cs_h x j * (c (j + 1) + 2 * c j) / 3
    let d : ℤ → ℚ := fun j => (c (j + 1) - c j) / (3 * cs_h x j)
    some (fun i =>
      if 0 ≤ i ∧ i < n - 1 then { a := y i, b := b i, c := c i, d := d i }
      else { a := 0, b := 0, c := 0, d := 0 })

/-- The function `csx(r, cp)`. -/
def csx (r : ℚ) (cp : CsplinePar) : ℚ := ((cp.d * r + cp.c) * r + cp.b) * r + cp.a

/-- The function `rpol_cspline(x, y, csp, n, xp, eq, clip)`; `csp = none` is
the NULL pointer. -/
def rpol_cspline (x y : Arr) (csp : Option (ℤ → CsplinePar)) (n : ℤ) (xp : ℚ)
    (eq clip : ℤ) : ℚ :=
  match csp with
  | none => rpol_linear x y n xp eq clip
  | some cp =>
    if n < 4 then rpol_linear x y n xp eq clip
    else if x 1 ≤ x 0 then 0
    else if xp < x 0 then (if clip ≠ 0 then 0 else y 0)
    else if xp > x (n - 1) then (if clip ≠ 0 then 0 else y (n - 1))
    else
      let ipl : ℤ :=
        if eq ≠ 0 then
          let dxi := 1 / (x 1 - x 0)
          let ipl := truncToInt ((xp - x 0) * dxi) + 1
          if ipl > n - 1 then n - 1 else ipl
        else (interp xp x n 1 0).1
      if ipl > n - 1 then y (n - 1)
      else if ipl < 1 then y 0
      else csx (xp - x (ipl - 1)) (cp (ipl - 1))

/-- The interval search of one axis of `rpol_2d_linear`: below and above the
range (reached only without clipping) the edge cell is taken, otherwise
index arithmetic when the axis bit `eqbit` of `eq` is set, else `interp`. -/
def locate2d (x : Arr) (nx : ℤ) (xp : ℚ) (eqbit : ℤ) : ℤ × ℚ :=
  if xp < x 0 then (1, 0)
  else if xp > x (nx - 1) then (nx - 1, 1)
  else if eqbit ≠ 0 then
    let dxi := 1 / (x 1 - x 0)
    let ipl := truncToInt ((xp - x 0) * dxi) + 1
    let ipl := if ipl > nx - 1 then nx - 1 else ipl
    (ipl, (xp - x (ipl - 1)) * dxi)
  else interp xp x nx 1 0

/-- The function `rpol_2d_linear(x, y, z, nx, ny, xp, yp, eq, clip)`.  The
two `if ( clip ) return 0.;` inside the below/above branches of each axis are
the tests on `clip` here; the branches themselves are in `locate2d`. -/
def rpol_2d_linear (x y z : Arr) (nx ny : ℤ) (xp yp : ℚ) (eq clip : ℤ) : ℚ :=
  if nx < 2 ∨ ny < 2 then 0
  else if x 1 ≤ x 0 ∨ y 1 ≤ y 0 then 0
  else if (xp < x 0 ∨ xp > x (nx - 1)) ∧ clip ≠ 0 then 0
  else
    let p := locate2d x nx xp (Int.land eq 1)
    if (yp < y 0 ∨ yp > y (ny - 1)) ∧ clip ≠ 0 then 0
    else
      let q := locate2d y ny yp (Int.land eq 2)
      let ipl := p.1
      let rpl := p.2
      let jpl := q.1
      let spl := q.2
      (z ((ipl - 1) * ny + (jpl - 1)) * (1 - rpl) + z (ipl * ny + (jpl - 1)) * rpl) * (1 - spl)
        + (z ((ipl - 1) * ny + jpl) * (1 - rpl) + z (ipl * ny + jpl) * rpl) * spl

/-! ## Tables and the dispatch facade -/

/-- The structure `struct rpol_table`.  A pointer member is `none` when NULL
and otherwise holds the contents of the buffer it points to.  The defaults are
the all-zero bytes of `calloc`.  (For a 1-D table read from a file the C
pointers `y` and `z` share one buffer; no 1-D code path reads `y`.) -/
structure RpolTable where
  ndim : ℤ := 0
  nx : ℕ := 0
  ny : ℕ := 0
  x : Option (List ℚ) := none
  y : Option (List ℚ) := none
  z : Option (List ℚ) := none
  zxmax : Option (List ℚ) := none
  zxmin : Option (List ℚ) := none
  aux : ℚ := 0
  xmin : ℚ := 0
  xmax : ℚ := 0
  dx : ℚ := 0
  dxi : ℚ := 0
  xrise : ℚ := 0
  ymin : ℚ := 0
  ymax : ℚ := 0
  dy : ℚ := 0
  dyi : ℚ := 0
  yrise : ℚ := 0
  zmin : ℚ := 0
  zmax : ℚ := 0
  fname : Option String := none
  options : Option String := none
  equidistant : ℤ := 0
  scheme : ℤ := 0
  clipping : ℤ := 0
  remapped : ℤ := 0
  zxreq : ℤ := 0
  logs : ℤ := 0
  xlog : ℤ := 0
  ylog : ℤ := 0
  zlog : ℤ := 0
  csp : Option (List CsplinePar) := none
  use_count : ℤ := 0
  deriving DecidableEq

/-- The result of `calloc(1, sizeof(struct rpol_table))`. -/
def calloc_rpol_table : RpolTable := {}

/-- Reads through a buffer pointer of a table. -/
def arr (p : Option (List ℚ)) : Arr := fun i => (p.getD []).getD i.toNat 0

/-- Reads through the `csp` pointer of a table. -/
def cspArr (p : Option (List CsplinePar)) : Option (ℤ → CsplinePar) :=
  p.map (fun l i => l.getD i.toNat { a := 0, b := 0, c := 0, d := 0 })

/-- One pass `i` of the swap loop of `rpol_check_equi_range` on one buffer:
entry `i` and entry `n-1-i` change places. -/
def swap_ends (n : ℕ) (l : List ℚ) (i : ℕ) : List ℚ :=
  (l.set i (l.getD (n - 1 - i) 0)).set (n - 1 - i) (l.getD i 0)

/-- The swap loop `for ( i=0; i<rpt->nx/2; i++ )` of `rpol_check_equi_range`
on one buffer of `n` entries. -/
def reverse_n (n : ℕ) (l : List ℚ) : List ℚ := (List.range (n / 2)).foldl (swap_ends n) l

/-- The function `rpol_check_equi_range(rpt)` for a non-NULL `rpt`. -/
def rpol_check_equi_range (rpt0 : RpolTable) : RpolTable :=
  let rpt := { rpt0 with equidistant := 0 }
  match rpt.x, rpt.z with
  | some xs0, some zs0 =>
    if rpt.ndim ≥ 2 ∧ rpt.y = none then rpt
    else if rpt.nx < 1 ∨ (rpt.ndim ≥ 2 ∧ rpt.ny < 1) then rpt
    else
      let nx := rpt.nx
      let ny := rpt.ny
      let nz := if rpt.ndim > 1 then nx * ny else nx
      let rev : Bool := decide (rpt.ndim = 1 ∧ nx > 1 ∧ xs0.getD (nx - 1) 0 < xs0.getD 0 0)
      let xs := if rev then reverse_n nx xs0 else xs0
      let zs := if rev then reverse_n nx zs0 else zs0
      let X : ℕ → ℚ := fun i => xs.getD i 0
      let Z : ℕ → ℚ := fun i => zs.getD i 0
      let xmin := X 0
      let dx : ℚ := if nx > 1 then (X (nx - 1) - X 0) / ((nx : ℚ) - 1) else 0
      let dxi : ℚ := if nx > 1 then (if dx ≠ 0 then 1 / dx else 0) else 0
      let xmax := if nx > 1 then X (nx - 1) else xmin
      let eqx : ℤ :=
        if (List.range nx).any (fun i => decide (|(xmin + (i : ℚ) * dx - X i) * dxi| > 1 / 10 ^ 10))
        then Int.land 1 2 else 1
      let xrise0 : ℤ := if X 1 ≥ X 0 then 1 else -1
      let xbad : Bool := decide (nx ≥ 2) &&
        (List.range (nx - 2)).any (fun k => decide ((X (k + 2) - X (k + 1)) * (xrise0 : ℚ) < 0))
      let xrise : ℚ := if nx ≥ 2 then (if xbad then ((xrise0 * 2 : ℤ) : ℚ) else (xrise0 : ℚ)) else 1
      let scheme1 : ℤ := if xbad then -3 else rpt.scheme
      let two : Bool := decide (rpt.ndim = 2 ∨ rpt.ndim = 3)
      let Y : ℕ → ℚ := fun i => (rpt.y.getD []).getD i 0
      let ymin := Y 0
      let dy : ℚ := if ny > 1 then (Y (ny - 1) - Y 0) / ((ny : ℚ) - 1) else 0
      let dyi : ℚ := if ny > 1 then (if dy ≠ 0 then 1 / dy else 0) else 0
      let ymax := if ny > 1 then Y (ny - 1) else ymin
      let eqxy : ℤ :=
        if (List.range ny).any (fun i => decide (|(ymin + (i : ℚ) * dy - Y i) * dyi| > 1 / 10 ^ 10))
        then Int.land (Int.lor eqx 2) 1 else Int.lor eqx 2
      let yrise0 : ℤ := if Y 1 ≥ Y 0 then 1 else -1
      let ybad : Bool := two && decide (ny ≥ 2) &&
        (List.range (ny - 2)).any (fun k => decide ((Y (k + 2) - Y (k + 1)) * (yrise0 : ℚ) < 0))
      let yrise : ℚ :=
        if two ∧ ny ≥ 2 then (if ybad then ((yrise0 * 2 : ℤ) : ℚ) else (yrise0 : ℚ)) else 1
      let scheme2 : ℤ := if ybad then -3 else scheme1
      let mm : ℚ × ℚ := (List.range nz).foldl
        (fun p i => if Z i > p.2 then (p.1, Z i) else if Z i < p.1 then (Z i, p.2) else p)
        (Z 0, Z 0)
      let env : Bool := decide (rpt.ndim > 1 ∧ rpt.zxreq ≠ 0)
      let zxmax := (List.range nx).map (fun i => (List.range (ny - 1)).foldl
        (fun m k => if Z (i * ny + (k + 1)) > m then Z (i * ny + (k + 1)) else m) (Z (i * ny)))
      let zxmin := (List.range nx).map (fun i => (List.range (ny - 1)).foldl
        (fun m k => if Z (i * ny + (k + 1)) < m then Z (i * ny + (k + 1)) else m) (Z (i * ny)))
      { rpt with
        x := some xs
        z := some zs
        xrise := xrise
        yrise := yrise
        xmin := xmin
        dx := dx
        dxi := dxi
        xmax := xmax
        ymin := if two then ymin else rpt.ymin
        dy := if two then dy else rpt.dy
        dyi := if two then dyi else rpt.dyi
        ymax := if two then ymax else rpt.ymax
        equidistant := if two then eqxy else eqx
        scheme := scheme2
        zmin := mm.1
        zmax := mm.2
        zxmax := if env then some zxmax else rpt.zxmax
        zxmin := if env then some zxmin else rpt.zxmin }
  | _, _ => rpt

/-- The function `rpolate_1d(rpt, x, scheme)`.  The C library functions `exp`
and `log` are the parameters `expf` and `logf`. -/
def rpolate_1d (expf logf : ℚ → ℚ) (rpt : Option RpolTable) (x : ℚ) (scheme : ℤ) : ℚ :=
  match rpt with
  | none => 0
  | some t =>
    if t.xlog ≠ 0 ∧ ¬ (x > 0) then 0
    else
      let x := if t.xlog ≠ 0 then logf x else x
      let eq := Int.land t.equidistant 1
      let back : ℚ → ℚ := fun z => if t.zlog ≠ 0 then expf z else z
      if scheme = -1 ∧ t.ndim ≥ 2 ∧ t.zxmax ≠ none then
        back (rpol_linear (arr t.x) (arr t.zxmax) t.nx x eq t.clipping)
      else if scheme = -2 ∧ t.ndim ≥ 2 ∧ t.zxmin ≠ none then
        back (rpol_linear (arr t.x) (arr t.zxmin) t.nx x eq t.clipping)
      else if t.ndim ≠ 1 then 0
      else
        let scheme := if scheme < 0 ∨ scheme > 4 then t.scheme else scheme
        if scheme = 0 then back (rpol_nearest (arr t.x) (arr t.z) t.nx x eq t.clipping)
        else if scheme = 1 then back (rpol_linear (arr t.x) (arr t.z) t.nx x eq t.clipping)
        else if scheme = 2 then back (rpol_2nd_order (arr t.x) (arr t.z) t.nx x eq t.clipping)
        else if scheme = 3 ∨ scheme = 4 then
          back (rpol_cspline (arr t.x) (arr t.z) (cspArr t.csp) t.nx x eq t.clipping)
        else 0

/-- The function `rpolate_2d(rpt, x, y, scheme)`.  The C library functions
`exp` and `log` are the parameters `expf` and `logf`. -/
def rpolate_2d (expf logf : ℚ → ℚ) (rpt : Option RpolTable) (x y : ℚ) (scheme : ℤ) : ℚ :=
  match rpt with
  | none => 0
  | some t =>
    if t.ndim ≠ 2 ∧ t.ndim ≠ 3 then rpolate_1d expf logf (some t) x scheme
    else if t.logs ≠ 0 ∧ t.xlog ≠ 0 ∧ ¬ (x > 0) then 0
    else
      let x := if t.logs ≠ 0 ∧ t.xlog ≠ 0 then logf x else x
      if t.logs ≠ 0 ∧ t.ylog ≠ 0 ∧ t.ndim ≥ 2 ∧ ¬ (y > 0) then 0
      else
        let y := if t.logs ≠ 0 ∧ t.ylog ≠ 0 ∧ t.ndim ≥ 2 then logf y else y
        let scheme := if scheme < 0 ∨ scheme > 4 then t.scheme else scheme
        if 0 ≤ scheme ∧ scheme ≤ 4 then
          let z := rpol_2d_linear (arr t.x) (arr t.y) (arr t.z) t.nx t.ny x y
            t.equidistant t.clipping
          if t.zlog ≠ 0 then expf z else z
        else 0

/-- The function `rpolate(rpt, x, y, scheme)`. -/
def rpolate (expf logf : ℚ → ℚ) (rpt : Option RpolTable) (x y : ℚ) (scheme : ℤ) : ℚ :=
  match rpt with
  | none => 0
  | some t =>
    if t.ndim = 1 ∧ y = 0 then rpolate_1d expf logf (some t) x scheme
    else rpolate_2d expf logf (some t) x y scheme

/-! ## The table registry -/

/-- The memory the registry works on.  `heap` holds the allocated
`struct rpol_table` objects, a table pointer being an index into it (`none`
marks a structure handed to `free`).  `rpt_list_base` is the linked list of
`struct rpt_list` nodes, given by the `rpt` member of each node in order; the
empty list is a NULL `rpt_list_base`. -/
structure RpolState where
  heap : List (Option RpolTable) := []
  rpt_list_base : List (Option ℕ) := []
  deriving DecidableEq

/-- The table a pointer refers to, if it refers to a live one. -/
def RpolState.deref (s : RpolState) (p : ℕ) : Option RpolTable := (s.heap.getD p none)

/-- What `read_rpol_table` gets from the file system once it has to read a
table: `detect fnclean nd` is the format number left by the auto-detection
block for `nd ≤ 0` (first line, `#@RPOL@` header), `none` when that block
returns NULL; `content fnclean nd0 nd ymarker options_eff` is the finished
table for the argument `nd0` of the call and the format `nd` (data, ranges,
scheme, clipping, log flags, spline parameters), `none` when the file cannot
be opened or reading it fails.  The reader `fileSource` below is the source
the code itself implements. -/
structure TableSource where
  detect : String → ℤ → Option ℤ
  content : String → ℤ → ℤ → Option String → String → Option RpolTable

/-- The C `strstr(s, pat)` on character lists: the text before the first
occurrence of `pat` and the text after it. -/
def c_strstr (pat : List Char) : List Char → Option (List Char × List Char)
  | [] => if pat = [] then some ([], []) else none
  | c :: cs =>
    if (c :: cs).take pat.length = pat then some ([], (c :: cs).drop pat.length)
    else (c_strstr pat cs).map (fun r => (c :: r.1, r.2))

/-- The search loop of `read_rpol_table` over the linked list: the position
of the node `rptl` it ends at (`none` for a NULL `rptl`). -/
def rpt_list_find (hit : ℕ → Bool) : List (Option ℕ) → ℕ → Option ℕ
  | [], _ => none
  | [_], pos => some pos
  | none :: _ :: _, pos => some pos
  | some a :: b :: rest, pos =>
    if hit a then some pos else rpt_list_find hit (b :: rest) (pos + 1)

/-- The opening part of `read_rpol_table` that builds the names: the name
`fnplus` a table is registered under (file name, marker and options), the
file name `fnclean` without an attached `#rpol:` suffix, and the effective
options (the `options` argument, then a comma, then the suffix).  `none` is
a NULL return for a name or options too long for the buffers.  File names and
options are taken to be ASCII, so that `strlen` is the number of characters. -/
def read_names (fname : String) (ymarker options : Option String) :
    Option (String × String × String) :=
  if fname.length ≥ 4095 then none
  else
    let fnplus := fname
    let fnplus :=
      match ymarker with
      | some ym => if ym ≠ "" then fnplus ++ ";ymarker=" ++ ym.take 2000 else fnplus
      | none => fnplus
    let hasopt : Bool := match options with
      | some o => o ≠ ""
      | none => false
    let opt := options.getD ""
    if hasopt ∧ opt.length ≥ 2000 then none
    else
      let fnplus := if hasopt then fnplus ++ ";options=" ++ opt.take 2000 else fnplus
      let options_eff := if hasopt then opt else ""
      let split := c_strstr "#rpol:".data fname.data
      let fnclean := match split with
        | some r => String.mk r.1
        | none => fname
      let fn_options := split.map (fun r => String.mk r.2)
      let options_sep :=
        if fn_options.isSome ∧ options_eff ≠ "" then options_eff ++ "," else options_eff
      if fn_options.isSome ∧ options_sep.length + (fn_options.getD "").length ≥ 8192 then none
      else some (fnplus, fnclean, options_sep ++ fn_options.getD "")

/-- The test of one catalogue entry in the search loop of `read_rpol_table`:
`strcmp(fnplus, rpt->fname) == 0 && (nd < 0 || nd == rpt->ndim)`. -/
def read_hit (s : RpolState) (fnplus : String) (nd : ℤ) (a : ℕ) : Bool :=
  match s.deref a with
  | some t => decide (t.fname = some fnplus ∧ (nd < 0 ∨ nd = t.ndim))
  | none => false

/-- The part of `read_rpol_table` that reads a table not found in the
catalogue: format auto-detection for `nd ≤ 0`, the check of the format
number, the reading itself, and the members set from the call (`fname`,
`options`, `ndim`, `use_count`).  `none` is a NULL return. -/
def read_load (src : TableSource) (fnplus fnclean options_eff : String) (nd : ℤ)
    (ymarker options : Option String) : Option RpolTable :=
  let nd0 := nd
  let nd1 : Option ℤ := if nd ≤ 0 then src.detect fnclean nd else some nd
  match nd1 with
  | none => none
  | some nd =>
    if nd ≠ 1 ∧ nd ≠ 2 ∧ nd ≠ 3 then none
    else
      match src.content fnclean nd0 nd ymarker options_eff with
      | none => none
      | some t =>
        some { t with
               fname := some fnplus
               options := (match options with
                 | some o => if o ≠ "" then some o else none
                 | none => none)
               ndim := nd
               use_count := 1 }

/-- The counter increment `rpt->use_count++`. -/
def use_again (t : RpolTable) : RpolTable := { t with use_count := t.use_count + 1 }

/-- The function `read_rpol_table(fname, nd, ymarker, options)`.  The result
is the new memory and the returned pointer.  A structure abandoned on a
failing path is not recorded in the heap. -/
def read_rpol_table (src : TableSource) (s : RpolState) (fname : String) (nd : ℤ)
    (ymarker options : Option String) : RpolState × Option ℕ :=
  let base := if s.rpt_list_base = [] then [none] else s.rpt_list_base
  let s := { s with rpt_list_base := base }
  match read_names fname ymarker options with
  | none => (s, none)
  | some (fnplus, fnclean, options_eff) =>
    match rpt_list_find (read_hit s fnplus nd) base 0 with
    | none => (s, none)
    | some pos =>
      match base.getD pos none with
      | some a =>
        (match s.deref a with
         | some t => ({ s with heap := s.heap.set a (some (use_again t)) }, some a)
         | none => (s, some a))
      | none =>
        match read_load src fnplus fnclean options_eff nd ymarker options with
        | none => (s, none)
        | some rpt =>
          ({ heap := s.heap ++ [some rpt]
             rpt_list_base := base.take pos ++ [some s.heap.length, none] },
           some s.heap.length)

/-- The first-node case of the unlinking in `rpol_free`. -/
def unlink_first (rpt : ℕ) : List (Option ℕ) → List (Option ℕ)
  | [] => []
  | n0 :: rest =>
    if n0 = some rpt then
      (match rest with
       | [none] => []
       | _ => rest)
    else n0 :: rest

/-- The loop of the unlinking in `rpol_free` over the nodes after the first,
started at node `rptl` (the head of the list given). -/
def unlink_rest (rpt : ℕ) : List (Option ℕ) → List (Option ℕ)
  | [] => []
  | [a] => [a]
  | none :: b :: rest => none :: b :: rest
  | some a :: b :: rest =>
    if b = some rpt then
      (match rest with
       | [] => [some a, none]
       | c :: rest2 => some a :: unlink_rest rpt (c :: rest2))
    else some a :: unlink_rest rpt (b :: rest)

/-- The counter decrement `rpt->use_count--`. -/
def use_less (t : RpolTable) : RpolTable := { t with use_count := t.use_count - 1 }

/-- The part of `rpol_free` that frees the allocated members of the structure
and sets them to NULL. -/
def free_members (t : RpolTable) : RpolTable :=
  { t with
    x := none
    y := none
    z := none
    zxmax := none
    zxmin := none
    fname := none
    options := none
    csp := none }

/-- The function `rpol_free(rpt, removing)`.  A pointer to a structure that
was already handed to `free` is left alone. -/
def rpol_free (s : RpolState) (rpt : Option ℕ) (removing : ℤ) : RpolState :=
  match rpt with
  | none => s
  | some p =>
    match s.deref p with
    | none => s
    | some t =>
      if t.use_count > 1 then { s with heap := s.heap.set p (some (use_less t)) }
      else if t.use_count = 0 then s
      else
        let t1 := free_members t
        let base := unlink_rest p (unlink_first p s.rpt_list_base)
        let t2 := if t1.use_count > 0 then use_less t1 else t1
        { heap := s.heap.set p (if removing ≠ 0 then none else some t2)
          rpt_list_base := base }

/-- The function `simple_rpol1d_table(label, x, y, n, clip)`; `x` and `y` are
`none` for NULL pointers.  The result is the new memory and the returned
pointer.  Storing through a NULL member is modelled as leaving it NULL. -/
def simple_rpol1d_table (s : RpolState) (label : String) (x y : Option (List ℚ))
    (n clip : ℤ) : RpolState × Option ℕ :=
  if n < 2 ∨ x = none ∨ y = none then (s, none)
  else
    let rpt : RpolTable :=
      { calloc_rpol_table with
        ndim := 1
        nx := n.toNat
        ny := 0
        x := some (List.replicate n.toNat 0)
        z := some (List.replicate n.toNat 0) }
    if rpt.x = none ∨ rpt.y = none then
      ({ s with heap := s.heap ++ [some rpt] }, none)
    else
      let store : Option (List ℚ) → Option (List ℚ) → Option (List ℚ) := fun dst from_ =>
        dst.map (fun d => (List.range d.length).map
          (fun (i : ℕ) => if (i : ℤ) < n then (from_.getD []).getD i 0 else d.getD i 0))
      let rpt : RpolTable :=
        { rpt with
          x := store rpt.x x
          y := store rpt.y y
          fname := some label
          scheme := 1
          clipping := clip
          use_count := -1 }
      ({ s with heap := s.heap ++ [some (rpol_check_equi_range rpt)] }, some s.heap.length)

/-! ## Vocabulary of the statements -/

/-- The supporting points `x[0..n-1]` are in strictly ascending order. -/
def Ascending (x : Arr) (n : ℤ) : Prop := ∀ i : ℤ, 0 ≤ i → i + 1 < n → x i < x (i + 1)

/-- The supporting points `x[0..n-1]` are exactly equidistant. -/
def Equidistant (x : Arr) (n : ℤ) : Prop :=
  ∀ i : ℤ, 0 ≤ i → i < n → x i = x 0 + (i : ℚ) * (x 1 - x 0)

/-- The pair `(j, r)` is a correct answer of the interval search for `xp`:
interval `j` of the table holds `xp`, at the fraction `r`. -/
def Bracket (x : Arr) (n : ℤ) (xp : ℚ) (j : ℤ) (r : ℚ) : Prop :=
  1 ≤ j ∧ j ≤ n - 1 ∧ x (j - 1) ≤ xp ∧ xp ≤ x j ∧ r = (xp - x (j - 1)) / (x j - x (j - 1))

/-- The distance the loop of `interp` can still move `l` in `f` further steps
when the last step was `m`: the sum of the next `f` step sizes. -/
def reach : ℕ → ℤ → ℤ
  | 0, _ => 0
  | f + 1, m => (m + 1) / 2 + reach f ((m + 1) / 2)

/-! ## Concrete tables used as examples -/

/-- The table abscissae `0, 1, 2, ...`. -/
def rampArr : Arr := fun i => (i : ℚ)

/-- The table values `0, 2, 4, ...`. -/
def dblArr : Arr := fun i => 2 * (i : ℚ)

/-- The table values `0, 1, 4, 9, ...` of a sampled parabola. -/
def sqArr : Arr := fun i => (i : ℚ) * (i : ℚ)

/-- The abscissae `0, 5` of a two-row grid. -/
def gridX : Arr := arr (some [0, 5])

/-- The ordinates `0, 10, 20` of a three-column grid. -/
def gridY : Arr := arr (some [0, 10, 20])

/-- The values `1 2 3 / 4 5 6` of a grid of two rows and three columns. -/
def gridZ : Arr := arr (some [1, 2, 3, 4, 5, 6])

/-- The `k` calls of `read_rpol_table` with the same arguments, each of which
returns the table `t`: the memory after them, `none` if a call returns
something else. -/
def reads (src : TableSource) (fname : String) (nd : ℤ) (ymarker options : Option String)
    (t : ℕ) : ℕ → RpolState → Option RpolState
  | 0, s => some s
  | k + 1, s =>
    if (read_rpol_table src s fname nd ymarker options).2 = some t then
      reads src fname nd ymarker options t k (read_rpol_table src s fname nd ymarker options).1
    else none

/-- The calls `rpol_free(t, r)` for the flags `r` of the list, in order. -/
def frees (t : ℕ) : List ℤ → RpolState → RpolState
  | [], s => s
  | r :: rs, s => frees t rs (rpol_free s (some t) r)

/-- The table `t` is the last entry of the catalogue, in front of the
placeholder and met nowhere before, and is live with counter `c` and the data
buffers `xs`, `ys`, `zs`. -/
def Held (s : RpolState) (t : ℕ) (c : ℤ) (xs ys zs : Option (List ℚ)) : Prop :=
  ∃ P tbl, s.rpt_list_base = P ++ [some t, none] ∧ (∀ e ∈ P, ∃ a, e = some a ∧ a ≠ t) ∧
    t < s.heap.length ∧ s.deref t = some tbl ∧ tbl.use_count = c ∧
    tbl.x = xs ∧ tbl.y = ys ∧ tbl.z = zs

/-- A file system with the one table file `t.dat`, whose header line declares
format 1 and whose rows are `0 0` and `1 2`. -/
def demoSource : TableSource where
  detect := fun fn _ => if fn = "t.dat" then some 1 else none
  content := fun fn _ nd _ _ =>
    if fn = "t.dat" ∧ nd = 1 then
      some { nx := 2, x := some [0, 1], y := some [0, 2], z := some [0, 2], scheme := 1 }
    else none

/-- The memory after two calls `read_rpol_table("t.dat", -1, NULL, NULL)` from
the empty registry. -/
def demoTwice : RpolState :=
  (read_rpol_table demoSource (read_rpol_table demoSource {} "t.dat" (-1) none none).1
    "t.dat" (-1) none none).1

/-- A 1-D table with clipping and the z-log flag: internal `x = 0, 1`,
internal (logarithmic) `z = 0, 0`, linear scheme. -/
def demoLogTable : RpolTable :=
  { ndim := 1, nx := 2, x := some [0, 1], z := some [0, 0], scheme := 1, clipping := 1, zlog := 1 }

/-- A rational stand-in for the C library `exp`, with `exp(0) = 1`. -/
def expTaylor : ℚ → ℚ := fun q => 1 + q + q * q / 2


/-! ## Reading table files

The text of a file is the list of its lines, each without the end-of-line
character; `fgets` hands them out in order (every line is taken to fit the
line buffer).  Allocations of a non-zero size are taken to succeed. -/

/-- The functions the reader calls that are not defined in rpolator.c.
`fileopen` (fileopen.h) gives the lines of a file, `none` when it cannot be
opened.  `getword maxlen blank endchar s` stands for the function of straux.h:
the words that successive calls `getword(s, &pos, word, maxlen, blank,
endchar)` deliver, from `pos = 0` until a call returns a value `≤ 0`.
`sscanf` is `sscanf(word, "%lf", &v)` on such a word: the value stored, `none`
when nothing is converted.  `atof` and `log` are the C library functions.
`calloc0` and `realloc0` tell whether `calloc(0, size)` and `realloc(p, 0)`
return a non-NULL pointer, which C leaves to the implementation. -/
structure CEnv where
  fileopen : String → Option (List String)
  getword : ℕ → Char → Char → List Char → List (List Char)
  sscanf : List Char → Option ℚ
  atof : List Char → ℚ
  log : ℚ → ℚ
  calloc0 : Bool
  realloc0 : Bool

/-- The test `*s == ' ' || *s == '\t'` of the loops that skip white space. -/
def c_blank (c : Char) : Bool := c == ' ' || c == '\t'

/-- The C library `isspace` in the C locale. -/
def c_isspace (c : Char) : Bool :=
  c == ' ' || c == '\t' || c == '\n' || c == '\r' || c.toNat == 11 || c.toNat == 12

/-- The value of a string of decimal digits. -/
def c_digits (s : List Char) : ℕ :=
  (s.takeWhile Char.isDigit).foldl (fun a c => 10 * a + (c.toNat - 48)) 0

/-- The C library `atoi` (for values that fit an `int`). -/
def c_atoi (s : List Char) : ℤ :=
  match s.dropWhile c_isspace with
  | '-' :: r => - (c_digits r : ℤ)
  | '+' :: r => (c_digits r : ℤ)
  | r => (c_digits r : ℤ)

/-- The conversion of an `int` to `size_t` (64 bits). -/
def to_size_t (i : ℤ) : ℕ := (i % 2 ^ 64).toNat

/-- The test `strncasecmp(word, p, strlen(p)) == 0` (C locale). -/
def strncasecmp_eq (word : List Char) (p : String) : Bool :=
  (word.take p.length).map Char.toLower == p.data.map Char.toLower

/-- The test `strcasecmp(word, p) == 0` (C locale). -/
def strcasecmp_eq (word : List Char) (p : String) : Bool :=
  word.map Char.toLower == p.data.map Char.toLower

/-- The constant `M_PI` of math.h: the double nearest to pi. -/
def M_PI : ℚ := 884279719003555 / 281474976710656

/-- The function `strip_comments(line)`: the line is cut at the first `#`,
then at the first `%`, then trailing newlines, tabs and blanks go. -/
def strip_comments (line : List Char) : List Char :=
  let l := line.takeWhile (fun c => c != '#')
  let l := l.takeWhile (fun c => c != '%')
  (l.reverse.dropWhile (fun c => c == '\n' || c == '\t' || c == ' ')).reverse

/-! ### The row reader `read_table_v` -/

/-- What a call of `read_table_v` leaves behind: the return code `rc`, the
value of `*nrow` (`none` for a NULL `nrow`), the value of `*col` (`none` for
NULL, otherwise the columns, each with the rows stored in it), and the number
`nread` of lines taken from the input. -/
structure ReadResult where
  rc : ℤ
  nrow : Option ℕ
  col : Option (List (List ℚ))
  nread : ℕ
  deriving DecidableEq

/-- The loop of `read_table_v` over `selcol` that finds the highest input
column asked for. -/
def sel_maxcol (ncol : ℕ) (selcol : List ℕ) : ℕ :=
  (List.range ncol).foldl
    (fun m icol => if selcol.getD icol 0 > m then selcol.getD icol 0 else m) ncol

/-- The array `rcol` of `read_table_v`: for each input column the output
column it goes to, plus one; 0 for an input column not asked for. -/
def rcol_of (ncol maxcol : ℕ) (selcol : Option (List ℕ)) : List ℕ :=
  match selcol with
  | some sel =>
    (List.range ncol).foldl (fun r icol => r.set (sel.getD icol 0 - 1) (icol + 1))
      (List.replicate maxcol 0)
  | none =>
    (List.range ncol).foldl (fun r icol => r.set icol (icol + 1)) (List.replicate maxcol 0)

/-- The word loop of `read_table_v` on one line, over the words `getword`
delivers: the column count `nc` reached and the values `rval`. -/
def scan_words (env : CEnv) (rcol : List ℕ) : List (List Char) → ℕ → List ℚ → ℕ × List ℚ
  | [], nc, rval => (nc, rval)
  | word :: rest, nc, rval =>
    if rcol.getD nc 0 = 0 then scan_words env rcol rest (nc + 1) rval
    else
      match env.sscanf word with
      | none => (nc, rval.set nc 0)
      | some v => scan_words env rcol rest (nc + 1) (rval.set nc v)

/-- The handling of one line by `read_table_v` up to the tests on `nc`: the
column count reached and the values scanned (`nc = 0` for an empty line). -/
def scan_line (env : CEnv) (rcol : List ℕ) (maxcol : ℕ) (rval : List ℚ) (line : String) :
    ℕ × List ℚ :=
  let l := strip_comments line.data
  if l = [] then (0, rval)
  else scan_words env rcol ((env.getword 99 ' ' '#' (l.dropWhile c_blank)).take maxcol) 0 rval

/-- The copy of `rval` into the columns at row `*nrow` (the end of each
column). -/
def store_row (ncol : ℕ) (selcol : Option (List ℕ)) (rval : List ℚ) (col : List (List ℚ)) :
    List (List ℚ) :=
  (List.range ncol).map (fun icol =>
    col.getD icol [] ++
    [match selcol with
     | none => rval.getD icol 0
     | some sel => rval.getD (sel.getD icol 0 - 1) 0])

/-- The reading loop of `read_table_v` with the row ceiling `maxrow`. -/
def read_rows (env : CEnv) (rcol : List ℕ) (maxrow ncol maxcol : ℕ) (selcol : Option (List ℕ)) :
    List String → List ℚ → List (List ℚ) → ℕ → ℕ → ReadResult
  | [], _, col, nrow, nread => { rc := 0, nrow := some nrow, col := some col, nread := nread }
  | line :: rest, rval, col, nrow, nread =>
    let p := scan_line env rcol maxcol rval line
    if p.1 = 0 then read_rows env rcol maxrow ncol maxcol selcol rest p.2 col nrow (nread + 1)
    else if p.1 < maxcol then
      read_rows env rcol maxrow ncol maxcol selcol rest p.2 col nrow (nread + 1)
    else if nrow + 1 ≥ maxrow then
      { rc := -4, nrow := some (nrow + 1), col := some (store_row ncol selcol p.2 col),
        nread := nread + 1 }
    else
      read_rows env rcol maxrow ncol maxcol selcol rest p.2 (store_row ncol selcol p.2 col)
        (nrow + 1) (nread + 1)

/-- The function `read_table_v(fname, fptr, nrow, ncol, col, selcol)`.
`fname` is `none` for NULL; `fptr` is the rest of an open stream, `none` for
NULL; `nrow` is the value behind the pointer, `none` for a NULL pointer; `col`
is `none` for a NULL pointer, `some none` for a pointer to a NULL `double **`
and `some (some c)` for a pointer to one that is set already; `selcol` is the
array of `ncol` column numbers, `none` for NULL. -/
def read_table_v (env : CEnv) (fname : Option String) (fptr : Option (List String))
    (nrow : Option ℕ) (ncol : ℕ) (col : Option (Option (List (List ℚ))))
    (selcol : Option (List ℕ)) : ReadResult :=
  match fname, nrow, col with
  | some fn, some _, some none =>
    if ncol < 1 then { rc := -2, nrow := some 0, col := none, nread := 0 }
    else if (match selcol with
        | some sel => (List.range ncol).any (fun icol => sel.getD icol 0 == 0)
        | none => false) then
      { rc := -3, nrow := some 0, col := none, nread := 0 }
    else
      let maxcol := match selcol with
        | some sel => sel_maxcol ncol sel
        | none => ncol
      if maxcol > 500 then { rc := -2, nrow := some 0, col := none, nread := 0 }
      else
        let col0 : List (List ℚ) := List.replicate ncol []
        let f : Option (List String) := match fptr with
          | some f => some f
          | none => env.fileopen fn
        match f with
        | none => { rc := -1, nrow := some 0, col := some col0, nread := 0 }
        | some lines =>
          read_rows env (rcol_of ncol maxcol selcol) 100000 ncol maxcol selcol lines
            (List.replicate maxcol 0) col0 0 0
  | _, _, _ =>
    { rc := -2, nrow := nrow.map (fun _ => 0), col := col.bind id, nread := 0 }

/-! ### Options -/

/-- The local variables of `read_rpol_table` that the options set, with their
initial values.  (`verbose` starts from the global `rpol_verbosity`, taken to
be 0; messages are not part of the model.) -/
structure ReadOpts where
  expect_rows : ℕ := 0
  expect_cols : ℕ := 0
  clip_default : ℤ := 0
  scheme_default : ℤ := 1
  xcol : ℕ := 1
  ycol : ℕ := 2
  zcol : ℕ := 3
  xlog : ℤ := 0
  ylog : ℤ := 0
  zlog : ℤ := 0
  verbose : ℤ := 0
  zxreq : ℤ := 0
  aux : ℚ := 0
  xscale : ℚ := 0
  yscale : ℚ := 0
  zscale : ℚ := 0
  deriving DecidableEq

/-- The value of an `XSCALE=`, `YSCALE=` or `ZSCALE=` option. -/
def scale_value (env : CEnv) (v : List Char) : ℚ :=
  if strcasecmp_eq v "deg2rad" then M_PI / 180
  else if strcasecmp_eq v "rad2deg" then 180 / M_PI
  else env.atof v

/-- The chain of comparisons `read_rpol_table` runs on one word of the options
passed to the function (the second of its two chains).  `nd` is the format
number at that point. -/
def apply_option (env : CEnv) (nd : ℤ) (o : ReadOpts) (word : List Char) : ReadOpts :=
  if strncasecmp_eq word "CLIP=" then
    if strcasecmp_eq (word.drop 5) "ON" || strcasecmp_eq (word.drop 5) "YES" then
      { o with clip_default := 1 }
    else if strcasecmp_eq (word.drop 5) "OFF" || strcasecmp_eq (word.drop 5) "NO" then
      { o with clip_default := 0 }
    else { o with clip_default := c_atoi (word.drop 5) }
  else if strcasecmp_eq word "CLIP" then { o with clip_default := 1 }
  else if strcasecmp_eq word "NOCLIP" then { o with clip_default := 0 }
  else if strcasecmp_eq word "ZXMAX" || strcasecmp_eq word "ZXMIN" then { o with zxreq := 1 }
  else if strcasecmp_eq word "VERBOSE" then
    if o.verbose ≤ 0 then { o with verbose := 1 } else o
  else if strncasecmp_eq word "VERBOSE=" then { o with verbose := c_atoi (word.drop 8) }
  else if strncasecmp_eq word "SCHEME=" then { o with scheme_default := c_atoi (word.drop 7) }
  else if strncasecmp_eq word "ROWS=" then
    { o with expect_rows := to_size_t (c_atoi (word.drop 5)) }
  else if strncasecmp_eq word "COLS=" then
    { o with expect_cols := to_size_t (c_atoi (word.drop 5)) }
  else if strncasecmp_eq word "COLUMNS=" then
    { o with expect_cols := to_size_t (c_atoi (word.drop 8)) }
  else if strncasecmp_eq word "AUX=" then { o with aux := env.atof (word.drop 4) }
  else if strncasecmp_eq word "XCOL=" then { o with xcol := to_size_t (c_atoi (word.drop 5)) }
  else if strncasecmp_eq word "XSCALE=" then { o with xscale := scale_value env (word.drop 7) }
  else if strncasecmp_eq word "XLOG" then { o with xlog := 1 }
  else if strncasecmp_eq word "YCOL=" then { o with ycol := to_size_t (c_atoi (word.drop 5)) }
  else if strncasecmp_eq word "YSCALE=" then { o with yscale := scale_value env (word.drop 7) }
  else if strncasecmp_eq word "YLOG" then { o with ylog := 1 }
  else if strncasecmp_eq word "ZCOL=" then
    if nd = 1 then
      { o with zcol := to_size_t (c_atoi (word.drop 5)), ycol := to_size_t (c_atoi (word.drop 5)) }
    else { o with zcol := to_size_t (c_atoi (word.drop 5)) }
  else if strncasecmp_eq word "ZSCALE=" then { o with zscale := scale_value env (word.drop 7) }
  else if strncasecmp_eq word "ZLOG" then { o with zlog := 1 }
  else o

/-- The loop `while ( getword(s,&spos,word,sizeof(word)-1,',','\n') > 0 )`
over a text of options, after the white space in front of it is skipped. -/
def parse_options (env : CEnv) (nd : ℤ) (o : ReadOpts) (s : List Char) : ReadOpts :=
  (env.getword 99 ',' '\n' (s.dropWhile c_blank)).foldl (apply_option env nd) o

/-- The chain of comparisons `read_rpol_table` runs on one word of the
`OPTIONS:` clause of the header line (the first of its two chains).  `nd` is
the format number at that point. -/
def header_option (env : CEnv) (nd : ℤ) (o : ReadOpts) (word : List Char) : ReadOpts :=
  if strncasecmp_eq word "CLIP=" then
    if strcasecmp_eq (word.drop 5) "ON" || strcasecmp_eq (word.drop 5) "YES" then
      { o with clip_default := 1 }
    else if strcasecmp_eq (word.drop 5) "OFF" || strcasecmp_eq (word.drop 5) "NO" then
      { o with clip_default := 0 }
    else { o with clip_default := c_atoi (word.drop 5) }
  else if strcasecmp_eq word "CLIP" then { o with clip_default := 1 }
  else if strcasecmp_eq word "NOCLIP" then { o with clip_default := 0 }
  else if strcasecmp_eq word "ZXMAX" || strcasecmp_eq word "ZXMIN" then { o with zxreq := 1 }
  else if strcasecmp_eq word "VERBOSE" then
    if o.verbose ≤ 0 then { o with verbose := 1 } else o
  else if strncasecmp_eq word "VERBOSE=" then { o with verbose := c_atoi (word.drop 8) }
  else if strncasecmp_eq word "SCHEME=" then { o with scheme_default := c_atoi (word.drop 7) }
  else if strncasecmp_eq word "ROWS=" then
    { o with expect_rows := to_size_t (c_atoi (word.drop 5)) }
  else if strncasecmp_eq word "COLS=" then
    { o with expect_cols := to_size_t (c_atoi (word.drop 5)) }
  else if strncasecmp_eq word "COLUMNS=" then
    { o with expect_cols := to_size_t (c_atoi (word.drop 8)) }
  else if strncasecmp_eq word "AUX=" then { o with aux := env.atof (word.drop 4) }
  else if strncasecmp_eq word "XCOL=" then { o with xcol := to_size_t (c_atoi (word.drop 5)) }
  else if strncasecmp_eq word "XSCALE=" then { o with xscale := scale_value env (word.drop 7) }
  else if strncasecmp_eq word "XLOG" then { o with xlog := 1 }
  else if strncasecmp_eq word "YCOL=" then { o with ycol := to_size_t (c_atoi (word.drop 5)) }
  else if strncasecmp_eq word "YSCALE=" then { o with yscale := scale_value env (word.drop 7) }
  else if strncasecmp_eq word "YLOG" then { o with ylog := 1 }
  else if strncasecmp_eq word "ZCOL=" then
    if nd = 1 then
      { o with zcol := to_size_t (c_atoi (word.drop 5)), ycol := to_size_t (c_atoi (word.drop 5)) }
    else { o with zcol := to_size_t (c_atoi (word.drop 5)) }
  else if strncasecmp_eq word "ZSCALE=" then { o with zscale := scale_value env (word.drop 7) }
  else if strncasecmp_eq word "ZLOG" then { o with zlog := 1 }
  else o

/-- The loop `while ( getword(s,&spos,word,sizeof(word)-1,',','\n') > 0 )`
over the text behind `OPTIONS:` in the header line, after the white space in
front of it is skipped. -/
def header_options (env : CEnv) (nd : ℤ) (o : ReadOpts) (s : List Char) : ReadOpts :=
  (env.getword 99 ',' '\n' (s.dropWhile c_blank)).foldl (header_option env nd) o

/-! ### The header line -/

/-- What the auto-detection block of `read_rpol_table` (for `nd ≤ 0`) leaves
behind: the flag `rescan_first_line`, the marker `ymarker_i`, the format
number `nd` and the options of the `OPTIONS:` clause. -/
structure HeaderLine where
  rescan_first_line : Bool := false
  ymarker_i : List Char := []
  nd : ℤ
  opts : ReadOpts := {}

/-- The marker part of a `#@RPOL@` line: from the text `s` behind the
sentinel, the marker found and the text to go on with. -/
def header_marker (s : List Char) : List Char × List Char :=
  match s with
  | [] => ([], s)
  | c :: rest =>
    if c == ' ' || c == '\t' || c == '\n' then ([], s)
    else
      let del := if c == '(' then ')' else if c == '[' then ']' else if c == '{' then '}' else c
      match rest.dropWhile (fun e => e != del && e != '\n') with
      | e :: after =>
        if e == del then ((rest.takeWhile (fun e => e != del && e != '\n')).take 99, after)
        else ([], rest)
      | [] => ([], rest)

/-- The treatment of the first line by the auto-detection block; `nd` is the
argument of the call after `if ( nd < 0 ) nd = -nd;`. -/
def parse_header (env : CEnv) (line : List Char) (nd : ℤ) : HeaderLine :=
  if line.take 7 = "#@RPOL@".data then
    let m := header_marker (line.drop 7)
    let s := m.2.dropWhile c_blank
    let nd := match s with
      | c :: _ => if c.isDigit then c_atoi s else nd
      | [] => nd
    let opts : ReadOpts := match c_strstr "OPTIONS:".data s with
      | some r => header_options env nd {} r.2
      | none => {}
    { ymarker_i := m.1, nd := nd, opts := opts }
  else { rescan_first_line := true, nd := nd }

/-- The auto-detection block of `read_rpol_table` on the lines of the file:
`none` is a NULL return (empty file, or no valid format number). -/
def header_block (env : CEnv) (lines : List String) (nd : ℤ) : Option HeaderLine :=
  match lines with
  | [] => none
  | line :: _ =>
    let h := parse_header env line.data (if nd < 0 then -nd else nd)
    if h.nd ≤ 0 ∨ h.nd > 3 then none else some h

/-! ### The three formats -/

/-- The format 1 branch of `read_rpol_table` on the open stream `f`. -/
def read_format1 (env : CEnv) (fname : String) (f : List String) (o : ReadOpts) :
    Option RpolTable :=
  let r :=
    if o.xcol = 1 ∧ o.ycol = 2 then
      read_table_v env (some fname) (some f) (some o.expect_rows) 2 (some none) none
    else
      read_table_v env (some fname) (some f) (some o.expect_rows) 2 (some none)
        (some [o.xcol, o.ycol])
  if (r.rc < 0 ∧ r.nrow.getD 0 = 0) ∨ r.col = none then none
  else
    some { aux := o.aux
           x := some ((r.col.getD []).getD 0 [])
           y := some ((r.col.getD []).getD 1 [])
           z := some ((r.col.getD []).getD 1 [])
           ndim := 1
           nx := r.nrow.getD 0
           ny := 0
           zxreq := 0 }

/-- The search of the format 2 branch for the line with the y values: with a
marker (`nym > 0`) the first line starting with it, as it is in the file;
without one the first line that is not empty once comments are stripped, in
its stripped form.  The result is that line and the rest of the stream. -/
def find_yline (nym : ℕ) (ymarker : List Char) : List String → Option (List Char × List String)
  | [] => none
  | line :: rest =>
    if nym > 0 then
      if line.data.take nym = ymarker then some (line.data, rest)
      else find_yline nym ymarker rest
    else
      if strip_comments line.data ≠ [] then some (strip_comments line.data, rest)
      else find_yline nym ymarker rest

/-- The C library `strrchr(s, '=')`: the text before the last `=` and the
text after it. -/
def c_strrchr_eq (s : List Char) : Option (List Char × List Char) :=
  if s.contains '=' then
    some ((s.reverse.dropWhile (fun c => c != '=')).tail.reverse,
          (s.reverse.takeWhile (fun c => c != '=')).reverse)
  else none

/-- The loop of the format 2 branch over the words of the y line: the
values up to the first word that is no number.  (The buffer is doubled
whenever it is full and text remains, so its size never ends the loop.) -/
def scan_yvalues (env : CEnv) : List (List Char) → List ℚ
  | [] => []
  | word :: rest =>
    match env.sscanf word with
    | some v => v :: scan_yvalues env rest
    | none => []

/-- The y values of the format 2 branch, from the text `s` of the y line
behind the marker: the numbers behind the last `=` if there is one, else from
the start. -/
def yline_values (env : CEnv) (s : List Char) : List ℚ :=
  scan_yvalues env (env.getword 30 ' ' '#'
    (match c_strrchr_eq s with
     | some r => r.2.dropWhile c_blank
     | none => s))

/-- The format 2 branch of `read_rpol_table` on the open stream `f`; the
marker is `none` for a NULL `ymarker`. -/
def read_format2 (env : CEnv) (fname : String) (f : List String) (ymarker : Option (List Char))
    (o : ReadOpts) : Option RpolTable :=
  let nym := (ymarker.getD []).length
  match find_yline nym (ymarker.getD []) f with
  | none => none
  | some (line, rest) =>
    let s := (line.drop nym).dropWhile c_blank
    let aux := match c_strrchr_eq s with
      | some r => env.atof r.1
      | none => o.aux
    let y := yline_values env s
    let ny := y.length
    if ny = 0 ∧ env.realloc0 = false then none
    else
      let r := read_table_v env (some fname) (some rest) (some 0) (ny + 1) (some none) none
      if (r.rc < 0 ∧ r.nrow.getD 0 = 0) ∨ r.col = none then none
      else
        let nx := r.nrow.getD 0
        if nx * ny = 0 ∧ env.calloc0 = false then none
        else
          some { aux := aux
                 zxreq := o.zxreq
                 x := some ((r.col.getD []).getD 0 [])
                 y := some y
                 z := some ((List.range (nx * ny)).map (fun k =>
                   ((r.col.getD []).getD (k % ny + 1) []).getD (k / ny) 0))
                 nx := nx
                 ny := ny }

/-- The grid a format 3 table is rebuilt to. -/
structure Grid3 where
  nx : ℕ
  ny : ℕ
  x : List ℚ
  y : List ℚ
  z : List ℚ
  deriving DecidableEq

/-- The variable `xfirst` of the format 3 branch after the first two rows are
compared: 0 when y changes first, 1 when x changes first, else -1. -/
def grid3_xfirst (nrows : ℕ) (X Y : ℕ → ℚ) : ℤ :=
  if nrows ≤ 1 then -1
  else if X 0 = X 1 ∧ Y 0 ≠ Y 1 then 0
  else if X 0 ≠ X 1 ∧ Y 0 = Y 1 then 1
  else -1

/-- The loop `for ( i=1; i<nrows ...) if ( v[i-1] != v[i] ) { ...; break; }`
of the format 3 branch: the first `i` at which column `V` changes. -/
def first_change (nrows : ℕ) (V : ℕ → ℚ) : Option ℕ :=
  ((List.range (nrows - 1)).find? (fun k => decide (V k ≠ V (k + 1)))).map (fun k => k + 1)

/-- The return code `rc` of the format 3 branch after the first two rows are
compared: 4 when both columns change or none does. -/
def grid3_rc (rc : ℤ) (nrows : ℕ) (X Y : ℕ → ℚ) : ℤ :=
  if nrows ≤ 1 then rc
  else if X 0 = X 1 ∧ Y 0 ≠ Y 1 then rc
  else if X 0 ≠ X 1 ∧ Y 0 = Y 1 then rc
  else 4

/-- The loop of the format 3 branch that finds the length of the first run
of equal values in the column `V` that changes last, and with it the two
sizes of the grid: the run length and `nrows` divided by it; both are left at
1 when `rc` is not 0 or the column never changes. -/
def grid3_run (rc : ℤ) (nrows : ℕ) (V : ℕ → ℚ) : ℕ × ℕ :=
  if rc = 0 then
    match first_change nrows V with
    | some i => (i, nrows / i)
    | none => (1, 1)
  else (1, 1)

/-- The two loops of the format 3 branch that check that the x and y values
repeat as a rectangular grid needs it; `false` is `rc = 4`. -/
def grid3_check (xfirst : ℤ) (nx ny : ℕ) (X Y : ℕ → ℚ) : Bool :=
  if xfirst ≠ 0 then
    (List.range nx).all (fun i => (List.range ny).all (fun j =>
      decide (X (j * nx + i) = X i ∧ Y (j * nx + i) = Y (j * nx))))
  else
    (List.range nx).all (fun i => (List.range ny).all (fun j =>
      decide (X (i * ny + j) = X (i * ny) ∧ Y (i * ny + j) = Y j)))

/-- The buffers `x`, `y`, `z` the format 3 branch allocates with `calloc` and
fills: for `xfirst = 1` and for `xfirst = 0` from the columns, for
`xfirst = -1` not at all. -/
def grid3_copy (xfirst : ℤ) (nx ny : ℕ) (X Y Z : ℕ → ℚ) : Grid3 :=
  if xfirst = 1 then
    { nx := nx, ny := ny
      x := (List.range nx).map (fun i => X i)
      y := (List.range ny).map (fun j => Y (j * nx))
      z := (List.range (nx * ny)).map (fun k => Z ((k % ny) * nx + k / ny)) }
  else if xfirst = 0 then
    { nx := nx, ny := ny
      x := (List.range nx).map (fun i => X (i * ny))
      y := (List.range ny).map (fun j => Y j)
      z := (List.range (nx * ny)).map (fun k => Z ((k / ny) * ny + k % ny)) }
  else
    { nx := nx, ny := ny
      x := List.replicate nx 0
      y := List.replicate ny 0
      z := List.replicate (nx * ny) 0 }

/-- The rebuilding of the grid in the format 3 branch of `read_rpol_table`,
from the return code `rc` of `read_table_v`, the number `nrows` of rows read
and the three columns `X`, `Y`, `Z`; `none` is the NULL return for an invalid
order of entries.  (`if ( xfirst )` is taken for `xfirst = 1` and for
`xfirst = -1`.) -/
def grid3 (rc : ℤ) (nrows : ℕ) (X Y Z : ℕ → ℚ) : Option Grid3 :=
  let xfirst := grid3_xfirst nrows X Y
  let rc1 := grid3_rc rc nrows X Y
  let run := if xfirst ≠ 0 then grid3_run rc1 nrows Y else grid3_run rc1 nrows X
  let nx := if xfirst ≠ 0 then run.1 else run.2
  let ny := if xfirst ≠ 0 then run.2 else run.1
  let rc2 : ℤ := if rc1 = 0 ∧ grid3_check xfirst nx ny X Y = false then 4 else rc1
  let rc3 : ℤ := if nx * ny ≠ nrows then 4 else rc2
  if rc3 ≠ 0 then none else some (grid3_copy xfirst nx ny X Y Z)

/-- The format 3 branch of `read_rpol_table` on the open stream `f`. -/
def read_format3 (env : CEnv) (fname : String) (f : List String) (o : ReadOpts) :
    Option RpolTable :=
  let r :=
    if o.xcol = 1 ∧ o.ycol = 2 ∧ o.zcol = 3 then
      read_table_v env (some fname) (some f) (some (to_size_t (-(o.expect_rows : ℤ)))) 3
        (some none) none
    else
      read_table_v env (some fname) (some f) (some (to_size_t (-(o.expect_rows : ℤ)))) 3
        (some none) (some [o.xcol, o.ycol, o.zcol])
  if (r.rc < 0 ∧ r.nrow.getD 0 = 0) ∨ r.col = none then none
  else
    match grid3 r.rc (r.nrow.getD 0)
        (fun i => ((r.col.getD []).getD 0 []).getD i 0)
        (fun i => ((r.col.getD []).getD 1 []).getD i 0)
        (fun i => ((r.col.getD []).getD 2 []).getD i 0) with
    | none => none
    | some g =>
      some { aux := o.aux
             zxreq := o.zxreq
             x := some g.x
             y := some g.y
             z := some g.z
             nx := g.nx
             ny := g.ny }

/-! ### Finishing the table -/

/-- The loops `for ( i=0; i<n; i++ ) v[i] = ...` over the first `n` entries
of a buffer. -/
def map_first (n : ℕ) (f : ℚ → ℚ) (l : List ℚ) : List ℚ := (l.take n).map f ++ l.drop n

/-- The value a log option puts in the place of `v`. -/
def log_value (env : CEnv) (v : ℚ) : ℚ := if v > 0 then env.log v else -99999

/-- The part of `read_rpol_table` behind the three format branches, up to the
call of `rpol_check_equi_range`: format number, scheme, clipping and counter,
then the log transforms, then the scale factors. -/
def finish_table (env : CEnv) (nd : ℤ) (o : ReadOpts) (t : RpolTable) : RpolTable :=
  let nz := if nd > 1 then t.nx * t.ny else t.nx
  let dox : Bool := decide (o.xlog ≠ 0 ∧ t.x ≠ none)
  let zlog : ℤ := if o.ylog ≠ 0 ∧ nd = 1 then 1 else o.zlog
  let doy : Bool := decide (o.ylog ≠ 0 ∧ nd ≥ 2 ∧ t.y ≠ none)
  let doz : Bool := decide (zlog ≠ 0 ∧ t.z ≠ none)
  let x1 := if dox then t.x.map (map_first t.nx (log_value env)) else t.x
  let y1 := if doy then t.y.map (map_first t.ny (log_value env)) else t.y
  let z1 := if doz then t.z.map (map_first nz (log_value env)) else t.z
  let x2 := if o.xscale ≠ 0 then x1.map (map_first t.nx (fun v => v * o.xscale)) else x1
  let y2 := if o.yscale ≠ 0 ∧ nd > 1 then y1.map (map_first t.ny (fun v => v * o.yscale)) else y1
  let z2 := if o.zscale ≠ 0 then z1.map (map_first nz (fun v => v * o.zscale)) else z1
  { t with
    ndim := nd
    scheme := o.scheme_default
    clipping := o.clip_default
    equidistant := 0
    use_count := 1
    x := x2
    y := y2
    z := z2
    xlog := if dox then 1 else t.xlog
    ylog := if doy then 1 else t.ylog
    zlog := if doz then 1 else t.zlog
    logs := if dox || doy then 1 else t.logs }

/-- The end of `read_rpol_table`: the scheme a 1-D table is left with and its
spline parameters.  For a 1-D table the members `y` and `z` point to the same
buffer, so `y` follows `z` here. -/
def choose_scheme (t : RpolTable) : RpolTable :=
  let csp : Option (ℤ → CsplinePar) :=
    if t.ndim = 1 ∧ (t.scheme = 3 ∨ t.scheme = 4) ∧ ¬ t.nx < 3 ∧ t.nx ≠ 3 then
      set_1d_cubic_params (arr t.x) (arr t.z) t.nx (if t.scheme = 4 then 1 else 0)
    else none
  let scheme : ℤ :=
    if t.ndim = 1 then
      if t.scheme = 2 then (if t.nx < 3 then 1 else t.scheme)
      else if t.scheme = 3 ∨ t.scheme = 4 then
        (if t.nx < 3 then 1 else if t.nx = 3 then 2 else if csp.isNone then 1 else t.scheme)
      else t.scheme
    else t.scheme
  { t with
    scheme := scheme
    csp := match csp with
      | some c => some ((List.range t.nx).map (fun (i : ℕ) => c i))
      | none => t.csp
    y := if t.ndim = 1 then t.z else t.y }

/-- The options `read_rpol_table` ends up with for the argument `nd0` of the
call and the format `nd`: the initial values, then the `OPTIONS:` clause of
the header line (for `nd0 ≤ 0`), then the effective options. -/
def read_options (env : CEnv) (lines : List String) (nd0 nd : ℤ) (options_eff : String) :
    ReadOpts :=
  let o : ReadOpts :=
    if nd0 ≤ 0 then (parse_header env (lines.headD "").data (if nd0 < 0 then -nd0 else nd0)).opts
    else {}
  if options_eff = "" then o else parse_options env nd o options_eff.data

/-- The stream the format branches read from: the file behind its first line
when the auto-detection block took that line, and the whole file when it did
not or when the file is opened again (`rescan_first_line`).  Reading through
a NULL `ymarker` in that test is taken as no match. -/
def read_stream (env : CEnv) (lines : List String) (nd0 nd : ℤ) (ymarker : Option (List Char)) :
    List String :=
  if nd0 ≤ 0 then
    let line := (lines.headD "").data
    let h := parse_header env line (if nd0 < 0 then -nd0 else nd0)
    if h.rescan_first_line ∧ (line.head? ≠ some '#' ∨
        (nd = 2 ∧ (ymarker.getD []).head? = some '#' ∧
          line.take (ymarker.getD []).length = ymarker.getD [])) then lines
    else lines.tail
  else lines

/-- The marker the format 2 branch works with: the argument `ymarker`, or
the marker of the header line when the argument is NULL or empty. -/
def read_ymarker (env : CEnv) (lines : List String) (nd0 : ℤ) (ymarker : Option String) :
    Option (List Char) :=
  let ymarker_i : List Char :=
    if nd0 ≤ 0 then
      (parse_header env (lines.headD "").data (if nd0 < 0 then -nd0 else nd0)).ymarker_i
    else []
  match ymarker with
  | none => if ymarker_i ≠ [] then some ymarker_i else none
  | some m => if m.data = [] ∧ ymarker_i ≠ [] then some ymarker_i else some m.data

/-- The part of `read_rpol_table` that reads the file `fnclean`, for the
argument `nd0` of the call and the format `nd ∈ {1, 2, 3}`, up to the finished
table; `none` is a NULL return.  (`read_table_v` gets the name only for its
messages, the stream being open.) -/
def read_content (env : CEnv) (fnclean : String) (nd0 nd : ℤ) (ymarker : Option String)
    (options_eff : String) : Option RpolTable :=
  match env.fileopen fnclean with
  | none => none
  | some lines =>
    if nd0 ≤ 0 ∧ (header_block env lines nd0).isNone then none
    else
      let o := read_options env lines nd0 nd options_eff
      let ym := read_ymarker env lines nd0 ymarker
      let f := read_stream env lines nd0 nd ym
      let raw : Option RpolTable :=
        if nd = 1 then read_format1 env fnclean f o
        else if nd = 2 then read_format2 env fnclean f ym o
        else if nd = 3 then read_format3 env fnclean f o
        else none
      raw.map (fun t => choose_scheme (rpol_check_equi_range (finish_table env nd o t)))

/-- The table source rpolator.c implements on top of the functions of `env`. -/
def fileSource (env : CEnv) : TableSource where
  detect := fun fnclean nd =>
    match env.fileopen fnclean with
    | none => none
    | some lines => (header_block env lines nd).map (fun h => h.nd)
  content := read_content env

/-! ### A concrete environment for the examples -/

/-- A `getword` for the examples: the words of `s` between separators
(`blank` or a tab), up to the end of the text or the character `endchar`. -/
def demoGetword (blank endchar : Char) : List Char → List Char → List (List Char)
  | [], cur => if cur = [] then [] else [cur.reverse]
  | c :: cs, cur =>
    if c = endchar then (if cur = [] then [] else [cur.reverse])
    else if c = blank ∨ c = '\t' then
      (if cur = [] then demoGetword blank endchar cs []
       else cur.reverse :: demoGetword blank endchar cs [])
    else demoGetword blank endchar cs (c :: cur)

/-- A `sscanf` for the examples: it converts whole numbers, with or without
a minus sign. -/
def demoScan (word : List Char) : Option ℚ :=
  match word with
  | '-' :: r => if r ≠ [] ∧ r.all Char.isDigit then some (-(c_digits r : ℚ)) else none
  | r => if r ≠ [] ∧ r.all Char.isDigit then some (c_digits r : ℚ) else none

/-- The environment of the examples over the files `files`: zero-size
`calloc` gives a pointer and zero-size `realloc` gives NULL, as in glibc. -/
def demoEnv (files : String → Option (List String)) : CEnv where
  fileopen := files
  getword := fun _ blank endchar s => demoGetword blank endchar s []
  sscanf := demoScan
  atof := fun word => (demoScan word).getD 0
  log := fun q => q - 1
  calloc0 := true
  realloc0 := false

/-- An input of 100001 data lines `1 2`. -/
def demoBig : List String := List.replicate 100001 "1 2"

/-- An input of 100000 data lines `1 2 3`. -/
def demoBig3 : List String := List.replicate 100000 "1 2 3"

/-- The files of the examples. -/
def demoFiles : String → Option (List String) := fun fn =>
  if fn = "grid2.dat" then some ["# z over x and y", "0 10 20", "0 1 2 3", "5 4 5 6"]
  else if fn = "ramp.dat" then some ["0 0", "1 2", "2 4"]
  else if fn = "head.dat" then
    some ["#@RPOL@ 1 OPTIONS: YCOL=3,CLIP=1", "0 0 7", "1 2 8", "2 4 9"]
  else if fn = "one.dat" then some ["1 2 3"]
  else if fn = "yfast.dat" then
    some ["0 0 1", "0 10 2", "0 20 3", "5 0 4", "5 10 5", "5 20 6"]
  else if fn = "xfast.dat" then
    some ["0 0 1", "5 0 4", "0 10 2", "5 10 5", "0 20 3", "5 20 6"]
  else if fn = "void.dat" then some ["# no data", "", "% at all"]
  else if fn = "void2.dat" then some ["0 10 20", "# no data", "", "% at all"]
  else if fn = "big.dat" then some demoBig
  else if fn = "big2.dat" then some ("10" :: demoBig)
  else if fn = "big3.dat" then some demoBig3
  else none

/-- The first table of a registry that has loaded one. -/
def first_table (r : RpolState × Option ℕ) : Option RpolTable := r.1.heap.getD 0 none

/-- The format 2 table of the file `grid2.dat`, loaded into the empty
registry. -/
def demoGrid2 : Option RpolTable :=
  first_table (read_rpol_table (fileSource (demoEnv demoFiles)) {} "grid2.dat" 2 none none)

/-- A 1-D table given in descending order of x: `(2, 4), (1, 2), (0, 0)`. -/
def demoDescending : RpolTable :=
  { ndim := 1, nx := 3, x := some [2, 1, 0], z := some [4, 2, 0], scheme := 1 }

/-! ### Vocabulary for the statements about the row reader -/

/-- The highest input column `read_table_v` looks at (its `maxcol`). -/
def maxcol_of (ncol : ℕ) (selcol : Option (List ℕ)) : ℕ :=
  match selcol with
  | some sel => sel_maxcol ncol sel
  | none => ncol

/-- The output row `rval` holds for the columns asked for. -/
def row_of_rval (ncol : ℕ) (selcol : Option (List ℕ)) (rval : List ℚ) : List ℚ :=
  (List.range ncol).map (fun icol =>
    match selcol with
    | none => rval.getD icol 0
    | some sel => rval.getD (sel.getD icol 0 - 1) 0)

/-- The row a line of the input contributes when it is read on its own, with
`rval` fresh from `calloc`: `none` for a line `read_table_v` skips (empty,
comment only, too few columns, or a word that is no number), otherwise the
values of the columns asked for.  A line is an acceptable data line when this
is not `none`. -/
def line_row (env : CEnv) (ncol : ℕ) (selcol : Option (List ℕ)) (line : String) :
    Option (List ℚ) :=
  let maxcol := maxcol_of ncol selcol
  let p := scan_line env (rcol_of ncol maxcol selcol) maxcol (List.replicate maxcol 0) line
  if p.1 = 0 ∨ p.1 < maxcol then none else some (row_of_rval ncol selcol p.2)

/-- The columns that hold the rows `rows`. -/
def columns_of (ncol : ℕ) (rows : List (List ℚ)) : List (List ℚ) :=
  (List.range ncol).map (fun icol => rows.map (fun row => row.getD icol 0))

/-- The data rows of natural column order `read_table_v` keeps of an input:
the acceptable lines in input order, up to the ceiling of 100000 rows. -/
def kept_rows (env : CEnv) (ncol : ℕ) (lines : List String) : List (List ℚ) :=
  (lines.filterMap (line_row env ncol none)).take 100000

/-! ### Vocabulary for the statements about options -/

/-- The settings an option word can write.  (The verbosity only steers
messages and is left out.) -/
inductive OptKey where
  | clip | zxreq | scheme | rows | cols | aux | xcol | xscale | xlog
  | ycol | yscale | ylog | zcol | zscale | zlog
  deriving DecidableEq

/-- The value a setting has among the options. -/
def opt_value (k : OptKey) (o : ReadOpts) : ℚ :=
  match k with
  | .clip => o.clip_default
  | .zxreq => o.zxreq
  | .scheme => o.scheme_default
  | .rows => o.expect_rows
  | .cols => o.expect_cols
  | .aux => o.aux
  | .xcol => o.xcol
  | .xscale => o.xscale
  | .xlog => o.xlog
  | .ycol => o.ycol
  | .yscale => o.yscale
  | .ylog => o.ylog
  | .zcol => o.zcol
  | .zscale => o.zscale
  | .zlog => o.zlog

/-- The key of an option word: the branch of the chain of comparisons in
`read_rpol_table` the word takes (`none` for a verbosity word and for an
unknown word). -/
def option_key (word : List Char) : Option OptKey :=
  if strncasecmp_eq word "CLIP=" then some .clip
  else if strcasecmp_eq word "CLIP" then some .clip
  else if strcasecmp_eq word "NOCLIP" then some .clip
  else if strcasecmp_eq word "ZXMAX" || strcasecmp_eq word "ZXMIN" then some .zxreq
  else if strcasecmp_eq word "VERBOSE" then none
  else if strncasecmp_eq word "VERBOSE=" then none
  else if strncasecmp_eq word "SCHEME=" then some .scheme
  else if strncasecmp_eq word "ROWS=" then some .rows
  else if strncasecmp_eq word "COLS=" then some .cols
  else if strncasecmp_eq word "COLUMNS=" then some .cols
  else if strncasecmp_eq word "AUX=" then some .aux
  else if strncasecmp_eq word "XCOL=" then some .xcol
  else if strncasecmp_eq word "XSCALE=" then some .xscale
  else if strncasecmp_eq word "XLOG" then some .xlog
  else if strncasecmp_eq word "YCOL=" then some .ycol
  else if strncasecmp_eq word "YSCALE=" then some .yscale
  else if strncasecmp_eq word "YLOG" then some .ylog
  else if strncasecmp_eq word "ZCOL=" then some .zcol
  else if strncasecmp_eq word "ZSCALE=" then some .zscale
  else if strncasecmp_eq word "ZLOG" then some .zlog
  else none

/-- The word `word` sets the key `k` of a table of format `nd`: it is a word
of that key, or `k` is the y column of a 1-D table and the word is a `ZCOL=`
word. -/
def sets_key (nd : ℤ) (k : OptKey) (word : List Char) : Prop :=
  option_key word = some k ∨ (k = OptKey.ycol ∧ nd = 1 ∧ option_key word = some OptKey.zcol)

instance (nd : ℤ) (k : OptKey) (word : List Char) : Decidable (sets_key nd k word) :=
  inferInstanceAs (Decidable
    (option_key word = some k ∨ (k = OptKey.ycol ∧ nd = 1 ∧ option_key word = some OptKey.zcol)))

/-! ### Vocabulary for the statements about format 3 -/

/-- The table of a rectangular grid with the abscissae `xs 0 .. xs (nx-1)`,
the ordinates `ys 0 .. ys (ny-1)` and the value `zm i j` at `(xs i, ys j)`:
z in row-major order, `z[i*ny + j] = zm i j`. -/
def grid_table (nx ny : ℕ) (xs ys : ℕ → ℚ) (zm : ℕ → ℕ → ℚ) : Grid3 :=
  { nx := nx, ny := ny
    x := (List.range nx).map xs
    y := (List.range ny).map ys
    z := (List.range (nx * ny)).map (fun k => zm (k / ny) (k % ny)) }

/-- The rows of an input of three columns are the `n` triples
`(X k, Y k, Z k)`, in this order. -/
def rows_are (rows : List (List ℚ)) (n : ℕ) (X Y Z : ℕ → ℚ) : Prop :=
  rows = (List.range n).map (fun k => [X k, Y k, Z k])

/-- The abscissae, ordinates and values of the grid of the files `yfast.dat`
and `xfast.dat`. -/
def demoXs : ℕ → ℚ := fun i => 5 * (i : ℚ)

/-- The ordinates `0, 10, 20, ...`. -/
def demoYs : ℕ → ℚ := fun j => 10 * (j : ℚ)

/-- The values `1 2 3 / 4 5 6`. -/
def demoZm : ℕ → ℕ → ℚ := fun i j => 3 * (i : ℚ) + (j : ℚ) + 1


/-! ## Further definitions -/

/-- Whether `interp(x, v, n, ...)` leaves its loop after the 30 iterations
and reaches the message `"Interpolation error."` instead of returning from
inside the loop or before it. -/
def interp_error (x : ℚ) (v : Arr) (n : ℤ) : Bool :=
  if v 0 < v (n - 1) then
    if x ≤ v 0 then false
    else if x ≥ v (n - 1) then false
    else (interpLoop x v n 0 30 (Int.tdiv (n + 1) 2 - 1) (Int.tdiv (n + 1) 2)).isNone
  else
    if x ≥ v 0 then false
    else if x ≤ v (n - 1) then false
    else (interpLoop x v n 1 30 (Int.tdiv (n + 1) 2 - 1) (Int.tdiv (n + 1) 2)).isNone

/-- The table values `0, 1, 8, 27, ...`: the cubes of `0, 1, 2, 3, ...`. -/
def cubeArr : Arr := fun i => (i : ℚ) * (i : ℚ) * (i : ℚ)

/-- The supporting points `x[0..n-1]` are in non-decreasing order. -/
def NonDecreasing (x : Arr) (n : ℤ) : Prop := ∀ i : ℤ, 0 ≤ i → i + 1 < n → x i ≤ x (i + 1)

/-- The supporting points `x[0..n-1]` are in non-increasing order. -/
def NonIncreasing (x : Arr) (n : ℤ) : Prop := ∀ i : ℤ, 0 ≤ i → i + 1 < n → x (i + 1) ≤ x i

/-- Whether the loop of `rpol_free` over the nodes after the first, started
at node `rptl` (the head of the list given), reaches its `else` branch, which
allocates a new trailing node because the node to remove is the last one of
the list. -/
def unlink_recreates (rpt : ℕ) : List (Option ℕ) → Bool
  | [] => false
  | [_] => false
  | none :: _ :: _ => false
  | some _ :: b :: rest =>
    if b = some rpt then
      (match rest with
       | [] => true
       | c :: rest2 => unlink_recreates rpt (c :: rest2))
    else unlink_recreates rpt (b :: rest)

/-- Whether a call `rpol_free(rpt, removing)` reaches the branch of its
unlinking loop that allocates a new trailing node. -/
def rpol_free_recreates (s : RpolState) (rpt : Option ℕ) : Bool :=
  match rpt with
  | none => false
  | some p =>
    match s.deref p with
    | none => false
    | some t =>
      if t.use_count > 1 then false
      else if t.use_count = 0 then false
      else unlink_recreates p (unlink_first p s.rpt_list_base)

/-- A call of one of the functions that work on the registry. -/
inductive RegistryCall where
  | read (fname : String) (nd : ℤ) (ymarker options : Option String)
  | release (rpt : Option ℕ) (removing : ℤ)
  | simple (label : String) (x y : Option (List ℚ)) (n clip : ℤ)

/-- The memory after one call: `read_rpol_table`, `rpol_free` or
`simple_rpol1d_table`. -/
def registry_step (src : TableSource) (s : RpolState) : RegistryCall → RpolState
  | RegistryCall.read fname nd ymarker options =>
    (read_rpol_table src s fname nd ymarker options).1
  | RegistryCall.release rpt removing => rpol_free s rpt removing
  | RegistryCall.simple label x y n clip => (simple_rpol1d_table s label x y n clip).1

/-- The memory after a sequence of calls, started with an empty heap and a
NULL `rpt_list_base`. -/
def registry_run (src : TableSource) (calls : List RegistryCall) : RpolState :=
  calls.foldl (registry_step src) {}

/-- Further files of the examples: a 1-D table with two equal x values and a
format 2 table of 4 rows. -/
def demoFiles3 : String → Option (List String) := fun fn =>
  if fn = "ties.dat" then some ["0 0", "1 1", "1 2", "2 3"]
  else if fn = "grid4.dat" then some ["0 10", "0 1 2", "1 3 4", "2 5 6", "3 7 8"]
  else if fn = "line4.dat" then some ["0 0", "1 1", "2 8", "3 27"]
  else demoFiles fn

/-- The catalogue in its regular form, with a property `Q` of the tables in
it: `rpt_list_base` is NULL and there is no entry, or it is the chain of the
entries `es` followed by one placeholder node; no table is entered twice, and
every entry points to a live table that is in use and has the property
`Q`. -/
def RegistryInv (Q : RpolTable → Prop) (s : RpolState) (es : List ℕ) : Prop :=
  ((s.rpt_list_base = [] ∧ es = []) ∨ s.rpt_list_base = es.map some ++ [none]) ∧
    es.Nodup ∧ ∀ a ∈ es, ∃ t, s.deref a = some t ∧ 1 ≤ t.use_count ∧ Q t

/-- The array `l` of `set_1d_cubic_params`, the pivots of the elimination:
`l[0]` and `l[1] .. l[n-2]` come from the forward sweep, `l[n-1]` is
`h[n-2]*(2.-M[n-2])` for the clamped and `1.` for the natural spline. -/
def cs_l (x y : Arr) (n clamped : ℤ) (i : ℤ) : ℚ :=
  if i = n - 1 then
    (if clamped ≠ 0 then cs_h x (n - 2) * (2 - (cs_fwd x y n clamped (n - 2).toNat).2.1) else 1)
  else (cs_fwd x y n clamped i.toNat).1

/-- The second order Lagrange polynomial through the three supporting points
`k`, `k+1`, `k+2` of a table, at `xp`. -/
def parabola2 (x y : Arr) (k : ℤ) (xp : ℚ) : ℚ :=
  y k * (((xp - x (k + 1)) * (xp - x (k + 2))) / ((x k - x (k + 1)) * (x k - x (k + 2)))) +
    y (k + 1) * (((xp - x k) * (xp - x (k + 2))) / ((x (k + 1) - x k) * (x (k + 1) - x (k + 2)))) +
    y (k + 2) * (((xp - x k) * (xp - x (k + 1))) / ((x (k + 2) - x k) * (x (k + 2) - x (k + 1))))

/-- The tables of the catalogue in list order: the `rpt` members of the nodes
of the linked list that are not NULL. -/
def catalogue (s : RpolState) : List ℕ := s.rpt_list_base.filterMap id

/-- The causes of a NULL return of `read_rpol_table` for a table that has to
be read, for the cleaned file name `fnclean`, the effective options `oe`,
the argument `nd` and the marker: the file cannot be opened; or the first
line gives no valid format number (`nd ≤ 0`); or, for format 2, there is no
line of y values; or, for format 3, the rows read fail the grid check. -/
def ReadFailure (env : CEnv) (fnclean oe : String) (nd : ℤ) (ymarker : Option String) : Prop :=
  env.fileopen fnclean = none ∨
    ∃ lines, env.fileopen fnclean = some lines ∧
      ((nd ≤ 0 ∧ header_block env lines nd = none) ∨
        (nd = 2 ∧ find_yline ((ymarker.map String.data).getD []).length
          ((ymarker.map String.data).getD []) lines = none) ∨
        (nd = 3 ∧ ∃ r : ReadResult,
          r = (if (read_options env lines 3 3 oe).xcol = 1 ∧
                (read_options env lines 3 3 oe).ycol = 2 ∧
                (read_options env lines 3 3 oe).zcol = 3 then
              read_table_v env (some fnclean) (some lines)
                (some (to_size_t (-((read_options env lines 3 3 oe).expect_rows : ℤ)))) 3
                (some none) none
            else
              read_table_v env (some fnclean) (some lines)
                (some (to_size_t (-((read_options env lines 3 3 oe).expect_rows : ℤ)))) 3
                (some none) (some [(read_options env lines 3 3 oe).xcol,
                  (read_options env lines 3 3 oe).ycol, (read_options env lines 3 3 oe).zcol])) ∧
          grid3 r.rc (r.nrow.getD 0)
            (fun i => ((r.col.getD []).getD 0 []).getD i 0)
            (fun i => ((r.col.getD []).getD 1 []).getD i 0)
            (fun i => ((r.col.getD []).getD 2 []).getD i 0) = none))

/-- The example files and one more, `torn.dat`, a format 3 listing of three
rows that is no full grid. -/
def demoFiles4 : String → Option (List String) := fun fn =>
  if fn = "torn.dat" then some ["0 0 1", "0 10 2", "5 0 4"]
  else demoFiles3 fn

/-- The registry after `ramp.dat` was loaded as a format 1 table. -/
def demoLoaded : RpolState :=
  (read_rpol_table (fileSource (demoEnv demoFiles4)) {} "ramp.dat" 1 none none).1

/-- The three calls that load `ramp.dat` (format 1), `grid2.dat` (format 2)
and `yfast.dat` (format 3). -/
def demoCalls3 : List RegistryCall :=
  [RegistryCall.read "ramp.dat" 1 none none, RegistryCall.read "grid2.dat" 2 none none,
    RegistryCall.read "yfast.dat" 3 none none]

/-- The loop `for ( i=0; i<n; i++ )` with the test
`fabs((xeq-x[i])*dxi) > 1e-10` that `rpol_check_equi_range` runs on an axis
of `n` points `X`, with `dx` and `dxi` as set in front of it: `true` when the
loop meets a point off the even grid and clears the bit of the axis. -/
def axis_uneven (n : ℕ) (X : ℕ → ℚ) : Bool :=
  let dx : ℚ := if n > 1 then (X (n - 1) - X 0) / ((n : ℚ) - 1) else 0
  let dxi : ℚ := if n > 1 then (if dx ≠ 0 then 1 / dx else 0) else 0
  (List.range n).any (fun i => decide (|(X 0 + (i : ℚ) * dx - X i) * dxi| > 1 / 10 ^ 10))

/-- The inner loop of the upper envelope in `rpol_check_equi_range`: the value
`zxmax[i]` after `for (j=1; j<ny; j++)`. -/
def row_max (ny : ℕ) (Z : ℕ → ℚ) (i : ℕ) : ℚ :=
  (List.range (ny - 1)).foldl
    (fun m k => if Z (i * ny + (k + 1)) > m then Z (i * ny + (k + 1)) else m) (Z (i * ny))

/-- The inner loop of the lower envelope in `rpol_check_equi_range`: the value
`zxmin[i]` after `for (j=1; j<ny; j++)`. -/
def row_min (ny : ℕ) (Z : ℕ → ℚ) (i : ℕ) : ℚ :=
  (List.range (ny - 1)).foldl
    (fun m k => if Z (i * ny + (k + 1)) < m then Z (i * ny + (k + 1)) else m) (Z (i * ny))

/-- A 2-D table over `x = 0, 1` and `y = 0, 1, 2` with the rows `1 5 3` and
`4 2 6` of `z`, linear scheme, no clipping, and the envelope request flag. -/
def demoEnvelope : RpolTable :=
  { ndim := 2, nx := 2, ny := 3, x := some [0, 1], y := some [0, 1, 2],
    z := some [1, 5, 3, 4, 2, 6], scheme := 1, zxreq := 1 }

/-- The power `2^s` for an integer exponent, as a rational number. -/
def two_pow (s : ℤ) : ℚ := if 0 ≤ s then (2 : ℚ) ^ s.toNat else 1 / (2 : ℚ) ^ (-s).toNat

/-- The number of binary digits of `n`, found in at most `fuel` halvings
(`fuel = n` is enough). -/
def bit_length : ℕ → ℕ → ℕ
  | 0, _ => 0
  | fuel + 1, n => if n = 0 then 0 else bit_length fuel (n / 2) + 1

/-- The binary exponent `e` of a positive rational `q`, with
`2^e ≤ q < 2^(e+1)`: the difference of the bit lengths of numerator and
denominator, lowered by one when that power lies above `q`. -/
def bin_exp (q : ℚ) : ℤ :=
  let e0 : ℤ := (bit_length q.num.toNat q.num.toNat : ℤ) - (bit_length q.den q.den : ℤ)
  if q < two_pow e0 then e0 - 1 else e0

/-- The integer nearest to a non-negative rational, the even one of the two
at a tie. -/
def round_even (m : ℚ) : ℤ :=
  let f := Int.floor m
  if m - f < 1 / 2 then f
  else if m - f > 1 / 2 then f + 1
  else if f % 2 = 0 then f else f + 1

/-- The value a C `double` operation stores for the exact result `q`: the
nearest number with a significand of 53 bits, the one with even significand
at a tie (IEEE 754 binary64, round to nearest even).  The exponent range is
not modelled: no overflow, no subnormal numbers. -/
def to_double (q : ℚ) : ℚ :=
  if q = 0 then 0
  else
    let s := bin_exp |q| - 52
    let r := (round_even (|q| / two_pow s) : ℚ) * two_pow s
    if q < 0 then -r else r

/-! ## The interpolation engine in double precision

The functions below are second readings of `interp`, `rpol_nearest`,
`rpol_linear` and `rpol_2nd_order`, in which every arithmetic operation on
`double` values stores its result through the rounding function `fl`
(comparisons, index arithmetic and table reads are exact), once per C
operator: no fused multiply-add, no extended precision.  With
`fl = to_double` this is IEEE binary64 arithmetic as long as no result
overflows or falls below the normal range; with `fl q = q` they are the
exact functions above. -/

/-- The loop of `interp` with the division `(x-v[j-1])/(v[j]-v[j-1])` carried
out in double precision. -/
def interpLoop_dbl (fl : ℚ → ℚ) (x : ℚ) (v : Arr) (n lm : ℤ) : ℕ → ℤ → ℤ → Option (ℤ × ℚ)
  | 0, _, _ => none
  | fuel + 1, l, m =>
    let j := l
    let j := if j < 1 then 1 else j
    let j := if j > n - 1 then n - 1 else j
    if x ≥ v (j + lm - 1) ∧ x ≤ v (j - lm) then
      some (j, if v j ≠ v (j - 1) then fl (fl (x - v (j - 1)) / fl (v j - v (j - 1))) else 1 / 2)
    else
      let m := Int.tdiv (m + 1) 2
      if x > v (j - 1) then interpLoop_dbl fl x v n lm fuel (l + (1 - 2 * lm) * m) m
      else interpLoop_dbl fl x v n lm fuel (l - (1 - 2 * lm) * m) m

/-- The function `interp(x, v, n, &ipl, &rpl)` in double precision. -/
def interp_dbl (fl : ℚ → ℚ) (x : ℚ) (v : Arr) (n : ℤ) (ipl : ℤ) (rpl : ℚ) : ℤ × ℚ :=
  if v 0 < v (n - 1) then
    if x ≤ v 0 then (1, 0)
    else if x ≥ v (n - 1) then (n - 1, 1)
    else (interpLoop_dbl fl x v n 0 30 (Int.tdiv (n + 1) 2 - 1) (Int.tdiv (n + 1) 2)).getD
      (ipl, rpl)
  else
    if x ≥ v 0 then (1, 0)
    else if x ≤ v (n - 1) then (n - 1, 1)
    else (interpLoop_dbl fl x v n 1 30 (Int.tdiv (n + 1) 2 - 1) (Int.tdiv (n + 1) 2)).getD
      (ipl, rpl)

/-- The interval search of the 1-D functions in double precision: with
`if ( eq )` the statements `dxi = 1./(x[1] - x[0])`,
`ipl = (int) ((xp-x[0])*dxi) + 1`, the clamp of `ipl` and
`rpl = (xp-x[ipl-1])*dxi`, otherwise `interp`. -/
def locate_dbl (fl : ℚ → ℚ) (x : Arr) (n : ℤ) (xp : ℚ) (eq : ℤ) : ℤ × ℚ :=
  if eq ≠ 0 then
    let dxi := fl (1 / fl (x 1 - x 0))
    let ipl := truncToInt (fl (fl (xp - x 0) * dxi)) + 1
    let ipl := if ipl > n - 1 then n - 1 else ipl
    (ipl, fl (fl (xp - x (ipl - 1)) * dxi))
  else interp_dbl fl xp x n 1 0

/-- The function `rpol_nearest(x, y, n, xp, eq, clip)` in double
precision. -/
def rpol_nearest_dbl (fl : ℚ → ℚ) (x y : Arr) (n : ℤ) (xp : ℚ) (eq clip : ℤ) : ℚ :=
  if n < 2 then 0
  else if x 1 ≤ x 0 then 0
  else if xp < x 0 then (if clip ≠ 0 then 0 else y 0)
  else if xp > x (n - 1) then (if clip ≠ 0 then 0 else y (n - 1))
  else
    let p := locate_dbl fl x n xp eq
    if p.2 < 1 / 2 then y (p.1 - 1) else y p.1

/-- The function `rpol_linear(x, y, n, xp, eq, clip)` in double precision. -/
def rpol_linear_dbl (fl : ℚ → ℚ) (x y : Arr) (n : ℤ) (xp : ℚ) (eq clip : ℤ) : ℚ :=
  if n < 2 then 0
  else if x 1 ≤ x 0 then 0
  else if xp < x 0 then (if clip ≠ 0 then 0 else y 0)
  else if xp > x (n - 1) then (if clip ≠ 0 then 0 else y (n - 1))
  else
    let p := locate_dbl fl x n xp eq
    fl (fl (y (p.1 - 1) * fl (1 - p.2)) + fl (y p.1 * p.2))

/-- The weighted mean of the two second order Lagrange fits that ends
`rpol_2nd_order`, in double precision, each operation of the C expressions
rounded in the order C evaluates them. -/
def blend2_dbl (fl : ℚ → ℚ) (x y : Arr) (n : ℤ) (xp : ℚ) (ipl : ℤ) (rpl : ℚ) : ℚ :=
  let il := if ipl < 2 then ipl - 1 else ipl - 2
  let x0l := x il
  let y0l := y il
  let x1l := x (il + 1)
  let y1l := y (il + 1)
  let x2l := x (il + 2)
  let y2l := y (il + 2)
  let ir := if ipl < n - 1 then ipl - 1 else ipl - 2
  let x0r := x ir
  let y0r := y ir
  let x1r := x (ir + 1)
  let y1r := y (ir + 1)
  let x2r := x (ir + 2)
  let y2r := y (ir + 2)
  let L0l := fl (fl (fl (xp - x1l) * fl (xp - x2l)) / fl (fl (x0l - x1l) * fl (x0l - x2l)))
  let L1l := fl (fl (fl (xp - x0l) * fl (xp - x2l)) / fl (fl (x1l - x0l) * fl (x1l - x2l)))
  let L2l := fl (fl (fl (xp - x0l) * fl (xp - x1l)) / fl (fl (x2l - x0l) * fl (x2l - x1l)))
  let L0r := fl (fl (fl (xp - x1r) * fl (xp - x2r)) / fl (fl (x0r - x1r) * fl (x0r - x2r)))
  let L1r := fl (fl (fl (xp - x0r) * fl (xp - x2r)) / fl (fl (x1r - x0r) * fl (x1r - x2r)))
  let L2r := fl (fl (fl (xp - x0r) * fl (xp - x1r)) / fl (fl (x2r - x0r) * fl (x2r - x1r)))
  let P2l := fl (fl (fl (y0l * L0l) + fl (y1l * L1l)) + fl (y2l * L2l))
  let P2r := fl (fl (fl (y0r * L0r) + fl (y1r * L1r)) + fl (y2r * L2r))
  fl (fl (fl (1 - rpl) * P2l) + fl (rpl * P2r))

/-- The function `rpol_2nd_order(x, y, n, xp, eq, clip)` in double
precision. -/
def rpol_2nd_order_dbl (fl : ℚ → ℚ) (x y : Arr) (n : ℤ) (xp : ℚ) (eq clip : ℤ) : ℚ :=
  if n < 3 then rpol_linear_dbl fl x y n xp eq clip
  else if x 1 ≤ x 0 then 0
  else if xp < x 0 then (if clip ≠ 0 then 0 else y 0)
  else if xp > x (n - 1) then (if clip ≠ 0 then 0 else y (n - 1))
  else
    let p := locate_dbl fl x n xp eq
    if p.1 > n - 1 then y (n - 1)
    else if p.1 < 1 then y 0
    else blend2_dbl fl x y n xp p.1 p.2

/-- The constant table `y[i] = 1`. -/
def oneArr : Arr := fun _ => 1

/-! ## The binary search of `interp` -/

theorem asc_lt_aux {x : Arr} {n : ℤ} (h : Ascending x n) (i : ℤ) (hi : 0 ≤ i) :
    ∀ k : ℕ, i + 1 + (k : ℤ) < n → x i < x (i + 1 + (k : ℤ)) := by
  intro k
  induction k with
  | zero => intro hk; simpa using h i hi (by simpa using hk)
  | succ k ih =>
    intro hk
    have h1 : x i < x (i + 1 + (k : ℤ)) := ih (by push_cast at hk; omega)
    have h2 := h (i + 1 + (k : ℤ)) (by omega) (by push_cast at hk; omega)
    have e : i + 1 + ((k + 1 : ℕ) : ℤ) = i + 1 + (k : ℤ) + 1 := by push_cast; ring
    rw [e]
    exact lt_trans h1 h2

theorem asc_lt {x : Arr} {n : ℤ} (h : Ascending x n) {i j : ℤ} (hi : 0 ≤ i) (hij : i < j)
    (hj : j < n) : x i < x j := by
  have e : j = i + 1 + ((j - i - 1).toNat : ℤ) := by
    rw [Int.toNat_of_nonneg (by omega)]; ring
  rw [e]
  exact asc_lt_aux h i hi _ (by rw [← e]; exact hj)

theorem asc_le {x : Arr} {n : ℤ} (h : Ascending x n) {i j : ℤ} (hi : 0 ≤ i) (hij : i ≤ j)
    (hj : j < n) : x i ≤ x j := by
  rcases eq_or_lt_of_le hij with e | l
  · rw [e]
  · exact le_of_lt (asc_lt h hi l hj)

/-- Index order read back from value order. -/
theorem asc_lt_imp {x : Arr} {n : ℤ} (h : Ascending x n) {i j : ℤ} (hin : i < n)
    (hj : 0 ≤ j) (hv : x i < x j) : i < j := by
  by_contra hc
  have := asc_le h hj (not_lt.mp hc) hin
  exact absurd hv (not_lt.mpr this)

theorem interpLoop_step (x : ℚ) (v : Arr) (n : ℤ) (fuel : ℕ) (l m : ℤ) :
    interpLoop x v n 0 (fuel + 1) l m =
      (let j := if (if l < 1 then 1 else l) > n - 1 then n - 1 else (if l < 1 then 1 else l)
       if x ≥ v (j - 1) ∧ x ≤ v j then
         some (j, if v j ≠ v (j - 1) then (x - v (j - 1)) / (v j - v (j - 1)) else 1 / 2)
       else if x > v (j - 1) then interpLoop x v n 0 fuel (l + Int.tdiv (m + 1) 2) (Int.tdiv (m + 1) 2)
       else interpLoop x v n 0 fuel (l - Int.tdiv (m + 1) 2) (Int.tdiv (m + 1) 2)) := by
  simp [interpLoop]

/-- Uniform binary search, general query: the loop finds a bracketing interval
when the remaining step sizes still cover the distance to it. -/
theorem interpLoop_bracket {x : ℚ} {v : Arr} {n : ℤ} (h : Ascending v n) {t : ℤ}
    (ht1 : 1 ≤ t) (htn : t ≤ n - 1) (hlo : v (t - 1) ≤ x) (hhi : x ≤ v t) :
    ∀ (g : ℕ) (l m : ℤ), 1 ≤ m → m ≤ 2 ^ g → -m < t - l → t - l ≤ m → t - l ≤ 2 ^ g - 1 →
      ∃ j r, interpLoop x v n 0 (g + 1) l m = some (j, r) ∧ Bracket v n x j r := by
  intro g
  induction g with
  | zero =>
    intro l m hm1 hm2 h1 h2 h3
    simp at hm2 h3
    have hl : l = t := by omega
    subst hl
    rw [interpLoop_step]
    have hj : (if (if l < 1 then 1 else l) > n - 1 then n - 1 else (if l < 1 then 1 else l)) = l := by
      rw [if_neg (by omega : ¬ l < 1), if_neg (by omega)]
    simp only [hj]
    rw [if_pos ⟨hlo, hhi⟩]
    have hne : v l ≠ v (l - 1) := ne_of_gt (asc_lt h (by omega) (by omega) (by omega))
    exact ⟨l, _, rfl, ht1, htn, hlo, hhi, by rw [if_pos hne]⟩
  | succ g ih =>
    intro l m hm1 hm2 h1 h2 h3
    rw [interpLoop_step]
    set j := (if (if l < 1 then 1 else l) > n - 1 then n - 1 else (if l < 1 then 1 else l)) with hjdef
    have hj1 : 1 ≤ j := by rw [hjdef]; split_ifs <;> omega
    have hjn : j ≤ n - 1 := by rw [hjdef]; split_ifs <;> omega
    have hjl : l ≤ n - 1 → l ≤ j := by intro _; rw [hjdef]; split_ifs <;> omega
    have hjl' : 1 ≤ l → j ≤ l := by intro _; rw [hjdef]; split_ifs <;> omega
    simp only []
    by_cases hb : x ≥ v (j - 1) ∧ x ≤ v j
    · rw [if_pos hb]
      have hne : v j ≠ v (j - 1) := ne_of_gt (asc_lt h (by omega) (by omega) (by omega))
      exact ⟨j, _, rfl, hj1, hjn, hb.1, hb.2, by rw [if_pos hne]⟩
    · rw [if_neg hb]
      have hp : (2 : ℤ) ^ (g + 1) = 2 * 2 ^ g := by ring
      have hpos : (0 : ℤ) < 2 ^ g := by positivity
      have hmd : Int.tdiv (m + 1) 2 = (m + 1) / 2 := Int.tdiv_eq_ediv (by omega) (by omega)
      rw [hmd]
      by_cases hu : x > v (j - 1)
      · rw [if_pos hu]
        have hxj : v j < x := by
          by_contra hc
          exact hb ⟨le_of_lt hu, not_lt.mp hc⟩
        have htj : j < t := asc_lt_imp h (by omega) (by omega)
          (lt_of_lt_of_le hxj hhi)
        apply ih <;> omega
      · rw [if_neg hu]
        have hxj : x < v (j - 1) := by
          by_contra hc
          have h1 : x = v (j - 1) := le_antisymm (not_lt.mp hu) (not_lt.mp hc)
          exact hb ⟨le_of_eq h1.symm, by
            rw [h1]; exact le_of_lt (asc_lt h (by omega) (by omega) (by omega))⟩
        have htj : t - 1 < j - 1 := asc_lt_imp h (by omega) (by omega)
          (lt_of_le_of_lt hlo hxj)
        apply ih <;> omega

theorem reach_ge2 : ∀ (f : ℕ) (m : ℤ), 0 ≤ m → m ≤ 2 ^ (f + 1) → m - 2 ≤ reach f m := by
  intro f
  induction f with
  | zero => intro m h0 h1; simp [reach] at *; omega
  | succ f ih =>
    intro m h0 h1
    have hp : (2 : ℤ) ^ (f + 1 + 1) = 2 * 2 ^ (f + 1) := by ring
    have := ih ((m + 1) / 2) (by omega) (by omega)
    simp only [reach]
    omega

theorem reach_ge1 : ∀ (f : ℕ) (m : ℤ), 0 ≤ m → m < 2 ^ (f + 1) → m - 1 ≤ reach f m := by
  intro f
  induction f with
  | zero => intro m h0 h1; simp [reach] at *; omega
  | succ f ih =>
    intro m h0 h1
    have hp : (2 : ℤ) ^ (f + 1 + 1) = 2 * 2 ^ (f + 1) := by ring
    simp only [reach]
    by_cases hc : (m + 1) / 2 < 2 ^ (f + 1)
    · have := ih ((m + 1) / 2) (by omega) hc
      omega
    · have := reach_ge2 f ((m + 1) / 2) (by omega) (by omega)
      omega

/-- Uniform binary search, query at a supporting point: either of the two
intervals meeting at the point ends the search, which doubles the size that
thirty steps cover. -/
theorem interpLoop_node {v : Arr} {n : ℤ} (h : Ascending v n) {i : ℤ}
    (hi1 : 1 ≤ i) (hin : i ≤ n - 2) :
    ∀ (f : ℕ) (l m : ℤ), 1 ≤ m → m ≤ 2 ^ (f + 1) → -(reach f m + 1) ≤ i - l →
      i - l ≤ reach f m →
      ∃ j r, interpLoop (v i) v n 0 (f + 1) l m = some (j, r) ∧ Bracket v n (v i) j r := by
  intro f
  induction f with
  | zero =>
    intro l m hm1 hm2 h1 h2
    simp only [reach] at h1 h2
    rw [interpLoop_step]
    have hj : (if (if l < 1 then 1 else l) > n - 1 then n - 1 else (if l < 1 then 1 else l)) = l := by
      rw [if_neg (by omega : ¬ l < 1), if_neg (by omega)]
    simp only [hj]
    have hlo : v (l - 1) ≤ v i := asc_le h (by omega) (by omega) (by omega)
    have hhi : v i ≤ v l := asc_le h (by omega) (by omega) (by omega)
    rw [if_pos ⟨hlo, hhi⟩]
    have hne : v l ≠ v (l - 1) := ne_of_gt (asc_lt h (by omega) (by omega) (by omega))
    exact ⟨l, _, rfl, by omega, by omega, hlo, hhi, by rw [if_pos hne]⟩
  | succ f ih =>
    intro l m hm1 hm2 h1 h2
    rw [interpLoop_step]
    set j := (if (if l < 1 then 1 else l) > n - 1 then n - 1 else (if l < 1 then 1 else l)) with hjdef
    have hj1 : 1 ≤ j := by rw [hjdef]; split_ifs <;> omega
    have hjn : j ≤ n - 1 := by rw [hjdef]; split_ifs <;> omega
    have hjl : l ≤ n - 1 → l ≤ j := by intro _; rw [hjdef]; split_ifs <;> omega
    have hjl' : 1 ≤ l → j ≤ l := by intro _; rw [hjdef]; split_ifs <;> omega
    simp only []
    by_cases hb : v i ≥ v (j - 1) ∧ v i ≤ v j
    · rw [if_pos hb]
      have hne : v j ≠ v (j - 1) := ne_of_gt (asc_lt h (by omega) (by omega) (by omega))
      exact ⟨j, _, rfl, hj1, hjn, hb.1, hb.2, by rw [if_pos hne]⟩
    · rw [if_neg hb]
      have hp : (2 : ℤ) ^ (f + 1 + 1) = 2 * 2 ^ (f + 1) := by ring
      have hpos : (0 : ℤ) < 2 ^ (f + 1) := by positivity
      have hmd : Int.tdiv (m + 1) 2 = (m + 1) / 2 := Int.tdiv_eq_ediv (by omega) (by omega)
      rw [hmd]
      have hr : reach (f + 1) m = (m + 1) / 2 + reach f ((m + 1) / 2) := rfl
      have hr2 := reach_ge2 f ((m + 1) / 2) (by omega) (by omega)
      by_cases hu : v i > v (j - 1)
      · rw [if_pos hu]
        have hxj : v j < v i := by
          by_contra hc
          exact hb ⟨le_of_lt hu, not_lt.mp hc⟩
        have htj : j < i := asc_lt_imp h (by omega) (by omega) hxj
        apply ih <;> omega
      · rw [if_neg hu]
        have hxj : v i < v (j - 1) := by
          by_contra hc
          have h1 : v i = v (j - 1) := le_antisymm (not_lt.mp hu) (not_lt.mp hc)
          exact hb ⟨le_of_eq h1.symm, by
            rw [h1]; exact le_of_lt (asc_lt h (by omega) (by omega) (by omega))⟩
        have htj : i < j - 1 := asc_lt_imp h (by omega) (by omega) hxj
        apply ih <;> omega

theorem exists_bracket (v : Arr) (x : ℚ) (h0 : v 0 ≤ x) :
    ∀ k : ℕ, x ≤ v ((k : ℤ) + 1) →
      ∃ t : ℤ, 1 ≤ t ∧ t ≤ (k : ℤ) + 1 ∧ v (t - 1) ≤ x ∧ x ≤ v t := by
  intro k
  induction k with
  | zero => intro hk; exact ⟨1, le_refl _, by simp, by simpa using h0, by simpa using hk⟩
  | succ k ih =>
    intro hk
    by_cases hc : x ≤ v ((k : ℤ) + 1)
    · obtain ⟨t, a, b, c, d⟩ := ih hc
      exact ⟨t, a, by push_cast; omega, c, d⟩
    · refine ⟨((k + 1 : ℕ) : ℤ) + 1, by push_cast; omega, le_refl _, ?_, hk⟩
      have e : ((k + 1 : ℕ) : ℤ) + 1 - 1 = (k : ℤ) + 1 := by push_cast; ring
      rw [e]
      exact le_of_lt (not_le.mp hc)

/-- The binary search of `interp` brackets every query inside the range of a
strictly ascending table of fewer than `2^30` points. -/
theorem interp_bracket {v : Arr} {n : ℤ} (h : Ascending v n) (hn2 : 2 ≤ n)
    (hn : n < 2 ^ 30) {x : ℚ} (hlo : v 0 ≤ x) (hhi : x ≤ v (n - 1)) (ipl : ℤ) (rpl : ℚ) :
    ∃ j r, interp x v n ipl rpl = (j, r) ∧ Bracket v n x j r := by
  have h0n : v 0 < v (n - 1) := asc_lt h (le_refl _) (by omega) (by omega)
  have h01 : v 0 < v 1 := asc_lt h (le_refl _) (by omega) (by omega)
  have hl1 : v (n - 1 - 1) < v (n - 1) := asc_lt h (by omega) (by omega) (by omega)
  unfold interp
  rw [if_pos h0n]
  by_cases c1 : x ≤ v 0
  · rw [if_pos c1]
    have e : x = v 0 := le_antisymm c1 hlo
    refine ⟨1, 0, rfl, le_refl _, by omega, by simpa using hlo, ?_, ?_⟩
    · rw [e]; exact le_of_lt h01
    · rw [e]; simp
  · rw [if_neg c1]
    by_cases c2 : x ≥ v (n - 1)
    · rw [if_pos c2]
      have e : x = v (n - 1) := le_antisymm hhi c2
      refine ⟨n - 1, 1, rfl, by omega, le_refl _, ?_, hhi, ?_⟩
      · rw [e]; exact le_of_lt hl1
      · rw [e, div_self (sub_ne_zero.mpr (ne_of_gt hl1))]
    · rw [if_neg c2]
      have hk : x ≤ v (((n - 2).toNat : ℤ) + 1) := by
        rw [Int.toNat_of_nonneg (by omega)]
        have : n - 2 + 1 = n - 1 := by ring
        rw [this]; exact hhi
      obtain ⟨t, t1, t2, t3, t4⟩ := exists_bracket v x hlo (n - 2).toNat hk
      rw [Int.toNat_of_nonneg (by omega)] at t2
      have hmd : Int.tdiv (n + 1) 2 = (n + 1) / 2 := Int.tdiv_eq_ediv (by omega) (by omega)
      rw [hmd]
      have hp : (2 : ℤ) ^ 29 = 536870912 := by norm_num
      have hq : (2 : ℤ) ^ 30 = 1073741824 := by norm_num
      obtain ⟨j, r, e, hb⟩ := interpLoop_bracket h t1 (by omega) t3 t4 29 ((n + 1) / 2 - 1)
        ((n + 1) / 2) (by omega) (by omega) (by omega) (by omega) (by omega)
      exact ⟨j, r, by rw [e]; rfl, hb⟩

/-- The binary search of `interp` brackets every supporting point of a
strictly ascending table whose size `n` keeps `n + 1` a 32-bit `int`. -/
theorem interp_bracket_node {v : Arr} {n : ℤ} (h : Ascending v n) (hn2 : 2 ≤ n)
    (hn : n + 1 < 2 ^ 31) {i : ℤ} (hi0 : 0 ≤ i) (hin : i < n) (ipl : ℤ) (rpl : ℚ) :
    ∃ j r, interp (v i) v n ipl rpl = (j, r) ∧ Bracket v n (v i) j r := by
  have h0n : v 0 < v (n - 1) := asc_lt h (le_refl _) (by omega) (by omega)
  have h01 : v 0 < v 1 := asc_lt h (le_refl _) (by omega) (by omega)
  have hl1 : v (n - 1 - 1) < v (n - 1) := asc_lt h (by omega) (by omega) (by omega)
  have hlo : v 0 ≤ v i := asc_le h (le_refl _) hi0 hin
  have hhi : v i ≤ v (n - 1) := asc_le h hi0 (by omega) (by omega)
  unfold interp
  rw [if_pos h0n]
  by_cases c1 : v i ≤ v 0
  · rw [if_pos c1]
    have e : v i = v 0 := le_antisymm c1 hlo
    refine ⟨1, 0, rfl, le_refl _, by omega, by simpa using hlo, ?_, ?_⟩
    · rw [e]; exact le_of_lt h01
    · rw [e]; simp
  · rw [if_neg c1]
    by_cases c2 : v i ≥ v (n - 1)
    · rw [if_pos c2]
      have e : v i = v (n - 1) := le_antisymm hhi c2
      refine ⟨n - 1, 1, rfl, by omega, le_refl _, ?_, hhi, ?_⟩
      · rw [e]; exact le_of_lt hl1
      · rw [e, div_self (sub_ne_zero.mpr (ne_of_gt hl1))]
    · rw [if_neg c2]
      have hi1 : 1 ≤ i := by
        by_contra hc
        have : i = 0 := by omega
        exact c1 (by rw [this])
      have hi2 : i ≤ n - 2 := by
        by_contra hc
        have : i = n - 1 := by omega
        exact c2 (by rw [this])
      have hmd : Int.tdiv (n + 1) 2 = (n + 1) / 2 := Int.tdiv_eq_ediv (by omega) (by omega)
      rw [hmd]
      have hq : (2 : ℤ) ^ 31 = 2147483648 := by norm_num
      have hp : (2 : ℤ) ^ (29 + 1) = 1073741824 := by norm_num
      have hr := reach_ge1 29 ((n + 1) / 2) (by omega) (by omega)
      obtain ⟨j, r, e, hb⟩ := interpLoop_node h hi1 hi2 29 ((n + 1) / 2 - 1)
        ((n + 1) / 2) (by omega) (by omega) (by omega) (by omega)
      exact ⟨j, r, by rw [e]; rfl, hb⟩

theorem bracket_node {v : Arr} {n : ℤ} (h : Ascending v n) {i : ℤ} (hi0 : 0 ≤ i) (hin : i < n)
    {j : ℤ} {r : ℚ} (hb : Bracket v n (v i) j r) :
    (j = i + 1 ∧ r = 0) ∨ (j = i ∧ r = 1) := by
  obtain ⟨j1, jn, lo, hi, hr⟩ := hb
  have a : j - 1 ≤ i := by
    by_contra hc
    have := asc_lt h hi0 (not_le.mp hc) (by omega)
    exact absurd lo (not_le.mpr this)
  have b : i ≤ j := by
    by_contra hc
    have := asc_lt h (by omega : (0:ℤ) ≤ j) (not_le.mp hc) hin
    exact absurd hi (not_le.mpr this)
  have hne : v j - v (j - 1) ≠ 0 :=
    sub_ne_zero.mpr (ne_of_gt (asc_lt h (by omega) (by omega) (by omega)))
  rcases (by omega : i = j - 1 ∨ i = j) with e | e
  · left
    refine ⟨by omega, ?_⟩
    rw [hr, e]; simp
  · right
    refine ⟨e.symm, ?_⟩
    rw [hr, e, div_self hne]

/-! ## Values at supporting points -/

theorem truncToInt_of_nonneg {q : ℚ} (hq : 0 ≤ q) : truncToInt q = ⌊q⌋ := by
  unfold truncToInt
  rw [Rat.floor_def, Int.tdiv_eq_ediv (Rat.num_nonneg.mpr hq) (by exact_mod_cast Nat.zero_le _)]

theorem equi_step {x : Arr} {n : ℤ} (he : Equidistant x n) {j : ℤ} (h1 : 1 ≤ j) (hn : j < n) :
    x j - x (j - 1) = x 1 - x 0 := by
  rw [he j (by omega) hn, he (j - 1) (by omega) (by omega)]
  push_cast
  ring

/-- The index arithmetic of the equidistant branch brackets every query inside
the range of an exactly equidistant table. -/
theorem locate_equi_bracket {x : Arr} {n : ℤ} (he : Equidistant x n) (h01 : x 0 < x 1)
    (hn2 : 2 ≤ n) {xp : ℚ} (hlo : x 0 ≤ xp) (hhi : xp ≤ x (n - 1)) {eq : ℤ} (heq : eq ≠ 0) :
    Bracket x n xp (locate x n xp eq).1 (locate x n xp eq).2 := by
  obtain ⟨d, hddef⟩ : ∃ d, d = x 1 - x 0 := ⟨_, rfl⟩
  have he' : ∀ i : ℤ, 0 ≤ i → i < n → x i = x 0 + (i : ℚ) * d := by
    intro i a b; rw [hddef]; exact he i a b
  have hd : 0 < d := by rw [hddef]; exact sub_pos.mpr h01
  have hdne : d ≠ 0 := ne_of_gt hd
  obtain ⟨q, hq⟩ : ∃ q, q = (xp - x 0) * (1 / d) := ⟨_, rfl⟩
  have hq0 : 0 ≤ q := by rw [hq]; exact mul_nonneg (sub_nonneg.mpr hlo) (by positivity)
  have hxq : xp = x 0 + q * d := by rw [hq]; field_simp
  have hqn : q ≤ ((n - 1 : ℤ) : ℚ) := by
    have h1 := he' (n - 1) (by omega) (by omega)
    rw [h1, hxq] at hhi
    have : q * d ≤ ((n - 1 : ℤ) : ℚ) * d := by linarith
    exact le_of_mul_le_mul_right this hd
  have hk1 : ((⌊q⌋ : ℤ) : ℚ) ≤ q := Int.floor_le q
  have hk2 : q < ((⌊q⌋ : ℤ) : ℚ) + 1 := Int.lt_floor_add_one q
  have hk0 : 0 ≤ ⌊q⌋ := Int.floor_nonneg.mpr hq0
  have hkn : ⌊q⌋ ≤ n - 1 := by
    have : ((⌊q⌋ : ℤ) : ℚ) ≤ ((n - 1 : ℤ) : ℚ) := le_trans hk1 hqn
    exact_mod_cast this
  have hloc : locate x n xp eq =
      ((if ⌊q⌋ + 1 > n - 1 then n - 1 else ⌊q⌋ + 1),
       (xp - x ((if ⌊q⌋ + 1 > n - 1 then n - 1 else ⌊q⌋ + 1) - 1)) * (1 / d)) := by
    unfold locate
    rw [if_pos heq, ← hddef]
    dsimp only
    rw [← hq, truncToInt_of_nonneg hq0]
  rw [hloc]
  by_cases hc : ⌊q⌋ + 1 > n - 1
  · rw [if_pos hc]
    have hkeq : ⌊q⌋ = n - 1 := by omega
    have hqe : q = ((n - 1 : ℤ) : ℚ) := le_antisymm hqn (by rw [← hkeq]; exact hk1)
    have hxe : xp = x (n - 1) := by
      rw [he' (n - 1) (by omega) (by omega), hxq, hqe]
    have hst := equi_step he (by omega : 1 ≤ n - 1) (by omega)
    rw [← hddef] at hst
    refine ⟨by omega, le_refl _, ?_, hhi, ?_⟩
    · rw [hxe]; linarith
    · rw [hst]; ring
  · rw [if_neg hc]
    have hst := equi_step he (by omega : 1 ≤ ⌊q⌋ + 1) (by omega)
    rw [← hddef] at hst
    have e1 : ⌊q⌋ + 1 - 1 = ⌊q⌋ := by ring
    have hxk : x ⌊q⌋ = x 0 + ((⌊q⌋ : ℤ) : ℚ) * d := he' ⌊q⌋ hk0 (by omega)
    have hxk1 : x (⌊q⌋ + 1) = x 0 + (((⌊q⌋ : ℤ) : ℚ) + 1) * d := by
      rw [he' (⌊q⌋ + 1) (by omega) (by omega)]; push_cast; ring
    refine ⟨by omega, by omega, ?_, ?_, ?_⟩
    · show x (⌊q⌋ + 1 - 1) ≤ xp
      rw [e1, hxk, hxq]
      have := mul_le_mul_of_nonneg_right hk1 (le_of_lt hd)
      linarith
    · show xp ≤ x (⌊q⌋ + 1)
      rw [hxk1, hxq]
      have := mul_le_mul_of_nonneg_right (le_of_lt hk2) (le_of_lt hd)
      linarith
    · rw [hst]; ring

/-- Both branches of the interval search return a bracketing pair. -/
theorem locate_bracket {x : Arr} {n : ℤ} (h : Ascending x n) (hn2 : 2 ≤ n) (hn : n < 2 ^ 30)
    {xp : ℚ} (hlo : x 0 ≤ xp) (hhi : xp ≤ x (n - 1)) (eq : ℤ) (heq : eq ≠ 0 → Equidistant x n) :
    Bracket x n xp (locate x n xp eq).1 (locate x n xp eq).2 := by
  by_cases c : eq ≠ 0
  · exact locate_equi_bracket (heq c) (h 0 (le_refl _) (by omega)) hn2 hlo hhi c
  · obtain ⟨j, r, e, hb⟩ := interp_bracket h hn2 hn hlo hhi 1 0
    unfold locate
    rw [if_neg c, e]
    exact hb

/-- Both branches of the interval search return a bracketing pair at a
supporting point. -/
theorem locate_bracket_node {x : Arr} {n : ℤ} (h : Ascending x n) (hn2 : 2 ≤ n)
    (hn : n + 1 < 2 ^ 31) {i : ℤ} (hi0 : 0 ≤ i) (hin : i < n) (eq : ℤ)
    (heq : eq ≠ 0 → Equidistant x n) :
    Bracket x n (x i) (locate x n (x i) eq).1 (locate x n (x i) eq).2 := by
  by_cases c : eq ≠ 0
  · exact locate_equi_bracket (heq c) (h 0 (le_refl _) (by omega)) hn2
      (asc_le h (le_refl _) hi0 hin) (asc_le h hi0 (by omega) (by omega)) c
  · obtain ⟨j, r, e, hb⟩ := interp_bracket_node h hn2 hn hi0 hin 1 0
    unfold locate
    rw [if_neg c, e]
    exact hb

/-- C4: for every strictly ascending `x` of length `n ≥ 2`, every `y`, every
index `i < n` and every clip flag, `rpol_linear(x, y, n, x[i], eq, clip)`
is `y[i]`, with `eq = 0` always and with `eq ≠ 0` when `x` is exactly
equidistant.  (`n + 1` has to be a 32-bit `int`, as `interp` computes it.) -/
theorem rpol_linear_at_node (x y : Arr) (n : ℤ) (hn2 : 2 ≤ n) (hn : n + 1 < 2 ^ 31)
    (h : Ascending x n) (i : ℤ) (hi0 : 0 ≤ i) (hin : i < n) (eq clip : ℤ)
    (heq : eq ≠ 0 → Equidistant x n) :
    rpol_linear x y n (x i) eq clip = y i := by
  have h01 : x 0 < x 1 := h 0 (le_refl _) (by omega)
  have hlo : x 0 ≤ x i := asc_le h (le_refl _) hi0 hin
  have hhi : x i ≤ x (n - 1) := asc_le h hi0 (by omega) (by omega)
  have hb := locate_bracket_node h hn2 hn hi0 hin eq heq
  unfold rpol_linear
  rw [if_neg (by omega), if_neg (not_le.mpr h01), if_neg (not_lt.mpr hlo),
    if_neg (not_lt.mpr hhi)]
  dsimp only
  rcases bracket_node h hi0 hin hb with ⟨e1, e2⟩ | ⟨e1, e2⟩
  · rw [e1, e2]; simp
  · rw [e1, e2]; simp

theorem rampArr_ascending (n : ℤ) : Ascending rampArr n := by
  intro i _ _
  simp [rampArr]

theorem rampArr_equidistant (n : ℤ) : Equidistant rampArr n := by
  intro i _ _
  simp [rampArr]

theorem rpol_linear_at_node_witness :
    rpol_linear rampArr dblArr 4 (rampArr 2) 1 0 = dblArr 2 :=
  rpol_linear_at_node rampArr dblArr 4 (by decide) (by norm_num)
    (rampArr_ascending 4) 2 (by decide) (by decide) 1 0 (fun _ => rampArr_equidistant 4)

/-! ## Queries outside the covered range -/

/-- The values of the four 1-D schemes below `x[0]`, and above `x[n-1]` when
not below `x[0]`. -/
theorem outside_values (x y : Arr) (n : ℤ) (hn2 : 2 ≤ n) (h01 : x 0 < x 1) (xp : ℚ)
    (eq clip : ℤ) (csp : Option (ℤ → CsplinePar)) :
    (xp < x 0 →
      rpol_nearest x y n xp eq clip = (if clip ≠ 0 then 0 else y 0) ∧
      rpol_linear x y n xp eq clip = (if clip ≠ 0 then 0 else y 0) ∧
      rpol_2nd_order x y n xp eq clip = (if clip ≠ 0 then 0 else y 0) ∧
      rpol_cspline x y csp n xp eq clip = (if clip ≠ 0 then 0 else y 0)) ∧
    (x 0 ≤ xp → x (n - 1) < xp →
      rpol_nearest x y n xp eq clip = (if clip ≠ 0 then 0 else y (n - 1)) ∧
      rpol_linear x y n xp eq clip = (if clip ≠ 0 then 0 else y (n - 1)) ∧
      rpol_2nd_order x y n xp eq clip = (if clip ≠ 0 then 0 else y (n - 1)) ∧
      rpol_cspline x y csp n xp eq clip = (if clip ≠ 0 then 0 else y (n - 1))) := by
  have hlin0 : xp < x 0 → rpol_linear x y n xp eq clip = (if clip ≠ 0 then 0 else y 0) := by
    intro hx
    unfold rpol_linear
    rw [if_neg (by omega), if_neg (not_le.mpr h01), if_pos hx]
  have hlin1 : x 0 ≤ xp → x (n - 1) < xp →
      rpol_linear x y n xp eq clip = (if clip ≠ 0 then 0 else y (n - 1)) := by
    intro hx hx'
    unfold rpol_linear
    rw [if_neg (by omega), if_neg (not_le.mpr h01), if_neg (not_lt.mpr hx), if_pos hx']
  constructor
  · intro hx
    refine ⟨?_, hlin0 hx, ?_, ?_⟩
    · unfold rpol_nearest
      rw [if_neg (by omega), if_neg (not_le.mpr h01), if_pos hx]
    · unfold rpol_2nd_order
      by_cases h3 : n < 3
      · rw [if_pos h3]; exact hlin0 hx
      · rw [if_neg h3, if_neg (not_le.mpr h01), if_pos hx]
    · unfold rpol_cspline
      cases csp with
      | none => exact hlin0 hx
      | some cp =>
        dsimp only
        by_cases h4 : n < 4
        · rw [if_pos h4]; exact hlin0 hx
        · rw [if_neg h4, if_neg (not_le.mpr h01), if_pos hx]
  · intro hx hx'
    refine ⟨?_, hlin1 hx hx', ?_, ?_⟩
    · unfold rpol_nearest
      rw [if_neg (by omega), if_neg (not_le.mpr h01), if_neg (not_lt.mpr hx), if_pos hx']
    · unfold rpol_2nd_order
      by_cases h3 : n < 3
      · rw [if_pos h3]; exact hlin1 hx hx'
      · rw [if_neg h3, if_neg (not_le.mpr h01), if_neg (not_lt.mpr hx), if_pos hx']
    · unfold rpol_cspline
      cases csp with
      | none => exact hlin1 hx hx'
      | some cp =>
        dsimp only
        by_cases h4 : n < 4
        · rw [if_pos h4]; exact hlin1 hx hx'
        · rw [if_neg h4, if_neg (not_le.mpr h01), if_neg (not_lt.mpr hx), if_pos hx']

/-- C5: on a table with `n ≥ 2` points and `x[0] < x[1]`, each of
`rpol_nearest`, `rpol_linear`, `rpol_2nd_order` and `rpol_cspline` returns 0
for every `xp < x[0]` and every `xp > x[n-1]` when `clip` is non-zero; when
`clip` is zero it returns `y[0]` for `xp < x[0]` (below) and `y[n-1]` for
`xp > x[n-1]` (above), above being the side of `x[n-1]` that is not also
below `x[0]`, as on every table with `x[0] ≤ x[n-1]`. -/
theorem clip_outside (x y : Arr) (n : ℤ) (hn2 : 2 ≤ n) (h01 : x 0 < x 1) (xp : ℚ)
    (eq clip : ℤ) (csp : Option (ℤ → CsplinePar)) :
    (clip ≠ 0 → (xp < x 0 ∨ xp > x (n - 1)) →
      rpol_nearest x y n xp eq clip = 0 ∧ rpol_linear x y n xp eq clip = 0 ∧
      rpol_2nd_order x y n xp eq clip = 0 ∧ rpol_cspline x y csp n xp eq clip = 0) ∧
    (clip = 0 → xp < x 0 →
      rpol_nearest x y n xp eq clip = y 0 ∧ rpol_linear x y n xp eq clip = y 0 ∧
      rpol_2nd_order x y n xp eq clip = y 0 ∧ rpol_cspline x y csp n xp eq clip = y 0) ∧
    (clip = 0 → xp > x (n - 1) → (x 0 ≤ x (n - 1) ∨ x 0 ≤ xp) →
      rpol_nearest x y n xp eq clip = y (n - 1) ∧ rpol_linear x y n xp eq clip = y (n - 1) ∧
      rpol_2nd_order x y n xp eq clip = y (n - 1) ∧
      rpol_cspline x y csp n xp eq clip = y (n - 1)) := by
  obtain ⟨lo, hi⟩ := outside_values x y n hn2 h01 xp eq clip csp
  refine ⟨?_, ?_, ?_⟩
  · intro hc hx
    by_cases hb : xp < x 0
    · have := lo hb
      simp only [if_pos hc] at this
      exact this
    · have ha : x (n - 1) < xp := by
        rcases hx with hx | hx
        · exact absurd hx hb
        · exact hx
      have := hi (not_lt.mp hb) ha
      simp only [if_pos hc] at this
      exact this
  · intro hc hx
    have := lo hx
    simp only [if_neg (not_not.mpr hc)] at this
    exact this
  · intro hc hx hr
    have h0 : x 0 ≤ xp := by
      rcases hr with hr | hr
      · exact le_trans hr (le_of_lt hx)
      · exact hr
    have := hi h0 hx
    simp only [if_neg (not_not.mpr hc)] at this
    exact this

theorem clip_outside_witness :
    rpol_linear rampArr dblArr 4 (-1) 0 0 = dblArr 0 ∧
    rpol_linear rampArr dblArr 4 (3 / 2) 0 0 = 3 ∧ rpol_linear rampArr dblArr 4 (-1) 0 0 = 0 ∧
    rpol_linear rampArr dblArr 4 4 0 0 = dblArr (4 - 1) ∧
    rpol_cspline rampArr dblArr none 4 4 0 1 = 0 :=
  ⟨((clip_outside rampArr dblArr 4 (by decide) (by simp [rampArr]) (-1) 0 0 none).2.1 rfl
      (by simp [rampArr])).2.1,
    by decide!, by decide!,
    ((clip_outside rampArr dblArr 4 (by decide) (by simp [rampArr]) 4 0 0 none).2.2 rfl
      (by simp [rampArr]; norm_num) (Or.inl (by simp [rampArr]))).2.1,
    ((clip_outside rampArr dblArr 4 (by decide) (by simp [rampArr]) 4 0 1 none).1 (by decide)
      (Or.inr (by simp [rampArr]; norm_num))).2.2.2⟩

/-! ## Index arithmetic against binary search -/

/-- Two correct answers of the interval search are the same pair, or the two
intervals that meet at the query. -/
theorem bracket_cases {x : Arr} {n : ℤ} (h : Ascending x n) {xp : ℚ} {j j' : ℤ} {r r' : ℚ}
    (hb : Bracket x n xp j r) (hb' : Bracket x n xp j' r') :
    (j = j' ∧ r = r') ∨ (j' = j + 1 ∧ r = 1 ∧ r' = 0 ∧ xp = x j) ∨
      (j = j' + 1 ∧ r' = 1 ∧ r = 0 ∧ xp = x j') := by
  obtain ⟨a1, a2, a3, a4, a5⟩ := hb
  obtain ⟨b1, b2, b3, b4, b5⟩ := hb'
  have key : ∀ {p q : ℤ} {s s' : ℚ}, 1 ≤ p → q ≤ n - 1 → p < q → xp ≤ x p → x (q - 1) ≤ xp →
      s = (xp - x (p - 1)) / (x p - x (p - 1)) → s' = (xp - x (q - 1)) / (x q - x (q - 1)) →
      q = p + 1 ∧ s = 1 ∧ s' = 0 ∧ xp = x p := by
    intro p q s s' p1 qn pq hp hq hs hs'
    have hle : x p ≤ x (q - 1) := asc_le h (by omega) (by omega) (by omega)
    have e1 : xp = x p := le_antisymm hp (le_trans hle hq)
    have e2 : x (q - 1) = x p := le_antisymm (by rw [← e1]; exact hq) hle
    have hq' : q = p + 1 := by
      by_contra hc
      have := asc_lt h (by omega : (0 : ℤ) ≤ p) (by omega : p < q - 1) (by omega)
      exact absurd e2 (ne_of_gt this)
    have hne : x p - x (p - 1) ≠ 0 :=
      sub_ne_zero.mpr (ne_of_gt (asc_lt h (by omega) (by omega) (by omega)))
    refine ⟨hq', ?_, ?_, e1⟩
    · rw [hs, e1, div_self hne]
    · rw [hs', e1, e2]; simp
  rcases lt_trichotomy j j' with c | c | c
  · right; left
    exact key a1 b2 c a4 b3 a5 b5
  · left
    subst c
    exact ⟨rfl, by rw [a5, b5]⟩
  · right; right
    exact key b1 a2 c b4 a3 b5 a5

/-- The value `rpol_nearest` takes from an answer of the interval search. -/
theorem nearest_value_unique {x : Arr} {n : ℤ} (h : Ascending x n) (y : Arr) {xp : ℚ}
    {j j' : ℤ} {r r' : ℚ} (hb : Bracket x n xp j r) (hb' : Bracket x n xp j' r') :
    (if r < 1 / 2 then y (j - 1) else y j) = (if r' < 1 / 2 then y (j' - 1) else y j') := by
  rcases bracket_cases h hb hb' with ⟨e1, e2⟩ | ⟨e1, e2, e3, _⟩ | ⟨e1, e2, e3, _⟩
  · rw [e1, e2]
  · rw [e1, e2, e3]; norm_num
  · rw [e1, e2, e3]; norm_num

theorem set_1d_cubic_params_some {x : Arr} {n : ℤ} (y : Arr) (hn4 : 4 ≤ n) (h : Ascending x n)
    (clamped : ℤ) :
    ∃ cp, set_1d_cubic_params x y n clamped = some cp ∧
      ∀ j : ℤ, 0 ≤ j → j < n - 1 → ∃ c c' : ℚ,
        cp j = { a := y j
                 b := (y (j + 1) - y j) / cs_h x j - cs_h x j * (c' + 2 * c) / 3
                 c := c
                 d := (c' - c) / (3 * cs_h x j) } := by
  have hany : (List.range (n - 1).toNat).any (fun i => decide (x ((i : ℤ) + 1) ≤ x i)) = false := by
    rw [List.any_eq_false]
    intro i hi
    have hi' : i < (n - 1).toNat := List.mem_range.mp hi
    have : (i : ℤ) + 1 < n := by omega
    simpa using h (i : ℤ) (by omega) this
  unfold set_1d_cubic_params
  rw [if_neg (by omega), hany]
  refine ⟨_, rfl, ?_⟩
  intro j j0 jn
  refine ⟨cs_c x y n clamped (n - 1 - j).toNat, cs_c x y n clamped (n - 1 - (j + 1)).toNat, ?_⟩
  simp [j0, jn]

/-- The polynomial of an interval takes the table values at both its ends,
whatever the second-derivative parameters. -/
theorem csx_ends (ya yb hh c c' : ℚ) (hne : hh ≠ 0) :
    csx 0 { a := ya, b := (yb - ya) / hh - hh * (c' + 2 * c) / 3, c := c, d := (c' - c) / (3 * hh) }
      = ya ∧
    csx hh { a := ya, b := (yb - ya) / hh - hh * (c' + 2 * c) / 3, c := c, d := (c' - c) / (3 * hh) }
      = yb := by
  constructor
  · simp [csx]
  · simp only [csx]
    field_simp
    ring

theorem cspline_index (x : Arr) (n : ℤ) (xp : ℚ) (eq : ℤ) :
    (if eq ≠ 0 then
        (if truncToInt ((xp - x 0) * (1 / (x 1 - x 0))) + 1 > n - 1 then n - 1
         else truncToInt ((xp - x 0) * (1 / (x 1 - x 0))) + 1)
      else (interp xp x n 1 0).1) = (locate x n xp eq).1 := by
  unfold locate
  by_cases c : eq ≠ 0
  · rw [if_pos c, if_pos c]
  · rw [if_neg c, if_neg c]

/-- C8: for every strictly ascending `x` of length `n ≥ 4`, every `y`, every
`clamped` flag and every index `i < n`, `set_1d_cubic_params(x, y, n,
clamped)` returns parameters `csp`, and `rpol_cspline(x, y, csp, n, x[i], eq,
clip)` is `y[i]`, with `eq = 0` always and with `eq ≠ 0` when `x` is exactly
equidistant.  (`n + 1` has to be a 32-bit `int`, as `interp` computes it.) -/
theorem rpol_cspline_at_node (x y : Arr) (n : ℤ) (hn4 : 4 ≤ n) (hn : n + 1 < 2 ^ 31)
    (h : Ascending x n) (clamped : ℤ) (i : ℤ) (hi0 : 0 ≤ i) (hin : i < n) (eq clip : ℤ)
    (heq : eq ≠ 0 → Equidistant x n) :
    ∃ csp, set_1d_cubic_params x y n clamped = some csp ∧
      rpol_cspline x y (some csp) n (x i) eq clip = y i := by
  obtain ⟨cp, hcp, hpar⟩ := set_1d_cubic_params_some y hn4 h clamped
  refine ⟨cp, hcp, ?_⟩
  have h01 : x 0 < x 1 := h 0 (le_refl _) (by omega)
  have hlo : x 0 ≤ x i := asc_le h (le_refl _) hi0 hin
  have hhi : x i ≤ x (n - 1) := asc_le h hi0 (by omega) (by omega)
  have hb := locate_bracket_node h (by omega) hn hi0 hin eq heq
  unfold rpol_cspline
  dsimp only
  rw [if_neg (by omega), if_neg (not_le.mpr h01), if_neg (not_lt.mpr hlo),
    if_neg (not_lt.mpr hhi), cspline_index]
  rw [if_neg (by have := hb.2.1; omega), if_neg (by have := hb.1; omega)]
  rcases bracket_node h hi0 hin hb with ⟨e1, _⟩ | ⟨e1, _⟩
  · rw [e1]
    have e : i + 1 - 1 = i := by ring
    rw [e]
    obtain ⟨c, c', hc⟩ := hpar i hi0 (by have := hb.2.1; omega)
    have hne : cs_h x i ≠ 0 := by
      unfold cs_h
      exact sub_ne_zero.mpr (ne_of_gt (h i hi0 (by have := hb.2.1; omega)))
    rw [hc, sub_self]
    exact (csx_ends (y i) (y (i + 1)) (cs_h x i) c c' hne).1
  · rw [e1]
    have i1 : 1 ≤ i := by have := hb.1; omega
    obtain ⟨c, c', hc⟩ := hpar (i - 1) (by omega) (by omega)
    have e : i - 1 + 1 = i := by ring
    have hhdef : cs_h x (i - 1) = x i - x (i - 1) := by unfold cs_h; rw [e]
    have hne : cs_h x (i - 1) ≠ 0 := by
      rw [hhdef]
      exact sub_ne_zero.mpr (ne_of_gt (asc_lt h (by omega) (by omega) hin))
    rw [hc, e, ← hhdef]
    exact (csx_ends (y (i - 1)) (y i) (cs_h x (i - 1)) c c' hne).2

theorem rpol_cspline_at_node_witness :
    ∃ csp, set_1d_cubic_params rampArr sqArr 5 1 = some csp ∧
      rpol_cspline rampArr sqArr (some csp) 5 (rampArr 2) 0 1 = sqArr 2 :=
  rpol_cspline_at_node rampArr sqArr 5 (by decide) (by norm_num) (rampArr_ascending 5) 1 2
    (by decide) (by decide) 0 1 (fun hc => absurd rfl hc)

/-! ## Bilinear interpolation on a grid -/

theorem locate2d_inside (x : Arr) (n : ℤ) {xp : ℚ} (hlo : x 0 ≤ xp) (hhi : xp ≤ x (n - 1))
    (e : ℤ) : locate2d x n xp e = locate x n xp e := by
  unfold locate2d locate
  rw [if_neg (not_lt.mpr hlo), if_neg (not_lt.mpr hhi)]

theorem grid_axis_bound {nx ny : ℤ} (hnx : 2 ≤ nx) (hny : 2 ≤ ny) (hsz : nx * ny < 2 ^ 31) :
    nx < 2 ^ 30 ∧ ny < 2 ^ 30 := by
  have h1 : nx * 2 ≤ nx * ny := mul_le_mul_of_nonneg_left hny (by omega)
  have h2 : 2 * ny ≤ nx * ny := mul_le_mul_of_nonneg_right hnx (by omega)
  have hq : (2 : ℤ) ^ 31 = 2147483648 := by norm_num
  have hp : (2 : ℤ) ^ 30 = 1073741824 := by norm_num
  constructor <;> omega

/-- C9: on every grid with strictly ascending `x` (`nx ≥ 2`) and `y`
(`ny ≥ 2`), for every `z` and every node `(i, j)`,
`rpol_2d_linear(x, y, z, nx, ny, x[i], y[j], eq, clip)` is `z[i*ny + j]`, for
`eq = 0` and for `eq` bits set on exactly equidistant axes.  (`nx * ny` has to
be a 32-bit `int`, as the indices into `z` are.) -/
theorem rpol_2d_linear_at_node (x y z : Arr) (nx ny : ℤ) (hnx : 2 ≤ nx) (hny : 2 ≤ ny)
    (hsz : nx * ny < 2 ^ 31) (hx : Ascending x nx) (hy : Ascending y ny) (i j : ℤ)
    (hi0 : 0 ≤ i) (hi : i < nx) (hj0 : 0 ≤ j) (hj : j < ny) (eq clip : ℤ)
    (hex : Int.land eq 1 ≠ 0 → Equidistant x nx) (hey : Int.land eq 2 ≠ 0 → Equidistant y ny) :
    rpol_2d_linear x y z nx ny (x i) (y j) eq clip = z (i * ny + j) := by
  obtain ⟨bx, by'⟩ := grid_axis_bound hnx hny hsz
  have hp : (2 : ℤ) ^ 30 = 1073741824 := by norm_num
  have hq : (2 : ℤ) ^ 31 = 2147483648 := by norm_num
  have hx01 : x 0 < x 1 := hx 0 (le_refl _) (by omega)
  have hy01 : y 0 < y 1 := hy 0 (le_refl _) (by omega)
  have hxlo : x 0 ≤ x i := asc_le hx (le_refl _) hi0 hi
  have hxhi : x i ≤ x (nx - 1) := asc_le hx hi0 (by omega) (by omega)
  have hylo : y 0 ≤ y j := asc_le hy (le_refl _) hj0 hj
  have hyhi : y j ≤ y (ny - 1) := asc_le hy hj0 (by omega) (by omega)
  have hbx := locate_bracket_node hx hnx (by omega) hi0 hi (Int.land eq 1) hex
  have hby := locate_bracket_node hy hny (by omega) hj0 hj (Int.land eq 2) hey
  have g1 : ¬ (nx < 2 ∨ ny < 2) := by omega
  have g2 : ¬ (x 1 ≤ x 0 ∨ y 1 ≤ y 0) := by
    rintro (c | c)
    · exact absurd c (not_le.mpr hx01)
    · exact absurd c (not_le.mpr hy01)
  have g3 : ¬ ((x i < x 0 ∨ x i > x (nx - 1)) ∧ clip ≠ 0) := by
    rintro ⟨c | c, _⟩
    · exact absurd c (not_lt.mpr hxlo)
    · exact absurd c (not_lt.mpr hxhi)
  have g4 : ¬ ((y j < y 0 ∨ y j > y (ny - 1)) ∧ clip ≠ 0) := by
    rintro ⟨c | c, _⟩
    · exact absurd c (not_lt.mpr hylo)
    · exact absurd c (not_lt.mpr hyhi)
  unfold rpol_2d_linear
  rw [if_neg g1, if_neg g2, if_neg g3]
  dsimp only
  rw [if_neg g4, locate2d_inside x nx hxlo hxhi, locate2d_inside y ny hylo hyhi]
  rcases bracket_node hx hi0 hi hbx with ⟨a1, a2⟩ | ⟨a1, a2⟩ <;>
    rcases bracket_node hy hj0 hj hby with ⟨b1, b2⟩ | ⟨b1, b2⟩ <;>
    rw [a1, a2, b1, b2] <;> simp

/-- A query strictly inside an interval is bracketed by that interval only. -/
theorem bracket_inside {x : Arr} {n : ℤ} (h : Ascending x n) {i : ℤ} (hi0 : 0 ≤ i)
    (hi : i < n - 1) {xp : ℚ} (hlo : x i < xp) (hhi : xp < x (i + 1)) {j : ℤ} {r : ℚ}
    (hb : Bracket x n xp j r) : j = i + 1 ∧ r = (xp - x i) / (x (i + 1) - x i) := by
  have e : i + 1 - 1 = i := by ring
  have hb0 : Bracket x n xp (i + 1) ((xp - x i) / (x (i + 1) - x i)) :=
    ⟨by omega, by omega, by rw [e]; exact le_of_lt hlo, le_of_lt hhi, by rw [e]⟩
  rcases bracket_cases h hb hb0 with ⟨e1, e2⟩ | ⟨e1, _, _, e4⟩ | ⟨_, _, _, e4⟩
  · exact ⟨e1, e2⟩
  · have : j = i := by omega
    rw [this] at e4
    exact absurd e4 (ne_of_gt hlo)
  · exact absurd e4 (ne_of_lt hhi)

/-- C10: on every grid with strictly ascending `x` and `y` (`nx, ny ≥ 2`), for
every cell `(i, j)`, `rpol_2d_linear` at the centre of the cell returns the
arithmetic mean of the four corner values, for `eq = 0` and for `eq` bits set
on exactly equidistant axes, with and without clipping.  (`nx * ny` has to be
a 32-bit `int`, as the indices into `z` are.) -/
theorem rpol_2d_linear_cell_centre (x y z : Arr) (nx ny : ℤ) (hnx : 2 ≤ nx) (hny : 2 ≤ ny)
    (hsz : nx * ny < 2 ^ 31) (hx : Ascending x nx) (hy : Ascending y ny) (i j : ℤ)
    (hi0 : 0 ≤ i) (hi : i < nx - 1) (hj0 : 0 ≤ j) (hj : j < ny - 1) (eq clip : ℤ)
    (hex : Int.land eq 1 ≠ 0 → Equidistant x nx) (hey : Int.land eq 2 ≠ 0 → Equidistant y ny) :
    rpol_2d_linear x y z nx ny ((x i + x (i + 1)) / 2) ((y j + y (j + 1)) / 2) eq clip =
      (z (i * ny + j) + z (i * ny + j + 1) + z ((i + 1) * ny + j) + z ((i + 1) * ny + j + 1)) / 4 := by
  obtain ⟨bx, by'⟩ := grid_axis_bound hnx hny hsz
  have hx01 : x 0 < x 1 := hx 0 (le_refl _) (by omega)
  have hy01 : y 0 < y 1 := hy 0 (le_refl _) (by omega)
  have hxi : x i < x (i + 1) := hx i hi0 (by omega)
  have hyj : y j < y (j + 1) := hy j hj0 (by omega)
  have cx1 : x i < (x i + x (i + 1)) / 2 := by linarith
  have cx2 : (x i + x (i + 1)) / 2 < x (i + 1) := by linarith
  have cy1 : y j < (y j + y (j + 1)) / 2 := by linarith
  have cy2 : (y j + y (j + 1)) / 2 < y (j + 1) := by linarith
  have hxlo : x 0 ≤ (x i + x (i + 1)) / 2 :=
    le_trans (asc_le hx (le_refl _) hi0 (by omega)) (le_of_lt cx1)
  have hxhi : (x i + x (i + 1)) / 2 ≤ x (nx - 1) :=
    le_trans (le_of_lt cx2) (asc_le hx (by omega) (by omega) (by omega))
  have hylo : y 0 ≤ (y j + y (j + 1)) / 2 :=
    le_trans (asc_le hy (le_refl _) hj0 (by omega)) (le_of_lt cy1)
  have hyhi : (y j + y (j + 1)) / 2 ≤ y (ny - 1) :=
    le_trans (le_of_lt cy2) (asc_le hy (by omega) (by omega) (by omega))
  have hbx := locate_bracket hx hnx bx hxlo hxhi (Int.land eq 1) hex
  have hby := locate_bracket hy hny by' hylo hyhi (Int.land eq 2) hey
  obtain ⟨a1, a2⟩ := bracket_inside hx hi0 hi cx1 cx2 hbx
  obtain ⟨b1, b2⟩ := bracket_inside hy hj0 hj cy1 cy2 hby
  have ra : ((x i + x (i + 1)) / 2 - x i) / (x (i + 1) - x i) = 1 / 2 := by
    have : x (i + 1) - x i ≠ 0 := sub_ne_zero.mpr (ne_of_gt hxi)
    field_simp
    ring
  have rb : ((y j + y (j + 1)) / 2 - y j) / (y (j + 1) - y j) = 1 / 2 := by
    have : y (j + 1) - y j ≠ 0 := sub_ne_zero.mpr (ne_of_gt hyj)
    field_simp
    ring
  have g1 : ¬ (nx < 2 ∨ ny < 2) := by omega
  have g2 : ¬ (x 1 ≤ x 0 ∨ y 1 ≤ y 0) := by
    rintro (c | c)
    · exact absurd c (not_le.mpr hx01)
    · exact absurd c (not_le.mpr hy01)
  have g3 : ¬ (((x i + x (i + 1)) / 2 < x 0 ∨ (x i + x (i + 1)) / 2 > x (nx - 1)) ∧ clip ≠ 0) := by
    rintro ⟨c | c, _⟩
    · exact absurd c (not_lt.mpr hxlo)
    · exact absurd c (not_lt.mpr hxhi)
  have g4 : ¬ (((y j + y (j + 1)) / 2 < y 0 ∨ (y j + y (j + 1)) / 2 > y (ny - 1)) ∧ clip ≠ 0) := by
    rintro ⟨c | c, _⟩
    · exact absurd c (not_lt.mpr hylo)
    · exact absurd c (not_lt.mpr hyhi)
  unfold rpol_2d_linear
  rw [if_neg g1, if_neg g2, if_neg g3]
  dsimp only
  rw [if_neg g4, locate2d_inside x nx hxlo hxhi, locate2d_inside y ny hylo hyhi,
    a1, a2, b1, b2, ra, rb]
  have e1 : i + 1 - 1 = i := by ring
  have e2 : j + 1 - 1 = j := by ring
  have e3 : i * ny + (j + 1) = i * ny + j + 1 := by ring
  have e4 : (i + 1) * ny + (j + 1) = (i + 1) * ny + j + 1 := by ring
  rw [e1, e2, e3, e4]
  ring

theorem gridX_ascending : Ascending gridX 2 := by
  intro i h0 h1
  have : i = 0 := by omega
  subst this
  decide!

theorem gridY_ascending : Ascending gridY 3 := by
  intro i h0 h1
  rcases (by omega : i = 0 ∨ i = 1) with e | e <;> subst e <;> decide!

theorem gridY_equidistant : Equidistant gridY 3 := by
  intro i h0 h1
  rcases (by omega : i = 0 ∨ i = 1 ∨ i = 2) with e | e | e <;> subst e <;> decide!

theorem rpol_2d_linear_at_node_witness :
    rpol_2d_linear gridX gridY gridZ 2 3 (gridX 1) (gridY 1) 2 1 = gridZ (1 * 3 + 1) :=
  rpol_2d_linear_at_node gridX gridY gridZ 2 3 (by decide) (by decide) (by norm_num)
    gridX_ascending gridY_ascending 1 1 (by decide) (by decide) (by decide) (by decide) 2 1
    (fun hc => absurd (by decide) hc) (fun _ => gridY_equidistant)

theorem rpol_2d_linear_cell_centre_witness :
    rpol_2d_linear gridX gridY gridZ 2 3 ((gridX 0 + gridX (0 + 1)) / 2)
        ((gridY 1 + gridY (1 + 1)) / 2) 2 0 =
      (gridZ (0 * 3 + 1) + gridZ (0 * 3 + 1 + 1) + gridZ ((0 + 1) * 3 + 1) +
        gridZ ((0 + 1) * 3 + 1 + 1)) / 4 :=
  rpol_2d_linear_cell_centre gridX gridY gridZ 2 3 (by decide) (by decide) (by norm_num)
    gridX_ascending gridY_ascending 0 1 (by decide) (by decide) (by decide) (by decide) 2 0
    (fun hc => absurd (by decide) hc) (fun _ => gridY_equidistant)

/-! ## The table registry: loading and releasing -/

theorem mem_of_getD_some {l : List (Option ℕ)} {pos a : ℕ} (h : l.getD pos none = some a) :
    some a ∈ l := by
  rw [List.getD_eq_getElem?_getD] at h
  cases hl : l[pos]? with
  | none => simp [hl] at h
  | some v =>
    simp [hl] at h
    subst h
    exact List.getElem?_mem hl

/-- The search loop passes over entries with a table only. -/
theorem rpt_list_find_passed (hit : ℕ → Bool) :
    ∀ (l : List (Option ℕ)) (p0 pos : ℕ), rpt_list_find hit l p0 = some pos →
      p0 ≤ pos ∧ ∀ e ∈ l.take (pos - p0), ∃ a, e = some a := by
  intro l
  induction l with
  | nil => intro p0 pos h; simp [rpt_list_find] at h
  | cons n0 rest ih =>
    intro p0 pos h
    cases rest with
    | nil =>
      simp [rpt_list_find] at h
      subst h
      simp
    | cons b rest2 =>
      cases n0 with
      | none =>
        simp [rpt_list_find] at h
        subst h
        simp
      | some a =>
        simp only [rpt_list_find] at h
        split at h
        · simp at h
          subst h
          simp
        · obtain ⟨h1, h2⟩ := ih (p0 + 1) pos h
          refine ⟨by omega, ?_⟩
          have e : pos - p0 = (pos - (p0 + 1)) + 1 := by omega
          rw [e, List.take_succ_cons]
          intro e' he'
          rcases List.mem_cons.mp he' with c | c
          · exact ⟨a, c⟩
          · exact h2 e' c

theorem read_load_use_count {src : TableSource} {fnplus fnclean options_eff : String} {nd : ℤ}
    {ymarker options : Option String} {rpt : RpolTable}
    (h : read_load src fnplus fnclean options_eff nd ymarker options = some rpt) :
    rpt.use_count = 1 := by
  unfold read_load at h
  dsimp only at h
  split at h
  · exact absurd h (by simp)
  · split at h
    · exact absurd h (by simp)
    · split at h
      · exact absurd h (by simp)
      · injection h with h
        rw [← h]

/-- The outcomes of one call of `read_rpol_table`: NULL, a table found in the
catalogue whose counter is incremented, or a newly read table appended to the
catalogue in front of a fresh placeholder. -/
theorem read_rpol_table_cases (src : TableSource) (s : RpolState) (fname : String) (nd : ℤ)
    (ymarker options : Option String) :
    ((read_rpol_table src s fname nd ymarker options).2 = none) ∨
    (∃ a, some a ∈ (if s.rpt_list_base = [] then [none] else s.rpt_list_base) ∧
      (read_rpol_table src s fname nd ymarker options).2 = some a ∧
      (read_rpol_table src s fname nd ymarker options).1.rpt_list_base =
        (if s.rpt_list_base = [] then [none] else s.rpt_list_base) ∧
      ((∃ t, s.deref a = some t ∧
          (read_rpol_table src s fname nd ymarker options).1.heap =
            s.heap.set a (some (use_again t))) ∨
        (s.deref a = none ∧ (read_rpol_table src s fname nd ymarker options).1.heap = s.heap))) ∨
    (∃ (hit : ℕ → Bool) (pos : ℕ) (rpt : RpolTable),
      rpt_list_find hit (if s.rpt_list_base = [] then [none] else s.rpt_list_base) 0 = some pos ∧
      (read_rpol_table src s fname nd ymarker options).2 = some s.heap.length ∧
      (read_rpol_table src s fname nd ymarker options).1.heap = s.heap ++ [some rpt] ∧
      rpt.use_count = 1 ∧
      (read_rpol_table src s fname nd ymarker options).1.rpt_list_base =
        (if s.rpt_list_base = [] then [none] else s.rpt_list_base).take pos ++
          [some s.heap.length, none]) := by
  unfold read_rpol_table
  dsimp only
  split
  · left; rfl
  · split
    · left; rfl
    · rename_i pos hpos
      split
      · rename_i a ha
        right; left
        refine ⟨a, ?_, ?_⟩
        · exact mem_of_getD_some ha
        · split
          · rename_i t ht
            exact ⟨rfl, rfl, Or.inl ⟨t, ht, rfl⟩⟩
          · rename_i ht
            exact ⟨rfl, rfl, Or.inr ⟨ht, rfl⟩⟩
      · split
        · left; rfl
        · rename_i rpt hrpt
          right; right
          exact ⟨_, pos, rpt, hpos, rfl, rfl, read_load_use_count hrpt, rfl⟩

theorem deref_set {s : RpolState} {t : ℕ} (ht : t < s.heap.length) (v : Option RpolTable)
    (l : List (Option ℕ)) :
    RpolState.deref { heap := s.heap.set t v, rpt_list_base := l } t = v := by
  simp [RpolState.deref, List.getD_eq_getElem?_getD, ht]

/-- A first call that returns a table allocated by it leaves that table as
the last catalogue entry, with counter 1. -/
theorem read_fresh_held (src : TableSource) (s : RpolState)
    (hwf : ∀ a, some a ∈ s.rpt_list_base → a < s.heap.length) (fname : String) (nd : ℤ)
    (ymarker options : Option String)
    (h : (read_rpol_table src s fname nd ymarker options).2 = some s.heap.length) :
    ∃ xs ys zs, Held (read_rpol_table src s fname nd ymarker options).1 s.heap.length 1 xs ys zs := by
  rcases read_rpol_table_cases src s fname nd ymarker options with c | ⟨a, ha, e, _⟩ |
    ⟨hit, pos, rpt, hf, _, hheap, huc, hlist⟩
  · rw [c] at h; exact absurd h (by simp)
  · rw [e] at h
    injection h with h
    subst h
    split at ha
    · simp at ha
    · exact absurd (hwf _ ha) (lt_irrefl _)
  · refine ⟨rpt.x, rpt.y, rpt.z, _, rpt, hlist, ?_, ?_, ?_, huc, rfl, rfl, rfl⟩
    · intro e he
      obtain ⟨_, hp⟩ := rpt_list_find_passed hit _ 0 pos hf
      obtain ⟨a, ea⟩ := hp e (by simpa using he)
      refine ⟨a, ea, ?_⟩
      have hmem : e ∈ (if s.rpt_list_base = [] then [none] else s.rpt_list_base) :=
        List.mem_of_mem_take he
      split at hmem
      · rw [ea] at hmem; simp at hmem
      · rw [ea] at hmem
        exact ne_of_lt (hwf a hmem)
    · rw [hheap]; simp
    · simp [RpolState.deref, hheap, List.getD_eq_getElem?_getD]

/-- A further call that returns a held table increments its counter and
changes nothing else of it. -/
theorem read_again_held (src : TableSource) (s : RpolState) (fname : String) (nd : ℤ)
    (ymarker options : Option String) {t : ℕ} {c : ℤ} {xs ys zs : Option (List ℚ)}
    (hh : Held s t c xs ys zs)
    (h : (read_rpol_table src s fname nd ymarker options).2 = some t) :
    Held (read_rpol_table src s fname nd ymarker options).1 t (c + 1) xs ys zs := by
  obtain ⟨P, tbl, hl, hP, ht, hd, huc, hx, hy, hz⟩ := hh
  have hne : s.rpt_list_base ≠ [] := by rw [hl]; simp
  rcases read_rpol_table_cases src s fname nd ymarker options with c' | ⟨a, _, e, el, hcase⟩ |
    ⟨_, _, _, _, e, _, _, _⟩
  · rw [c'] at h; exact absurd h (by simp)
  · rw [e] at h
    injection h with h
    subst h
    rw [if_neg hne] at el
    rcases hcase with ⟨t', ht', hheap⟩ | ⟨hnone, _⟩
    · rw [hd] at ht'
      injection ht' with ht'
      subst ht'
      refine ⟨P, use_again tbl, by rw [el, hl], hP, by rw [hheap]; simpa using ht, ?_, ?_, hx, hy, hz⟩
      · simp [RpolState.deref, hheap, List.getD_eq_getElem?_getD, ht]
      · simp [use_again, huc]
    · rw [hd] at hnone; exact absurd hnone (by simp)
  · rw [e] at h
    injection h with h
    exact absurd h (ne_of_gt ht)

theorem reads_held (src : TableSource) (fname : String) (nd : ℤ)
    (ymarker options : Option String) {t : ℕ} {xs ys zs : Option (List ℚ)} :
    ∀ (k : ℕ) (s sk : RpolState) (c : ℤ), Held s t c xs ys zs →
      reads src fname nd ymarker options t k s = some sk → Held sk t (c + k) xs ys zs := by
  intro k
  induction k with
  | zero =>
    intro s sk c hh h
    simp [reads] at h
    subst h
    simpa using hh
  | succ k ih =>
    intro s sk c hh h
    simp only [reads] at h
    split at h
    · rename_i hr
      have := ih _ sk (c + 1) (read_again_held src s fname nd ymarker options hh hr) h
      have e : c + ((k + 1 : ℕ) : ℤ) = c + 1 + (k : ℤ) := by push_cast; ring
      rw [e]; exact this
    · exact absurd h (by simp)

theorem unlink_rest_skip (t a : ℕ) {b : Option ℕ} (hb : ¬ b = some t) (rest : List (Option ℕ)) :
    unlink_rest t (some a :: b :: rest) = some a :: unlink_rest t (b :: rest) := by
  cases rest <;> simp [unlink_rest, hb]

/-- Unlinking the last entry of a catalogue whose earlier entries are other
tables leaves those entries and the placeholder, or a NULL base. -/
theorem unlink_last (t : ℕ) (P : List (Option ℕ)) (hP : ∀ e ∈ P, ∃ a, e = some a ∧ a ≠ t) :
    unlink_rest t (unlink_first t (P ++ [some t, none])) = (if P = [] then [] else P ++ [none]) := by
  cases P with
  | nil => simp [unlink_first, unlink_rest]
  | cons n0 P' =>
    obtain ⟨a, ea, hat⟩ := hP n0 (List.mem_cons_self _ _)
    subst ea
    have hfirst : unlink_first t (some a :: P' ++ [some t, none]) = some a :: P' ++ [some t, none] := by
      simp [unlink_first, hat]
    rw [hfirst, if_neg (by simp)]
    have hP' : ∀ e ∈ P', ∃ a, e = some a ∧ a ≠ t := fun e he => hP e (List.mem_cons_of_mem _ he)
    clear hP hfirst
    induction P' generalizing a with
    | nil => simp [unlink_rest]
    | cons b P'' ih =>
      obtain ⟨b', eb, hbt⟩ := hP' b (List.mem_cons_self _ _)
      subst eb
      have := ih b' hbt (fun e he => hP' e (List.mem_cons_of_mem _ he))
      simp only [List.cons_append] at this ⊢
      have hb : ¬ (some b' = some t) := by simpa using hbt
      rw [unlink_rest_skip t a hb, this]

theorem rpol_free_held_dec {s : RpolState} {t : ℕ} {c : ℤ} {xs ys zs : Option (List ℚ)}
    (hh : Held s t c xs ys zs) (hc : 1 < c) (r : ℤ) :
    Held (rpol_free s (some t) r) t (c - 1) xs ys zs := by
  obtain ⟨P, tbl, hl, hP, ht, hd, huc, hx, hy, hz⟩ := hh
  unfold rpol_free
  simp only [hd]
  rw [if_pos (by rw [huc]; exact hc)]
  refine ⟨P, use_less tbl, hl, hP, by simpa using ht, ?_, ?_, hx, hy, hz⟩
  · simp [RpolState.deref, List.getD_eq_getElem?_getD, ht]
  · simp [use_less, huc]

theorem rpol_free_held_last {s : RpolState} {t : ℕ} {xs ys zs : Option (List ℚ)}
    (hh : Held s t 1 xs ys zs) (r : ℤ) :
    some t ∉ (rpol_free s (some t) r).rpt_list_base ∧
    (r = 0 → ∃ tf, (rpol_free s (some t) r).deref t = some tf ∧ tf.use_count = 0 ∧
      tf.x = none ∧ tf.y = none ∧ tf.z = none ∧ tf.zxmax = none ∧ tf.zxmin = none ∧
      tf.fname = none ∧ tf.options = none ∧ tf.csp = none) ∧
    (r ≠ 0 → (rpol_free s (some t) r).deref t = none) := by
  obtain ⟨P, tbl, hl, hP, ht, hd, huc, hx, hy, hz⟩ := hh
  have hfm : (free_members tbl).use_count = 1 := by simp [free_members, huc]
  have hstate : rpol_free s (some t) r =
      { heap := s.heap.set t (if r ≠ 0 then none else some (use_less (free_members tbl)))
        rpt_list_base := if P = [] then [] else P ++ [none] } := by
    unfold rpol_free
    simp only [hd]
    have h2 : (if (free_members tbl).use_count > 0 then use_less (free_members tbl)
        else free_members tbl) = use_less (free_members tbl) := if_pos (by rw [hfm]; decide)
    rw [if_neg (by rw [huc]; decide), if_neg (by rw [huc]; decide), h2, hl, unlink_last t P hP]
  rw [hstate]
  refine ⟨?_, ?_, ?_⟩
  · dsimp only
    split
    · simp
    · intro hm
      rcases List.mem_append.mp hm with c | c
      · obtain ⟨a, ea, hat⟩ := hP _ c
        injection ea with ea
        exact hat ea.symm
      · simp at c
  · intro hr
    refine ⟨use_less (free_members tbl), ?_, ?_⟩
    · rw [deref_set ht, if_neg (by simpa using hr)]
    · simp [use_less, free_members, huc]
  · intro hr
    rw [deref_set ht, if_pos hr]

theorem frees_append (t : ℕ) (rs : List ℤ) (r : ℤ) (s : RpolState) :
    frees t (rs ++ [r]) s = rpol_free (frees t rs s) (some t) r := by
  induction rs generalizing s with
  | nil => rfl
  | cons a rs ih => simp only [List.cons_append, frees]; exact ih _

theorem frees_held {t : ℕ} {xs ys zs : Option (List ℚ)} :
    ∀ (rs : List ℤ) (s : RpolState) (c : ℤ), Held s t c xs ys zs → (rs.length : ℤ) < c →
      Held (frees t rs s) t (c - rs.length) xs ys zs := by
  intro rs
  induction rs with
  | nil => intro s c hh _; simpa [frees] using hh
  | cons r rs ih =>
    intro s c hh hc
    simp only [List.length_cons, Nat.cast_add, Nat.cast_one] at hc
    have := ih _ (c - 1) (rpol_free_held_dec hh (by omega) r) (by omega)
    simp only [frees, List.length_cons, Nat.cast_add, Nat.cast_one]
    have e : c - ((rs.length : ℤ) + 1) = c - 1 - (rs.length : ℤ) := by ring
    rw [e]; exact this

/-- C2: when `k ≥ 1` calls of `read_rpol_table` with the same arguments all
return the table `t` that the first of them allocated, the table has
`use_count = k`; after any `j < k` calls of `rpol_free` it is still in the
catalogue with `use_count = k - j` and its `x`, `y`, `z` data unchanged; the
`k`-th `rpol_free` removes its entry from the catalogue and releases its
buffers, leaving `use_count = 0` in the structure, which is itself released
when `removing` is non-zero. -/
theorem registry_release (src : TableSource) (s0 : RpolState)
    (hwf : ∀ a, some a ∈ s0.rpt_list_base → a < s0.heap.length) (fname : String) (nd : ℤ)
    (ymarker options : Option String) (k : ℕ) (hk : 1 ≤ k) (sk : RpolState)
    (hreads : reads src fname nd ymarker options s0.heap.length k s0 = some sk) :
    ∃ tk, sk.deref s0.heap.length = some tk ∧ tk.use_count = k ∧
      (∀ rs : List ℤ, rs.length < k →
        ∃ tj, (frees s0.heap.length rs sk).deref s0.heap.length = some tj ∧
          some s0.heap.length ∈ (frees s0.heap.length rs sk).rpt_list_base ∧
          tj.use_count = (k : ℤ) - rs.length ∧ tj.x = tk.x ∧ tj.y = tk.y ∧ tj.z = tk.z) ∧
      (∀ (rs : List ℤ) (r : ℤ), rs.length + 1 = k →
        some s0.heap.length ∉ (frees s0.heap.length (rs ++ [r]) sk).rpt_list_base ∧
        (r = 0 → ∃ tf, (frees s0.heap.length (rs ++ [r]) sk).deref s0.heap.length = some tf ∧
          tf.use_count = 0 ∧ tf.x = none ∧ tf.y = none ∧ tf.z = none ∧ tf.zxmax = none ∧
          tf.zxmin = none ∧ tf.fname = none ∧ tf.options = none ∧ tf.csp = none) ∧
        (r ≠ 0 → (frees s0.heap.length (rs ++ [r]) sk).deref s0.heap.length = none)) := by
  obtain ⟨k', rfl⟩ : ∃ k', k = k' + 1 := ⟨k - 1, by omega⟩
  simp only [reads] at hreads
  split at hreads
  · rename_i h1
    obtain ⟨xs, ys, zs, hh1⟩ := read_fresh_held src s0 hwf fname nd ymarker options h1
    have hhk := reads_held src fname nd ymarker options k' _ sk 1 hh1 hreads
    have hhk' : Held sk s0.heap.length ((k' + 1 : ℕ) : ℤ) xs ys zs := by
      have e : ((k' + 1 : ℕ) : ℤ) = 1 + (k' : ℤ) := by push_cast; ring
      rw [e]; exact hhk
    have hcopy := hhk'
    obtain ⟨P, tk, _, _, _, hd, huc, hx, hy, hz⟩ := hcopy
    refine ⟨tk, hd, huc, ?_, ?_⟩
    · intro rs hrs
      obtain ⟨P', tj, hl', _, _, hd', huc', hx', hy', hz'⟩ :=
        frees_held rs sk _ hhk' (by exact_mod_cast hrs)
      refine ⟨tj, hd', ?_, huc', by rw [hx', hx], by rw [hy', hy], by rw [hz', hz]⟩
      rw [hl']; simp
    · intro rs r hrs
      have hh := frees_held rs sk _ hhk' (by rw [← hrs]; push_cast; omega)
      have e : ((k' + 1 : ℕ) : ℤ) - (rs.length : ℤ) = 1 := by rw [← hrs]; push_cast; ring
      rw [e] at hh
      rw [frees_append]
      exact rpol_free_held_last hh r
  · exact absurd hreads (by simp)

theorem registry_release_witness :
    ∃ tk, demoTwice.deref 0 = some tk ∧ tk.use_count = (2 : ℕ) ∧
      (∀ rs : List ℤ, rs.length < 2 →
        ∃ tj, (frees 0 rs demoTwice).deref 0 = some tj ∧
          some 0 ∈ (frees 0 rs demoTwice).rpt_list_base ∧
          tj.use_count = ((2 : ℕ) : ℤ) - rs.length ∧ tj.x = tk.x ∧ tj.y = tk.y ∧ tj.z = tk.z) ∧
      (∀ (rs : List ℤ) (r : ℤ), rs.length + 1 = 2 →
        some 0 ∉ (frees 0 (rs ++ [r]) demoTwice).rpt_list_base ∧
        (r = 0 → ∃ tf, (frees 0 (rs ++ [r]) demoTwice).deref 0 = some tf ∧
          tf.use_count = 0 ∧ tf.x = none ∧ tf.y = none ∧ tf.z = none ∧ tf.zxmax = none ∧
          tf.zxmin = none ∧ tf.fname = none ∧ tf.options = none ∧ tf.csp = none) ∧
        (r ≠ 0 → (frees 0 (rs ++ [r]) demoTwice).deref 0 = none)) :=
  registry_release demoSource {} (by intro a h; simp at h) "t.dat" (-1) none none 2 (by decide)
    demoTwice (by decide)

/-- C1: a second `read_rpol_table` call with the same arguments is answered
from the catalogue when `nd` is negative (same table, no new entry,
`use_count` 2), but with `nd = 0` the file `t.dat`, whose header declares
format 1, is read a second time: the two calls return different tables, the
catalogue holds two entries and each table has `use_count` 1. -/
theorem read_twice_auto_detect :
    (read_rpol_table demoSource {} "t.dat" (-1) none none).2 = some 0 ∧
    (read_rpol_table demoSource (read_rpol_table demoSource {} "t.dat" (-1) none none).1
      "t.dat" (-1) none none).2 = some 0 ∧
    demoTwice.rpt_list_base = [some 0, none] ∧
    (demoTwice.deref 0).map (fun t => t.use_count) = some 2 ∧
    (read_rpol_table demoSource {} "t.dat" 0 none none).2 = some 0 ∧
    (read_rpol_table demoSource (read_rpol_table demoSource {} "t.dat" 0 none none).1
      "t.dat" 0 none none).2 = some 1 ∧
    (read_rpol_table demoSource (read_rpol_table demoSource {} "t.dat" 0 none none).1
      "t.dat" 0 none none).1.rpt_list_base = [some 0, some 1, none] ∧
    ((read_rpol_table demoSource (read_rpol_table demoSource {} "t.dat" 0 none none).1
      "t.dat" 0 none none).1.deref 0).map (fun t => t.use_count) = some 1 := by
  decide

/-- C3: `simple_rpol1d_table` returns NULL for every argument, because after
allocating `x` and `z` it tests the member `y`, which is still NULL from
`calloc`; the catalogue is not modified. -/
theorem simple_rpol1d_table_null (s : RpolState) (label : String) (x y : Option (List ℚ))
    (n clip : ℤ) :
    (simple_rpol1d_table s label x y n clip).2 = none ∧
    (simple_rpol1d_table s label x y n clip).1.rpt_list_base = s.rpt_list_base := by
  unfold simple_rpol1d_table
  split
  · exact ⟨rfl, rfl⟩
  · dsimp only
    split
    · exact ⟨rfl, rfl⟩
    · rename_i hc
      exact absurd (Or.inr rfl) hc

/-! ## The dispatch facade outside the range -/

/-- With clipping, each 1-D scheme returns 0 for a query outside the range. -/
theorem outside_clipped (x y : Arr) (n : ℤ) (hn2 : 2 ≤ n) (h01 : x 0 < x 1) (xp : ℚ)
    (eq clip : ℤ) (hclip : clip ≠ 0) (csp : Option (ℤ → CsplinePar))
    (hout : xp < x 0 ∨ x (n - 1) < xp) :
    rpol_nearest x y n xp eq clip = 0 ∧ rpol_linear x y n xp eq clip = 0 ∧
    rpol_2nd_order x y n xp eq clip = 0 ∧ rpol_cspline x y csp n xp eq clip = 0 := by
  have hv := outside_values x y n hn2 h01 xp eq clip csp
  by_cases c : xp < x 0
  · have := hv.1 c
    simpa [hclip] using this
  · have hx : x (n - 1) < xp := by
      rcases hout with h | h
      · exact absurd h c
      · exact h
    have := hv.2 (not_lt.mp c) hx
    simpa [hclip] using this

/-- C6: on a usable 1-D table with clipping and the z-log flag set,
`rpolate_1d` at a query outside the covered range does not return 0: the 0 of
the clipped interpolation is passed through `exp`, so the result is
`exp(0) = 1`. -/
theorem rpolate_1d_clip_zlog (expf logf : ℚ → ℚ) (t : RpolTable) (hd : t.ndim = 1)
    (hn : 2 ≤ (t.nx : ℤ)) (h01 : arr t.x 0 < arr t.x 1) (hclip : t.clipping ≠ 0)
    (hz : t.zlog ≠ 0) (xq : ℚ) (scheme : ℤ)
    (hs : 0 ≤ (if scheme < 0 ∨ scheme > 4 then t.scheme else scheme) ∧
      (if scheme < 0 ∨ scheme > 4 then t.scheme else scheme) ≤ 4)
    (hxl : t.xlog ≠ 0 → xq > 0)
    (hout : (if t.xlog ≠ 0 then logf xq else xq) < arr t.x 0 ∨
      arr t.x ((t.nx : ℤ) - 1) < (if t.xlog ≠ 0 then logf xq else xq)) :
    rpolate_1d expf logf (some t) xq scheme = expf 0 := by
  obtain ⟨v0, v1, v2, v3⟩ := outside_clipped (arr t.x) (arr t.z) t.nx hn h01 _
    (Int.land t.equidistant 1) t.clipping hclip (cspArr t.csp) hout
  unfold rpolate_1d
  have g0 : ¬ (t.xlog ≠ 0 ∧ ¬ xq > 0) := fun hc => hc.2 (hxl hc.1)
  have g1 : ¬ (scheme = -1 ∧ t.ndim ≥ 2 ∧ t.zxmax ≠ none) := by rw [hd]; rintro ⟨_, c, _⟩; omega
  have g2 : ¬ (scheme = -2 ∧ t.ndim ≥ 2 ∧ t.zxmin ≠ none) := by rw [hd]; rintro ⟨_, c, _⟩; omega
  have g3 : ¬ (t.ndim ≠ 1) := not_not.mpr hd
  dsimp only
  rw [if_neg g0, if_neg g1, if_neg g2, if_neg g3, v0, v1, v2, v3]
  simp only [if_pos hz]
  split_ifs <;> first | rfl | omega

theorem rpolate_1d_clip_zlog_witness :
    rpolate_1d expTaylor (fun q => q) (some demoLogTable) 5 1 = expTaylor 0 :=
  rpolate_1d_clip_zlog expTaylor (fun q => q) demoLogTable rfl (by decide) (by decide!)
    (by decide) (by decide) 5 1 (by decide) (fun h => absurd rfl h) (Or.inr (by decide!))

/-! ## The 2-D example (C11) -/

/-- The table `read_rpol_table` builds from the format 2 file with the y
values `0 10 20` and the rows `0 1 2 3` and `5 4 5 6`. -/
theorem demoGrid2_eq :
    demoGrid2 = some
      { ndim := 2, nx := 2, ny := 3, x := some [0, 5], y := some [0, 10, 20],
        z := some [1, 2, 3, 4, 5, 6], xmin := 0, xmax := 5, dx := 5, dxi := 1 / 5, xrise := 1,
        ymin := 0, ymax := 20, dy := 10, dyi := 1 / 10, yrise := 1, zmin := 1, zmax := 6,
        fname := some "grid2.dat", equidistant := 3, scheme := 1, clipping := 0,
        use_count := 1 } := by
  decide!

/-- The bilinear value of the grid `x = 0, 5`, `y = 0, 10, 20`,
`z = 1 2 3 / 4 5 6` at `(2.5, 10)`, with both axes flagged equidistant. -/
theorem grid2_value :
    rpol_2d_linear (arr (some [0, 5])) (arr (some [0, 10, 20])) (arr (some [1, 2, 3, 4, 5, 6]))
      2 3 (5 / 2) 10 3 0 = 7 / 2 := by
  decide!

/-- C11, the claim as stated fails: on the table loaded from the format 2
file with the y values `0 10 20` and the rows `0 1 2 3` and `5 4 5 6` (so
`x = [0, 5]`, `y = [0, 10, 20]`, `z = [1, 2, 3, 4, 5, 6]`, linear scheme, no
clipping) `rpolate_2d` at `(2.5, 10)` does not return 2.5. -/
theorem rpolate_2d_example_counterexample :
    demoGrid2.map (fun t => (t.x, t.y, t.z, t.scheme, t.clipping)) =
        some (some [0, 5], some [0, 10, 20], some [1, 2, 3, 4, 5, 6], 1, 0) ∧
      rpolate_2d expTaylor expTaylor demoGrid2 (5 / 2) 10 1 ≠ 5 / 2 := by
  decide!

/-- C11 (amended): on the table loaded from the format 2 file with the y
values `0 10 20` and the rows `0 1 2 3` and `5 4 5 6` (so `x = [0, 5]`,
`y = [0, 10, 20]`, `z = [1, 2, 3, 4, 5, 6]`, linear scheme, no clipping) the
bilinear evaluation `rpolate_2d` at `(2.5, 10)` returns 3.5, the mean of the
values 2 and 5 the two rows have at `y = 10`; so does `rpolate`, for the
linear scheme as for the scheme of the table and whatever `exp` and `log`
are. -/
theorem rpolate_2d_example (expf logf : ℚ → ℚ) :
    demoGrid2.map (fun t => (t.x, t.y, t.z, t.scheme, t.clipping)) =
        some (some [0, 5], some [0, 10, 20], some [1, 2, 3, 4, 5, 6], 1, 0) ∧
      rpolate_2d expf logf demoGrid2 (5 / 2) 10 1 = 7 / 2 ∧
      rpolate_2d expf logf demoGrid2 (5 / 2) 10 (-1) = 7 / 2 ∧
      rpolate expf logf demoGrid2 (5 / 2) 10 1 = 7 / 2 := by
  have hv := grid2_value
  rw [demoGrid2_eq]
  refine ⟨rfl, ?_, ?_, ?_⟩
  · simp only [rpolate_2d]
    norm_num
    exact hv
  · simp only [rpolate_2d]
    norm_num
    exact hv
  · simp only [rpolate, rpolate_2d]
    norm_num
    exact hv

/-! ## The reversal of descending 1-D tables (C12) -/


/-- A swap keeps the length of the buffer. -/
theorem swap_ends_length (n : ℕ) (l : List ℚ) (i : ℕ) : (swap_ends n l i).length = l.length := by
  simp [swap_ends]

/-- The buffer after `k` passes of the swap loop: the outer `k` entries on
either side have changed places with their mirror images. -/
theorem swap_loop_spec (n : ℕ) (l : List ℚ) (hl : l.length = n) :
    ∀ k, k ≤ n / 2 →
      ((List.range k).foldl (swap_ends n) l).length = n ∧
      ∀ j, ((List.range k).foldl (swap_ends n) l)[j]? =
        if j < n ∧ (j < k ∨ n - 1 - j < k) then l[n - 1 - j]? else l[j]? := by
  intro k
  induction k with
  | zero => intro _; simp [hl]
  | succ k ih =>
    intro hk
    obtain ⟨hlen, hget⟩ := ih (by omega)
    rw [List.range_succ, List.foldl_append]
    simp only [List.foldl_cons, List.foldl_nil]
    refine ⟨by rw [swap_ends_length]; exact hlen, ?_⟩
    intro j
    have hkn : k < n - 1 - k := by omega
    have h1 : ((List.range k).foldl (swap_ends n) l).getD (n - 1 - k) 0 = l.getD (n - 1 - k) 0 := by
      rw [List.getD_eq_getElem?_getD, List.getD_eq_getElem?_getD, hget]
      have : ¬ (n - 1 - k < n ∧ (n - 1 - k < k ∨ n - 1 - (n - 1 - k) < k)) := by omega
      rw [if_neg this]
    have h2 : ((List.range k).foldl (swap_ends n) l).getD k 0 = l.getD k 0 := by
      rw [List.getD_eq_getElem?_getD, List.getD_eq_getElem?_getD, hget]
      have : ¬ (k < n ∧ (k < k ∨ n - 1 - k < k)) := by omega
      rw [if_neg this]
    generalize (List.range k).foldl (swap_ends n) l = L at hlen hget h1 h2 ⊢
    unfold swap_ends
    rw [h1, h2, List.getElem?_set, List.getElem?_set]
    simp only [List.length_set, hlen]
    by_cases hj1 : n - 1 - k = j
    · subst hj1
      have hne : k ≠ n - 1 - k := by omega
      have hlt : n - 1 - k < n := by omega
      simp only [if_true, hlt]
      have : (n - 1 - k < n ∧ (n - 1 - k < k + 1 ∨ n - 1 - (n - 1 - k) < k + 1)) := by omega
      rw [if_pos ⟨trivial, this.2⟩]
      have e : n - 1 - (n - 1 - k) = k := by omega
      rw [e, List.getD_eq_getElem?_getD]
      have hk' : k < l.length := by omega
      rw [List.getElem?_eq_getElem hk']
      rfl
    · rw [if_neg hj1]
      by_cases hj2 : k = j
      · subst hj2
        have hlt : k < n := by omega
        simp only [if_true, hlt]
        have : (k < n ∧ (k < k + 1 ∨ n - 1 - k < k + 1)) := by omega
        rw [if_pos ⟨trivial, this.2⟩, List.getD_eq_getElem?_getD]
        have hk' : n - 1 - k < l.length := by omega
        rw [List.getElem?_eq_getElem hk']
        rfl
      · rw [if_neg hj2, hget]
        by_cases hc : j < n ∧ (j < k ∨ n - 1 - j < k)
        · have : j < n ∧ (j < k + 1 ∨ n - 1 - j < k + 1) := by omega
          rw [if_pos hc, if_pos this]
        · have : ¬ (j < n ∧ (j < k + 1 ∨ n - 1 - j < k + 1)) := by omega
          rw [if_neg hc, if_neg this]

/-- The swap loop reverses a buffer of `n` entries. -/
theorem reverse_n_eq (n : ℕ) (l : List ℚ) (hl : l.length = n) : reverse_n n l = l.reverse := by
  obtain ⟨hlen, hget⟩ := swap_loop_spec n l hl (n / 2) le_rfl
  unfold reverse_n
  apply List.ext_getElem?
  intro j
  rw [hget]
  by_cases hj : j < n
  · rw [List.getElem?_reverse (by omega), hl]
    by_cases hc : j < n ∧ (j < n / 2 ∨ n - 1 - j < n / 2)
    · rw [if_pos hc]
    · rw [if_neg hc]
      have : n - 1 - j = j := by omega
      rw [this]
  · have hc : ¬ (j < n ∧ (j < n / 2 ∨ n - 1 - j < n / 2)) := by omega
    rw [if_neg hc]
    rw [List.getElem?_eq_none (by omega), List.getElem?_eq_none (by simp; omega)]

/-- In a strictly descending buffer every later entry is below the first. -/
theorem desc_lt_first (xs : List ℚ) (n : ℕ)
    (hdesc : ∀ i, i + 1 < n → xs.getD (i + 1) 0 < xs.getD i 0) :
    ∀ k, 0 < k → k < n → xs.getD k 0 < xs.getD 0 0 := by
  intro k
  induction k with
  | zero => intro h; omega
  | succ k ih =>
    intro _ hk
    rcases Nat.eq_zero_or_pos k with h0 | h0
    · subst h0; exact hdesc 0 hk
    · exact lt_trans (hdesc k hk) (ih h0 (by omega))

/-- Reading a reversed buffer. -/
theorem getD_reverse (xs : List ℚ) (i : ℕ) (hi : i < xs.length) :
    xs.reverse.getD i 0 = xs.getD (xs.length - 1 - i) 0 := by
  rw [List.getD_eq_getElem?_getD, List.getD_eq_getElem?_getD, List.getElem?_reverse hi]

/-- A strictly descending buffer is strictly ascending once reversed. -/
theorem reverse_ascending (xs : List ℚ) (n : ℕ) (hlx : xs.length = n)
    (hdesc : ∀ i, i + 1 < n → xs.getD (i + 1) 0 < xs.getD i 0) :
    Ascending (arr (some xs.reverse)) n := by
  intro i hi0 hin
  obtain ⟨k, rfl⟩ := Int.eq_ofNat_of_zero_le hi0
  have hk : k + 1 < n := by exact_mod_cast hin
  have e1 : ((k : ℤ) + 1).toNat = k + 1 := by omega
  simp only [arr, Option.getD_some, Int.toNat_ofNat, e1]
  rw [getD_reverse xs k (by omega), getD_reverse xs (k + 1) (by omega), hlx]
  have h := hdesc (n - 1 - (k + 1)) (by omega)
  have e2 : n - 1 - (k + 1) + 1 = n - 1 - k := by omega
  rw [e2] at h
  exact h

/-- The table `rpol_check_equi_range` leaves for a strictly descending 1-D
table, against the one it leaves for the reversed input. -/
theorem check_equi_range_reversed (t : RpolTable) (xs zs : List ℚ)
    (hx : t.x = some xs) (hz : t.z = some zs) (hd : t.ndim = 1) (hn : 2 ≤ t.nx)
    (hlx : xs.length = t.nx) (hlz : zs.length = t.nx)
    (hdesc : ∀ i, i + 1 < t.nx → xs.getD (i + 1) 0 < xs.getD i 0) :
    (rpol_check_equi_range t).x = some xs.reverse ∧
      (rpol_check_equi_range t).z = some zs.reverse ∧
      rpol_check_equi_range t =
        rpol_check_equi_range { t with x := some xs.reverse, z := some zs.reverse } := by
  have hfirst := desc_lt_first xs t.nx hdesc (t.nx - 1) (by omega) (by omega)
  have hr0 : xs.reverse.getD 0 0 = xs.getD (t.nx - 1) 0 := by
    rw [getD_reverse xs 0 (by omega), hlx]; rfl
  have hr1 : xs.reverse.getD (t.nx - 1) 0 = xs.getD 0 0 := by
    rw [getD_reverse xs (t.nx - 1) (by omega), hlx]
    congr 1; omega
  have hrx := reverse_n_eq t.nx xs hlx
  have hrz := reverse_n_eq t.nx zs hlz
  obtain ⟨ndim, nx, ny, x, y, z, zxmax, zxmin, aux, xmin, xmax, dx, dxi, xrise, ymin, ymax, dy, dyi,
    yrise, zmin, zmax, fname, options, equidistant, scheme, clipping, remapped, zxreq, logs, xlog,
    ylog, zlog, csp, use_count⟩ := t
  simp only at hx hz hd hn hlx hlz hdesc hfirst hr0 hr1 hrx hrz
  subst hx hz hd
  have hnx1 : ¬ nx < 1 := by omega
  have hnx : nx > 1 := by omega
  have hnot : ¬ (xs.getD 0 0 < xs.getD (nx - 1) 0) := not_lt.mpr (le_of_lt hfirst)
  have h21 : ¬ ((2 : ℤ) ≤ 1) := by norm_num
  simp only [rpol_check_equi_range, hnx1, hnx, hfirst, hr0, hr1, hnot, hrx, hrz, true_and, and_true,
    decide_True, decide_False, if_true, if_false, ge_iff_le, false_or, false_and, and_false, h21,
    Bool.false_eq_true]

/-- C12: for every 1-D table with `nx ≥ 2` whose x values are strictly
descending, `rpol_check_equi_range` replaces x and z by their reversals, x
becomes strictly ascending, and the resulting table is in every member the one
obtained by running `rpol_check_equi_range` on the input with x and z reversed
by hand, so that every interpolation with `rpolate_1d` agrees. -/
theorem check_equi_range_descending (t : RpolTable) (xs zs : List ℚ)
    (hx : t.x = some xs) (hz : t.z = some zs) (hd : t.ndim = 1) (hn : 2 ≤ t.nx)
    (hlx : xs.length = t.nx) (hlz : zs.length = t.nx)
    (hdesc : ∀ i, i + 1 < t.nx → xs.getD (i + 1) 0 < xs.getD i 0) :
    (rpol_check_equi_range t).x = some xs.reverse ∧
      (rpol_check_equi_range t).z = some zs.reverse ∧
      Ascending (arr (rpol_check_equi_range t).x) t.nx ∧
      rpol_check_equi_range t =
        rpol_check_equi_range { t with x := some xs.reverse, z := some zs.reverse } ∧
      ∀ (expf logf : ℚ → ℚ) (q : ℚ) (scheme : ℤ),
        rpolate_1d expf logf (some (rpol_check_equi_range t)) q scheme =
          rpolate_1d expf logf
            (some (rpol_check_equi_range { t with x := some xs.reverse, z := some zs.reverse }))
            q scheme := by
  obtain ⟨h1, h2, h3⟩ := check_equi_range_reversed t xs zs hx hz hd hn hlx hlz hdesc
  refine ⟨h1, h2, ?_, h3, ?_⟩
  · rw [h1]
    exact reverse_ascending xs t.nx hlx hdesc
  · intro expf logf q scheme
    rw [← h3]

/-- The table `(2, 4), (1, 2), (0, 0)`, given in descending order of x. -/
theorem check_equi_range_descending_witness :
    (rpol_check_equi_range demoDescending).x = some [0, 1, 2] ∧
      (rpol_check_equi_range demoDescending).z = some [0, 2, 4] ∧
      Ascending (arr (rpol_check_equi_range demoDescending).x) 3 ∧
      rpol_check_equi_range demoDescending =
        rpol_check_equi_range { demoDescending with x := some [0, 1, 2], z := some [0, 2, 4] } ∧
      ∀ (expf logf : ℚ → ℚ) (q : ℚ) (scheme : ℤ),
        rpolate_1d expf logf (some (rpol_check_equi_range demoDescending)) q scheme =
          rpolate_1d expf logf
            (some (rpol_check_equi_range
              { demoDescending with x := some [0, 1, 2], z := some [0, 2, 4] }))
            q scheme :=
  check_equi_range_descending demoDescending [2, 1, 0] [4, 2, 0] rfl rfl rfl (by decide) rfl rfl
    (by
      intro i hi
      have hi3 : i + 1 < 3 := hi
      have h : i = 0 ∨ i = 1 := by omega
      rcases h with rfl | rfl <;> decide!)

/-! ## The row reader `read_table_v` (C19, C20) -/


theorem scan_words_bounds (env : CEnv) (rcol : List ℕ) :
    ∀ (ws : List (List Char)) (nc : ℕ) (rval : List ℚ),
      nc ≤ (scan_words env rcol ws nc rval).1 ∧
      (scan_words env rcol ws nc rval).1 ≤ nc + ws.length ∧
      (scan_words env rcol ws nc rval).2.length = rval.length := by
  intro ws
  induction ws with
  | nil => intro nc rval; simp [scan_words]
  | cons w rest ih =>
    intro nc rval
    unfold scan_words
    split
    · obtain ⟨h1, h2, h3⟩ := ih (nc + 1) rval
      refine ⟨by omega, by simp only [List.length_cons]; omega, h3⟩
    · split
      · simp
      · rename_i v _
        obtain ⟨h1, h2, h3⟩ := ih (nc + 1) (rval.set nc v)
        refine ⟨by omega, by simp only [List.length_cons]; omega, by rw [h3]; simp⟩

theorem scan_words_count (env : CEnv) (rcol : List ℕ) :
    ∀ (ws : List (List Char)) (nc : ℕ) (rval rval' : List ℚ),
      (scan_words env rcol ws nc rval).1 = (scan_words env rcol ws nc rval').1 := by
  intro ws
  induction ws with
  | nil => intro nc rval rval'; simp [scan_words]
  | cons w rest ih =>
    intro nc rval rval'
    unfold scan_words
    split
    · exact ih _ _ _
    · split
      · rfl
      · exact ih _ _ _

theorem getD_set_agree (a b : List ℚ) (hlen : a.length = b.length) (i j : ℕ) (v : ℚ)
    (h : a.getD j 0 = b.getD j 0 ∨ j = i) : (a.set i v).getD j 0 = (b.set i v).getD j 0 := by
  rw [List.getD_eq_getElem?_getD, List.getD_eq_getElem?_getD, List.getElem?_set, List.getElem?_set]
  by_cases hij : i = j
  · subst hij
    simp only [if_true, hlen]
  · rw [if_neg hij, if_neg hij]
    rcases h with h | h
    · rw [List.getD_eq_getElem?_getD, List.getD_eq_getElem?_getD] at h
      exact h
    · exact absurd h.symm hij

theorem scan_words_agree (env : CEnv) (rcol : List ℕ) :
    ∀ (ws : List (List Char)) (nc : ℕ) (rval rval' : List ℚ),
      rval.length = rval'.length →
      (scan_words env rcol ws nc rval).1 = nc + ws.length →
      ∀ j, (rval.getD j 0 = rval'.getD j 0 ∨ (nc ≤ j ∧ j < nc + ws.length ∧ rcol.getD j 0 ≠ 0)) →
        (scan_words env rcol ws nc rval).2.getD j 0 =
          (scan_words env rcol ws nc rval').2.getD j 0 := by
  intro ws
  induction ws with
  | nil =>
    intro nc rval rval' _ _ j h
    rcases h with h | ⟨h1, h2, _⟩
    · simpa [scan_words] using h
    · simp at h2; omega
  | cons w rest ih =>
    intro nc rval rval' hlen hfull j h
    unfold scan_words at hfull ⊢
    simp only [List.length_cons] at hfull h
    split
    · rename_i h0
      rw [if_pos h0] at hfull
      apply ih (nc + 1) rval rval' hlen (by rw [hfull]; omega)
      rcases h with h | ⟨h1, h2, h3⟩
      · exact Or.inl h
      · by_cases e : j = nc
        · subst e; exact absurd h0 h3
        · exact Or.inr ⟨by omega, by omega, h3⟩
    · rename_i h0
      rw [if_neg h0] at hfull
      split
      · rename_i hs
        rw [hs] at hfull
        simp at hfull
      · rename_i v hs
        rw [hs] at hfull
        apply ih (nc + 1) (rval.set nc v) (rval'.set nc v) (by simp [hlen])
          (by rw [hfull]; omega)
        by_cases e : j = nc
        · exact Or.inl (getD_set_agree rval rval' hlen nc j v (Or.inr e))
        · rcases h with h | ⟨h1, h2, h3⟩
          · exact Or.inl (getD_set_agree rval rval' hlen nc j v (Or.inl h))
          · exact Or.inr ⟨by omega, by omega, h3⟩


theorem fold_set_nonzero (f g : ℕ → ℕ) (hg : ∀ i, g i ≠ 0) (r0 : List ℕ) :
    ∀ k, ((List.range k).foldl (fun r i => r.set (f i) (g i)) r0).length = r0.length ∧
      ∀ i, i < k → f i < r0.length →
        ((List.range k).foldl (fun r i => r.set (f i) (g i)) r0).getD (f i) 0 ≠ 0 := by
  intro k
  induction k with
  | zero => simp
  | succ k ih =>
    obtain ⟨hlen, hget⟩ := ih
    rw [List.range_succ, List.foldl_append]
    simp only [List.foldl_cons, List.foldl_nil, List.length_set]
    refine ⟨hlen, ?_⟩
    intro i hi hfi
    rw [List.getD_eq_getElem?_getD, List.getElem?_set]
    by_cases e : f k = f i
    · rw [if_pos e, hlen, if_pos (by rw [e]; exact hfi)]
      exact hg k
    · rw [if_neg e, ← List.getD_eq_getElem?_getD]
      have hik : i < k := by
        rcases Nat.lt_succ_iff_lt_or_eq.mp hi with h | h
        · exact h
        · subst h; exact absurd rfl e
      exact hget i hik hfi

theorem fold_max_ge (sel : List ℕ) (m0 : ℕ) :
    ∀ k, m0 ≤ (List.range k).foldl
          (fun m icol => if sel.getD icol 0 > m then sel.getD icol 0 else m) m0 ∧
      ∀ i, i < k → sel.getD i 0 ≤ (List.range k).foldl
          (fun m icol => if sel.getD icol 0 > m then sel.getD icol 0 else m) m0 := by
  intro k
  induction k with
  | zero => simp
  | succ k ih =>
    obtain ⟨h0, hi⟩ := ih
    rw [List.range_succ, List.foldl_append]
    simp only [List.foldl_cons, List.foldl_nil]
    constructor
    · split <;> omega
    · intro i hik
      rcases Nat.lt_succ_iff_lt_or_eq.mp hik with h | h
      · have := hi i h
        split <;> omega
      · subst h
        split <;> omega

theorem maxcol_of_ge (ncol : ℕ) (selcol : Option (List ℕ)) :
    ncol ≤ maxcol_of ncol selcol ∧
      ∀ sel, selcol = some sel → ∀ i, i < ncol → sel.getD i 0 ≤ maxcol_of ncol selcol := by
  cases selcol with
  | none => simp [maxcol_of]
  | some sel =>
    obtain ⟨h0, hi⟩ := fold_max_ge sel ncol ncol
    refine ⟨h0, ?_⟩
    intro s hs i hin
    injection hs with hs
    subst hs
    exact hi i hin

/-- With column numbers counted from 1, `rcol` has `maxcol` entries, and the
input column each requested column is read from lies below `maxcol` and is
marked as used in `rcol`. -/
theorem rcol_used (ncol : ℕ) (selcol : Option (List ℕ))
    (hsel : ∀ sel, selcol = some sel → ∀ i, i < ncol → 1 ≤ sel.getD i 0) :
    (rcol_of ncol (maxcol_of ncol selcol) selcol).length = maxcol_of ncol selcol ∧
    ∀ icol, icol < ncol →
      (match selcol with
        | none => icol
        | some sel => sel.getD icol 0 - 1) < maxcol_of ncol selcol ∧
      (rcol_of ncol (maxcol_of ncol selcol) selcol).getD
        (match selcol with
          | none => icol
          | some sel => sel.getD icol 0 - 1) 0 ≠ 0 := by
  obtain ⟨hge, hsm⟩ := maxcol_of_ge ncol selcol
  cases selcol with
  | none =>
    obtain ⟨hlen, hget⟩ := fold_set_nonzero (fun i => i) (fun i => i + 1)
      (fun i => Nat.succ_ne_zero i) (List.replicate (maxcol_of ncol none) 0) ncol
    simp only [List.length_replicate] at hlen hget
    simp only [rcol_of]
    refine ⟨hlen, ?_⟩
    intro icol hi
    exact ⟨by omega, hget icol hi (by omega)⟩
  | some sel =>
    obtain ⟨hlen, hget⟩ := fold_set_nonzero (fun i => sel.getD i 0 - 1) (fun i => i + 1)
      (fun i => Nat.succ_ne_zero i) (List.replicate (maxcol_of ncol (some sel)) 0) ncol
    simp only [List.length_replicate] at hlen hget
    simp only [rcol_of]
    refine ⟨hlen, ?_⟩
    intro icol hi
    have h1 := hsel sel rfl icol hi
    have h2 := hsm sel rfl icol hi
    have h3 : sel.getD icol 0 - 1 < maxcol_of ncol (some sel) := by omega
    exact ⟨h3, hget icol hi h3⟩

theorem scan_line_row (env : CEnv) (ncol : ℕ) (selcol : Option (List ℕ))
    (hsel : ∀ sel, selcol = some sel → ∀ i, i < ncol → 1 ≤ sel.getD i 0)
    (rval : List ℚ) (hlen : rval.length = maxcol_of ncol selcol) (line : String) :
    let rcol := rcol_of ncol (maxcol_of ncol selcol) selcol
    let p := scan_line env rcol (maxcol_of ncol selcol) rval line
    p.2.length = maxcol_of ncol selcol ∧
    (line_row env ncol selcol line =
      if p.1 = 0 ∨ p.1 < maxcol_of ncol selcol then none
      else some (row_of_rval ncol selcol p.2)) := by
  intro rcol p
  obtain ⟨hrl, hused⟩ := rcol_used ncol selcol hsel
  have hp : p = scan_line env rcol (maxcol_of ncol selcol) rval line := rfl
  unfold line_row
  simp only
  unfold scan_line at hp ⊢
  simp only at hp ⊢
  by_cases hl : strip_comments line.data = []
  · rw [if_pos hl] at hp ⊢
    rw [hp]
    simp [hlen]
  · rw [if_neg hl] at hp ⊢
    generalize hws : (env.getword 99 ' ' '#' (List.dropWhile c_blank (strip_comments line.data))).take
      (maxcol_of ncol selcol) = ws at hp ⊢
    have hwl : ws.length ≤ maxcol_of ncol selcol := by
      rw [← hws]; simp
    obtain ⟨b1, b2, b3⟩ := scan_words_bounds env rcol ws 0 rval
    have hcount := scan_words_count env rcol ws 0 rval (List.replicate (maxcol_of ncol selcol) 0)
    rw [hp]
    refine ⟨by rw [b3, hlen], ?_⟩
    rw [← hcount]
    by_cases hacc : (scan_words env rcol ws 0 rval).1 = 0 ∨
        (scan_words env rcol ws 0 rval).1 < maxcol_of ncol selcol
    · rw [if_pos hacc, if_pos hacc]
    · rw [if_neg hacc, if_neg hacc]
      congr 1
      have hfull : (scan_words env rcol ws 0 rval).1 = 0 + ws.length := by
        push_neg at hacc
        omega
      have hfull' : (scan_words env rcol ws 0 (List.replicate (maxcol_of ncol selcol) 0)).1 =
          0 + ws.length := by rw [← hcount]; exact hfull
      have hag := scan_words_agree env rcol ws 0 (List.replicate (maxcol_of ncol selcol) 0) rval
        (by simp [hlen]) hfull'
      unfold row_of_rval
      apply List.map_congr_left
      intro icol hic
      have hic' : icol < ncol := List.mem_range.mp hic
      obtain ⟨u1, u2⟩ := hused icol hic'
      have hwsl : ws.length = maxcol_of ncol selcol := by
        push_neg at hacc
        omega
      cases selcol with
      | none =>
        simp only at u1 u2 ⊢
        exact hag icol (Or.inr ⟨by omega, by omega, u2⟩)
      | some sel =>
        simp only at u1 u2 ⊢
        exact hag _ (Or.inr ⟨by omega, by omega, u2⟩)


theorem getD_map_range {α : Type} (f : ℕ → α) (n i : ℕ) (d : α) (hi : i < n) :
    ((List.range n).map f).getD i d = f i := by
  rw [List.getD_eq_getElem?_getD, List.getElem?_map, List.getElem?_range hi]
  rfl

theorem store_row_columns (ncol : ℕ) (selcol : Option (List ℕ)) (rval : List ℚ)
    (rows0 : List (List ℚ)) :
    store_row ncol selcol rval (columns_of ncol rows0) =
      columns_of ncol (rows0 ++ [row_of_rval ncol selcol rval]) := by
  unfold store_row columns_of
  apply List.map_congr_left
  intro icol hic
  have hic' : icol < ncol := List.mem_range.mp hic
  rw [List.map_append]
  congr 1
  · exact getD_map_range _ ncol icol [] hic'
  · simp only [List.map_cons, List.map_nil]
    congr 1
    unfold row_of_rval
    rw [getD_map_range _ ncol icol 0 hic']
    cases selcol <;> rfl

/-- What the reading loop leaves behind, in terms of the rows the lines
contribute. -/
theorem read_rows_spec (env : CEnv) (maxrow ncol : ℕ) (selcol : Option (List ℕ))
    (hsel : ∀ sel, selcol = some sel → ∀ i, i < ncol → 1 ≤ sel.getD i 0) :
    ∀ (lines : List String) (rval : List ℚ) (rows0 : List (List ℚ)) (nread : ℕ),
      rval.length = maxcol_of ncol selcol → rows0.length < maxrow →
      let r := read_rows env (rcol_of ncol (maxcol_of ncol selcol) selcol) maxrow ncol
        (maxcol_of ncol selcol) selcol lines rval (columns_of ncol rows0) rows0.length nread
      let rows := lines.filterMap (line_row env ncol selcol)
      r.col = some (columns_of ncol (rows0 ++ rows.take (maxrow - rows0.length))) ∧
      r.nrow = some (rows0.length + min rows.length (maxrow - rows0.length)) ∧
      (rows0.length + rows.length < maxrow → r.rc = 0 ∧ r.nread = nread + lines.length) ∧
      (maxrow ≤ rows0.length + rows.length → r.rc = -4 ∧
        ∃ pre line post, lines = pre ++ line :: post ∧ r.nread = nread + pre.length + 1 ∧
          line_row env ncol selcol line ≠ none ∧
          (pre ++ [line]).filterMap (line_row env ncol selcol) =
            rows.take (maxrow - rows0.length)) := by
  intro lines
  induction lines with
  | nil =>
    intro rval rows0 nread _ hlt
    simp only [read_rows, List.filterMap_nil, List.take_nil, List.append_nil, List.length_nil,
      Nat.zero_min, Nat.add_zero, true_and]
    refine ⟨fun _ => trivial, fun h => absurd h (by omega)⟩
  | cons line rest ih =>
    intro rval rows0 nread hlen hlt
    obtain ⟨hpl, hrow⟩ := scan_line_row env ncol selcol hsel rval hlen line
    unfold read_rows
    simp only
    generalize hp : scan_line env (rcol_of ncol (maxcol_of ncol selcol) selcol)
      (maxcol_of ncol selcol) rval line = p at hpl hrow ⊢
    by_cases h0 : p.1 = 0
    · rw [if_pos h0]
      rw [if_pos (Or.inl h0)] at hrow
      have ih' := ih p.2 rows0 (nread + 1) hpl hlt
      simp only at ih'
      simp only [List.filterMap_cons, hrow, List.length_cons]
      obtain ⟨i1, i2, i3, i4⟩ := ih'
      refine ⟨i1, i2, ?_, ?_⟩
      · intro h
        obtain ⟨a, b⟩ := i3 h
        exact ⟨a, by rw [b]; omega⟩
      · intro h
        obtain ⟨a, pre, l, post, e1, e2, e3, e4⟩ := i4 h
        refine ⟨a, line :: pre, l, post, by rw [e1]; rfl, by rw [e2]; simp; omega, e3, ?_⟩
        simp only [List.cons_append, List.filterMap_cons, hrow]
        exact e4
    · rw [if_neg h0]
      by_cases h1 : p.1 < maxcol_of ncol selcol
      · rw [if_pos h1]
        rw [if_pos (Or.inr h1)] at hrow
        have ih' := ih p.2 rows0 (nread + 1) hpl hlt
        simp only at ih'
        simp only [List.filterMap_cons, hrow, List.length_cons]
        obtain ⟨i1, i2, i3, i4⟩ := ih'
        refine ⟨i1, i2, ?_, ?_⟩
        · intro h
          obtain ⟨a, b⟩ := i3 h
          exact ⟨a, by rw [b]; omega⟩
        · intro h
          obtain ⟨a, pre, l, post, e1, e2, e3, e4⟩ := i4 h
          refine ⟨a, line :: pre, l, post, by rw [e1]; rfl, by rw [e2]; simp; omega, e3, ?_⟩
          simp only [List.cons_append, List.filterMap_cons, hrow]
          exact e4
      · rw [if_neg h1]
        have hacc : ¬ (p.1 = 0 ∨ p.1 < maxcol_of ncol selcol) := by
          push_neg; exact ⟨h0, not_lt.mp h1⟩
        rw [if_neg hacc] at hrow
        simp only [List.filterMap_cons, hrow, List.length_cons]
        by_cases h2 : rows0.length + 1 ≥ maxrow
        · rw [if_pos h2]
          have e : maxrow - rows0.length = 1 := by omega
          simp only [e, List.take_succ_cons, List.take_zero, store_row_columns, true_and]
          refine ⟨?_, fun h => absurd h (by omega), ?_⟩
          · congr 1
            have : min ((List.filterMap (line_row env ncol selcol) rest).length + 1) 1 = 1 := by
              omega
            rw [this]
          · intro _
            refine ⟨[], line, rest, rfl, by simp, by rw [hrow]; simp, ?_⟩
            simp [hrow]
        · rw [if_neg h2]
          have ih' := ih p.2 (rows0 ++ [row_of_rval ncol selcol p.2]) (nread + 1) hpl
            (by simp; omega)
          simp only [List.length_append, List.length_cons, List.length_nil, zero_add,
            ← store_row_columns] at ih'
          obtain ⟨i1, i2, i3, i4⟩ := ih'
          have e : maxrow - rows0.length = (maxrow - (rows0.length + 1)) + 1 := by omega
          refine ⟨?_, ?_, ?_, ?_⟩
          · rw [i1, e, List.take_succ_cons, List.append_assoc]
            rfl
          · rw [i2]
            congr 1
            omega
          · intro h
            obtain ⟨a, b⟩ := i3 (by omega)
            exact ⟨a, by rw [b]; omega⟩
          · intro h
            obtain ⟨a, pre, l, post, e1, e2, e3, e4⟩ := i4 (by omega)
            refine ⟨a, line :: pre, l, post, by rw [e1]; rfl, by rw [e2]; simp; omega, e3, ?_⟩
            simp only [List.cons_append, List.filterMap_cons, hrow]
            rw [e4, e, List.take_succ_cons]


theorem columns_of_nil (ncol : ℕ) : columns_of ncol [] = List.replicate ncol [] := by
  unfold columns_of
  simp only [List.map_nil]
  rw [List.map_const', List.length_range]

theorem sel_any_zero (ncol : ℕ) (sel : List ℕ)
    (hsel : ∀ i, i < ncol → 1 ≤ sel.getD i 0) :
    (List.range ncol).any (fun icol => sel.getD icol 0 == 0) = false := by
  rw [List.any_eq_false]
  intro i hi
  have := hsel i (List.mem_range.mp hi)
  simp only [beq_iff_eq]
  omega

/-- With valid arguments `read_table_v` is its reading loop on the input. -/
theorem read_table_v_valid (env : CEnv) (fname : String) (fptr : Option (List String))
    (lines : List String) (hint ncol : ℕ) (selcol : Option (List ℕ))
    (hin : fptr = some lines ∨ (fptr = none ∧ env.fileopen fname = some lines))
    (hncol : 1 ≤ ncol)
    (hsel : ∀ sel, selcol = some sel → ∀ i, i < ncol → 1 ≤ sel.getD i 0)
    (hmax : maxcol_of ncol selcol ≤ 500) :
    read_table_v env (some fname) fptr (some hint) ncol (some none) selcol =
      read_rows env (rcol_of ncol (maxcol_of ncol selcol) selcol) 100000 ncol
        (maxcol_of ncol selcol) selcol lines (List.replicate (maxcol_of ncol selcol) 0)
        (columns_of ncol []) 0 0 := by
  have h1 : ¬ ncol < 1 := by omega
  have h2 : ¬ maxcol_of ncol selcol > 500 := by omega
  rw [columns_of_nil]
  rcases hin with h | ⟨h, h'⟩
  · subst h
    cases selcol with
    | none =>
      simp only [maxcol_of] at h2 ⊢
      simp only [read_table_v, h1, if_false, h2, Bool.false_eq_true]
    | some sel =>
      have h3 := sel_any_zero ncol sel (hsel sel rfl)
      simp only [maxcol_of] at h2 ⊢
      simp only [read_table_v, h1, if_false, h2, h3, Bool.false_eq_true]
  · subst h
    cases selcol with
    | none =>
      simp only [maxcol_of] at h2 ⊢
      simp only [read_table_v, h1, if_false, h2, h', Bool.false_eq_true]
    | some sel =>
      have h3 := sel_any_zero ncol sel (hsel sel rfl)
      simp only [maxcol_of] at h2 ⊢
      simp only [read_table_v, h1, if_false, h2, h', h3, Bool.false_eq_true]

theorem filterMap_replicate {α β : Type} (f : α → Option β) (a : α) (b : β) (h : f a = some b) :
    ∀ n, (List.replicate n a).filterMap f = List.replicate n b := by
  intro n
  induction n with
  | zero => rfl
  | succ n ih => rw [List.replicate_succ, List.filterMap_cons, h, ih, List.replicate_succ]

/-- C19: for every input stream, `read_table_v` (called with valid arguments)
stores at most 100000 rows, namely the first 100000 acceptable data lines of
the input in input order; when the input holds 100000 acceptable data lines
or more (in particular more than 100000) it stops reading right behind the
100000th of them and returns the code -4, which is the return code of no other
outcome; with fewer it reads all lines and returns 0. -/
theorem read_table_v_ceiling (env : CEnv) (fname : String) (fptr : Option (List String))
    (lines : List String) (hint ncol : ℕ) (selcol : Option (List ℕ))
    (hin : fptr = some lines ∨ (fptr = none ∧ env.fileopen fname = some lines))
    (hncol : 1 ≤ ncol)
    (hsel : ∀ sel, selcol = some sel → ∀ i, i < ncol → 1 ≤ sel.getD i 0)
    (hmax : maxcol_of ncol selcol ≤ 500) :
    (read_table_v env (some fname) fptr (some hint) ncol (some none) selcol).nrow =
        some (min (lines.filterMap (line_row env ncol selcol)).length 100000) ∧
      (read_table_v env (some fname) fptr (some hint) ncol (some none) selcol).col =
        some (columns_of ncol ((lines.filterMap (line_row env ncol selcol)).take 100000)) ∧
      (100000 ≤ (lines.filterMap (line_row env ncol selcol)).length →
        (read_table_v env (some fname) fptr (some hint) ncol (some none) selcol).rc = -4 ∧
        ∃ pre line post, lines = pre ++ line :: post ∧
          (read_table_v env (some fname) fptr (some hint) ncol (some none) selcol).nread =
            pre.length + 1 ∧
          line_row env ncol selcol line ≠ none ∧
          (pre ++ [line]).filterMap (line_row env ncol selcol) =
            (lines.filterMap (line_row env ncol selcol)).take 100000) ∧
      ((lines.filterMap (line_row env ncol selcol)).length < 100000 →
        (read_table_v env (some fname) fptr (some hint) ncol (some none) selcol).rc = 0 ∧
        (read_table_v env (some fname) fptr (some hint) ncol (some none) selcol).nread =
          lines.length) := by
  rw [read_table_v_valid env fname fptr lines hint ncol selcol hin hncol hsel hmax]
  obtain ⟨s1, s2, s3, s4⟩ := read_rows_spec env 100000 ncol selcol hsel lines
    (List.replicate (maxcol_of ncol selcol) 0) [] 0 (by simp) (by simp)
  simp only [List.length_nil, List.nil_append, Nat.sub_zero, zero_add] at s1 s2 s3 s4
  exact ⟨s2, s1, s4, s3⟩

/-- C20: `read_table_v` called with a NULL file name, a NULL row-count
pointer, `ncol = 0`, a NULL column-output pointer, or an output pointer whose
target is already non-NULL returns -2 without reading a line of input, sets
`*nrow` to 0 whenever `nrow` is non-NULL, and leaves `*col` as it was. -/
theorem read_table_v_invalid (env : CEnv) (fname : Option String)
    (fptr : Option (List String)) (nrow : Option ℕ) (ncol : ℕ)
    (col : Option (Option (List (List ℚ)))) (selcol : Option (List ℕ))
    (h : fname = none ∨ nrow = none ∨ ncol = 0 ∨ col = none ∨ ∃ c, col = some (some c)) :
    (read_table_v env fname fptr nrow ncol col selcol).rc = -2 ∧
      (read_table_v env fname fptr nrow ncol col selcol).nread = 0 ∧
      (nrow ≠ none → (read_table_v env fname fptr nrow ncol col selcol).nrow = some 0) ∧
      (nrow = none → (read_table_v env fname fptr nrow ncol col selcol).nrow = none) ∧
      (read_table_v env fname fptr nrow ncol col selcol).col = col.bind id := by
  cases fname with
  | none => cases nrow <;> simp [read_table_v]
  | some fn =>
    cases nrow with
    | none => simp [read_table_v]
    | some n =>
      cases col with
      | none => simp [read_table_v]
      | some c =>
        cases c with
        | some c => simp [read_table_v]
        | none =>
          have h0 : ncol = 0 := by
            rcases h with h | h | h | h | ⟨c, h⟩
            · exact absurd h (by simp)
            · exact absurd h (by simp)
            · exact h
            · exact absurd h (by simp)
            · exact absurd h (by simp)
          subst h0
          simp [read_table_v]


theorem filterMap_length_of_some {α β : Type} (f : α → Option β) :
    ∀ l : List α, (∀ a ∈ l, f a ≠ none) → (l.filterMap f).length = l.length := by
  intro l
  induction l with
  | nil => intro _; rfl
  | cons a l ih =>
    intro h
    rw [List.filterMap_cons]
    cases hfa : f a with
    | none => exact absurd hfa (h a (List.mem_cons_self a l))
    | some b =>
      simp only [List.length_cons]
      rw [ih (fun x hx => h x (List.mem_cons_of_mem a hx))]

theorem demo_line_row : line_row (demoEnv demoFiles) 2 none "1 2" = some [1, 2] := by
  decide!

theorem demoBig_rows :
    demoBig.filterMap (line_row (demoEnv demoFiles) 2 none) = List.replicate 100001 [1, 2] :=
  filterMap_replicate _ _ _ demo_line_row 100001

theorem columns_of_replicate (n : ℕ) (a b : ℚ) :
    columns_of 2 (List.replicate n [a, b]) = [List.replicate n a, List.replicate n b] := by
  simp [columns_of, List.range_succ]

theorem mem_prefix_replicate {α : Type} (n : ℕ) (a : α) (pre post : List α) (line : α)
    (h : List.replicate n a = pre ++ line :: post) : ∀ x ∈ pre ++ [line], x = a := by
  intro x hx
  have hmem : x ∈ List.replicate n a := by
    rw [h]
    rcases List.mem_append.mp hx with h1 | h1
    · exact List.mem_append_left _ h1
    · rw [List.mem_singleton] at h1
      rw [h1]
      exact List.mem_append_right _ (List.mem_cons_self _ _)
  exact List.eq_of_mem_replicate hmem

theorem demoBig_eq : demoBig = List.replicate 100001 "1 2" := rfl

theorem read_table_v_ceiling_witness :
    (read_table_v (demoEnv demoFiles) (some "big.dat") (some demoBig) (some 0) 2 (some none)
        none).rc = -4 ∧
      (read_table_v (demoEnv demoFiles) (some "big.dat") (some demoBig) (some 0) 2 (some none)
        none).nrow = some 100000 ∧
      (read_table_v (demoEnv demoFiles) (some "big.dat") (some demoBig) (some 0) 2 (some none)
        none).col = some [List.replicate 100000 1, List.replicate 100000 2] ∧
      (read_table_v (demoEnv demoFiles) (some "big.dat") (some demoBig) (some 0) 2 (some none)
        none).nread = 100000 := by
  obtain ⟨h1, h2, h3, _⟩ := read_table_v_ceiling (demoEnv demoFiles) "big.dat" (some demoBig)
    demoBig 0 2 none (Or.inl rfl) (by decide) (fun sel h => by cases h) (by decide)
  rw [demoBig_rows] at h1 h2 h3
  rw [List.length_replicate] at h1 h3
  rw [List.take_replicate] at h2 h3
  obtain ⟨h4, pre, line, post, e1, e2, e3, e4⟩ := h3 (by norm_num)
  have hmin : min 100000 100001 = 100000 := by norm_num
  have hmin' : min 100001 100000 = 100000 := by norm_num
  rw [hmin] at h2 e4
  rw [hmin'] at h1
  rw [columns_of_replicate] at h2
  refine ⟨h4, h1, h2, ?_⟩
  rw [e2]
  have hall : ∀ a ∈ pre ++ [line], line_row (demoEnv demoFiles) 2 none a ≠ none := by
    intro a ha
    rw [mem_prefix_replicate 100001 "1 2" pre post line (demoBig_eq ▸ e1) a ha, demo_line_row]
    exact Option.some_ne_none _
  have hl := filterMap_length_of_some _ _ hall
  rw [e4, List.length_replicate, List.length_append, List.length_singleton] at hl
  exact hl.symm

theorem read_table_v_invalid_witness :
    (read_table_v (demoEnv demoFiles) none (some ["1 2"]) (some 7) 2 (some none) none).rc = -2 ∧
      (read_table_v (demoEnv demoFiles) none (some ["1 2"]) (some 7) 2 (some none) none).nread
        = 0 ∧
      (read_table_v (demoEnv demoFiles) none (some ["1 2"]) (some 7) 2 (some none) none).nrow
        = some 0 := by
  obtain ⟨h1, h2, h3, _, _⟩ := read_table_v_invalid (demoEnv demoFiles) none (some ["1 2"])
    (some 7) 2 (some none) none (Or.inl rfl)
  exact ⟨h1, h2, h3 (by simp)⟩


/-! ## The precedence of options (C13, C14) -/

/-- A word that does not set the key `k` leaves its value as it was. -/
theorem apply_option_other (env : CEnv) (nd : ℤ) (k : OptKey) (o : ReadOpts) (w : List Char)
    (h : ¬ sets_key nd k w) : opt_value k (apply_option env nd o w) = opt_value k o := by
  unfold sets_key option_key at h
  unfold apply_option
  generalize strncasecmp_eq w "CLIP=" = c1 at h ⊢
  generalize strcasecmp_eq w "CLIP" = c2 at h ⊢
  generalize strcasecmp_eq w "NOCLIP" = c3 at h ⊢
  generalize (strcasecmp_eq w "ZXMAX" || strcasecmp_eq w "ZXMIN") = c4 at h ⊢
  generalize strcasecmp_eq w "VERBOSE" = c5 at h ⊢
  generalize strncasecmp_eq w "VERBOSE=" = c6 at h ⊢
  generalize strncasecmp_eq w "SCHEME=" = c7 at h ⊢
  generalize strncasecmp_eq w "ROWS=" = c8 at h ⊢
  generalize strncasecmp_eq w "COLS=" = c9 at h ⊢
  generalize strncasecmp_eq w "COLUMNS=" = c10 at h ⊢
  generalize strncasecmp_eq w "AUX=" = c11 at h ⊢
  generalize strncasecmp_eq w "XCOL=" = c12 at h ⊢
  generalize strncasecmp_eq w "XSCALE=" = c13 at h ⊢
  generalize strncasecmp_eq w "XLOG" = c14 at h ⊢
  generalize strncasecmp_eq w "YCOL=" = c15 at h ⊢
  generalize strncasecmp_eq w "YSCALE=" = c16 at h ⊢
  generalize strncasecmp_eq w "YLOG" = c17 at h ⊢
  generalize strncasecmp_eq w "ZCOL=" = c18 at h ⊢
  generalize strncasecmp_eq w "ZSCALE=" = c19 at h ⊢
  generalize strncasecmp_eq w "ZLOG" = c20 at h ⊢
  generalize (strcasecmp_eq (List.drop 5 w) "ON" || strcasecmp_eq (List.drop 5 w) "YES") = d1
  generalize (strcasecmp_eq (List.drop 5 w) "OFF" || strcasecmp_eq (List.drop 5 w) "NO") = d2
  cases c1 with
  | true =>
    simp only [if_true] at h ⊢
    split_ifs <;> cases k <;> simp_all [opt_value]
  | false =>
    simp only [Bool.false_eq_true, if_false] at h ⊢
    cases c2 with
    | true =>
      simp only [if_true] at h ⊢
      cases k <;> simp_all [opt_value]
    | false =>
      simp only [Bool.false_eq_true, if_false] at h ⊢
      cases c3 with
      | true =>
        simp only [if_true] at h ⊢
        cases k <;> simp_all [opt_value]
      | false =>
        simp only [Bool.false_eq_true, if_false] at h ⊢
        cases c4 with
        | true =>
          simp only [if_true] at h ⊢
          cases k <;> simp_all [opt_value]
        | false =>
          simp only [Bool.false_eq_true, if_false] at h ⊢
          cases c5 with
          | true =>
            simp only [if_true] at h ⊢
            split_ifs <;> cases k <;> simp_all [opt_value]
          | false =>
            simp only [Bool.false_eq_true, if_false] at h ⊢
            cases c6 with
            | true =>
              simp only [if_true] at h ⊢
              cases k <;> simp_all [opt_value]
            | false =>
              simp only [Bool.false_eq_true, if_false] at h ⊢
              cases c7 with
              | true =>
                simp only [if_true] at h ⊢
                cases k <;> simp_all [opt_value]
              | false =>
                simp only [Bool.false_eq_true, if_false] at h ⊢
                cases c8 with
                | true =>
                  simp only [if_true] at h ⊢
                  cases k <;> simp_all [opt_value]
                | false =>
                  simp only [Bool.false_eq_true, if_false] at h ⊢
                  cases c9 with
                  | true =>
                    simp only [if_true] at h ⊢
                    cases k <;> simp_all [opt_value]
                  | false =>
                    simp only [Bool.false_eq_true, if_false] at h ⊢
                    cases c10 with
                    | true =>
                      simp only [if_true] at h ⊢
                      cases k <;> simp_all [opt_value]
                    | false =>
                      simp only [Bool.false_eq_true, if_false] at h ⊢
                      cases c11 with
                      | true =>
                        simp only [if_true] at h ⊢
                        cases k <;> simp_all [opt_value]
                      | false =>
                        simp only [Bool.false_eq_true, if_false] at h ⊢
                        cases c12 with
                        | true =>
                          simp only [if_true] at h ⊢
                          cases k <;> simp_all [opt_value]
                        | false =>
                          simp only [Bool.false_eq_true, if_false] at h ⊢
                          cases c13 with
                          | true =>
                            simp only [if_true] at h ⊢
                            cases k <;> simp_all [opt_value]
                          | false =>
                            simp only [Bool.false_eq_true, if_false] at h ⊢
                            cases c14 with
                            | true =>
                              simp only [if_true] at h ⊢
                              cases k <;> simp_all [opt_value]
                            | false =>
                              simp only [Bool.false_eq_true, if_false] at h ⊢
                              cases c15 with
                              | true =>
                                simp only [if_true] at h ⊢
                                cases k <;> simp_all [opt_value]
                              | false =>
                                simp only [Bool.false_eq_true, if_false] at h ⊢
                                cases c16 with
                                | true =>
                                  simp only [if_true] at h ⊢
                                  cases k <;> simp_all [opt_value]
                                | false =>
                                  simp only [Bool.false_eq_true, if_false] at h ⊢
                                  cases c17 with
                                  | true =>
                                    simp only [if_true] at h ⊢
                                    cases k <;> simp_all [opt_value]
                                  | false =>
                                    simp only [Bool.false_eq_true, if_false] at h ⊢
                                    cases c18 with
                                    | true =>
                                      simp only [if_true] at h ⊢
                                      split_ifs <;> cases k <;> simp_all [opt_value]
                                    | false =>
                                      simp only [Bool.false_eq_true, if_false] at h ⊢
                                      cases c19 with
                                      | true =>
                                        simp only [if_true] at h ⊢
                                        cases k <;> simp_all [opt_value]
                                      | false =>
                                        simp only [Bool.false_eq_true, if_false] at h ⊢
                                        cases c20 with
                                        | true =>
                                          simp only [if_true] at h ⊢
                                          cases k <;> simp_all [opt_value]
                                        | false =>
                                          simp only [Bool.false_eq_true, if_false] at h ⊢

/-- A word that sets the key `k` gives it a value that does not depend on the
options before it. -/
theorem apply_option_same (env : CEnv) (nd : ℤ) (k : OptKey) (o o' : ReadOpts) (w : List Char)
    (h : sets_key nd k w) :
    opt_value k (apply_option env nd o w) = opt_value k (apply_option env nd o' w) := by
  unfold sets_key option_key at h
  unfold apply_option
  generalize strncasecmp_eq w "CLIP=" = c1 at h ⊢
  generalize strcasecmp_eq w "CLIP" = c2 at h ⊢
  generalize strcasecmp_eq w "NOCLIP" = c3 at h ⊢
  generalize (strcasecmp_eq w "ZXMAX" || strcasecmp_eq w "ZXMIN") = c4 at h ⊢
  generalize strcasecmp_eq w "VERBOSE" = c5 at h ⊢
  generalize strncasecmp_eq w "VERBOSE=" = c6 at h ⊢
  generalize strncasecmp_eq w "SCHEME=" = c7 at h ⊢
  generalize strncasecmp_eq w "ROWS=" = c8 at h ⊢
  generalize strncasecmp_eq w "COLS=" = c9 at h ⊢
  generalize strncasecmp_eq w "COLUMNS=" = c10 at h ⊢
  generalize strncasecmp_eq w "AUX=" = c11 at h ⊢
  generalize strncasecmp_eq w "XCOL=" = c12 at h ⊢
  generalize strncasecmp_eq w "XSCALE=" = c13 at h ⊢
  generalize strncasecmp_eq w "XLOG" = c14 at h ⊢
  generalize strncasecmp_eq w "YCOL=" = c15 at h ⊢
  generalize strncasecmp_eq w "YSCALE=" = c16 at h ⊢
  generalize strncasecmp_eq w "YLOG" = c17 at h ⊢
  generalize strncasecmp_eq w "ZCOL=" = c18 at h ⊢
  generalize strncasecmp_eq w "ZSCALE=" = c19 at h ⊢
  generalize strncasecmp_eq w "ZLOG" = c20 at h ⊢
  generalize (strcasecmp_eq (List.drop 5 w) "ON" || strcasecmp_eq (List.drop 5 w) "YES") = d1
  generalize (strcasecmp_eq (List.drop 5 w) "OFF" || strcasecmp_eq (List.drop 5 w) "NO") = d2
  cases c1 with
  | true =>
    simp only [if_true] at h ⊢
    split_ifs <;> cases k <;> simp_all [opt_value]
  | false =>
    simp only [Bool.false_eq_true, if_false] at h ⊢
    cases c2 with
    | true =>
      simp only [if_true] at h ⊢
      cases k <;> simp_all [opt_value]
    | false =>
      simp only [Bool.false_eq_true, if_false] at h ⊢
      cases c3 with
      | true =>
        simp only [if_true] at h ⊢
        cases k <;> simp_all [opt_value]
      | false =>
        simp only [Bool.false_eq_true, if_false] at h ⊢
        cases c4 with
        | true =>
          simp only [if_true] at h ⊢
          cases k <;> simp_all [opt_value]
        | false =>
          simp only [Bool.false_eq_true, if_false] at h ⊢
          cases c5 with
          | true =>
            simp only [if_true] at h ⊢
            split_ifs <;> cases k <;> simp_all [opt_value]
          | false =>
            simp only [Bool.false_eq_true, if_false] at h ⊢
            cases c6 with
            | true =>
              simp only [if_true] at h ⊢
              cases k <;> simp_all [opt_value]
            | false =>
              simp only [Bool.false_eq_true, if_false] at h ⊢
              cases c7 with
              | true =>
                simp only [if_true] at h ⊢
                cases k <;> simp_all [opt_value]
              | false =>
                simp only [Bool.false_eq_true, if_false] at h ⊢
                cases c8 with
                | true =>
                  simp only [if_true] at h ⊢
                  cases k <;> simp_all [opt_value]
                | false =>
                  simp only [Bool.false_eq_true, if_false] at h ⊢
                  cases c9 with
                  | true =>
                    simp only [if_true] at h ⊢
                    cases k <;> simp_all [opt_value]
                  | false =>
                    simp only [Bool.false_eq_true, if_false] at h ⊢
                    cases c10 with
                    | true =>
                      simp only [if_true] at h ⊢
                      cases k <;> simp_all [opt_value]
                    | false =>
                      simp only [Bool.false_eq_true, if_false] at h ⊢
                      cases c11 with
                      | true =>
                        simp only [if_true] at h ⊢
                        cases k <;> simp_all [opt_value]
                      | false =>
                        simp only [Bool.false_eq_true, if_false] at h ⊢
                        cases c12 with
                        | true =>
                          simp only [if_true] at h ⊢
                          cases k <;> simp_all [opt_value]
                        | false =>
                          simp only [Bool.false_eq_true, if_false] at h ⊢
                          cases c13 with
                          | true =>
                            simp only [if_true] at h ⊢
                            cases k <;> simp_all [opt_value]
                          | false =>
                            simp only [Bool.false_eq_true, if_false] at h ⊢
                            cases c14 with
                            | true =>
                              simp only [if_true] at h ⊢
                              cases k <;> simp_all [opt_value]
                            | false =>
                              simp only [Bool.false_eq_true, if_false] at h ⊢
                              cases c15 with
                              | true =>
                                simp only [if_true] at h ⊢
                                cases k <;> simp_all [opt_value]
                              | false =>
                                simp only [Bool.false_eq_true, if_false] at h ⊢
                                cases c16 with
                                | true =>
                                  simp only [if_true] at h ⊢
                                  cases k <;> simp_all [opt_value]
                                | false =>
                                  simp only [Bool.false_eq_true, if_false] at h ⊢
                                  cases c17 with
                                  | true =>
                                    simp only [if_true] at h ⊢
                                    cases k <;> simp_all [opt_value]
                                  | false =>
                                    simp only [Bool.false_eq_true, if_false] at h ⊢
                                    cases c18 with
                                    | true =>
                                      simp only [if_true] at h ⊢
                                      split_ifs <;> cases k <;> simp_all [opt_value]
                                    | false =>
                                      simp only [Bool.false_eq_true, if_false] at h ⊢
                                      cases c19 with
                                      | true =>
                                        simp only [if_true] at h ⊢
                                        cases k <;> simp_all [opt_value]
                                      | false =>
                                        simp only [Bool.false_eq_true, if_false] at h ⊢
                                        cases c20 with
                                        | true =>
                                          simp only [if_true] at h ⊢
                                          cases k <;> simp_all [opt_value]
                                        | false =>
                                          simp only [Bool.false_eq_true, if_false] at h ⊢
                                          simp at h

/-- Words none of which sets the key `k` leave its value as it was. -/
theorem options_other (env : CEnv) (nd : ℤ) (k : OptKey) :
    ∀ (ws : List (List Char)) (o : ReadOpts), (∀ w ∈ ws, ¬ sets_key nd k w) →
      opt_value k (ws.foldl (apply_option env nd) o) = opt_value k o := by
  intro ws
  induction ws with
  | nil => intro o _; rfl
  | cons w rest ih =>
    intro o h
    rw [List.foldl_cons, ih _ (fun x hx => h x (List.mem_cons_of_mem w hx)),
      apply_option_other env nd k o w (h w (List.mem_cons_self w rest))]

/-- Words one of which sets the key `k` give it a value that does not depend
on the options before them. -/
theorem options_same (env : CEnv) (nd : ℤ) (k : OptKey) :
    ∀ (ws : List (List Char)) (o o' : ReadOpts), (∃ w ∈ ws, sets_key nd k w) →
      opt_value k (ws.foldl (apply_option env nd) o) =
        opt_value k (ws.foldl (apply_option env nd) o') := by
  intro ws
  induction ws with
  | nil => intro o o' h; obtain ⟨w, hw, _⟩ := h; simp at hw
  | cons w rest ih =>
    intro o o' h
    rw [List.foldl_cons, List.foldl_cons]
    by_cases hr : ∃ x ∈ rest, sets_key nd k x
    · exact ih _ _ hr
    · have hr' : ∀ x ∈ rest, ¬ sets_key nd k x := fun x hx hs => hr ⟨x, hx, hs⟩
      rw [options_other env nd k rest _ hr', options_other env nd k rest _ hr']
      obtain ⟨x, hx, hs⟩ := h
      rcases List.mem_cons.mp hx with e | e
      · subst e
        exact apply_option_same env nd k o o' x hs
      · exact absurd hs (hr' x e)

theorem read_rpol_table_fresh (src : TableSource) (fname : String) (nd : ℤ)
    (ymarker options : Option String) :
    read_rpol_table src {} fname nd ymarker options =
      match read_names fname ymarker options with
      | none => ({ heap := [], rpt_list_base := [none] }, none)
      | some n =>
        match read_load src n.1 n.2.1 n.2.2 nd ymarker options with
        | none => ({ heap := [], rpt_list_base := [none] }, none)
        | some rpt => ({ heap := [some rpt], rpt_list_base := [some 0, none] }, some 0) := by
  unfold read_rpol_table
  simp only [if_true]
  cases hn : read_names fname ymarker options with
  | none => rfl
  | some n =>
    obtain ⟨fnplus, fnclean, oe⟩ := n
    simp only [rpt_list_find, List.getD_cons_zero]
    cases hl : read_load src fnplus fnclean oe nd ymarker options with
    | none => rfl
    | some rpt => rfl

theorem check_equi_range_keeps (t : RpolTable) :
    (rpol_check_equi_range t).clipping = t.clipping ∧
      (rpol_check_equi_range t).ndim = t.ndim ∧
      (rpol_check_equi_range t).nx = t.nx ∧ (rpol_check_equi_range t).ny = t.ny := by
  unfold rpol_check_equi_range
  dsimp only
  split
  · by_cases h1 : t.ndim ≥ 2 ∧ t.y = none
    · rw [if_pos h1]
      exact ⟨rfl, rfl, rfl, rfl⟩
    · rw [if_neg h1]
      by_cases h2 : t.nx < 1 ∨ (t.ndim ≥ 2 ∧ t.ny < 1)
      · rw [if_pos h2]
        exact ⟨rfl, rfl, rfl, rfl⟩
      · rw [if_neg h2]
        exact ⟨rfl, rfl, rfl, rfl⟩
  · exact ⟨rfl, rfl, rfl, rfl⟩

theorem read_content_clipping (env : CEnv) (fnclean : String) (nd0 nd : ℤ)
    (ymarker : Option String) (oe : String) (t : RpolTable)
    (h : read_content env fnclean nd0 nd ymarker oe = some t) :
    ∃ lines, env.fileopen fnclean = some lines ∧
      t.clipping = (read_options env lines nd0 nd oe).clip_default := by
  unfold read_content at h
  cases hf : env.fileopen fnclean with
  | none => rw [hf] at h; exact absurd h (by simp)
  | some lines =>
    rw [hf] at h
    refine ⟨lines, rfl, ?_⟩
    simp only at h
    split at h
    · exact absurd h (by simp)
    · rw [Option.map_eq_some'] at h
      obtain ⟨raw, _, e⟩ := h
      rw [← e]
      simp only [choose_scheme]
      rw [(check_equi_range_keeps _).1]
      rfl

theorem loaded_table_options (env : CEnv) (fname : String) (nd0 : ℤ)
    (ymarker options : Option String) (t : RpolTable)
    (h : first_table (read_rpol_table (fileSource env) {} fname nd0 ymarker options) = some t) :
    ∃ fnplus fnclean oe lines, read_names fname ymarker options = some (fnplus, fnclean, oe) ∧
      env.fileopen fnclean = some lines ∧ (t.ndim = 1 ∨ t.ndim = 2 ∨ t.ndim = 3) ∧
      t.clipping = (read_options env lines nd0 t.ndim oe).clip_default := by
  rw [read_rpol_table_fresh] at h
  cases hn : read_names fname ymarker options with
  | none => rw [hn] at h; simp [first_table] at h
  | some n =>
    obtain ⟨fnplus, fnclean, oe⟩ := n
    rw [hn] at h
    simp only at h
    cases hl : read_load (fileSource env) fnplus fnclean oe nd0 ymarker options with
    | none => rw [hl] at h; simp [first_table] at h
    | some rpt =>
      rw [hl] at h
      simp only [first_table, List.getD_cons_zero] at h
      injection h with h
      subst h
      unfold read_load at hl
      dsimp only at hl
      split at hl
      · exact absurd hl (by simp)
      · rename_i nd hnd1
        split at hl
        · exact absurd hl (by simp)
        · rename_i hnd
          split at hl
          · exact absurd hl (by simp)
          · rename_i t0 hc
            injection hl with hl
            obtain ⟨lines, hf, hcl⟩ := read_content_clipping env fnclean nd0 nd ymarker oe t0 hc
            refine ⟨fnplus, fnclean, oe, lines, rfl, hf, ?_, ?_⟩
            · rw [← hl]
              simp only
              push_neg at hnd
              by_cases h1 : nd = 1
              · exact Or.inl h1
              · by_cases h2 : nd = 2
                · exact Or.inr (Or.inl h2)
                · exact Or.inr (Or.inr (hnd h1 h2))
            · rw [← hl]
              exact hcl

theorem c_strstr_split (pat : List Char) :
    ∀ (s a b : List Char), c_strstr pat s = some (a, b) → s = a ++ pat ++ b := by
  intro s
  induction s with
  | nil =>
    intro a b h
    unfold c_strstr at h
    split_ifs at h with hp
    · injection h with h
      injection h with h1 h2
      subst h1 h2 hp
      rfl
  | cons c cs ih =>
    intro a b h
    unfold c_strstr at h
    split_ifs at h with hp
    · injection h with h
      injection h with h1 h2
      subst h1 h2
      rw [List.nil_append]
      conv_lhs => rw [← List.take_append_drop pat.length (c :: cs)]
      rw [hp]
    · rw [Option.map_eq_some'] at h
      obtain ⟨r, hr, e⟩ := h
      injection e with e1 e2
      subst e1 e2
      have := ih r.1 r.2 hr
      rw [this]
      simp

theorem read_names_suffix (fname opt : String) (file suf : List Char) (ymarker : Option String)
    (hfl : fname.length < 4095) (hopt : opt ≠ "") (hol : opt.length < 2000)
    (hsuf : c_strstr "#rpol:".data fname.data = some (file, suf)) :
    ∃ fnplus, read_names fname ymarker (some opt) =
      some (fnplus, String.mk file, (opt ++ ",") ++ String.mk suf) := by
  have hsplit := c_strstr_split _ _ _ _ hsuf
  have hlen : suf.length ≤ fname.length := by
    have : fname.length = fname.data.length := rfl
    rw [this, hsplit]
    simp only [List.length_append]
    omega
  have h1 : ¬ fname.length ≥ 4095 := by omega
  have h2 : ¬ opt.length ≥ 2000 := by omega
  have h3 : ¬ ((opt ++ ",").length + (String.mk suf).length ≥ 8192) := by
    rw [String.length_append]
    have e1 : (",":String).length = 1 := rfl
    have e2 : (String.mk suf).length = suf.length := rfl
    rw [e1, e2]
    omega
  have h4 : (opt ++ "," : String) ≠ "" := by
    intro h
    have := congrArg String.length h
    rw [String.length_append] at this
    have e1 : (",":String).length = 1 := rfl
    have e0 : ("":String).length = 0 := rfl
    rw [e1, e0] at this
    omega
  unfold read_names
  rw [if_neg h1]
  simp only [hsuf, Option.getD_some, hopt, ne_eq, not_false_eq_true, decide_True, true_and, h2,
    if_false, if_true, Option.map_some', Option.isSome_some, h3, h4]
  exact ⟨_, rfl⟩

theorem read_names_plain (fname opt : String) (ymarker : Option String)
    (hfl : fname.length < 4095) (hopt : opt ≠ "") (hol : opt.length < 2000)
    (hsuf : c_strstr "#rpol:".data fname.data = none) :
    ∃ fnplus, read_names fname ymarker (some opt) = some (fnplus, fname, opt) := by
  have h1 : ¬ fname.length ≥ 4095 := by omega
  have h2 : ¬ opt.length ≥ 2000 := by omega
  unfold read_names
  rw [if_neg h1]
  simp only [hsuf, Option.getD_some, hopt, ne_eq, not_false_eq_true, decide_True, true_and, h2,
    if_false, if_true, Option.map_none', Option.isSome_none, Bool.false_eq_true, false_and,
    Option.getD_none, String.append_empty]
  exact ⟨_, rfl⟩

theorem append_comma_ne (opt : String) (s : String) : (opt ++ ",") ++ s ≠ "" := by
  intro h
  have := congrArg String.length h
  rw [String.length_append, String.length_append] at this
  have e1 : (",":String).length = 1 := rfl
  have e0 : ("":String).length = 0 := rfl
  rw [e1, e0] at this
  omega

/-- C13 (amended): when the options argument `opt` of `read_rpol_table` is
not empty and the file name carries the suffix `#rpol:suf`, the effective
options are `opt`, a comma, `suf`, and (the words of the two parts being read
one after the other) the words of the suffix are applied last: a key set by a
word of the suffix gets the value the suffix gives it, whatever the options
argument (and the header line) say, and only a key the suffix does not set
keeps the value from the options argument.  The clipping member of the loaded
table is the clipping value so obtained. -/
theorem suffix_precedence (env : CEnv) (fname opt : String) (file suf : List Char) (nd0 : ℤ)
    (ymarker : Option String) (k : OptKey)
    (hfl : fname.length < 4095) (hopt : opt ≠ "") (hol : opt.length < 2000)
    (hsuf : c_strstr "#rpol:".data fname.data = some (file, suf))
    (hwords : env.getword 99 ',' '\n' (((opt ++ ",") ++ String.mk suf).data.dropWhile c_blank) =
      env.getword 99 ',' '\n' (opt.data.dropWhile c_blank) ++ env.getword 99 ',' '\n' suf) :
    (∃ fnplus, read_names fname ymarker (some opt) =
      some (fnplus, String.mk file, (opt ++ ",") ++ String.mk suf)) ∧
    (∀ (lines : List String) (nd : ℤ),
      ((∃ w ∈ env.getword 99 ',' '\n' suf, sets_key nd k w) →
        ∀ o' : ReadOpts,
          opt_value k (read_options env lines nd0 nd ((opt ++ ",") ++ String.mk suf)) =
            opt_value k ((env.getword 99 ',' '\n' suf).foldl (apply_option env nd) o')) ∧
      ((∀ w ∈ env.getword 99 ',' '\n' suf, ¬ sets_key nd k w) →
        opt_value k (read_options env lines nd0 nd ((opt ++ ",") ++ String.mk suf)) =
          opt_value k (read_options env lines nd0 nd opt))) ∧
    (∀ t, first_table (read_rpol_table (fileSource env) {} fname nd0 ymarker (some opt)) = some t →
      ∃ lines, env.fileopen (String.mk file) = some lines ∧
        t.clipping =
          (read_options env lines nd0 t.ndim ((opt ++ ",") ++ String.mk suf)).clip_default) := by
  obtain ⟨fnplus, hn⟩ := read_names_suffix fname opt file suf ymarker hfl hopt hol hsuf
  refine ⟨⟨fnplus, hn⟩, ?_, ?_⟩
  · intro lines nd
    have e1 : read_options env lines nd0 nd ((opt ++ ",") ++ String.mk suf) =
        (env.getword 99 ',' '\n' suf).foldl (apply_option env nd)
          (read_options env lines nd0 nd opt) := by
      unfold read_options
      simp only [if_neg (append_comma_ne opt (String.mk suf)), if_neg hopt, parse_options]
      rw [hwords, List.foldl_append]
    rw [e1]
    exact ⟨fun h o' => options_same env nd k _ _ _ h, fun h => options_other env nd k _ _ h⟩
  · intro t ht
    obtain ⟨fnplus', fnclean, oe, lines, h1, h2, _, h4⟩ :=
      loaded_table_options env fname nd0 ymarker (some opt) t ht
    rw [hn] at h1
    injection h1 with h1
    injection h1 with _ h1
    injection h1 with h1a h1b
    subst h1a h1b
    exact ⟨lines, h2, h4⟩

/-- C14 (amended): for a format hint `nd0 ≤ 0` and a non-empty options
argument `opt` (the file name carrying no `#rpol:` suffix), the words of the
options argument are applied on top of the options of the `OPTIONS:` clause of
the header line: a key set by a word of the options argument gets the value
that word gives it, whatever the header says, and a key no word of the options
argument sets keeps the header's value.  Here a `ZCOL=` word counts as setting
the y column of a 1-D table as well (`sets_key`): it replaces the column of a
`YCOL=` in the header.  The clipping member of the loaded table is the
clipping value so obtained. -/
theorem header_precedence (env : CEnv) (fname opt : String) (nd0 : ℤ)
    (ymarker : Option String) (k : OptKey)
    (hnd0 : nd0 ≤ 0) (hfl : fname.length < 4095) (hopt : opt ≠ "") (hol : opt.length < 2000)
    (hsuf : c_strstr "#rpol:".data fname.data = none) :
    (∀ (lines : List String) (nd : ℤ),
      ((∃ w ∈ env.getword 99 ',' '\n' (opt.data.dropWhile c_blank), sets_key nd k w) →
        ∀ o' : ReadOpts,
          opt_value k (read_options env lines nd0 nd opt) =
            opt_value k ((env.getword 99 ',' '\n' (opt.data.dropWhile c_blank)).foldl
              (apply_option env nd) o')) ∧
      ((∀ w ∈ env.getword 99 ',' '\n' (opt.data.dropWhile c_blank), ¬ sets_key nd k w) →
        opt_value k (read_options env lines nd0 nd opt) =
          opt_value k
            (parse_header env (lines.headD "").data (if nd0 < 0 then -nd0 else nd0)).opts)) ∧
    (∀ t, first_table (read_rpol_table (fileSource env) {} fname nd0 ymarker (some opt)) = some t →
      ∃ lines, env.fileopen fname = some lines ∧
        t.clipping = (read_options env lines nd0 t.ndim opt).clip_default) := by
  obtain ⟨fnplus, hn⟩ := read_names_plain fname opt ymarker hfl hopt hol hsuf
  refine ⟨?_, ?_⟩
  · intro lines nd
    have e1 : read_options env lines nd0 nd opt =
        (env.getword 99 ',' '\n' (opt.data.dropWhile c_blank)).foldl (apply_option env nd)
          (parse_header env (lines.headD "").data (if nd0 < 0 then -nd0 else nd0)).opts := by
      unfold read_options
      simp only [if_neg hopt, if_pos hnd0, parse_options]
    rw [e1]
    exact ⟨fun h o' => options_same env nd k _ _ _ h, fun h => options_other env nd k _ _ h⟩
  · intro t ht
    obtain ⟨fnplus', fnclean, oe, lines, h1, h2, _, h4⟩ :=
      loaded_table_options env fname nd0 ymarker (some opt) t ht
    rw [hn] at h1
    injection h1 with h1
    injection h1 with _ h1
    injection h1 with h1a h1b
    subst h1a h1b
    exact ⟨lines, h2, h4⟩

/-- C13, the claim as stated fails: the file `ramp.dat` is read with the
options argument `CLIP=0,SCHEME=1` and the file-name suffix
`#rpol:CLIP=1,SCHEME=0`; the loaded table has clipping 1 and scheme 0, the
values of the suffix, while the options argument alone gives clipping 0 and
scheme 1. -/
theorem suffix_precedence_counterexample :
    (first_table (read_rpol_table (fileSource (demoEnv demoFiles)) {}
        "ramp.dat#rpol:CLIP=1,SCHEME=0" 1 none (some "CLIP=0,SCHEME=1"))).map
        (fun t => (t.clipping, t.scheme)) = some (1, 0) ∧
      (first_table (read_rpol_table (fileSource (demoEnv demoFiles)) {}
        "ramp.dat" 1 none (some "CLIP=0,SCHEME=1"))).map
        (fun t => (t.clipping, t.scheme)) = some (0, 1) := by
  decide!

/-- The suffix `CLIP=1` wins over the argument `CLIP=0`. -/
theorem suffix_precedence_witness :
    opt_value OptKey.clip (read_options (demoEnv demoFiles) ["0 0", "1 2", "2 4"] 1 1
      (("CLIP=0,SCHEME=1" ++ ",") ++ String.mk "CLIP=1,SCHEME=0".data)) = 1 :=
  (((suffix_precedence (demoEnv demoFiles) "ramp.dat#rpol:CLIP=1,SCHEME=0" "CLIP=0,SCHEME=1"
      "ramp.dat".data "CLIP=1,SCHEME=0".data 1 none OptKey.clip (by decide) (by decide)
      (by decide) (by decide) (by decide)).2.1 ["0 0", "1 2", "2 4"] 1).1
    ⟨"CLIP=1".data, by decide, by decide⟩ {}).trans (by decide!)

/-- C14, the claim as stated fails: the file `head.dat` has the header line
`#@RPOL@ 1 OPTIONS: YCOL=3,CLIP=1` and is read with the format hint 0 and the
options argument `ZCOL=2`.  The key `YCOL` is set in the header only (the one
word of the options argument has the key `ZCOL`), yet the y column the loader
works with is 2, not the 3 of the header, and the table holds the second
column of the file instead of the third. -/
theorem header_precedence_counterexample :
    option_key "YCOL=3".data = some OptKey.ycol ∧
      option_key "ZCOL=2".data = some OptKey.zcol ∧
      opt_value OptKey.ycol (parse_header (demoEnv demoFiles)
        "#@RPOL@ 1 OPTIONS: YCOL=3,CLIP=1".data 0).opts = 3 ∧
      opt_value OptKey.ycol (read_options (demoEnv demoFiles)
        ["#@RPOL@ 1 OPTIONS: YCOL=3,CLIP=1", "0 0 7", "1 2 8", "2 4 9"] 0 1 "ZCOL=2") = 2 ∧
      (first_table (read_rpol_table (fileSource (demoEnv demoFiles)) {} "head.dat" 0 none
        (some "ZCOL=2"))).map (fun t => t.z) = some (some [0, 2, 4]) ∧
      (first_table (read_rpol_table (fileSource (demoEnv demoFiles)) {} "head.dat" 0 none
        none)).map (fun t => t.z) = some (some [7, 8, 9]) := by
  decide!

/-- The argument `CLIP=0` wins over the header `CLIP=1`, and the header
`YCOL=3` stays. -/
theorem header_precedence_witness :
    opt_value OptKey.clip (read_options (demoEnv demoFiles)
        ["#@RPOL@ 1 OPTIONS: YCOL=3,CLIP=1", "0 0 7", "1 2 8", "2 4 9"] 0 1 "CLIP=0") = 0 ∧
      opt_value OptKey.ycol (read_options (demoEnv demoFiles)
        ["#@RPOL@ 1 OPTIONS: YCOL=3,CLIP=1", "0 0 7", "1 2 8", "2 4 9"] 0 1 "CLIP=0") = 3 :=
  ⟨(((header_precedence (demoEnv demoFiles) "head.dat" "CLIP=0" 0 none OptKey.clip (by decide)
      (by decide) (by decide) (by decide) (by decide)).1
      ["#@RPOL@ 1 OPTIONS: YCOL=3,CLIP=1", "0 0 7", "1 2 8", "2 4 9"] 1).1
      ⟨"CLIP=0".data, by decide, by decide⟩ {}).trans (by decide!),
   (((header_precedence (demoEnv demoFiles) "head.dat" "CLIP=0" 0 none OptKey.ycol (by decide)
      (by decide) (by decide) (by decide) (by decide)).1
      ["#@RPOL@ 1 OPTIONS: YCOL=3,CLIP=1", "0 0 7", "1 2 8", "2 4 9"] 1).2
      (by decide)).trans (by decide!)⟩

/-! ## The format 3 reader (C15, C16) -/


theorem find_range (p : ℕ → Bool) :
    ∀ (n k0 : ℕ), k0 < n → p k0 = true → (∀ k, k < k0 → p k = false) →
      (List.range n).find? p = some k0 := by
  intro n
  induction n with
  | zero => intro k0 h; omega
  | succ n ih =>
    intro k0 hk hp hlt
    rw [List.range_succ, List.find?_append]
    by_cases e : k0 < n
    · rw [ih k0 e hp hlt]; rfl
    · have e' : k0 = n := by omega
      subst e'
      have hnone : (List.range k0).find? p = none := by
        rw [List.find?_eq_none]
        intro x hx
        rw [hlt x (List.mem_range.mp hx)]
        simp
      rw [hnone]
      simp [hp]

theorem first_change_at (nrows : ℕ) (V : ℕ → ℚ) (m : ℕ) (hm : 1 ≤ m) (hmn : m < nrows)
    (hsame : ∀ k, k + 1 < m → V k = V (k + 1)) (hdiff : V (m - 1) ≠ V m) :
    first_change nrows V = some m := by
  unfold first_change
  rw [find_range _ (nrows - 1) (m - 1) (by omega)]
  · simp only [Option.map_some']
    congr 1
    omega
  · have e : m - 1 + 1 = m := by omega
    rw [e]
    exact decide_eq_true hdiff
  · intro k hk
    exact decide_eq_false (by
      intro h
      exact h (hsame k (by omega)))


/-- The grid rebuilt from a listing with y varying fastest. -/
theorem grid3_yfast (nx ny : ℕ) (xs ys : ℕ → ℚ) (zm : ℕ → ℕ → ℚ) (X Y Z : ℕ → ℚ)
    (hnx : 2 ≤ nx) (hny : 2 ≤ ny) (hx : xs 0 ≠ xs 1) (hy : ys 0 ≠ ys 1)
    (hX : ∀ k, k < nx * ny → X k = xs (k / ny)) (hY : ∀ k, k < nx * ny → Y k = ys (k % ny))
    (hZ : ∀ k, k < nx * ny → Z k = zm (k / ny) (k % ny)) :
    grid3 0 (nx * ny) X Y Z = some (grid_table nx ny xs ys zm) := by
  have hn4 : 4 ≤ nx * ny := Nat.mul_le_mul hnx hny
  have hlt : ny < nx * ny := by nlinarith
  have hij : ∀ i j, i < nx → j < ny → i * ny + j < nx * ny := by
    intro i j hi hj
    have : (i + 1) * ny ≤ nx * ny := Nat.mul_le_mul_right ny hi
    rw [Nat.add_mul] at this
    omega
  have hn1 : ¬ nx * ny ≤ 1 := by omega
  have h10 : 1 / ny = 0 := Nat.div_eq_of_lt (by omega)
  have h1m : 1 % ny = 1 := Nat.mod_eq_of_lt (by omega)
  have hc1 : (X 0 = X 1 ∧ Y 0 ≠ Y 1) := by
    rw [hX 0 (by omega), hX 1 (by omega), hY 0 (by omega), hY 1 (by omega), h10, h1m,
      Nat.zero_div, Nat.zero_mod]
    exact ⟨rfl, hy⟩
  have hxf : grid3_xfirst (nx * ny) X Y = 0 := by
    unfold grid3_xfirst
    rw [if_neg hn1, if_pos hc1]
  have hrc : grid3_rc 0 (nx * ny) X Y = 0 := by
    unfold grid3_rc
    rw [if_neg hn1, if_pos hc1]
  have hfc : first_change (nx * ny) X = some ny := by
    apply first_change_at _ _ ny (by omega) hlt
    · intro k hk
      rw [hX k (by omega), hX (k + 1) (by omega), Nat.div_eq_of_lt (by omega),
        Nat.div_eq_of_lt hk]
    · rw [hX (ny - 1) (by omega), hX ny hlt, Nat.div_eq_of_lt (by omega),
        Nat.div_self (by omega)]
      exact hx
  have hdiv : nx * ny / ny = nx := Nat.mul_div_cancel nx (by omega)
  have hrun : grid3_run 0 (nx * ny) X = (ny, nx) := by
    unfold grid3_run
    rw [if_pos rfl, hfc]
    simp only [hdiv]
  have hok : grid3_check 0 nx ny X Y = true := by
    unfold grid3_check
    rw [if_neg (by simp)]
    rw [List.all_eq_true]
    intro i hi
    have hi' : i < nx := List.mem_range.mp hi
    rw [List.all_eq_true]
    intro j hj
    have hj' : j < ny := List.mem_range.mp hj
    have hb := hij i j hi' hj'
    have hb0 := hij i 0 hi' (by omega)
    apply decide_eq_true
    constructor
    · rw [hX _ hb, hX (i * ny) (by omega)]
      congr 1
      rw [Nat.mul_div_cancel i (by omega), Nat.add_comm, Nat.add_mul_div_right _ _ (by omega),
        Nat.div_eq_of_lt hj']
      omega
    · rw [hY _ hb, hY j (by omega)]
      congr 1
      rw [Nat.add_comm, Nat.add_mul_mod_self_right]
  have hcopy : grid3_copy 0 nx ny X Y Z = grid_table nx ny xs ys zm := by
    unfold grid3_copy grid_table
    rw [if_neg (by norm_num), if_pos rfl]
    congr 1
    · apply List.map_congr_left
      intro i hi
      have hb0 := hij i 0 (List.mem_range.mp hi) (by omega)
      rw [hX (i * ny) (by omega), Nat.mul_div_cancel i (by omega)]
    · apply List.map_congr_left
      intro j hj
      have hj' : j < ny := List.mem_range.mp hj
      rw [hY j (by omega), Nat.mod_eq_of_lt hj']
    · apply List.map_congr_left
      intro k hk
      rw [Nat.div_add_mod', hZ k (List.mem_range.mp hk)]
  unfold grid3
  simp only [hxf, hrc, hrun, ne_eq, not_true_eq_false, if_false, hok, Bool.true_eq_false,
    and_false, if_true, hcopy]

/-- The grid rebuilt from a listing with x varying fastest. -/
theorem grid3_xfast (nx ny : ℕ) (xs ys : ℕ → ℚ) (zm : ℕ → ℕ → ℚ) (X Y Z : ℕ → ℚ)
    (hnx : 2 ≤ nx) (hny : 2 ≤ ny) (hx : xs 0 ≠ xs 1) (hy : ys 0 ≠ ys 1)
    (hX : ∀ k, k < nx * ny → X k = xs (k % nx)) (hY : ∀ k, k < nx * ny → Y k = ys (k / nx))
    (hZ : ∀ k, k < nx * ny → Z k = zm (k % nx) (k / nx)) :
    grid3 0 (nx * ny) X Y Z = some (grid_table nx ny xs ys zm) := by
  have hn4 : 4 ≤ nx * ny := Nat.mul_le_mul hnx hny
  have hlt : nx < nx * ny := by nlinarith
  have hji : ∀ i j, i < nx → j < ny → j * nx + i < nx * ny := by
    intro i j hi hj
    have : (j + 1) * nx ≤ ny * nx := Nat.mul_le_mul_right nx hj
    rw [Nat.add_mul, Nat.mul_comm ny nx] at this
    omega
  have hn1 : ¬ nx * ny ≤ 1 := by omega
  have h10 : 1 / nx = 0 := Nat.div_eq_of_lt (by omega)
  have h1m : 1 % nx = 1 := Nat.mod_eq_of_lt (by omega)
  have hc0 : ¬ (X 0 = X 1 ∧ Y 0 ≠ Y 1) := by
    rw [hX 0 (by omega), hX 1 (by omega), hY 0 (by omega), hY 1 (by omega), h10, h1m,
      Nat.zero_div, Nat.zero_mod]
    intro h
    exact hx h.1
  have hc1 : (X 0 ≠ X 1 ∧ Y 0 = Y 1) := by
    rw [hX 0 (by omega), hX 1 (by omega), hY 0 (by omega), hY 1 (by omega), h10, h1m,
      Nat.zero_div, Nat.zero_mod]
    exact ⟨hx, rfl⟩
  have hxf : grid3_xfirst (nx * ny) X Y = 1 := by
    unfold grid3_xfirst
    rw [if_neg hn1, if_neg hc0, if_pos hc1]
  have hrc : grid3_rc 0 (nx * ny) X Y = 0 := by
    unfold grid3_rc
    rw [if_neg hn1, if_neg hc0, if_pos hc1]
  have hfc : first_change (nx * ny) Y = some nx := by
    apply first_change_at _ _ nx (by omega) hlt
    · intro k hk
      rw [hY k (by omega), hY (k + 1) (by omega), Nat.div_eq_of_lt (by omega),
        Nat.div_eq_of_lt hk]
    · rw [hY (nx - 1) (by omega), hY nx hlt, Nat.div_eq_of_lt (by omega),
        Nat.div_self (by omega)]
      exact hy
  have hdiv : nx * ny / nx = ny := Nat.mul_div_cancel_left ny (by omega)
  have hrun : grid3_run 0 (nx * ny) Y = (nx, ny) := by
    unfold grid3_run
    rw [if_pos rfl, hfc]
    simp only [hdiv]
  have hok : grid3_check 1 nx ny X Y = true := by
    unfold grid3_check
    rw [if_pos (by norm_num)]
    rw [List.all_eq_true]
    intro i hi
    have hi' : i < nx := List.mem_range.mp hi
    rw [List.all_eq_true]
    intro j hj
    have hj' : j < ny := List.mem_range.mp hj
    have hb := hji i j hi' hj'
    have hb0 := hji 0 j (by omega) hj'
    apply decide_eq_true
    constructor
    · rw [hX _ hb, hX i (by omega)]
      congr 1
      rw [Nat.add_comm, Nat.add_mul_mod_self_right]
    · rw [hY _ hb, hY (j * nx) (by omega)]
      congr 1
      rw [Nat.mul_div_cancel j (by omega), Nat.add_comm, Nat.add_mul_div_right _ _ (by omega),
        Nat.div_eq_of_lt hi']
      omega
  have hcopy : grid3_copy 1 nx ny X Y Z = grid_table nx ny xs ys zm := by
    unfold grid3_copy grid_table
    rw [if_pos rfl]
    congr 1
    · apply List.map_congr_left
      intro i hi
      have hi' : i < nx := List.mem_range.mp hi
      rw [hX i (by omega), Nat.mod_eq_of_lt hi']
    · apply List.map_congr_left
      intro j hj
      have hb0 := hji 0 j (by omega) (List.mem_range.mp hj)
      rw [hY (j * nx) (by omega), Nat.mul_div_cancel j (by omega)]
    · apply List.map_congr_left
      intro k hk
      have hk' : k < nx * ny := List.mem_range.mp hk
      have hq : k / ny < nx := Nat.div_lt_of_lt_mul (by rw [Nat.mul_comm]; exact hk')
      have hr : k % ny < ny := Nat.mod_lt _ (by omega)
      rw [hZ _ (hji (k / ny) (k % ny) hq hr)]
      have e1 : (k % ny * nx + k / ny) % nx = k / ny := by
        rw [Nat.add_comm, Nat.add_mul_mod_self_right, Nat.mod_eq_of_lt hq]
      have e2 : (k % ny * nx + k / ny) / nx = k % ny := by
        rw [Nat.add_comm, Nat.add_mul_div_right _ _ (by omega), Nat.div_eq_of_lt hq]
        omega
      rw [e1, e2]
  unfold grid3
  simp only [hxf, hrc, hrun, ne_eq, one_ne_zero, not_false_eq_true, if_true, hok,
    Bool.true_eq_false, and_false, if_false, not_true_eq_false, hcopy]


/-- The outcome of `read_table_v` on an input of fewer than 100000 data
lines. -/
theorem read_table_v_short (env : CEnv) (fname : String) (lines : List String) (hint ncol : ℕ)
    (selcol : Option (List ℕ)) (hncol : 1 ≤ ncol)
    (hsel : ∀ sel, selcol = some sel → ∀ i, i < ncol → 1 ≤ sel.getD i 0)
    (hmax : maxcol_of ncol selcol ≤ 500)
    (hlt : (lines.filterMap (line_row env ncol selcol)).length < 100000) :
    read_table_v env (some fname) (some lines) (some hint) ncol (some none) selcol =
      { rc := 0, nrow := some (lines.filterMap (line_row env ncol selcol)).length,
        col := some (columns_of ncol (lines.filterMap (line_row env ncol selcol))),
        nread := lines.length } := by
  rw [read_table_v_valid env fname (some lines) lines hint ncol selcol (Or.inl rfl) hncol hsel hmax]
  obtain ⟨s1, s2, s3, _⟩ := read_rows_spec env 100000 ncol selcol hsel lines
    (List.replicate (maxcol_of ncol selcol) 0) [] 0 (by simp) (by simp)
  simp only [List.length_nil, List.nil_append, Nat.sub_zero, zero_add] at s1 s2 s3
  obtain ⟨s3a, s3b⟩ := s3 hlt
  rw [List.take_of_length_le (by omega)] at s1
  rw [Nat.min_eq_left (by omega)] at s2
  generalize read_rows env (rcol_of ncol (maxcol_of ncol selcol) selcol) 100000 ncol
    (maxcol_of ncol selcol) selcol lines (List.replicate (maxcol_of ncol selcol) 0)
    (columns_of ncol []) 0 0 = r at s1 s2 s3a s3b
  obtain ⟨rc, nrow, col, nread⟩ := r
  simp only at s1 s2 s3a s3b
  rw [s1, s2, s3a, s3b]

/-- The outcome of `read_table_v` on an input of 100000 data lines or
more. -/
theorem read_table_v_full (env : CEnv) (fname : String) (lines : List String) (hint ncol : ℕ)
    (selcol : Option (List ℕ)) (hncol : 1 ≤ ncol)
    (hsel : ∀ sel, selcol = some sel → ∀ i, i < ncol → 1 ≤ sel.getD i 0)
    (hmax : maxcol_of ncol selcol ≤ 500)
    (hge : 100000 ≤ (lines.filterMap (line_row env ncol selcol)).length) :
    (read_table_v env (some fname) (some lines) (some hint) ncol (some none) selcol).rc = -4 ∧
      (read_table_v env (some fname) (some lines) (some hint) ncol (some none) selcol).nrow =
        some 100000 ∧
      (read_table_v env (some fname) (some lines) (some hint) ncol (some none) selcol).col =
        some (columns_of ncol ((lines.filterMap (line_row env ncol selcol)).take 100000)) := by
  rw [read_table_v_valid env fname (some lines) lines hint ncol selcol (Or.inl rfl) hncol hsel hmax]
  obtain ⟨s1, s2, _, s4⟩ := read_rows_spec env 100000 ncol selcol hsel lines
    (List.replicate (maxcol_of ncol selcol) 0) [] 0 (by simp) (by simp)
  simp only [List.length_nil, List.nil_append, Nat.sub_zero, zero_add] at s1 s2 s4
  rw [Nat.min_eq_right hge] at s2
  exact ⟨(s4 hge).1, s2, s1⟩

theorem maxcol3 : maxcol_of 3 none ≤ 500 := by decide

/-- Reading a column of rows that are the triples `(X k, Y k, Z k)`. -/
theorem rows_are_column (rows : List (List ℚ)) (n : ℕ) (X Y Z : ℕ → ℚ)
    (h : rows_are rows n X Y Z) :
    rows.length = n ∧ ∀ k, k < n →
      ((columns_of 3 rows).getD 0 []).getD k 0 = X k ∧
      ((columns_of 3 rows).getD 1 []).getD k 0 = Y k ∧
      ((columns_of 3 rows).getD 2 []).getD k 0 = Z k := by
  unfold rows_are at h
  subst h
  refine ⟨by simp, ?_⟩
  intro k hk
  unfold columns_of
  rw [getD_map_range _ 3 0 [] (by omega), getD_map_range _ 3 1 [] (by omega),
    getD_map_range _ 3 2 [] (by omega)]
  simp only [List.map_map]
  rw [getD_map_range _ n k 0 hk, getD_map_range _ n k 0 hk, getD_map_range _ n k 0 hk]
  simp

/-- The format 3 branch on an input of fewer than 100000 data lines, with the
columns in their natural order. -/
theorem read_format3_short (env : CEnv) (fname : String) (lines : List String) (o : ReadOpts)
    (hcols : o.xcol = 1 ∧ o.ycol = 2 ∧ o.zcol = 3)
    (hlt : (lines.filterMap (line_row env 3 none)).length < 100000) :
    read_format3 env fname lines o =
      (grid3 0 (lines.filterMap (line_row env 3 none)).length
        (fun i => ((columns_of 3 (lines.filterMap (line_row env 3 none))).getD 0 []).getD i 0)
        (fun i => ((columns_of 3 (lines.filterMap (line_row env 3 none))).getD 1 []).getD i 0)
        (fun i => ((columns_of 3 (lines.filterMap (line_row env 3 none))).getD 2 []).getD i 0)).map
        (fun g => { aux := o.aux, zxreq := o.zxreq, x := some g.x, y := some g.y, z := some g.z,
                    nx := g.nx, ny := g.ny }) := by
  have hr := read_table_v_short env fname lines (to_size_t (-(o.expect_rows : ℤ))) 3 none
    (by decide) (fun sel h => by cases h) maxcol3 hlt
  unfold read_format3
  simp only [if_pos hcols, hr, Option.getD_some]
  rw [if_neg (by simp)]
  cases grid3 0 (lines.filterMap (line_row env 3 none)).length
    (fun i => ((columns_of 3 (lines.filterMap (line_row env 3 none))).getD 0 []).getD i 0)
    (fun i => ((columns_of 3 (lines.filterMap (line_row env 3 none))).getD 1 []).getD i 0)
    (fun i => ((columns_of 3 (lines.filterMap (line_row env 3 none))).getD 2 []).getD i 0) with
  | none => rfl
  | some g => rfl


/-- A table that is not 1-D keeps its buffers in `rpol_check_equi_range`. -/
theorem check_equi_range_buffers (t : RpolTable) (h : t.ndim ≠ 1) :
    (rpol_check_equi_range t).x = t.x ∧ (rpol_check_equi_range t).y = t.y ∧
      (rpol_check_equi_range t).z = t.z := by
  unfold rpol_check_equi_range
  dsimp only
  split
  · rename_i xs0 zs0 hx hz
    by_cases h1 : t.ndim ≥ 2 ∧ t.y = none
    · rw [if_pos h1]
      exact ⟨rfl, rfl, rfl⟩
    · rw [if_neg h1]
      by_cases h2 : t.nx < 1 ∨ (t.ndim ≥ 2 ∧ t.ny < 1)
      · rw [if_pos h2]
        exact ⟨rfl, rfl, rfl⟩
      · rw [if_neg h2]
        have hrev : decide (t.ndim = 1 ∧ t.nx > 1 ∧ xs0.getD (t.nx - 1) 0 < xs0.getD 0 0) = false :=
          decide_eq_false (fun hh => h hh.1)
        simp only [hrev, Bool.false_eq_true, if_false]
        exact ⟨hx.symm, trivial, hz.symm⟩
  · exact ⟨rfl, rfl, rfl⟩

/-- Without options a format 3 table keeps the buffers and sizes of the
rebuilt grid through the rest of `read_rpol_table`. -/
theorem finish_format3 (env : CEnv) (t : RpolTable) :
    (choose_scheme (rpol_check_equi_range (finish_table env 3 {} t))).x = t.x ∧
      (choose_scheme (rpol_check_equi_range (finish_table env 3 {} t))).y = t.y ∧
      (choose_scheme (rpol_check_equi_range (finish_table env 3 {} t))).z = t.z ∧
      (choose_scheme (rpol_check_equi_range (finish_table env 3 {} t))).nx = t.nx ∧
      (choose_scheme (rpol_check_equi_range (finish_table env 3 {} t))).ny = t.ny := by
  have hnd : (finish_table env 3 {} t).ndim = 3 := rfl
  obtain ⟨k1, k2, k3, k4⟩ := check_equi_range_keeps (finish_table env 3 {} t)
  obtain ⟨b1, b2, b3⟩ := check_equi_range_buffers (finish_table env 3 {} t) (by rw [hnd]; norm_num)
  have hnd' : (rpol_check_equi_range (finish_table env 3 {} t)).ndim ≠ 1 := by
    rw [k2, hnd]; norm_num
  have hx : (finish_table env 3 {} t).x = t.x := by simp [finish_table]
  have hy : (finish_table env 3 {} t).y = t.y := by simp [finish_table]
  have hz : (finish_table env 3 {} t).z = t.z := by simp [finish_table]
  refine ⟨?_, ?_, ?_, ?_, ?_⟩
  · show (rpol_check_equi_range (finish_table env 3 {} t)).x = t.x
    rw [b1, hx]
  · show (if (rpol_check_equi_range (finish_table env 3 {} t)).ndim = 1 then _ else _) = t.y
    rw [if_neg hnd', b2, hy]
  · show (rpol_check_equi_range (finish_table env 3 {} t)).z = t.z
    rw [b3, hz]
  · show (rpol_check_equi_range (finish_table env 3 {} t)).nx = t.nx
    rw [k3]; rfl
  · show (rpol_check_equi_range (finish_table env 3 {} t)).ny = t.ny
    rw [k4]; rfl

/-- The reading of a file for a format `nd0 > 0` given in the call, without
options: the format branch on the whole file, then the finishing steps. -/
theorem read_content_plain (env : CEnv) (fn : String) (lines : List String) (nd : ℤ)
    (hopen : env.fileopen fn = some lines) (hnd : 0 < nd) :
    read_content env fn nd nd none "" =
      (if nd = 1 then read_format1 env fn lines {}
       else if nd = 2 then read_format2 env fn lines none {}
       else if nd = 3 then read_format3 env fn lines {}
       else none).map
        (fun t => choose_scheme (rpol_check_equi_range (finish_table env nd {} t))) := by
  have h0 : ¬ nd ≤ 0 := by omega
  unfold read_content
  rw [hopen]
  simp only [h0, false_and, if_false, read_options, read_stream, read_ymarker, if_true,
    List.nil_eq, ne_eq, not_true_eq_false]


/-- A return code of `read_table_v` other than 0 makes the format 3 branch
give up. -/
theorem grid3_reject (rc : ℤ) (nrows : ℕ) (X Y Z : ℕ → ℚ) (h : rc ≠ 0) :
    grid3 rc nrows X Y Z = none := by
  have h1 : grid3_rc rc nrows X Y ≠ 0 := by
    unfold grid3_rc
    split_ifs <;> first | exact h | norm_num
  unfold grid3
  simp only [h1, false_and, if_false]
  split_ifs <;> simp_all

/-- The rows of a rectangular grid in strictly ascending order are distinct
at the first step. -/
theorem first_step_ne (v : ℕ → ℚ) (n : ℕ) (hn : 2 ≤ n) (h : ∀ i, i + 1 < n → v i < v (i + 1)) :
    v 0 ≠ v 1 := ne_of_lt (h 0 (by omega))

/-- C16 (amended): for every rectangular grid with fewer than 100000 points,
`nx ≥ 2` strictly ascending x values, `ny ≥ 2` strictly ascending y values and
any z matrix, a file that lists the `nx*ny` triples with y varying fastest and
a file that lists them with x varying fastest are both accepted by the format
3 reader and yield the same table: the sizes `nx` and `ny`, the x values, the
y values and z in row-major order, `z[i*ny + j]` the value at `(x[i], y[j])`. -/
theorem format3_listings (env : CEnv) (f1 f2 : String) (L1 L2 : List String) (nx ny : ℕ)
    (xs ys : ℕ → ℚ) (zm : ℕ → ℕ → ℚ)
    (h1 : env.fileopen f1 = some L1) (h2 : env.fileopen f2 = some L2)
    (hnx : 2 ≤ nx) (hny : 2 ≤ ny)
    (hxs : ∀ i, i + 1 < nx → xs i < xs (i + 1)) (hys : ∀ j, j + 1 < ny → ys j < ys (j + 1))
    (hlt : nx * ny < 100000)
    (hr1 : rows_are (L1.filterMap (line_row env 3 none)) (nx * ny)
      (fun k => xs (k / ny)) (fun k => ys (k % ny)) (fun k => zm (k / ny) (k % ny)))
    (hr2 : rows_are (L2.filterMap (line_row env 3 none)) (nx * ny)
      (fun k => xs (k % nx)) (fun k => ys (k / nx)) (fun k => zm (k % nx) (k / nx))) :
    ∃ t, read_content env f1 3 3 none "" = some t ∧ read_content env f2 3 3 none "" = some t ∧
      t.nx = nx ∧ t.ny = ny ∧ t.x = some ((List.range nx).map xs) ∧
      t.y = some ((List.range ny).map ys) ∧
      t.z = some ((List.range (nx * ny)).map (fun k => zm (k / ny) (k % ny))) ∧
      ∀ i j, i < nx → j < ny → arr t.z ((i * ny + j : ℕ) : ℤ) = zm i j := by
  have hx := first_step_ne xs nx hnx hxs
  have hy := first_step_ne ys ny hny hys
  obtain ⟨l1, c1⟩ := rows_are_column _ _ _ _ _ hr1
  obtain ⟨l2, c2⟩ := rows_are_column _ _ _ _ _ hr2
  have g1 := grid3_yfast nx ny xs ys zm _ _ _ hnx hny hx hy (fun k hk => (c1 k hk).1)
    (fun k hk => (c1 k hk).2.1) (fun k hk => (c1 k hk).2.2)
  have g2 := grid3_xfast nx ny xs ys zm _ _ _ hnx hny hx hy (fun k hk => (c2 k hk).1)
    (fun k hk => (c2 k hk).2.1) (fun k hk => (c2 k hk).2.2)
  have e1 := read_format3_short env f1 L1 {} ⟨rfl, rfl, rfl⟩ (by rw [l1]; exact hlt)
  have e2 := read_format3_short env f2 L2 {} ⟨rfl, rfl, rfl⟩ (by rw [l2]; exact hlt)
  rw [l1, g1] at e1
  rw [l2, g2] at e2
  simp only [Option.map_some'] at e1 e2
  have k1 := read_content_plain env f1 L1 3 h1 (by norm_num)
  have k2 := read_content_plain env f2 L2 3 h2 (by norm_num)
  have n31 : ¬ ((3 : ℤ) = 1) := by norm_num
  have n32 : ¬ ((3 : ℤ) = 2) := by norm_num
  simp only [n31, n32, if_false, if_true, e1, Option.map_some'] at k1
  simp only [n31, n32, if_false, if_true, e2, Option.map_some'] at k2
  obtain ⟨p1, p2, p3, p4, p5⟩ := finish_format3 env
    { aux := ({} : ReadOpts).aux, zxreq := ({} : ReadOpts).zxreq,
      x := some (grid_table nx ny xs ys zm).x, y := some (grid_table nx ny xs ys zm).y,
      z := some (grid_table nx ny xs ys zm).z, nx := (grid_table nx ny xs ys zm).nx,
      ny := (grid_table nx ny xs ys zm).ny }
  refine ⟨_, k1, k2, p4, p5, p1, p2, p3, ?_⟩
  intro i j hi hj
  rw [p3]
  simp only [arr, Option.getD_some, Int.toNat_ofNat, grid_table]
  have hb : i * ny + j < nx * ny := by
    have : (i + 1) * ny ≤ nx * ny := Nat.mul_le_mul_right ny hi
    rw [Nat.add_mul] at this
    omega
  rw [getD_map_range _ _ _ 0 hb]
  congr 1
  · rw [Nat.add_comm, Nat.add_mul_div_right _ _ (by omega), Nat.div_eq_of_lt hj]
    omega
  · rw [Nat.add_comm, Nat.add_mul_mod_self_right, Nat.mod_eq_of_lt hj]


/-- The grid `x = 0, 5`, `y = 0, 10, 20`, `z = 1 2 3 / 4 5 6` listed with y
varying fastest (`yfast.dat`) and with x varying fastest (`xfast.dat`). -/
theorem format3_listings_witness :
    ∃ t, read_content (demoEnv demoFiles) "yfast.dat" 3 3 none "" = some t ∧
      read_content (demoEnv demoFiles) "xfast.dat" 3 3 none "" = some t ∧
      t.nx = 2 ∧ t.ny = 3 ∧ t.x = some [0, 5] ∧ t.y = some [0, 10, 20] ∧
      t.z = some [1, 2, 3, 4, 5, 6] := by
  obtain ⟨t, a, b, c, d, e, f, g, _⟩ := format3_listings (demoEnv demoFiles) "yfast.dat"
    "xfast.dat" ["0 0 1", "0 10 2", "0 20 3", "5 0 4", "5 10 5", "5 20 6"]
    ["0 0 1", "5 0 4", "0 10 2", "5 10 5", "0 20 3", "5 20 6"] 2 3 demoXs demoYs demoZm rfl rfl
    (by decide) (by decide)
    (by intro i _; simp only [demoXs]; push_cast; linarith)
    (by intro j _; simp only [demoYs]; push_cast; linarith)
    (by decide) (by unfold rows_are; decide!) (by unfold rows_are; decide!)
  exact ⟨t, a, b, c, d, e.trans (by decide!), f.trans (by decide!), g.trans (by decide!)⟩

/-- C16, the claim as stated fails: the grid of 2 x values `0, 1` and 50000
y values `0, 1, ..., 49999` (z = 0 everywhere) has 100000 points.
`read_table_v` returns -4 whenever the input holds 100000 data lines, and with
that return code the rebuilding of the grid gives up although all rows of the
listing are there: any file that lists this grid with y varying fastest is
rejected by the format 3 branch. -/
theorem format3_listings_counterexample :
    grid3 (-4) (2 * 50000) (fun k => ((k / 50000 : ℕ) : ℚ)) (fun k => ((k % 50000 : ℕ) : ℚ))
        (fun _ => 0) = none ∧
      (∀ (env : CEnv) (fname : String) (lines : List String) (hint : ℕ),
        (lines.filterMap (line_row env 3 none)).length = 2 * 50000 →
        (read_table_v env (some fname) (some lines) (some hint) 3 (some none) none).rc = -4 ∧
        (read_table_v env (some fname) (some lines) (some hint) 3 (some none) none).nrow =
          some 100000) ∧
      (∀ (env : CEnv) (fname : String) (lines : List String) (o : ReadOpts),
        o.xcol = 1 ∧ o.ycol = 2 ∧ o.zcol = 3 →
        rows_are (lines.filterMap (line_row env 3 none)) (2 * 50000)
          (fun k => ((k / 50000 : ℕ) : ℚ)) (fun k => ((k % 50000 : ℕ) : ℚ)) (fun _ => 0) →
        read_format3 env fname lines o = none) := by
  refine ⟨grid3_reject _ _ _ _ _ (by norm_num), ?_, ?_⟩
  · intro env fname lines hint hlen
    obtain ⟨r1, r2, _⟩ := read_table_v_full env fname lines hint 3 none (by decide)
      (fun sel h => by cases h) maxcol3 (by rw [hlen])
    exact ⟨r1, r2⟩
  · intro env fname lines o hcols hrows
    obtain ⟨hlen, _⟩ := rows_are_column _ _ _ _ _ hrows
    obtain ⟨r1, r2, r3⟩ := read_table_v_full env fname lines
      (to_size_t (-(o.expect_rows : ℤ))) 3 none (by decide)
      (fun sel h => by cases h) maxcol3 (by rw [hlen])
    unfold read_format3
    simp only [if_pos hcols, r1, r2, r3, Option.getD_some]
    rw [if_neg (by simp), grid3_reject _ _ _ _ _ (by norm_num)]

/-- What an accepted input of two rows or more has passed in the format 3
branch: one of the two columns changes first, the two sizes multiply to the
number of rows, the check loops have found no mismatch, and the table is
copied for that order. -/
theorem grid3_accepted (nrows : ℕ) (X Y Z : ℕ → ℚ) (g : Grid3) (hn : 2 ≤ nrows)
    (h : grid3 0 nrows X Y Z = some g) :
    ∃ (xfirst : ℤ) (nx ny : ℕ), (xfirst = 0 ∨ xfirst = 1) ∧ nx * ny = nrows ∧
      grid3_check xfirst nx ny X Y = true ∧ g = grid3_copy xfirst nx ny X Y Z := by
  have hn1 : ¬ nrows ≤ 1 := by omega
  unfold grid3 at h
  simp only [grid3_xfirst, grid3_rc, if_neg hn1] at h
  by_cases c0 : X 0 = X 1 ∧ Y 0 ≠ Y 1
  · simp only [if_pos c0, ne_eq, not_true_eq_false, if_false, true_and] at h
    generalize grid3_run 0 nrows X = run at h
    by_cases hm : run.2 * run.1 = nrows
    · by_cases hc : grid3_check 0 run.2 run.1 X Y = true
      · refine ⟨0, run.2, run.1, Or.inl rfl, hm, hc, ?_⟩
        simp [hm, hc] at h
        exact h.symm
      · simp [hm, hc] at h
    · simp [hm] at h
  · by_cases c1 : X 0 ≠ X 1 ∧ Y 0 = Y 1
    · have h10 : ¬ (1 : ℤ) = 0 := by norm_num
      simp only [if_neg c0, if_pos c1, ne_eq, h10, not_false_eq_true, if_true, true_and] at h
      generalize grid3_run 0 nrows Y = run at h
      by_cases hm : run.1 * run.2 = nrows
      · by_cases hc : grid3_check 1 run.1 run.2 X Y = true
        · refine ⟨1, run.1, run.2, Or.inr rfl, hm, hc, ?_⟩
          simp [hm, hc] at h
          exact h.symm
        · simp [hm, hc] at h
      · simp [hm] at h
    · simp [if_neg c0, if_neg c1] at h

/-- The format 3 branch on two rows or more: an accepted input is reshaped
consistently.  The sizes multiply to the number of rows, the buffers have
these sizes, and every input row `(X k, Y k, Z k)` is found at a grid
position `(i, j)`: `x[i] = X k`, `y[j] = Y k`, `z[i*ny + j] = Z k`. -/
theorem grid3_consistent (nrows : ℕ) (X Y Z : ℕ → ℚ) (g : Grid3) (hn : 2 ≤ nrows)
    (h : grid3 0 nrows X Y Z = some g) :
    g.nx * g.ny = nrows ∧ g.x.length = g.nx ∧ g.y.length = g.ny ∧
      g.z.length = g.nx * g.ny ∧
      ∀ k, k < nrows → ∃ i j, i < g.nx ∧ j < g.ny ∧ g.x.getD i 0 = X k ∧
        g.y.getD j 0 = Y k ∧ g.z.getD (i * g.ny + j) 0 = Z k := by
  obtain ⟨xfirst, nx, ny, hxf, hm, hc, hg⟩ := grid3_accepted nrows X Y Z g hn h
  have hnx : 0 < nx := by
    rcases Nat.eq_zero_or_pos nx with h0 | h0
    · rw [h0, Nat.zero_mul] at hm; omega
    · exact h0
  have hny : 0 < ny := by
    rcases Nat.eq_zero_or_pos ny with h0 | h0
    · rw [h0, Nat.mul_zero] at hm; omega
    · exact h0
  rcases hxf with hxf | hxf
  · subst hxf
    have hchk : ∀ i, i < nx → ∀ j, j < ny →
        X (i * ny + j) = X (i * ny) ∧ Y (i * ny + j) = Y j := by
      intro i hi j hj
      simp only [grid3_check, ne_eq, not_true_eq_false, if_false, List.all_eq_true,
        List.mem_range, decide_eq_true_eq] at hc
      exact hc i hi j hj
    have hgc : g = { nx := nx, ny := ny
                     x := (List.range nx).map (fun i => X (i * ny))
                     y := (List.range ny).map (fun j => Y j)
                     z := (List.range (nx * ny)).map (fun k => Z ((k / ny) * ny + k % ny)) } := by
      rw [hg]; simp [grid3_copy]
    subst hgc
    refine ⟨hm, by simp, by simp, by simp, ?_⟩
    intro k hk
    have hi : k / ny < nx := by
      rw [Nat.div_lt_iff_lt_mul hny, hm]; exact hk
    have hj : k % ny < ny := Nat.mod_lt _ hny
    have hk' : k / ny * ny + k % ny = k := by
      rw [Nat.mul_comm]; exact Nat.div_add_mod k ny
    obtain ⟨e1, e2⟩ := hchk (k / ny) hi (k % ny) hj
    rw [hk'] at e1 e2
    refine ⟨k / ny, k % ny, hi, hj, ?_, ?_, ?_⟩
    · show ((List.range nx).map (fun i => X (i * ny))).getD (k / ny) 0 = X k
      rw [getD_map_range _ _ _ 0 hi, e1]
    · show ((List.range ny).map (fun j => Y j)).getD (k % ny) 0 = Y k
      rw [getD_map_range _ _ _ 0 hj, e2]
    · show ((List.range (nx * ny)).map (fun k => Z ((k / ny) * ny + k % ny))).getD
        (k / ny * ny + k % ny) 0 = Z k
      rw [hk', getD_map_range _ _ _ 0 (by rw [hm]; exact hk), hk']
  · subst hxf
    have hchk : ∀ i, i < nx → ∀ j, j < ny →
        X (j * nx + i) = X i ∧ Y (j * nx + i) = Y (j * nx) := by
      intro i hi j hj
      have h10 : ¬ (1 : ℤ) = 0 := by norm_num
      simp only [grid3_check, ne_eq, h10, not_false_eq_true, if_true, List.all_eq_true,
        List.mem_range, decide_eq_true_eq] at hc
      exact hc i hi j hj
    have hgc : g = { nx := nx, ny := ny
                     x := (List.range nx).map (fun i => X i)
                     y := (List.range ny).map (fun j => Y (j * nx))
                     z := (List.range (nx * ny)).map (fun k => Z ((k % ny) * nx + k / ny)) } := by
      rw [hg]; simp [grid3_copy]
    subst hgc
    refine ⟨hm, by simp, by simp, by simp, ?_⟩
    intro k hk
    have hj : k / nx < ny := by
      rw [Nat.div_lt_iff_lt_mul hnx, Nat.mul_comm, hm]; exact hk
    have hi : k % nx < nx := Nat.mod_lt _ hnx
    have hk' : k / nx * nx + k % nx = k := by
      rw [Nat.mul_comm]; exact Nat.div_add_mod k nx
    obtain ⟨e1, e2⟩ := hchk (k % nx) hi (k / nx) hj
    rw [hk'] at e1 e2
    have hpos : k % nx * ny + k / nx < nx * ny := by
      calc k % nx * ny + k / nx < k % nx * ny + ny := by omega
        _ = (k % nx + 1) * ny := by ring
        _ ≤ nx * ny := Nat.mul_le_mul_right ny hi
    refine ⟨k % nx, k / nx, hi, hj, ?_, ?_, ?_⟩
    · show ((List.range nx).map (fun i => X i)).getD (k % nx) 0 = X k
      rw [getD_map_range _ _ _ 0 hi, e1]
    · show ((List.range ny).map (fun j => Y (j * nx))).getD (k / nx) 0 = Y k
      rw [getD_map_range _ _ _ 0 hj, e2]
    · show ((List.range (nx * ny)).map (fun k => Z ((k % ny) * nx + k / ny))).getD
        (k % nx * ny + k / nx) 0 = Z k
      rw [getD_map_range _ _ _ 0 hpos]
      have a1 : (k % nx * ny + k / nx) % ny = k / nx := by
        rw [Nat.add_comm, Nat.add_mul_mod_self_right, Nat.mod_eq_of_lt hj]
      have a2 : (k % nx * ny + k / nx) / ny = k % nx := by
        rw [Nat.add_comm, Nat.add_mul_div_right _ _ hny, Nat.div_eq_of_lt hj, Nat.zero_add]
      rw [a1, a2, hk']

/-- C15: a format 3 file with the single data row `1 2 3` is loaded (the
result is not NULL), but the table holds `x = [0]`, `y = [0]`, `z = [0]`
instead of the row: for a single row the rebuilding of the grid leaves
`xfirst = -1`, and the buffers allocated with `calloc` are filled for
`xfirst = 1` and `xfirst = 0` only.  So it is for every file with one data
row.  From two rows on the claim holds: an accepted input is reshaped
consistently, every row `(X k, Y k, Z k)` being found at a grid position. -/
theorem format3_single_row :
    (first_table (read_rpol_table (fileSource (demoEnv demoFiles)) {} "one.dat" 3 none
        none)).map (fun t => (t.x, t.y, t.z, t.nx, t.ny)) =
        some (some [0], some [0], some [0], 1, 1) ∧
      demoFiles "one.dat" = some ["1 2 3"] ∧
      line_row (demoEnv demoFiles) 3 none "1 2 3" = some [1, 2, 3] ∧
      (∀ X Y Z : ℕ → ℚ,
        grid3 0 1 X Y Z = some { nx := 1, ny := 1, x := [0], y := [0], z := [0] }) ∧
      ∀ (nrows : ℕ) (X Y Z : ℕ → ℚ) (g : Grid3), 2 ≤ nrows → grid3 0 nrows X Y Z = some g →
        g.nx * g.ny = nrows ∧
        ∀ k, k < nrows → ∃ i j, i < g.nx ∧ j < g.ny ∧ g.x.getD i 0 = X k ∧
          g.y.getD j 0 = Y k ∧ g.z.getD (i * g.ny + j) 0 = Z k := by
  refine ⟨?_, ?_, ?_, ?_, ?_⟩
  · decide!
  · decide
  · decide!
  · intro X Y Z
    simp [grid3, grid3_xfirst, grid3_rc, grid3_run, first_change, grid3_check, grid3_copy]
  · intro nrows X Y Z g hn h
    obtain ⟨h1, _, _, _, h5⟩ := grid3_consistent nrows X Y Z g hn h
    exact ⟨h1, h5⟩


/-! ## Files without data rows and files with too many -/

/-- A short file name without `#rpol:` suffix, no marker and no options: the
name is taken as it is and there are no options in effect. -/
theorem read_names_bare (fname : String) (hfl : fname.length < 4095)
    (hsuf : c_strstr "#rpol:".data fname.data = none) :
    read_names fname none none = some (fname, fname, "") := by
  have h1 : ¬ fname.length ≥ 4095 := by omega
  unfold read_names
  rw [if_neg h1]
  simp [hsuf]

/-- The first load of a file by its plain name, for a format given in the
call and without marker and options: what `read_content` makes of the file is
entered in the catalogue. -/
theorem read_rpol_table_plain (env : CEnv) (fname : String) (nd : ℤ)
    (hfl : fname.length < 4095) (hsuf : c_strstr "#rpol:".data fname.data = none)
    (hnd : nd = 1 ∨ nd = 2 ∨ nd = 3) :
    read_rpol_table (fileSource env) {} fname nd none none =
      match read_content env fname nd nd none "" with
      | none => ({ heap := [], rpt_list_base := [none] }, none)
      | some t =>
        ({ heap := [some { t with fname := some fname, options := none, ndim := nd,
                                  use_count := 1 }],
           rpt_list_base := [some 0, none] }, some 0) := by
  rw [read_rpol_table_fresh, read_names_bare fname hfl hsuf]
  have h0 : ¬ nd ≤ 0 := by omega
  have h1 : ¬ (nd ≠ 1 ∧ nd ≠ 2 ∧ nd ≠ 3) := by omega
  simp only [read_load, h0, if_false, h1, fileSource]
  cases read_content env fname nd nd none "" with
  | none => rfl
  | some t => rfl

/-- The finishing steps of `read_rpol_table` keep the sizes `nx` and `ny` the
format branch has set. -/
theorem finished_sizes (env : CEnv) (nd : ℤ) (o : ReadOpts) (t : RpolTable) :
    (choose_scheme (rpol_check_equi_range (finish_table env nd o t))).nx = t.nx ∧
      (choose_scheme (rpol_check_equi_range (finish_table env nd o t))).ny = t.ny := by
  obtain ⟨_, _, k3, k4⟩ := check_equi_range_keeps (finish_table env nd o t)
  constructor
  · show (rpol_check_equi_range (finish_table env nd o t)).nx = t.nx
    rw [k3]; rfl
  · show (rpol_check_equi_range (finish_table env nd o t)).ny = t.ny
    rw [k4]; rfl

/-- Two columns in natural order are within the limit of 500 columns. -/
theorem maxcol2 : maxcol_of 2 none ≤ 500 := by decide

/-- The facts about `read_table_v` the format branches use: the rows it
stores, and a return code that is 0 or goes with 100000 rows stored. -/
theorem read_table_v_rows (env : CEnv) (fname : String) (lines : List String) (hint ncol : ℕ)
    (hncol : 1 ≤ ncol) (hmax : ncol ≤ 500) :
    (read_table_v env (some fname) (some lines) (some hint) ncol (some none) none).nrow =
        some ((lines.filterMap (line_row env ncol none)).take 100000).length ∧
      (read_table_v env (some fname) (some lines) (some hint) ncol (some none) none).col =
        some (columns_of ncol ((lines.filterMap (line_row env ncol none)).take 100000)) ∧
      ((read_table_v env (some fname) (some lines) (some hint) ncol (some none) none).rc = 0 ∨
        ((read_table_v env (some fname) (some lines) (some hint) ncol (some none) none).rc = -4 ∧
          ((lines.filterMap (line_row env ncol none)).take 100000).length = 100000)) := by
  have hm : maxcol_of ncol none ≤ 500 := hmax
  by_cases h : (lines.filterMap (line_row env ncol none)).length < 100000
  · rw [read_table_v_short env fname lines hint ncol none hncol (fun sel h => by cases h) hm h]
    rw [List.take_of_length_le (by omega)]
    exact ⟨rfl, rfl, Or.inl rfl⟩
  · obtain ⟨r1, r2, r3⟩ := read_table_v_full env fname lines hint ncol none hncol
      (fun sel h => by cases h) hm (by omega)
    rw [r1, r2, r3, List.length_take, Nat.min_eq_left (by omega)]
    exact ⟨rfl, rfl, Or.inr ⟨rfl, rfl⟩⟩

/-- The format 1 branch without options: the table of the first 100000 data
rows of the input, never NULL. -/
theorem read_format1_rows (env : CEnv) (fname : String) (lines : List String) :
    read_format1 env fname lines {} =
      some { aux := 0
             x := some ((columns_of 2 ((lines.filterMap (line_row env 2 none)).take 100000)).getD
               0 [])
             y := some ((columns_of 2 ((lines.filterMap (line_row env 2 none)).take 100000)).getD
               1 [])
             z := some ((columns_of 2 ((lines.filterMap (line_row env 2 none)).take 100000)).getD
               1 [])
             ndim := 1
             nx := ((lines.filterMap (line_row env 2 none)).take 100000).length
             ny := 0
             zxreq := 0 } := by
  obtain ⟨r1, r2, r3⟩ := read_table_v_rows env fname lines (({} : ReadOpts).expect_rows) 2
    (by decide) (by decide)
  have hc : ({} : ReadOpts).xcol = 1 ∧ ({} : ReadOpts).ycol = 2 := ⟨rfl, rfl⟩
  unfold read_format1
  simp only [if_pos hc]
  generalize read_table_v env (some fname) (some lines) (some ({} : ReadOpts).expect_rows) 2
    (some none) none = r at r1 r2 r3 ⊢
  obtain ⟨rc, nrow, col, nread⟩ := r
  simp only at r1 r2 r3 ⊢
  subst r1 r2
  rcases r3 with h | ⟨h, h'⟩
  · subst h
    simp
  · subst h
    simp [h']

/-- The format 3 branch gives up on an input of 100000 data lines or more. -/
theorem read_format3_full (env : CEnv) (fname : String) (lines : List String) (o : ReadOpts)
    (hcols : o.xcol = 1 ∧ o.ycol = 2 ∧ o.zcol = 3)
    (hge : 100000 ≤ (lines.filterMap (line_row env 3 none)).length) :
    read_format3 env fname lines o = none := by
  obtain ⟨r1, r2, r3⟩ := read_table_v_full env fname lines
    (to_size_t (-(o.expect_rows : ℤ))) 3 none (by decide)
    (fun sel h => by cases h) maxcol3 hge
  unfold read_format3
  simp only [if_pos hcols, r1, r2, r3, Option.getD_some]
  rw [if_neg (by simp), grid3_reject _ _ _ _ _ (by norm_num)]

/-- Without a marker the format 2 branch takes the first line that is not
empty once comments are stripped as the line of the y values. -/
theorem find_yline_first (yline : String) (rest : List String)
    (hy : strip_comments yline.data ≠ []) :
    ∀ pre : List String, (∀ l ∈ pre, strip_comments l.data = []) →
      find_yline 0 [] (pre ++ yline :: rest) = some (strip_comments yline.data, rest) := by
  intro pre
  induction pre with
  | nil =>
    intro _
    simp [find_yline, hy]
  | cons l pre ih =>
    intro h
    have hl := h l (List.mem_cons_self l pre)
    simp only [List.cons_append, find_yline, Nat.lt_irrefl, if_false, hl, ne_eq,
      not_true_eq_false]
    exact ih (fun x hx => h x (List.mem_cons_of_mem l hx))

/-- The format 2 branch without marker and options, on a file whose line of
y values holds between 1 and 499 numbers: the table of the first 100000 data
rows behind that line, NULL only if there is no row and a `calloc` of size 0
returns NULL. -/
theorem read_format2_rows (env : CEnv) (fname : String) (pre rest : List String)
    (yline : String) (hpre : ∀ l ∈ pre, strip_comments l.data = [])
    (hy : strip_comments yline.data ≠ [])
    (hny1 : 1 ≤ (yline_values env ((strip_comments yline.data).dropWhile c_blank)).length)
    (hny2 : (yline_values env ((strip_comments yline.data).dropWhile c_blank)).length < 500) :
    ∃ a zz, read_format2 env fname (pre ++ yline :: rest) none {} =
      if ((rest.filterMap (line_row env
            ((yline_values env ((strip_comments yline.data).dropWhile c_blank)).length + 1)
            none)).take 100000).length *
          (yline_values env ((strip_comments yline.data).dropWhile c_blank)).length = 0 ∧
          env.calloc0 = false then none
      else
        some { aux := a
               zxreq := 0
               x := some ((columns_of
                 ((yline_values env ((strip_comments yline.data).dropWhile c_blank)).length + 1)
                 ((rest.filterMap (line_row env
                   ((yline_values env ((strip_comments yline.data).dropWhile c_blank)).length + 1)
                   none)).take 100000)).getD 0 [])
               y := some (yline_values env ((strip_comments yline.data).dropWhile c_blank))
               z := some zz
               nx := ((rest.filterMap (line_row env
                 ((yline_values env ((strip_comments yline.data).dropWhile c_blank)).length + 1)
                 none)).take 100000).length
               ny := (yline_values env ((strip_comments yline.data).dropWhile c_blank)).length } := by
  generalize hys : yline_values env ((strip_comments yline.data).dropWhile c_blank) = ys
    at hny1 hny2 ⊢
  obtain ⟨r1, r2, r3⟩ := read_table_v_rows env fname rest 0 (ys.length + 1) (by omega) (by omega)
  unfold read_format2
  simp only [Option.getD_none, List.length_nil, find_yline_first yline rest hy pre hpre,
    List.drop_zero, hys]
  have hny0 : ¬ (ys.length = 0 ∧ env.realloc0 = false) := by
    intro h; omega
  rw [if_neg hny0]
  generalize read_table_v env (some fname) (some rest) (some 0) (ys.length + 1)
    (some none) none = r at r1 r2 r3 ⊢
  obtain ⟨rc, nrow, col, nread⟩ := r
  simp only at r1 r2 r3 ⊢
  subst r1 r2
  have hcond : ¬ ((rc < 0 ∧ (some ((rest.filterMap (line_row env (ys.length + 1) none)).take
      100000).length).getD 0 = 0) ∨
      some (columns_of (ys.length + 1) ((rest.filterMap (line_row env (ys.length + 1) none)).take
        100000)) = none) := by
    rcases r3 with h | ⟨h, h'⟩
    · subst h; simp
    · subst h; simp [h']
  rw [if_neg hcond]
  simp only [Option.getD_some]
  refine ⟨_, _, rfl⟩

/-- Without options the finishing steps before `rpol_check_equi_range` keep
the buffers. -/
theorem finish_buffers (env : CEnv) (nd : ℤ) (t : RpolTable) :
    (finish_table env nd {} t).x = t.x ∧ (finish_table env nd {} t).y = t.y ∧
      (finish_table env nd {} t).z = t.z ∧ (finish_table env nd {} t).ndim = nd ∧
      (finish_table env nd {} t).nx = t.nx := by
  refine ⟨?_, ?_, ?_, rfl, rfl⟩ <;> simp [finish_table]

/-- A 1-D table whose last x value is not below its first keeps its buffers
in `rpol_check_equi_range`. -/
theorem check_equi_range_ascending (t : RpolTable) (xs : List ℚ) (hxs : t.x = some xs)
    (h : ¬ (t.nx > 1 ∧ xs.getD (t.nx - 1) 0 < xs.getD 0 0)) :
    (rpol_check_equi_range t).x = t.x ∧ (rpol_check_equi_range t).z = t.z := by
  unfold rpol_check_equi_range
  dsimp only
  split
  · rename_i xs0 zs0 hx hz
    have hxx : xs0 = xs := by
      rw [hxs] at hx
      exact (Option.some.inj hx).symm
    subst hxx
    by_cases h1 : t.ndim ≥ 2 ∧ t.y = none
    · rw [if_pos h1]
      exact ⟨rfl, rfl⟩
    · rw [if_neg h1]
      by_cases h2 : t.nx < 1 ∨ (t.ndim ≥ 2 ∧ t.ny < 1)
      · rw [if_pos h2]
        exact ⟨rfl, rfl⟩
      · rw [if_neg h2]
        have hrev : decide (t.ndim = 1 ∧ t.nx > 1 ∧ xs0.getD (t.nx - 1) 0 < xs0.getD 0 0) = false :=
          decide_eq_false (fun hh => h hh.2)
        simp only [hrev, Bool.false_eq_true, if_false]
        exact ⟨hx.symm, hz.symm⟩
  · exact ⟨rfl, rfl⟩

/-- A first load of format 1 never fails on a file that can be opened: the
table is entered in the catalogue with as many points as `read_table_v` has
kept rows, and it holds the two columns of these rows unless their x values
descend. -/
theorem load_format1 (env : CEnv) (fname : String) (lines : List String)
    (hfl : fname.length < 4095) (hsuf : c_strstr "#rpol:".data fname.data = none)
    (hopen : env.fileopen fname = some lines) :
    ∃ t, read_rpol_table (fileSource env) {} fname 1 none none =
        ({ heap := [some t], rpt_list_base := [some 0, none] }, some 0) ∧
      t.ndim = 1 ∧ t.nx = (kept_rows env 2 lines).length ∧
      (¬ (1 < (kept_rows env 2 lines).length ∧
          ((columns_of 2 (kept_rows env 2 lines)).getD 0 []).getD
              ((kept_rows env 2 lines).length - 1) 0 <
            ((columns_of 2 (kept_rows env 2 lines)).getD 0 []).getD 0 0) →
        t.x = some ((columns_of 2 (kept_rows env 2 lines)).getD 0 []) ∧
        t.z = some ((columns_of 2 (kept_rows env 2 lines)).getD 1 [])) := by
  rw [read_rpol_table_plain env fname 1 hfl hsuf (Or.inl rfl),
    read_content_plain env fname lines 1 hopen (by norm_num)]
  simp only [if_true, read_format1_rows, Option.map_some']
  refine ⟨_, rfl, rfl, ?_, ?_⟩
  · exact (finished_sizes env 1 {} _).1
  · intro hasc
    generalize ht : ({ aux := 0
                       x := some ((columns_of 2 ((lines.filterMap (line_row env 2 none)).take
                         100000)).getD 0 [])
                       y := some ((columns_of 2 ((lines.filterMap (line_row env 2 none)).take
                         100000)).getD 1 [])
                       z := some ((columns_of 2 ((lines.filterMap (line_row env 2 none)).take
                         100000)).getD 1 [])
                       ndim := 1
                       nx := ((lines.filterMap (line_row env 2 none)).take 100000).length
                       ny := 0
                       zxreq := 0 } : RpolTable) = t0
    have hx0 : t0.x = some ((columns_of 2 (kept_rows env 2 lines)).getD 0 []) := by
      rw [← ht]; rfl
    have hz0 : t0.z = some ((columns_of 2 (kept_rows env 2 lines)).getD 1 []) := by
      rw [← ht]; rfl
    have hn0 : t0.nx = (kept_rows env 2 lines).length := by
      rw [← ht]; rfl
    obtain ⟨f1, _, f3, _, f5⟩ := finish_buffers env 1 t0
    obtain ⟨c1, c2⟩ := check_equi_range_ascending (finish_table env 1 {} t0) _
      (f1.trans hx0) (by rw [f5, hn0]; exact hasc)
    constructor
    · show (rpol_check_equi_range (finish_table env 1 {} t0)).x = _
      rw [c1, f1, hx0]
    · show (rpol_check_equi_range (finish_table env 1 {} t0)).z = _
      rw [c2, f3, hz0]

/-- A first load of format 3 fails on a file that can be opened when the
format branch gives up. -/
theorem load_format3_null (env : CEnv) (fname : String) (lines : List String)
    (hfl : fname.length < 4095) (hsuf : c_strstr "#rpol:".data fname.data = none)
    (hopen : env.fileopen fname = some lines)
    (h : read_format3 env fname lines {} = none) :
    read_rpol_table (fileSource env) {} fname 3 none none =
      ({ heap := [], rpt_list_base := [none] }, none) := by
  rw [read_rpol_table_plain env fname 3 hfl hsuf (Or.inr (Or.inr rfl)),
    read_content_plain env fname lines 3 hopen (by norm_num)]
  have h1 : ¬ (3 : ℤ) = 1 := by norm_num
  have h2 : ¬ (3 : ℤ) = 2 := by norm_num
  simp only [h1, h2, if_false, if_true, h, Option.map_none']

/-- A first load of format 2, without marker and options, of a file whose
line of y values holds between 1 and 499 numbers: it fails only if there is
no data row behind that line and a `calloc` of size 0 returns NULL, and
otherwise the table is entered in the catalogue with as many x values as
`read_table_v` has kept rows. -/
theorem load_format2 (env : CEnv) (fname : String) (pre rest : List String) (yline : String)
    (hfl : fname.length < 4095) (hsuf : c_strstr "#rpol:".data fname.data = none)
    (hopen : env.fileopen fname = some (pre ++ yline :: rest))
    (hpre : ∀ l ∈ pre, strip_comments l.data = [])
    (hy : strip_comments yline.data ≠ [])
    (hny1 : 1 ≤ (yline_values env ((strip_comments yline.data).dropWhile c_blank)).length)
    (hny2 : (yline_values env ((strip_comments yline.data).dropWhile c_blank)).length < 500) :
    if (kept_rows env
          ((yline_values env ((strip_comments yline.data).dropWhile c_blank)).length + 1)
          rest).length = 0 ∧ env.calloc0 = false then
      read_rpol_table (fileSource env) {} fname 2 none none =
        ({ heap := [], rpt_list_base := [none] }, none)
    else
      ∃ t, read_rpol_table (fileSource env) {} fname 2 none none =
          ({ heap := [some t], rpt_list_base := [some 0, none] }, some 0) ∧
        t.ndim = 2 ∧
        t.nx = (kept_rows env
          ((yline_values env ((strip_comments yline.data).dropWhile c_blank)).length + 1)
          rest).length ∧
        t.ny = (yline_values env ((strip_comments yline.data).dropWhile c_blank)).length ∧
        t.x = some ((columns_of
          ((yline_values env ((strip_comments yline.data).dropWhile c_blank)).length + 1)
          (kept_rows env
            ((yline_values env ((strip_comments yline.data).dropWhile c_blank)).length + 1)
            rest)).getD 0 []) ∧
        t.y = some (yline_values env ((strip_comments yline.data).dropWhile c_blank)) := by
  obtain ⟨a, zz, hr⟩ := read_format2_rows env fname pre rest yline hpre hy hny1 hny2
  rw [read_rpol_table_plain env fname 2 hfl hsuf (Or.inr (Or.inl rfl)),
    read_content_plain env fname (pre ++ yline :: rest) 2 hopen (by norm_num)]
  have h1 : ¬ (2 : ℤ) = 1 := by norm_num
  simp only [h1, if_false, if_true, hr]
  generalize yline_values env ((strip_comments yline.data).dropWhile c_blank) = ys at hny1 hny2 ⊢
  unfold kept_rows
  generalize (rest.filterMap (line_row env (ys.length + 1) none)).take 100000 = R
  have hmul : R.length * ys.length = 0 ↔ R.length = 0 := by
    constructor
    · intro h
      rcases Nat.mul_eq_zero.mp h with h | h
      · exact h
      · omega
    · intro h
      rw [h, Nat.zero_mul]
  by_cases hc : R.length = 0 ∧ env.calloc0 = false
  · rw [if_pos hc, if_pos ⟨hmul.mpr hc.1, hc.2⟩]
    rfl
  · rw [if_neg hc, if_neg (fun hh => hc ⟨hmul.mp hh.1, hh.2⟩)]
    simp only [Option.map_some']
    generalize ht : ({ aux := a, zxreq := 0, x := some ((columns_of (ys.length + 1) R).getD 0 []),
                       y := some ys, z := some zz, nx := R.length, ny := ys.length } : RpolTable)
      = t0
    have hx0 : t0.x = some ((columns_of (ys.length + 1) R).getD 0 []) := by rw [← ht]
    have hy0 : t0.y = some ys := by rw [← ht]
    have hn0 : t0.nx = R.length := by rw [← ht]
    have hm0 : t0.ny = ys.length := by rw [← ht]
    obtain ⟨f1, f2, _, f4, _⟩ := finish_buffers env 2 t0
    obtain ⟨b1, b2, _⟩ := check_equi_range_buffers (finish_table env 2 {} t0)
      (by rw [f4]; norm_num)
    obtain ⟨_, k2, _, _⟩ := check_equi_range_keeps (finish_table env 2 {} t0)
    obtain ⟨s1, s2⟩ := finished_sizes env 2 {} t0
    have hnd' : (rpol_check_equi_range (finish_table env 2 {} t0)).ndim ≠ 1 := by
      rw [k2, f4]; norm_num
    refine ⟨_, rfl, rfl, ?_, ?_, ?_, ?_⟩
    · exact s1.trans hn0
    · exact s2.trans hm0
    · show (rpol_check_equi_range (finish_table env 2 {} t0)).x = _
      rw [b1, f1, hx0]
    · show (if (rpol_check_equi_range (finish_table env 2 {} t0)).ndim = 1 then _ else _) = _
      rw [if_neg hnd', b2, f2, hy0]

/-- From 100000 acceptable lines on, 100000 rows are kept. -/
theorem kept_rows_full (env : CEnv) (ncol : ℕ) (lines : List String)
    (h : 100000 ≤ (lines.filterMap (line_row env ncol none)).length) :
    (kept_rows env ncol lines).length = 100000 := by
  unfold kept_rows
  rw [List.length_take]
  omega

/-- An entry of a list of equal values. -/
theorem getD_replicate_lt {α : Type} (n i : ℕ) (a d : α) (h : i < n) :
    (List.replicate n a).getD i d = a := by
  rw [List.getD_eq_getElem?_getD, List.getElem?_replicate, if_pos h]
  rfl

/-- The rows kept of the 100001 lines `1 2`. -/
theorem demoBig_kept :
    kept_rows (demoEnv demoFiles) 2 demoBig = List.replicate 100000 [1, 2] := by
  unfold kept_rows
  rw [demoBig_rows, List.take_replicate]
  have hmin : min 100000 100001 = 100000 := by norm_num
  rw [hmin]

/-- The file `big.dat` of the examples. -/
theorem demoBig_open : (demoEnv demoFiles).fileopen "big.dat" = some demoBig := rfl

/-- The file `big.dat` loaded as format 1: a table of 100000 points. -/
theorem demoBig_loaded :
    ∃ t, read_rpol_table (fileSource (demoEnv demoFiles)) {} "big.dat" 1 none none =
        ({ heap := [some t], rpt_list_base := [some 0, none] }, some 0) ∧
      t.ndim = 1 ∧ t.nx = 100000 ∧ t.x = some (List.replicate 100000 1) ∧
      t.z = some (List.replicate 100000 2) := by
  obtain ⟨t, h1, h2, h3, h4⟩ := load_format1 (demoEnv demoFiles) "big.dat" demoBig (by decide)
    (by decide) demoBig_open
  rw [demoBig_kept, List.length_replicate] at h3
  rw [demoBig_kept, columns_of_replicate, List.length_replicate] at h4
  have e0 : ([List.replicate 100000 (1 : ℚ), List.replicate 100000 2]).getD 0 [] =
      List.replicate 100000 1 := rfl
  have e1 : ([List.replicate 100000 (1 : ℚ), List.replicate 100000 2]).getD 1 [] =
      List.replicate 100000 2 := rfl
  rw [e0, e1, getD_replicate_lt _ _ _ _ (by norm_num), getD_replicate_lt _ _ _ _ (by norm_num)]
    at h4
  obtain ⟨h5, h6⟩ := h4 (fun hh => lt_irrefl _ hh.2)
  exact ⟨t, h1, h2, h3, h5, h6⟩

/-- A line `1 2 3` of the examples read for three columns. -/
theorem demo_line_row3 : line_row (demoEnv demoFiles) 3 none "1 2 3" = some [1, 2, 3] := by
  decide!

/-- The 100000 lines `1 2 3` are 100000 rows of three columns. -/
theorem demoBig3_rows :
    demoBig3.filterMap (line_row (demoEnv demoFiles) 3 none) = List.replicate 100000 [1, 2, 3] :=
  filterMap_replicate _ _ _ demo_line_row3 100000

/-- The y values of the line `10` of the file `big2.dat`. -/
theorem demoBig2_yline :
    yline_values (demoEnv demoFiles) ((strip_comments "10".data).dropWhile c_blank) = [10] := by
  decide!


/-- C18 (amended): when the source holds 100000 data rows or more,
`read_rpol_table` returns NULL for format 3 only.  For format 1 it returns a
table of the first 100000 rows (`nx = 100000`, with the two columns of these
rows as `x` and `z` unless the x values descend) and enters it in the
catalogue; for format 2 (line of 1 to 499 y values, then the data rows) it
returns a table with the x values of the first 100000 rows. -/
theorem too_many_rows (env : CEnv) (f1 f2 f3 : String) (L1 L3 pre rest : List String)
    (yline : String)
    (hfl1 : f1.length < 4095) (hsuf1 : c_strstr "#rpol:".data f1.data = none)
    (hopen1 : env.fileopen f1 = some L1)
    (hrows1 : 100000 ≤ (L1.filterMap (line_row env 2 none)).length)
    (hfl2 : f2.length < 4095) (hsuf2 : c_strstr "#rpol:".data f2.data = none)
    (hopen2 : env.fileopen f2 = some (pre ++ yline :: rest))
    (hpre : ∀ l ∈ pre, strip_comments l.data = [])
    (hy : strip_comments yline.data ≠ [])
    (hny1 : 1 ≤ (yline_values env ((strip_comments yline.data).dropWhile c_blank)).length)
    (hny2 : (yline_values env ((strip_comments yline.data).dropWhile c_blank)).length < 500)
    (hrows2 : 100000 ≤ (rest.filterMap (line_row env
      ((yline_values env ((strip_comments yline.data).dropWhile c_blank)).length + 1)
      none)).length)
    (hfl3 : f3.length < 4095) (hsuf3 : c_strstr "#rpol:".data f3.data = none)
    (hopen3 : env.fileopen f3 = some L3)
    (hrows3 : 100000 ≤ (L3.filterMap (line_row env 3 none)).length) :
    read_rpol_table (fileSource env) {} f3 3 none none =
        ({ heap := [], rpt_list_base := [none] }, none) ∧
      (∃ t, read_rpol_table (fileSource env) {} f1 1 none none =
          ({ heap := [some t], rpt_list_base := [some 0, none] }, some 0) ∧
        t.ndim = 1 ∧ t.nx = 100000 ∧
        (¬ ((columns_of 2 (kept_rows env 2 L1)).getD 0 []).getD 99999 0 <
            ((columns_of 2 (kept_rows env 2 L1)).getD 0 []).getD 0 0 →
          t.x = some ((columns_of 2 (kept_rows env 2 L1)).getD 0 []) ∧
          t.z = some ((columns_of 2 (kept_rows env 2 L1)).getD 1 []))) ∧
      (∃ t, read_rpol_table (fileSource env) {} f2 2 none none =
          ({ heap := [some t], rpt_list_base := [some 0, none] }, some 0) ∧
        t.ndim = 2 ∧ t.nx = 100000 ∧
        t.ny = (yline_values env ((strip_comments yline.data).dropWhile c_blank)).length ∧
        t.x = some ((columns_of
          ((yline_values env ((strip_comments yline.data).dropWhile c_blank)).length + 1)
          (kept_rows env
            ((yline_values env ((strip_comments yline.data).dropWhile c_blank)).length + 1)
            rest)).getD 0 []) ∧
        t.y = some (yline_values env ((strip_comments yline.data).dropWhile c_blank))) := by
  refine ⟨?_, ?_, ?_⟩
  · exact load_format3_null env f3 L3 hfl3 hsuf3 hopen3
      (read_format3_full env f3 L3 {} ⟨rfl, rfl, rfl⟩ hrows3)
  · obtain ⟨t, h1, h2, h3, h4⟩ := load_format1 env f1 L1 hfl1 hsuf1 hopen1
    have hk := kept_rows_full env 2 L1 hrows1
    rw [hk] at h3 h4
    exact ⟨t, h1, h2, h3, fun hasc => h4 (fun hh => hasc hh.2)⟩
  · have h := load_format2 env f2 pre rest yline hfl2 hsuf2 hopen2 hpre hy hny1 hny2
    have hk := kept_rows_full env _ rest hrows2
    rw [if_neg (by rw [hk]; intro hh; exact absurd hh.1 (by norm_num))] at h
    obtain ⟨t, h1, h2, h3, h4, h5, h6⟩ := h
    rw [hk] at h3
    exact ⟨t, h1, h2, h3, h4, h5, h6⟩

/-- The files `big.dat` (100001 lines `1 2`), `big2.dat` (the y value `10`,
then the same 100001 lines) and `big3.dat` (100000 lines `1 2 3`). -/
theorem too_many_rows_witness :
    read_rpol_table (fileSource (demoEnv demoFiles)) {} "big3.dat" 3 none none =
        ({ heap := [], rpt_list_base := [none] }, none) ∧
      (∃ t, read_rpol_table (fileSource (demoEnv demoFiles)) {} "big.dat" 1 none none =
          ({ heap := [some t], rpt_list_base := [some 0, none] }, some 0) ∧
        t.ndim = 1 ∧ t.nx = 100000) ∧
      (∃ t, read_rpol_table (fileSource (demoEnv demoFiles)) {} "big2.dat" 2 none none =
          ({ heap := [some t], rpt_list_base := [some 0, none] }, some 0) ∧
        t.ndim = 2 ∧ t.nx = 100000 ∧ t.ny = 1 ∧ t.y = some [10]) := by
  have hr1 : 100000 ≤ (demoBig.filterMap (line_row (demoEnv demoFiles) 2 none)).length := by
    rw [demoBig_rows, List.length_replicate]
    norm_num
  have hr2 : 100000 ≤ (demoBig.filterMap (line_row (demoEnv demoFiles)
      ((yline_values (demoEnv demoFiles) ((strip_comments "10".data).dropWhile c_blank)).length
        + 1) none)).length := by
    rw [demoBig2_yline]
    exact hr1
  have hr3 : 100000 ≤ (demoBig3.filterMap (line_row (demoEnv demoFiles) 3 none)).length := by
    rw [demoBig3_rows, List.length_replicate]
  obtain ⟨h1, ⟨t, a1, a2, a3, _⟩, ⟨u, b1, b2, b3, b4, _, b6⟩⟩ :=
    too_many_rows (demoEnv demoFiles) "big.dat" "big2.dat" "big3.dat" demoBig demoBig3 []
      demoBig "10" (by decide) (by decide) rfl hr1 (by decide) (by decide) rfl
      (fun l hl => by cases hl) (by decide) (by rw [demoBig2_yline]; decide)
      (by rw [demoBig2_yline]; decide) hr2 (by decide) (by decide) rfl hr3
  rw [demoBig2_yline] at b4 b6
  exact ⟨h1, ⟨t, a1, a2, a3⟩, ⟨u, b1, b2, b3, b4, b6⟩⟩

/-- C18, the claim as stated fails: the file `big.dat` holds 100001 data rows
`1 2`, one more than the ceiling.  Loaded as format 1 the call returns a table
and enters it in the catalogue; the table holds the first 100000 rows. -/
theorem too_many_rows_counterexample :
    demoFiles "big.dat" = some (List.replicate 100001 "1 2") ∧
      (List.replicate 100001 "1 2").filterMap (line_row (demoEnv demoFiles) 2 none) =
        List.replicate 100001 [1, 2] ∧
      ∃ t, read_rpol_table (fileSource (demoEnv demoFiles)) {} "big.dat" 1 none none =
          ({ heap := [some t], rpt_list_base := [some 0, none] }, some 0) ∧
        t.ndim = 1 ∧ t.nx = 100000 ∧ t.x = some (List.replicate 100000 1) ∧
        t.z = some (List.replicate 100000 2) :=
  ⟨rfl, demoBig_rows, demoBig_loaded⟩


/-! ## The interval search and the 1-D schemes, continued -/

/-- Inside the range of a strictly ascending table of fewer than `2^30`
points the loop of `interp` returns from inside, with a correct bracket. -/
theorem interpLoop_inside {v : Arr} {n : ℤ} (h : Ascending v n) (hn2 : 2 ≤ n)
    (hn : n < 2 ^ 30) {x : ℚ} (hlo : v 0 ≤ x) (hhi : x ≤ v (n - 1)) :
    ∃ j r, interpLoop x v n 0 30 (Int.tdiv (n + 1) 2 - 1) (Int.tdiv (n + 1) 2) = some (j, r) ∧
      Bracket v n x j r := by
  have hk : x ≤ v (((n - 2).toNat : ℤ) + 1) := by
    rw [Int.toNat_of_nonneg (by omega)]
    have : n - 2 + 1 = n - 1 := by ring
    rw [this]; exact hhi
  obtain ⟨t, t1, t2, t3, t4⟩ := exists_bracket v x hlo (n - 2).toNat hk
  rw [Int.toNat_of_nonneg (by omega)] at t2
  have hmd : Int.tdiv (n + 1) 2 = (n + 1) / 2 := Int.tdiv_eq_ediv (by omega) (by omega)
  rw [hmd]
  have hp : (2 : ℤ) ^ 29 = 536870912 := by norm_num
  have hq : (2 : ℤ) ^ 30 = 1073741824 := by norm_num
  exact interpLoop_bracket h t1 (by omega) t3 t4 29 ((n + 1) / 2 - 1)
    ((n + 1) / 2) (by omega) (by omega) (by omega) (by omega) (by omega)

/-- The fraction of a correct bracket of a strictly ascending table lies
between 0 and 1. -/
theorem bracket_fraction {v : Arr} {n : ℤ} (h : Ascending v n) {x : ℚ} {j : ℤ} {r : ℚ}
    (hb : Bracket v n x j r) : 0 ≤ r ∧ r ≤ 1 := by
  obtain ⟨j1, jn, lo, hi, hr⟩ := hb
  have d : v (j - 1) < v j := asc_lt h (by omega) (by omega) (by omega)
  have dpos : 0 < v j - v (j - 1) := sub_pos.mpr d
  rw [hr]
  constructor
  · exact div_nonneg (sub_nonneg.mpr lo) (le_of_lt dpos)
  · rw [div_le_one dpos]
    linarith

/-- C30: for every strictly ascending array `v` of `2 ≤ n ≤ 100000` entries
and every query `x`, `interp` does not reach the `"Interpolation error."`
exit behind its 30 iterations, and the outputs satisfy `1 ≤ ipl ≤ n-1` and
`0 ≤ rpl ≤ 1` (whatever the output variables held on entry); for
`v[0] ≤ x ≤ v[n-1]` moreover `v[ipl-1] ≤ x ≤ v[ipl]` and
`rpl = (x - v[ipl-1]) / (v[ipl] - v[ipl-1])`. -/
theorem interp_terminates (v : Arr) (n : ℤ) (h : Ascending v n) (hn2 : 2 ≤ n)
    (hn : n ≤ 100000) (x : ℚ) (ipl : ℤ) (rpl : ℚ) :
    interp_error x v n = false ∧
      1 ≤ (interp x v n ipl rpl).1 ∧ (interp x v n ipl rpl).1 ≤ n - 1 ∧
      0 ≤ (interp x v n ipl rpl).2 ∧ (interp x v n ipl rpl).2 ≤ 1 ∧
      (v 0 ≤ x → x ≤ v (n - 1) →
        v ((interp x v n ipl rpl).1 - 1) ≤ x ∧ x ≤ v (interp x v n ipl rpl).1 ∧
        (interp x v n ipl rpl).2 =
          (x - v ((interp x v n ipl rpl).1 - 1)) /
            (v (interp x v n ipl rpl).1 - v ((interp x v n ipl rpl).1 - 1))) := by
  have h0n : v 0 < v (n - 1) := asc_lt h (le_refl _) (by omega) (by omega)
  have hbig : n < 2 ^ 30 := by
    have hq : (2 : ℤ) ^ 30 = 1073741824 := by norm_num
    omega
  unfold interp interp_error
  rw [if_pos h0n, if_pos h0n]
  by_cases c1 : x ≤ v 0
  · rw [if_pos c1, if_pos c1]
    refine ⟨rfl, le_refl _, by show (1 : ℤ) ≤ n - 1; omega, le_refl _, zero_le_one, ?_⟩
    intro hlo _
    have e : x = v 0 := le_antisymm c1 hlo
    have h01 : v 0 < v 1 := asc_lt h (le_refl _) (by omega) (by omega)
    refine ⟨by simpa using hlo, ?_, ?_⟩
    · show x ≤ v 1
      rw [e]; exact le_of_lt h01
    · show (0 : ℚ) = (x - v (1 - 1)) / (v 1 - v (1 - 1))
      rw [e]; simp
  · rw [if_neg c1, if_neg c1]
    by_cases c2 : x ≥ v (n - 1)
    · rw [if_pos c2, if_pos c2]
      have hl1 : v (n - 1 - 1) < v (n - 1) := asc_lt h (by omega) (by omega) (by omega)
      refine ⟨rfl, by show (1 : ℤ) ≤ n - 1; omega, le_refl _, zero_le_one, le_refl _, ?_⟩
      intro _ hhi
      have e : x = v (n - 1) := le_antisymm hhi c2
      refine ⟨?_, hhi, ?_⟩
      · show v (n - 1 - 1) ≤ x
        rw [e]; exact le_of_lt hl1
      · show (1 : ℚ) = (x - v (n - 1 - 1)) / (v (n - 1) - v (n - 1 - 1))
        rw [e, div_self (sub_ne_zero.mpr (ne_of_gt hl1))]
    · rw [if_neg c2, if_neg c2]
      obtain ⟨j, r, e, hb⟩ := interpLoop_inside h hn2 hbig (le_of_lt (not_le.mp c1))
        (le_of_lt (not_le.mp c2))
      rw [e]
      obtain ⟨r0, r1⟩ := bracket_fraction h hb
      obtain ⟨j1, jn, lo, hi, hr⟩ := hb
      exact ⟨rfl, j1, jn, r0, r1, fun _ _ => ⟨lo, hi, hr⟩⟩

/-- The table `0, 1, 2, 3` and the query `3/2`: interval 2, fraction `1/2`. -/
theorem interp_terminates_witness :
    interp_error (3 / 2) rampArr 4 = false ∧ interp (3 / 2) rampArr 4 1 0 = (2, 1 / 2) := by
  obtain ⟨h1, _⟩ := interp_terminates rampArr 4 (rampArr_ascending 4) (by decide) (by decide)
    (3 / 2) 1 0
  exact ⟨h1, by decide!⟩

/-- The interval search returns a bracketing pair: the binary search on
fewer than `2^30` points, the index arithmetic on an exactly equidistant
table of any size. -/
theorem locate_bracket_any {x : Arr} {n : ℤ} (h : Ascending x n) (hn2 : 2 ≤ n)
    {xp : ℚ} (hlo : x 0 ≤ xp) (hhi : xp ≤ x (n - 1)) (eq : ℤ) (heq0 : eq = 0 → n < 2 ^ 30)
    (heq : eq ≠ 0 → Equidistant x n) :
    Bracket x n xp (locate x n xp eq).1 (locate x n xp eq).2 := by
  by_cases c : eq ≠ 0
  · exact locate_equi_bracket (heq c) (h 0 (le_refl _) (by omega)) hn2 hlo hhi c
  · exact locate_bracket h hn2 (heq0 (not_not.mp c)) hlo hhi eq heq

/-- In exact arithmetic, for every strictly ascending `x` of `n ≥ 2` points
(fewer than `2^30` for the binary search `eq = 0`; any number for `eq ≠ 0` on
an exactly equidistant table), every `y` and every `xp` with
`x[i] ≤ xp ≤ x[i+1]`, `rpol_nearest` returns `y[i]` when `xp` is strictly
closer to `x[i]` than to `x[i+1]`, and `y[i+1]` otherwise. -/
theorem rpol_nearest_exact (x y : Arr) (n : ℤ) (h : Ascending x n) (hn2 : 2 ≤ n)
    (eq clip : ℤ) (heq0 : eq = 0 → n < 2 ^ 30) (heq : eq ≠ 0 → Equidistant x n)
    (i : ℤ) (hi0 : 0 ≤ i) (hin : i + 1 < n) (xp : ℚ) (hlo : x i ≤ xp) (hhi : xp ≤ x (i + 1)) :
    rpol_nearest x y n xp eq clip = if xp - x i < x (i + 1) - xp then y i else y (i + 1) := by
  have h01 : x 0 < x 1 := h 0 (le_refl _) (by omega)
  have hlo0 : x 0 ≤ xp := le_trans (asc_le h (le_refl _) hi0 (by omega)) hlo
  have hhin : xp ≤ x (n - 1) := le_trans hhi (asc_le h (by omega) (by omega) (by omega))
  have hb := locate_bracket_any h hn2 hlo0 hhin eq heq0 heq
  have e1 : i + 1 - 1 = i := by ring
  have hb' : Bracket x n xp (i + 1) ((xp - x i) / (x (i + 1) - x i)) :=
    ⟨by omega, by omega, by rw [e1]; exact hlo, hhi, by rw [e1]⟩
  have hd : 0 < x (i + 1) - x i := sub_pos.mpr (h i hi0 hin)
  unfold rpol_nearest
  rw [if_neg (by omega), if_neg (not_le.mpr h01), if_neg (not_lt.mpr hlo0),
    if_neg (not_lt.mpr hhin)]
  dsimp only
  rw [nearest_value_unique h y hb hb', e1]
  have hiff : (xp - x i) / (x (i + 1) - x i) < 1 / 2 ↔ xp - x i < x (i + 1) - xp := by
    rw [div_lt_iff₀ hd]
    constructor <;> intro hh <;> linarith
  by_cases c : xp - x i < x (i + 1) - xp
  · rw [if_pos c, if_pos (hiff.mpr c)]
  · rw [if_neg c, if_neg (fun hh => c (hiff.mp hh))]

/-- Whatever the loop of `interp` returns on an ascending table is a
bracketing pair, for any number of iterations and any start. -/
theorem interpLoop_some {x : ℚ} {v : Arr} {n : ℤ} (h : Ascending v n) (hn2 : 2 ≤ n) :
    ∀ (fuel : ℕ) (l m : ℤ) (j : ℤ) (r : ℚ),
      interpLoop x v n 0 fuel l m = some (j, r) → Bracket v n x j r := by
  intro fuel
  induction fuel with
  | zero =>
    intro l m j r hs
    simp [interpLoop] at hs
  | succ f ih =>
    intro l m j r hs
    rw [interpLoop_step] at hs
    dsimp only at hs
    obtain ⟨j0, hj0⟩ : ∃ j0, j0 =
        (if (if l < 1 then 1 else l) > n - 1 then n - 1 else (if l < 1 then 1 else l)) := ⟨_, rfl⟩
    rw [← hj0] at hs
    have r1 : 1 ≤ j0 ∧ j0 ≤ n - 1 := by
      rw [hj0]
      split_ifs <;> constructor <;> omega
    by_cases c : x ≥ v (j0 - 1) ∧ x ≤ v j0
    · rw [if_pos c] at hs
      have d : v (j0 - 1) < v j0 := asc_lt h (by omega) (by omega) (by omega)
      rw [if_pos (ne_of_gt d)] at hs
      injection hs with hs
      injection hs with e1 e2
      subst e1
      exact ⟨r1.1, r1.2, c.1, c.2, e2.symm⟩
    · rw [if_neg c] at hs
      by_cases c2 : x > v (j0 - 1)
      · rw [if_pos c2] at hs
        exact ih _ _ j r hs
      · rw [if_neg c2] at hs
        exact ih _ _ j r hs

/-- Inside the range of an ascending table `interp` writes a bracketing pair,
or it writes nothing and leaves the entry values `(ipl, rpl)` of the
outputs. -/
theorem interp_bracket_or_entry {v : Arr} {n : ℤ} (h : Ascending v n) (hn2 : 2 ≤ n) {x : ℚ}
    (hlo : v 0 ≤ x) (hhi : x ≤ v (n - 1)) (ipl : ℤ) (rpl : ℚ) :
    Bracket v n x (interp x v n ipl rpl).1 (interp x v n ipl rpl).2 ∨
      interp x v n ipl rpl = (ipl, rpl) := by
  have h0n : v 0 < v (n - 1) := asc_lt h (le_refl _) (by omega) (by omega)
  have h01 : v 0 < v 1 := asc_lt h (le_refl _) (by omega) (by omega)
  have hl1 : v (n - 1 - 1) < v (n - 1) := asc_lt h (by omega) (by omega) (by omega)
  unfold interp
  rw [if_pos h0n]
  by_cases c1 : x ≤ v 0
  · rw [if_pos c1]
    have e : x = v 0 := le_antisymm c1 hlo
    left
    refine ⟨le_refl _, by omega, by simpa using hlo, ?_, ?_⟩
    · rw [e]; exact le_of_lt h01
    · rw [e]; simp
  · rw [if_neg c1]
    by_cases c2 : x ≥ v (n - 1)
    · rw [if_pos c2]
      have e : x = v (n - 1) := le_antisymm hhi c2
      left
      refine ⟨by omega, le_refl _, ?_, hhi, ?_⟩
      · rw [e]; exact le_of_lt hl1
      · rw [e]
        show (1 : ℚ) = _
        rw [div_self (sub_ne_zero.mpr (ne_of_gt hl1))]
    · rw [if_neg c2]
      cases hs : interpLoop x v n 0 30 (Int.tdiv (n + 1) 2 - 1) (Int.tdiv (n + 1) 2) with
      | none => right; rfl
      | some p =>
        left
        exact interpLoop_some h hn2 30 _ _ p.1 p.2 hs

/-- Inside the range of an ascending table the interval search of the
one-dimensional functions returns an index `1 ≤ ipl ≤ n-1` and a fraction
`0 ≤ rpl ≤ 1`, for every number of points: with index arithmetic on an exactly
equidistant table, and with the binary search also when it ends without a
result. -/
theorem locate_in_range {x : Arr} {n : ℤ} (h : Ascending x n) (hn2 : 2 ≤ n) {xp : ℚ}
    (hlo : x 0 ≤ xp) (hhi : xp ≤ x (n - 1)) (eq : ℤ) (heq : eq ≠ 0 → Equidistant x n) :
    1 ≤ (locate x n xp eq).1 ∧ (locate x n xp eq).1 ≤ n - 1 ∧
      0 ≤ (locate x n xp eq).2 ∧ (locate x n xp eq).2 ≤ 1 := by
  by_cases c : eq ≠ 0
  · have hb := locate_equi_bracket (heq c) (h 0 (le_refl _) (by omega)) hn2 hlo hhi c
    exact ⟨hb.1, hb.2.1, bracket_fraction h hb⟩
  · have e : locate x n xp eq = interp xp x n 1 0 := by
      unfold locate
      rw [if_neg c]
    rw [e]
    rcases interp_bracket_or_entry h hn2 hlo hhi 1 0 with hb | hd
    · exact ⟨hb.1, hb.2.1, bracket_fraction h hb⟩
    · rw [hd]
      exact ⟨le_refl _, by omega, le_refl _, by norm_num⟩

/-- The second order Lagrange fit through three points with distinct
abscissae reproduces every polynomial of degree at most 2. -/
theorem lagrange2_exact (x0 x1 x2 xp a b c : ℚ) (h01 : x0 ≠ x1) (h02 : x0 ≠ x2)
    (h12 : x1 ≠ x2) :
    (a + b * x0 + c * x0 ^ 2) * (((xp - x1) * (xp - x2)) / ((x0 - x1) * (x0 - x2))) +
      (a + b * x1 + c * x1 ^ 2) * (((xp - x0) * (xp - x2)) / ((x1 - x0) * (x1 - x2))) +
      (a + b * x2 + c * x2 ^ 2) * (((xp - x0) * (xp - x1)) / ((x2 - x0) * (x2 - x1))) =
      a + b * xp + c * xp ^ 2 := by
  have d01 : x0 - x1 ≠ 0 := sub_ne_zero.mpr h01
  have d02 : x0 - x2 ≠ 0 := sub_ne_zero.mpr h02
  have d12 : x1 - x2 ≠ 0 := sub_ne_zero.mpr h12
  have d10 : x1 - x0 ≠ 0 := sub_ne_zero.mpr (Ne.symm h01)
  have d20 : x2 - x0 ≠ 0 := sub_ne_zero.mpr (Ne.symm h02)
  have d21 : x2 - x1 ≠ 0 := sub_ne_zero.mpr (Ne.symm h12)
  field_simp
  ring

/-- On a table of a polynomial of degree at most 2 the weighted mean of the
two Lagrange fits is the polynomial, in every interval and for every
weight. -/
theorem blend2_quadratic {x : Arr} {n : ℤ} (h : Ascending x n) (hn3 : 3 ≤ n) (y : Arr)
    (a b c : ℚ) (hy : ∀ i, 0 ≤ i → i < n → y i = a + b * x i + c * x i ^ 2)
    (xp : ℚ) (j : ℤ) (j1 : 1 ≤ j) (jn : j ≤ n - 1) (r : ℚ) :
    blend2 x y n xp j r = a + b * xp + c * xp ^ 2 := by
  have key : ∀ k : ℤ, 0 ≤ k → k + 2 < n →
      y k * (((xp - x (k + 1)) * (xp - x (k + 2))) / ((x k - x (k + 1)) * (x k - x (k + 2)))) +
        y (k + 1) * (((xp - x k) * (xp - x (k + 2))) /
          ((x (k + 1) - x k) * (x (k + 1) - x (k + 2)))) +
        y (k + 2) * (((xp - x k) * (xp - x (k + 1))) /
          ((x (k + 2) - x k) * (x (k + 2) - x (k + 1)))) = a + b * xp + c * xp ^ 2 := by
    intro k k0 kn
    rw [hy k k0 (by omega), hy (k + 1) (by omega) (by omega), hy (k + 2) (by omega) kn]
    exact lagrange2_exact _ _ _ xp a b c
      (ne_of_lt (asc_lt h k0 (by omega) (by omega)))
      (ne_of_lt (asc_lt h k0 (by omega) (by omega)))
      (ne_of_lt (asc_lt h (by omega) (by omega) (by omega)))
  unfold blend2
  dsimp only
  have hl : (0 : ℤ) ≤ (if j < 2 then j - 1 else j - 2) ∧
      (if j < 2 then j - 1 else j - 2) + 2 < n := by
    split_ifs <;> constructor <;> omega
  have hr : (0 : ℤ) ≤ (if j < n - 1 then j - 1 else j - 2) ∧
      (if j < n - 1 then j - 1 else j - 2) + 2 < n := by
    split_ifs <;> constructor <;> omega
  rw [key _ hl.1 hl.2, key _ hr.1 hr.2]
  ring

/-- C27 (amended): `rpol_2nd_order` is exact for polynomials of degree at
most 2 (not 3): for every strictly ascending `x` with `3 ≤ n < 2^30` points,
every polynomial `p(t) = a + b t + c t^2` with `y[i] = p(x[i])`, and every
`xp` in an interval `[x[i], x[i+1]]` of the table (with or without a
neighbour interval on both sides),
`rpol_2nd_order(x, y, n, xp, 0, clip) = p(xp)`. -/
theorem rpol_2nd_order_exact (x y : Arr) (n : ℤ) (h : Ascending x n) (hn3 : 3 ≤ n)
    (hn : n < 2 ^ 30) (a b c : ℚ)
    (hy : ∀ i, 0 ≤ i → i < n → y i = a + b * x i + c * x i ^ 2)
    (i : ℤ) (hi0 : 0 ≤ i) (hin : i + 1 < n) (xp : ℚ) (hlo : x i ≤ xp) (hhi : xp ≤ x (i + 1))
    (clip : ℤ) :
    rpol_2nd_order x y n xp 0 clip = a + b * xp + c * xp ^ 2 := by
  have h01 : x 0 < x 1 := h 0 (le_refl _) (by omega)
  have hlo0 : x 0 ≤ xp := le_trans (asc_le h (le_refl _) hi0 (by omega)) hlo
  have hhin : xp ≤ x (n - 1) := le_trans hhi (asc_le h (by omega) (by omega) (by omega))
  have hb := locate_bracket h (by omega) hn hlo0 hhin 0 (fun hh => absurd rfl hh)
  unfold rpol_2nd_order
  rw [if_neg (by omega), if_neg (not_le.mpr h01), if_neg (not_lt.mpr hlo0),
    if_neg (not_lt.mpr hhin)]
  dsimp only
  rw [if_neg (by have := hb.2.1; omega), if_neg (by have := hb.1; omega)]
  exact blend2_quadratic h hn3 y a b c hy xp _ hb.1 hb.2.1 _

/-- The table `x = 0, 1, 2, 3` of `p(t) = t^2`, read at `5/4` in the
interior interval `[1, 2]`. -/
theorem rpol_2nd_order_exact_witness :
    rpol_2nd_order rampArr sqArr 4 (5 / 4) 0 0 = 25 / 16 :=
  (rpol_2nd_order_exact rampArr sqArr 4 (rampArr_ascending 4) (by decide) (by norm_num) 0 0 1
    (fun i _ _ => by simp [sqArr, rampArr]; ring) 1 (by decide) (by decide) (5 / 4)
    (by decide!) (by decide!) 0).trans (by norm_num)

/-- C27, the claim as stated fails: on the table `x = 0, 1, 2, 3` of the
polynomial `p(t) = t^3` (degree 3), the query `5/4` lies in the interval
`[x[1], x[2]]`, which has a neighbour interval on both sides; `p(5/4)` is
`125/64`, but `rpol_2nd_order` returns `131/64`.  (The weights `1 - rpl` and
`rpl` of the two second order fits are not the weights
`(x[i+2] - xp) / (x[i+2] - x[i-1])` and `(xp - x[i-1]) / (x[i+2] - x[i-1])`
that give the third order Lagrange polynomial.)  It also fails for a
constant polynomial on a very large table: on `x[i] = i`, `y[i] = 1` with
`n = 2^30 + 1` points the query `2^30 - 15/2` lies in the interior interval
`2^30 - 8`, the thirty steps of the binary search do not reach it, and the
fits through the points `0, 1, 2`, evaluated in double precision, give `-64`
instead of 1. -/
theorem rpol_2nd_order_exact_counterexample :
    (Ascending rampArr 4 ∧ (∀ i : ℤ, cubeArr i = rampArr i * rampArr i * rampArr i) ∧
      rampArr 1 ≤ (5 / 4 : ℚ) ∧ (5 / 4 : ℚ) ≤ rampArr 2 ∧
      rpol_2nd_order rampArr cubeArr 4 (5 / 4) 0 0 = 131 / 64 ∧
      (5 / 4 : ℚ) * (5 / 4) * (5 / 4) = 125 / 64) ∧
    (Ascending rampArr (2 ^ 30 + 1) ∧ (∀ i : ℤ, oneArr i = 1) ∧
      (1 : ℤ) ≤ 2 ^ 30 - 8 ∧ (2 ^ 30 - 8 : ℤ) ≤ 2 ^ 30 + 1 - 3 ∧
      rampArr (2 ^ 30 - 8) ≤ (2 ^ 30 - 15 / 2 : ℚ) ∧
      (2 ^ 30 - 15 / 2 : ℚ) ≤ rampArr (2 ^ 30 - 8 + 1) ∧
      rpol_2nd_order_dbl to_double rampArr oneArr (2 ^ 30 + 1) (2 ^ 30 - 15 / 2) 0 0 = -64) :=
  ⟨⟨rampArr_ascending 4, fun _ => rfl, by decide!, by decide!, by decide!, by norm_num⟩,
    ⟨rampArr_ascending _, fun _ => rfl, by decide, by decide, by decide!, by decide!,
      by decide!⟩⟩

/-- On a table whose first abscissa lies below the second and below the last
one, `rpol` and `rpol_linear` without clipping and with binary search return
the same value for every query. -/
theorem rpol_eq_linear (x y : Arr) (n : ℤ) (xp : ℚ) (hn2 : 2 ≤ n) (h01 : x 0 < x 1)
    (h0n : x 0 < x (n - 1)) : rpol x y n xp = rpol_linear x y n xp 0 0 := by
  unfold rpol rpol_linear locate
  rw [if_neg (by omega), if_neg (not_le.mpr h01)]
  simp only [ne_eq, not_true_eq_false, if_false]
  by_cases c1 : xp < x 0
  · rw [if_pos c1]
    unfold interp
    rw [if_pos h0n, if_pos (le_of_lt c1)]
    simp
  · rw [if_neg c1]
    by_cases c2 : xp > x (n - 1)
    · rw [if_pos c2]
      unfold interp
      rw [if_pos h0n, if_neg (by intro hh; exact absurd (lt_of_lt_of_le c2 hh) (not_lt.mpr (le_of_lt h0n))),
        if_pos (le_of_lt c2)]
      simp
    · rw [if_neg c2]

/-- C28: on the descending table `x = 2, 1, 0`, `y = 4, 2, 0` the old-style
`rpol` interpolates (`rpol(x, y, 3, 1) = 2`, the table value at `x = 1`),
while `rpol_linear(x, y, 3, 1, 0, 0)` takes the table for invalid and returns
0.  On every table with `n ≥ 2` points whose first abscissa lies below the
second and below the last one, so on every strictly ascending table, the two
functions return the same value for every query. -/
theorem rpol_old_style :
    rpol (arr (some [2, 1, 0])) (arr (some [4, 2, 0])) 3 1 = 2 ∧
      rpol_linear (arr (some [2, 1, 0])) (arr (some [4, 2, 0])) 3 1 0 0 = 0 ∧
      (∀ (x y : Arr) (n : ℤ) (xp : ℚ), 2 ≤ n → x 0 < x 1 → x 0 < x (n - 1) →
        rpol x y n xp = rpol_linear x y n xp 0 0) ∧
      ∀ (x y : Arr) (n : ℤ) (xp : ℚ), 2 ≤ n → Ascending x n →
        rpol x y n xp = rpol_linear x y n xp 0 0 := by
  refine ⟨by decide!, by decide!, ?_, ?_⟩
  · intro x y n xp hn2 h01 h0n
    exact rpol_eq_linear x y n xp hn2 h01 h0n
  · intro x y n xp hn2 h
    exact rpol_eq_linear x y n xp hn2 (h 0 (le_refl _) (by omega))
      (asc_lt h (le_refl _) (by omega) (by omega))


/-! ## The end conditions of the cubic splines -/

/-- The parameters `set_1d_cubic_params` returns for a strictly ascending
table of at least 4 points, in terms of the array `c` of the backward
sweep. -/
theorem cubic_params_form {x : Arr} {n : ℤ} (y : Arr) (hn4 : 4 ≤ n) (h : Ascending x n)
    (clamped : ℤ) :
    ∃ cp, set_1d_cubic_params x y n clamped = some cp ∧
      ∀ j : ℤ, 0 ≤ j → j < n - 1 →
        cp j = { a := y j
                 b := (y (j + 1) - y j) / cs_h x j -
                   cs_h x j * (cs_c x y n clamped (n - 1 - (j + 1)).toNat +
                     2 * cs_c x y n clamped (n - 1 - j).toNat) / 3
                 c := cs_c x y n clamped (n - 1 - j).toNat
                 d := (cs_c x y n clamped (n - 1 - (j + 1)).toNat -
                   cs_c x y n clamped (n - 1 - j).toNat) / (3 * cs_h x j) } := by
  have hany : (List.range (n - 1).toNat).any (fun i => decide (x ((i : ℤ) + 1) ≤ x i)) = false := by
    rw [List.any_eq_false]
    intro i hi
    have hi' : i < (n - 1).toNat := List.mem_range.mp hi
    have : (i : ℤ) + 1 < n := by omega
    simpa using h (i : ℤ) (by omega) this
  unfold set_1d_cubic_params
  rw [if_neg (by omega), hany]
  refine ⟨_, rfl, ?_⟩
  intro j j0 jn
  simp [j0, jn]

/-- The first entry of the backward sweep: `c[0] = z[0] - M[0]*c[1]`. -/
theorem cs_c_first (x y : Arr) (n clamped : ℤ) (hn4 : 4 ≤ n) :
    cs_c x y n clamped (n - 1 - 0).toNat =
      (cs_fwd x y n clamped 0).2.2 -
        (cs_fwd x y n clamped 0).2.1 * cs_c x y n clamped (n - 1 - (0 + 1)).toNat := by
  have e1 : (n - 1 - 0).toNat = (n - 2).toNat + 1 := by omega
  have e2 : (n - 1 - (0 + 1)).toNat = (n - 2).toNat := by omega
  have e3 : (n - 2 - ((n - 2).toNat : ℤ)).toNat = 0 := by omega
  rw [e1, e2]
  simp only [cs_c]
  rw [e3]

/-- The last two entries of the backward sweep: `c[n-1]` and
`c[n-2] = z[n-2] - M[n-2]*c[n-1]`. -/
theorem cs_c_last (x y : Arr) (n clamped : ℤ) :
    cs_c x y n clamped (n - 1 - (n - 2 + 1)).toNat = cs_c x y n clamped 0 ∧
      cs_c x y n clamped (n - 1 - (n - 2)).toNat =
        (cs_fwd x y n clamped (n - 2).toNat).2.2 -
          (cs_fwd x y n clamped (n - 2).toNat).2.1 * cs_c x y n clamped 0 := by
  have e1 : (n - 1 - (n - 2 + 1)).toNat = 0 := by omega
  have e2 : (n - 1 - (n - 2)).toNat = 0 + 1 := by omega
  rw [e1, e2]
  refine ⟨rfl, ?_⟩
  simp only [cs_c]
  norm_num

/-- C24: for every strictly ascending `x` of length `n ≥ 4` and every `y`,
`set_1d_cubic_params(x, y, n, 0)` returns parameters, and the natural spline
has zero second derivative at both ends: `c = 0` in the parameters of the
first interval, and `2*c + 6*d*h = 0` for the last interval, with
`h = x[n-1] - x[n-2]`. -/
theorem natural_spline_ends (x y : Arr) (n : ℤ) (h : Ascending x n) (hn4 : 4 ≤ n) :
    ∃ cp, set_1d_cubic_params x y n 0 = some cp ∧ (cp 0).c = 0 ∧
      2 * (cp (n - 2)).c + 6 * (cp (n - 2)).d * (x (n - 1) - x (n - 2)) = 0 := by
  obtain ⟨cp, hcp, hform⟩ := cubic_params_form y hn4 h 0
  refine ⟨cp, hcp, ?_, ?_⟩
  · rw [hform 0 (le_refl _) (by omega)]
    show cs_c x y n 0 (n - 1 - 0).toNat = 0
    rw [cs_c_first x y n 0 hn4]
    simp [cs_fwd]
  · rw [hform (n - 2) (by omega) (by omega)]
    obtain ⟨l1, l2⟩ := cs_c_last x y n 0
    show 2 * cs_c x y n 0 (n - 1 - (n - 2)).toNat +
      6 * ((cs_c x y n 0 (n - 1 - (n - 2 + 1)).toNat - cs_c x y n 0 (n - 1 - (n - 2)).toNat) /
        (3 * cs_h x (n - 2))) * (x (n - 1) - x (n - 2)) = 0
    have hh : cs_h x (n - 2) = x (n - 1) - x (n - 2) := by
      unfold cs_h
      have : n - 2 + 1 = n - 1 := by ring
      rw [this]
    have hpos : x (n - 2) < x (n - 1) := asc_lt h (by omega) (by omega) (by omega)
    have hne : x (n - 1) - x (n - 2) ≠ 0 := sub_ne_zero.mpr (ne_of_gt hpos)
    have hc0 : cs_c x y n 0 0 = 0 := by simp [cs_c]
    rw [l1, hh, hc0]
    field_simp
    ring

/-- The natural spline through `(0, 0), (1, 1), (2, 8), (3, 27)`. -/
theorem natural_spline_ends_witness :
    ∃ cp, set_1d_cubic_params rampArr cubeArr 4 0 = some cp ∧ (cp 0).c = 0 ∧
      2 * (cp (4 - 2)).c + 6 * (cp (4 - 2)).d * (rampArr (4 - 1) - rampArr (4 - 2)) = 0 :=
  natural_spline_ends rampArr cubeArr 4 (rampArr_ascending 4) (by decide)

/-- The forward sweep of the clamped spline on a strictly ascending table:
`l[i] > 0` and `0 < M[i] ≤ 1/2` for `i ≤ n-2`. -/
theorem cs_fwd_bounds {x : Arr} {n : ℤ} (y : Arr) (h : Ascending x n) (clamped : ℤ)
    (hcl : clamped ≠ 0) :
    ∀ i : ℕ, (i : ℤ) ≤ n - 2 →
      0 < (cs_fwd x y n clamped i).1 ∧ 0 < (cs_fwd x y n clamped i).2.1 ∧
        (cs_fwd x y n clamped i).2.1 ≤ 1 / 2 := by
  intro i
  induction i with
  | zero =>
    intro hi
    have h01 : x 0 < x 1 := h 0 (le_refl _) (by omega)
    have hh : 0 < cs_h x 0 := by
      unfold cs_h
      exact sub_pos.mpr (by simpa using h01)
    simp only [cs_fwd, if_pos hcl]
    refine ⟨by linarith, by norm_num, le_refl _⟩
  | succ i ih =>
    intro hi
    obtain ⟨_, m0, m1⟩ := ih (by push_cast at hi; omega)
    have hi' : (i : ℤ) + 2 < n := by push_cast at hi; omega
    have ha : x (i : ℤ) < x ((i : ℤ) + 1) := h i (by omega) (by omega)
    have hb : x ((i : ℤ) + 1) < x ((i : ℤ) + 1 + 1) := h ((i : ℤ) + 1) (by omega) (by omega)
    have e2 : (i : ℤ) + 1 + 1 = (i : ℤ) + 2 := by ring
    rw [e2] at hb
    simp only [cs_fwd]
    have hhi : cs_h x (i : ℤ) = x ((i : ℤ) + 1) - x i := rfl
    have hhi1 : cs_h x ((i : ℤ) + 1) = x ((i : ℤ) + 2) - x ((i : ℤ) + 1) := by
      unfold cs_h
      rw [e2]
    have hp0 : 0 < cs_h x (i : ℤ) := by rw [hhi]; exact sub_pos.mpr ha
    have hp1 : 0 < cs_h x ((i : ℤ) + 1) := by rw [hhi1]; exact sub_pos.mpr hb
    have hsum : x ((i : ℤ) + 2) - x i = cs_h x (i : ℤ) + cs_h x ((i : ℤ) + 1) := by
      rw [hhi, hhi1]; ring
    have hm : cs_h x (i : ℤ) * (cs_fwd x y n clamped i).2.1 ≤ cs_h x (i : ℤ) * (1 / 2) :=
      mul_le_mul_of_nonneg_left m1 (le_of_lt hp0)
    have hl : 2 * cs_h x ((i : ℤ) + 1) <
        2 * (x ((i : ℤ) + 2) - x i) - cs_h x (i : ℤ) * (cs_fwd x y n clamped i).2.1 := by
      rw [hsum]; linarith
    have hlpos : 0 <
        2 * (x ((i : ℤ) + 2) - x i) - cs_h x (i : ℤ) * (cs_fwd x y n clamped i).2.1 := by
      linarith
    refine ⟨hlpos, div_pos hp1 hlpos, ?_⟩
    rw [div_le_iff₀ hlpos]
    linarith

/-- C25: for every strictly ascending `x` of length `n ≥ 4` and every `y`,
`set_1d_cubic_params(x, y, n, 1)` returns parameters, and the clamped spline
has zero first derivative at both ends: `b = 0` in the parameters of the
first interval, and `b + 2*c*h + 3*d*h^2 = 0` for the last interval, with
`h = x[n-1] - x[n-2]`. -/
theorem clamped_spline_ends (x y : Arr) (n : ℤ) (h : Ascending x n) (hn4 : 4 ≤ n) :
    ∃ cp, set_1d_cubic_params x y n 1 = some cp ∧ (cp 0).b = 0 ∧
      (cp (n - 2)).b + 2 * (cp (n - 2)).c * (x (n - 1) - x (n - 2)) +
        3 * (cp (n - 2)).d * (x (n - 1) - x (n - 2)) ^ 2 = 0 := by
  obtain ⟨cp, hcp, hform⟩ := cubic_params_form y hn4 h 1
  have h1 : (1 : ℤ) ≠ 0 := by norm_num
  refine ⟨cp, hcp, ?_, ?_⟩
  · rw [hform 0 (le_refl _) (by omega)]
    show (y (0 + 1) - y 0) / cs_h x 0 -
      cs_h x 0 * (cs_c x y n 1 (n - 1 - (0 + 1)).toNat + 2 * cs_c x y n 1 (n - 1 - 0).toNat) / 3
      = 0
    rw [cs_c_first x y n 1 hn4]
    generalize cs_c x y n 1 (n - 1 - (0 + 1)).toNat = c1
    have h01 : x 0 < x 1 := h 0 (le_refl _) (by omega)
    have hh : cs_h x 0 ≠ 0 := by
      unfold cs_h
      exact sub_ne_zero.mpr (ne_of_gt (by simpa using h01))
    have hn0 : ¬ (0 : ℤ) = n - 1 := by omega
    simp only [cs_fwd, cs_A, if_pos h1, if_true, zero_add, mul_zero, sub_zero]
    field_simp
    ring
  · rw [hform (n - 2) (by omega) (by omega)]
    obtain ⟨l1, l2⟩ := cs_c_last x y n 1
    show (y (n - 2 + 1) - y (n - 2)) / cs_h x (n - 2) -
      cs_h x (n - 2) * (cs_c x y n 1 (n - 1 - (n - 2 + 1)).toNat +
        2 * cs_c x y n 1 (n - 1 - (n - 2)).toNat) / 3 +
      2 * cs_c x y n 1 (n - 1 - (n - 2)).toNat * (x (n - 1) - x (n - 2)) +
      3 * ((cs_c x y n 1 (n - 1 - (n - 2 + 1)).toNat - cs_c x y n 1 (n - 1 - (n - 2)).toNat) /
        (3 * cs_h x (n - 2))) * (x (n - 1) - x (n - 2)) ^ 2 = 0
    have e1 : n - 2 + 1 = n - 1 := by ring
    have hh : cs_h x (n - 2) = x (n - 1) - x (n - 2) := by
      unfold cs_h
      rw [e1]
    have hpos : x (n - 2) < x (n - 1) := asc_lt h (by omega) (by omega) (by omega)
    have hne : x (n - 1) - x (n - 2) ≠ 0 := sub_ne_zero.mpr (ne_of_gt hpos)
    obtain ⟨_, m0, m1⟩ := cs_fwd_bounds y h 1 h1 (n - 2).toNat (by omega)
    have hc0 : cs_c x y n 1 0 =
        ((0 - 3 * (y (n - 1) - y (n - 2)) / (x (n - 1) - x (n - 2))) -
          (x (n - 1) - x (n - 2)) * (cs_fwd x y n 1 (n - 2).toNat).2.2) /
          ((x (n - 1) - x (n - 2)) * (2 - (cs_fwd x y n 1 (n - 2).toNat).2.1)) := by
      have hn0 : ¬ n - 1 = 0 := by omega
      simp only [cs_c, cs_A, if_pos h1, if_neg hn0, if_true, hh, mul_zero]
    rw [l1, l2, hh, e1, hc0]
    generalize (cs_fwd x y n 1 (n - 2).toNat).2.2 = z at *
    generalize (cs_fwd x y n 1 (n - 2).toNat).2.1 = M at *
    have hM : 2 - M ≠ 0 := by
      intro hh2
      linarith
    field_simp
    ring

/-- The clamped spline through `(0, 0), (1, 1), (2, 8), (3, 27)`. -/
theorem clamped_spline_ends_witness :
    ∃ cp, set_1d_cubic_params rampArr cubeArr 4 1 = some cp ∧ (cp 0).b = 0 ∧
      (cp (4 - 2)).b + 2 * (cp (4 - 2)).c * (rampArr (4 - 1) - rampArr (4 - 2)) +
        3 * (cp (4 - 2)).d * (rampArr (4 - 1) - rampArr (4 - 2)) ^ 2 = 0 :=
  clamped_spline_ends rampArr cubeArr 4 (rampArr_ascending 4) (by decide)


/-! ## The order of the x values after validation -/

/-- What `rpol_check_equi_range` does to the members of a 1-D table with at
least one point that the choice of the scheme looks at: `x` and `z` are
reversed when the last x value is below the first, the scheme becomes -3 when
a later step goes against the direction of the first step, and the sizes, the
format number and the spline parameters stay. -/
theorem check_equi_range_1d (t : RpolTable) (xs0 zs0 : List ℚ) (hx : t.x = some xs0)
    (hz : t.z = some zs0) (hd : t.ndim = 1) (hn : 1 ≤ t.nx) :
    (rpol_check_equi_range t).x =
        some (if t.nx > 1 ∧ xs0.getD (t.nx - 1) 0 < xs0.getD 0 0 then reverse_n t.nx xs0
          else xs0) ∧
      (rpol_check_equi_range t).z =
        some (if t.nx > 1 ∧ xs0.getD (t.nx - 1) 0 < xs0.getD 0 0 then reverse_n t.nx zs0
          else zs0) ∧
      (∀ X : List ℚ, (rpol_check_equi_range t).x = some X →
        (rpol_check_equi_range t).scheme =
          if t.nx ≥ 2 ∧ (List.range (t.nx - 2)).any (fun k =>
              decide ((X.getD (k + 2) 0 - X.getD (k + 1) 0) *
                (((if X.getD 1 0 ≥ X.getD 0 0 then 1 else -1 : ℤ)) : ℚ) < 0)) = true
          then -3 else t.scheme) ∧
      (rpol_check_equi_range t).csp = t.csp ∧ (rpol_check_equi_range t).nx = t.nx ∧
      (rpol_check_equi_range t).ndim = 1 := by
  have h12 : ¬ (1 : ℤ) ≥ 2 := by norm_num
  have hn1 : ¬ t.nx < 1 := by omega
  have htwo : decide ((1 : ℤ) = 2 ∨ (1 : ℤ) = 3) = false := by decide
  unfold rpol_check_equi_range
  simp only [hx, hz, hd, h12, false_and, if_false, hn1, or_false, htwo, Bool.false_and,
    Bool.false_eq_true, true_and, Bool.and_eq_true, decide_eq_true_eq]
  by_cases c : t.nx > 1 ∧ xs0.getD (t.nx - 1) 0 < xs0.getD 0 0
  · simp only [c, and_self, if_true, decide_True]
    refine ⟨?_, trivial⟩
    intro X hX
    injection hX with hX
    subst hX
    rfl
  · simp only [c, if_false, decide_False, Bool.false_eq_true]
    refine ⟨?_, trivial⟩
    intro X hX
    injection hX with hX
    subst hX
    rfl

/-- The x buffer `rpol_check_equi_range` leaves for a 1-D table of `nx ≥ 2`
points has `nx` entries again, and its last entry is not below its first. -/
theorem check_equi_range_ends (nx : ℕ) (xs0 : List ℚ) (hn : 2 ≤ nx) (hlx : xs0.length = nx) :
    (if nx > 1 ∧ xs0.getD (nx - 1) 0 < xs0.getD 0 0 then reverse_n nx xs0 else xs0).length = nx ∧
      (if nx > 1 ∧ xs0.getD (nx - 1) 0 < xs0.getD 0 0 then reverse_n nx xs0 else xs0).getD 0 0 ≤
        (if nx > 1 ∧ xs0.getD (nx - 1) 0 < xs0.getD 0 0 then reverse_n nx xs0
          else xs0).getD (nx - 1) 0 := by
  by_cases c : nx > 1 ∧ xs0.getD (nx - 1) 0 < xs0.getD 0 0
  · rw [if_pos c, reverse_n_eq nx xs0 hlx]
    refine ⟨by simp [hlx], ?_⟩
    rw [getD_reverse xs0 0 (by omega), getD_reverse xs0 (nx - 1) (by omega), hlx]
    have e : nx - 1 - (nx - 1) = 0 := by omega
    rw [e]
    exact le_of_lt c.2
  · rw [if_neg c]
    refine ⟨hlx, ?_⟩
    by_contra hc
    exact c ⟨by omega, not_le.mp hc⟩

/-- A buffer whose steps from the second on never go up is, from its second
entry on, non-increasing. -/
theorem steps_down (X : ℕ → ℚ) (n : ℕ) (h : ∀ k, k < n - 2 → X (k + 2) ≤ X (k + 1)) :
    ∀ j, 1 ≤ j → j < n → X j ≤ X 1 := by
  intro j
  induction j with
  | zero => intro h1; omega
  | succ j ih =>
    intro _ hj
    rcases Nat.eq_zero_or_pos j with h0 | h0
    · subst h0; exact le_refl _
    · exact le_trans (by
        have := h (j - 1) (by omega)
        have e1 : j - 1 + 1 = j := by omega
        have e2 : j - 1 + 2 = j + 1 := by omega
        rw [e1, e2] at this
        exact this) (ih h0 (by omega))

/-- The order test of `rpol_check_equi_range` on a buffer whose last entry is
not below its first: when no later step goes against the first step, the
buffer is non-decreasing. -/
theorem order_test_passed (X : List ℚ) (nx : ℕ) (hn : 2 ≤ nx)
    (hends : X.getD 0 0 ≤ X.getD (nx - 1) 0)
    (hok : (List.range (nx - 2)).any (fun k =>
      decide ((X.getD (k + 2) 0 - X.getD (k + 1) 0) *
        (((if X.getD 1 0 ≥ X.getD 0 0 then 1 else -1 : ℤ)) : ℚ) < 0)) = false) :
    ∀ i, i + 1 < nx → X.getD i 0 ≤ X.getD (i + 1) 0 := by
  rw [List.any_eq_false] at hok
  by_cases c : X.getD 1 0 ≥ X.getD 0 0
  · have hstep : ∀ k, k < nx - 2 → X.getD (k + 1) 0 ≤ X.getD (k + 2) 0 := by
      intro k hk
      have := hok k (List.mem_range.mpr hk)
      simp only [if_pos c, Int.cast_one, mul_one, decide_eq_true_eq, not_lt, sub_nonneg] at this
      exact this
    intro i hi
    rcases Nat.eq_zero_or_pos i with h0 | h0
    · subst h0; exact c
    · have := hstep (i - 1) (by omega)
      have e1 : i - 1 + 1 = i := by omega
      have e2 : i - 1 + 2 = i + 1 := by omega
      rw [e1, e2] at this
      exact this
  · exfalso
    have hstep : ∀ k, k < nx - 2 → X.getD (k + 2) 0 ≤ X.getD (k + 1) 0 := by
      intro k hk
      have := hok k (List.mem_range.mpr hk)
      simp only [if_neg c, Int.cast_neg, Int.cast_one, mul_neg, mul_one, decide_eq_true_eq,
        not_lt, Left.nonneg_neg_iff, sub_nonpos] at this
      exact this
    have hlast := steps_down (fun k => X.getD k 0) nx hstep (nx - 1) (by omega) (by omega)
    have : X.getD (nx - 1) 0 < X.getD 0 0 := lt_of_le_of_lt hlast (not_le.mp c)
    exact absurd hends (not_le.mpr this)

/-- The order test of `rpol_check_equi_range` passes on a non-decreasing
buffer. -/
theorem order_test_passes (X : List ℚ) (nx : ℕ)
    (hup : ∀ i, i + 1 < nx → X.getD i 0 ≤ X.getD (i + 1) 0) :
    ¬ (nx ≥ 2 ∧ (List.range (nx - 2)).any (fun k =>
      decide ((X.getD (k + 2) 0 - X.getD (k + 1) 0) *
        (((if X.getD 1 0 ≥ X.getD 0 0 then 1 else -1 : ℤ)) : ℚ) < 0)) = true) := by
  intro ⟨hn, hany⟩
  rw [List.any_eq_true] at hany
  obtain ⟨k, hk, hbad⟩ := hany
  have hk' := List.mem_range.mp hk
  have c : X.getD 1 0 ≥ X.getD 0 0 := hup 0 (by omega)
  simp only [if_pos c, Int.cast_one, mul_one, decide_eq_true_eq, sub_neg] at hbad
  exact absurd (hup (k + 1) (by omega)) (not_le.mpr hbad)

/-- C23 (amended): after `rpol_check_equi_range` has validated a 1-D table
with `nx ≥ 2` points (buffers of `nx` entries), either the table is marked
unusable (`scheme = -3`) or its x values are non-decreasing
(`x[i] ≤ x[i+1]` for every `i`); equal neighbours pass the test. -/
theorem check_equi_range_monotonic (t : RpolTable) (xs zs : List ℚ) (hx : t.x = some xs)
    (hz : t.z = some zs) (hd : t.ndim = 1) (hn : 2 ≤ t.nx) (hlx : xs.length = t.nx) :
    (rpol_check_equi_range t).scheme = -3 ∨
      NonDecreasing (arr (rpol_check_equi_range t).x) t.nx := by
  obtain ⟨k1, _, k3, _⟩ := check_equi_range_1d t xs zs hx hz hd (by omega)
  obtain ⟨e1, e2⟩ := check_equi_range_ends t.nx xs hn hlx
  have hs := k3 _ k1
  generalize (if t.nx > 1 ∧ xs.getD (t.nx - 1) 0 < xs.getD 0 0 then reverse_n t.nx xs
    else xs) = X at k1 e1 e2 hs
  by_cases hbad : (List.range (t.nx - 2)).any (fun k =>
      decide ((X.getD (k + 2) 0 - X.getD (k + 1) 0) *
        (((if X.getD 1 0 ≥ X.getD 0 0 then 1 else -1 : ℤ)) : ℚ) < 0)) = true
  · left
    rw [hs, if_pos ⟨hn, hbad⟩]
  · right
    have hup := order_test_passed X t.nx hn e2 (by simpa using hbad)
    intro i hi0 hin
    obtain ⟨k, rfl⟩ := Int.eq_ofNat_of_zero_le hi0
    have hk : k + 1 < t.nx := by exact_mod_cast hin
    have e : ((k : ℤ) + 1).toNat = k + 1 := by omega
    rw [k1]
    simp only [arr, Option.getD_some, Int.toNat_ofNat, e]
    exact hup k hk

/-- The table `(2, 4), (1, 2), (0, 0)` is reversed and passes; the table
with the x values `1, 0, 1` is marked unusable. -/
theorem check_equi_range_monotonic_witness :
    ((rpol_check_equi_range demoDescending).scheme = -3 ∨
        NonDecreasing (arr (rpol_check_equi_range demoDescending).x) 3) ∧
      (rpol_check_equi_range demoDescending).x = some [0, 1, 2] ∧
      (rpol_check_equi_range
        { ndim := 1, nx := 3, x := some [1, 0, 1], z := some [4, 2, 0], scheme := 1 }).scheme
        = -3 :=
  ⟨check_equi_range_monotonic demoDescending [2, 1, 0] [4, 2, 0] rfl rfl rfl (by decide) rfl,
    by decide!, by decide!⟩

/-- C23, the claim as stated fails: the 1-D table with the x values `0, 0, 1`
passes the validation (the scheme stays 1, it is not set to -3), since the
test of the first step is `x[1] >= x[0]` and a later step fails only when
`(x[i] - x[i-1]) * xrise < 0`; but `x[0] < x[1]` does not hold. -/
theorem check_equi_range_monotonic_counterexample :
    (rpol_check_equi_range
        { ndim := 1, nx := 3, x := some [0, 0, 1], z := some [4, 2, 0], scheme := 1 }).scheme
        = 1 ∧
      (rpol_check_equi_range
        { ndim := 1, nx := 3, x := some [0, 0, 1], z := some [4, 2, 0], scheme := 1 }).x
        = some [0, 0, 1] ∧
      ¬ arr (some [0, 0, 1]) 0 < arr (some [0, 0, 1]) (0 + 1) := by
  refine ⟨by decide!, by decide!, by decide!⟩


/-! ## The scheme and the spline parameters of a loaded table -/

/-- The parameters of the cubic spline exist exactly for a strictly
ascending table of at least 4 points. -/
theorem cubic_params_isSome (x y : Arr) (n clamped : ℤ) :
    (set_1d_cubic_params x y n clamped).isSome = true ↔ 4 ≤ n ∧ Ascending x n := by
  unfold set_1d_cubic_params
  by_cases c : n < 4
  · rw [if_pos c]
    simp
    intro h; omega
  · rw [if_neg c]
    by_cases hany : (List.range (n - 1).toNat).any (fun i => decide (x ((i : ℤ) + 1) ≤ x i)) = true
    · rw [if_pos hany]
      simp only [Option.isSome_none, Bool.false_eq_true, false_iff, not_and]
      intro _ hasc
      rw [List.any_eq_true] at hany
      obtain ⟨i, hi, hle⟩ := hany
      have hi' : i < (n - 1).toNat := List.mem_range.mp hi
      have := hasc (i : ℤ) (by omega) (by omega)
      simp only [decide_eq_true_eq] at hle
      exact absurd this (not_lt.mpr hle)
    · rw [if_neg hany]
      simp only [Option.isSome_some, true_iff]
      refine ⟨by omega, ?_⟩
      intro i hi0 hin
      obtain ⟨k, rfl⟩ := Int.eq_ofNat_of_zero_le hi0
      have hk : k ∈ List.range (n - 1).toNat := List.mem_range.mpr (by omega)
      have hany' : (List.range (n - 1).toNat).any (fun i => decide (x ((i : ℤ) + 1) ≤ x i)) =
          false := by simpa using hany
      rw [List.any_eq_false] at hany'
      have := hany' k hk
      simpa using this

/-- The tables the three format branches hand on have no spline parameters
yet. -/
theorem read_format_csp (env : CEnv) (fname : String) (f : List String)
    (ym : Option (List Char)) (o : ReadOpts) (raw : RpolTable)
    (h : read_format1 env fname f o = some raw ∨ read_format2 env fname f ym o = some raw ∨
      read_format3 env fname f o = some raw) : raw.csp = none := by
  rcases h with h | h | h
  · unfold read_format1 at h
    simp only at h
    split_ifs at h <;> (injection h with h; rw [← h])
  · unfold read_format2 at h
    simp only at h
    split at h
    · exact absurd h (by simp)
    · split_ifs at h
      injection h with h
      rw [← h]
  · unfold read_format3 at h
    simp only at h
    split_ifs at h <;> (split at h; exact absurd h (by simp); injection h with h; rw [← h])

/-- The finishing steps before the choice of the scheme keep the spline
parameters. -/
theorem finish_csp (env : CEnv) (nd : ℤ) (o : ReadOpts) (t : RpolTable) :
    (rpol_check_equi_range (finish_table env nd o t)).csp = t.csp := by
  have h1 : (finish_table env nd o t).csp = t.csp := rfl
  rw [← h1]
  generalize finish_table env nd o t = u
  unfold rpol_check_equi_range
  dsimp only
  split
  · by_cases h1 : u.ndim ≥ 2 ∧ u.y = none
    · rw [if_pos h1]
    · rw [if_neg h1]
      by_cases h2 : u.nx < 1 ∨ (u.ndim ≥ 2 ∧ u.ny < 1)
      · rw [if_pos h2]
      · rw [if_neg h2]
  · rfl

/-- The spline parameters after the choice of the scheme, for a table that
had none before: they are there exactly for a 1-D table that ends up with
scheme 3 or 4 and has at least 4 points. -/
theorem choose_scheme_csp (v : RpolTable) (hcsp : v.csp = none) :
    (choose_scheme v).csp ≠ none ↔
      v.ndim = 1 ∧ ((choose_scheme v).scheme = 3 ∨ (choose_scheme v).scheme = 4) ∧ 4 ≤ v.nx := by
  unfold choose_scheme
  simp only
  by_cases hd : v.ndim = 1
  · by_cases hs : v.scheme = 3 ∨ v.scheme = 4
    · have hs2 : ¬ v.scheme = 2 := by omega
      by_cases h3 : v.nx < 3
      · simp only [hd, hs, h3, not_true_eq_false, false_and, and_false, if_false, if_true, hs2,
          hcsp, true_and]
        constructor
        · intro h; exact absurd rfl h
        · intro h; omega
      · by_cases h33 : v.nx = 3
        · simp only [hd, hs, h3, h33, not_true_eq_false, false_and, and_false, if_false,
            if_true, hs2, hcsp, true_and, not_false_eq_true, ne_eq]
          constructor
          · intro h; exact h.elim
          · intro h; omega
        · simp only [hd, hs, h3, h33, not_false_eq_true, and_self, if_true, if_false, hs2,
            true_and, ne_eq]
          cases hc : set_1d_cubic_params (arr v.x) (arr v.z) (v.nx : ℤ)
              (if v.scheme = 4 then 1 else 0) with
          | none =>
            simp only [hcsp, Option.isNone_none, if_true, not_true_eq_false, false_iff, not_and]
            intro h; omega
          | some c =>
            simp only [Option.isNone_some, Bool.false_eq_true, if_false, reduceCtorEq,
              not_false_eq_true, true_iff]
            exact ⟨hs, by omega⟩
    · have hne : ¬ (v.ndim = 1 ∧ (v.scheme = 3 ∨ v.scheme = 4) ∧ ¬ v.nx < 3 ∧ v.nx ≠ 3) :=
        fun hh => hs hh.2.1
      simp only [hs, false_and, and_false, if_false, hcsp, ne_eq, not_true_eq_false, hd, if_true,
        true_and, false_iff, not_and]
      intro h
      exfalso
      by_cases h2 : v.scheme = 2
      · rw [if_pos h2] at h
        split_ifs at h <;> omega
      · rw [if_neg h2] at h
        exact hs h
  · simp only [hd, false_and, if_false, hcsp, ne_eq, not_true_eq_false]

/-- The order of a buffer read through `arr`, in terms of its entries. -/
theorem nondecreasing_arr (X : List ℚ) (n : ℕ) :
    NonDecreasing (arr (some X)) n ↔ ∀ i, i + 1 < n → X.getD i 0 ≤ X.getD (i + 1) 0 := by
  constructor
  · intro h i hi
    have := h (i : ℤ) (by omega) (by exact_mod_cast hi)
    have e : ((i : ℤ) + 1).toNat = i + 1 := by omega
    simpa only [arr, Option.getD_some, Int.toNat_ofNat, e] using this
  · intro h i hi0 hin
    obtain ⟨k, rfl⟩ := Int.eq_ofNat_of_zero_le hi0
    have hk : k + 1 < n := by exact_mod_cast hin
    have e : ((k : ℤ) + 1).toNat = k + 1 := by omega
    simp only [arr, Option.getD_some, Int.toNat_ofNat, e]
    exact h k hk

/-- What `rpol_check_equi_range` leaves of a 1-D table with buffers of `nx`
entries, for the choice of the scheme: buffers of `nx` entries again, the
scheme as it was when the x values left are non-decreasing and -3 when they
are not, and the sizes, the format number and the spline parameters as they
were. -/
theorem check_equi_range_1d_any (u : RpolTable) (xs zs : List ℚ) (hx : u.x = some xs)
    (hz : u.z = some zs) (hd : u.ndim = 1) (hlx : xs.length = u.nx) :
    ∃ X : List ℚ, (rpol_check_equi_range u).x = some X ∧ X.length = u.nx ∧
      (NonDecreasing (arr (some X)) u.nx → (rpol_check_equi_range u).scheme = u.scheme) ∧
      (¬ NonDecreasing (arr (some X)) u.nx → (rpol_check_equi_range u).scheme = -3) ∧
      (rpol_check_equi_range u).csp = u.csp ∧ (rpol_check_equi_range u).nx = u.nx ∧
      (rpol_check_equi_range u).ndim = 1 := by
  rcases Nat.eq_zero_or_pos u.nx with h0 | hpos
  · have hv : rpol_check_equi_range u = { u with equidistant := 0 } := by
      have h12 : ¬ (1 : ℤ) ≥ 2 := by norm_num
      unfold rpol_check_equi_range
      simp only [hx, hz, hd, h12, false_and, if_false, h0, Nat.lt_one_iff, true_or, if_true]
    rw [hv]
    refine ⟨xs, hx, hlx, fun _ => rfl, ?_, rfl, rfl, hd⟩
    intro hnot
    exfalso
    apply hnot
    intro i hi0 hin
    rw [h0] at hin
    omega
  · obtain ⟨k1, _, k3, k4, k5, k6⟩ := check_equi_range_1d u xs zs hx hz hd hpos
    have hs := k3 _ k1
    by_cases hn2 : 2 ≤ u.nx
    · obtain ⟨e1, e2⟩ := check_equi_range_ends u.nx xs hn2 hlx
      generalize (if u.nx > 1 ∧ xs.getD (u.nx - 1) 0 < xs.getD 0 0 then reverse_n u.nx xs
        else xs) = X at k1 e1 e2 hs
      refine ⟨X, k1, e1, ?_, ?_, k4, k5, k6⟩
      · intro hup
        rw [hs, if_neg (order_test_passes X u.nx ((nondecreasing_arr X u.nx).mp hup))]
      · intro hnot
        by_cases hbad : (List.range (u.nx - 2)).any (fun k =>
            decide ((X.getD (k + 2) 0 - X.getD (k + 1) 0) *
              (((if X.getD 1 0 ≥ X.getD 0 0 then 1 else -1 : ℤ)) : ℚ) < 0)) = true
        · rw [hs, if_pos ⟨hn2, hbad⟩]
        · exact absurd ((nondecreasing_arr X u.nx).mpr
            (order_test_passed X u.nx hn2 e2 (by simpa using hbad))) hnot
    · have hn1 : u.nx = 1 := by omega
      have hrev : ¬ (u.nx > 1 ∧ xs.getD (u.nx - 1) 0 < xs.getD 0 0) := by omega
      rw [if_neg hrev] at k1 hs
      refine ⟨xs, k1, hlx, ?_, ?_, k4, k5, k6⟩
      · intro _
        rw [hs, if_neg (by omega)]
      · intro hnot
        exfalso
        apply hnot
        intro i hi0 hin
        rw [hn1] at hin
        omega

/-- The choice of the scheme at the end of `read_rpol_table` for a 1-D
table. -/
theorem choose_scheme_1d (v : RpolTable) (hd : v.ndim = 1) (hcsp : v.csp = none) :
    (choose_scheme v).x = v.x ∧ (choose_scheme v).nx = v.nx ∧
      (v.scheme = 2 → (choose_scheme v).scheme = if v.nx < 3 then 1 else 2) ∧
      (v.scheme = 3 ∨ v.scheme = 4 →
        (v.nx < 3 → (choose_scheme v).scheme = 1) ∧
        (v.nx = 3 → (choose_scheme v).scheme = 2) ∧
        (4 ≤ v.nx → Ascending (arr v.x) v.nx →
          (choose_scheme v).scheme = v.scheme ∧ (choose_scheme v).csp ≠ none) ∧
        (4 ≤ v.nx → ¬ Ascending (arr v.x) v.nx →
          (choose_scheme v).scheme = 1 ∧ (choose_scheme v).csp = none)) ∧
      (v.scheme ≠ 2 → v.scheme ≠ 3 → v.scheme ≠ 4 → (choose_scheme v).scheme = v.scheme) := by
  refine ⟨rfl, rfl, ?_, ?_, ?_⟩
  · intro h2
    have h34 : ¬ (v.scheme = 3 ∨ v.scheme = 4) := by omega
    unfold choose_scheme
    simp only [hd, h2, if_true]
  · intro h34
    have h2 : ¬ v.scheme = 2 := by omega
    refine ⟨?_, ?_, ?_, ?_⟩
    · intro h3
      unfold choose_scheme
      simp only [hd, h2, h34, h3, if_true, if_false]
    · intro h3
      have h3' : ¬ v.nx < 3 := by omega
      unfold choose_scheme
      simp only [hd, h2, h34, h3, h3', if_true, if_false]
      rfl
    · intro h4 hasc
      have h3' : ¬ v.nx < 3 := by omega
      have h3'' : ¬ v.nx = 3 := by omega
      have hsome := (cubic_params_isSome (arr v.x) (arr v.z) (v.nx : ℤ)
        (if v.scheme = 4 then 1 else 0)).mpr ⟨by exact_mod_cast h4, hasc⟩
      unfold choose_scheme
      simp only [hd, h2, h34, h3', h3'', if_true, if_false, not_false_eq_true, ne_eq, and_self]
      cases hc : set_1d_cubic_params (arr v.x) (arr v.z) (v.nx : ℤ)
          (if v.scheme = 4 then 1 else 0) with
      | none => rw [hc] at hsome; exact absurd hsome (by simp)
      | some c => simp
    · intro h4 hnasc
      have h3' : ¬ v.nx < 3 := by omega
      have h3'' : ¬ v.nx = 3 := by omega
      have hnone : set_1d_cubic_params (arr v.x) (arr v.z) (v.nx : ℤ)
          (if v.scheme = 4 then 1 else 0) = none := by
        cases hc : set_1d_cubic_params (arr v.x) (arr v.z) (v.nx : ℤ)
            (if v.scheme = 4 then 1 else 0) with
        | none => rfl
        | some c =>
          have := (cubic_params_isSome (arr v.x) (arr v.z) (v.nx : ℤ)
            (if v.scheme = 4 then 1 else 0)).mp (by rw [hc]; rfl)
          exact absurd this.2 hnasc
      unfold choose_scheme
      simp only [hd, h2, h34, h3', h3'', if_true, if_false, not_false_eq_true, ne_eq, and_self,
        hnone, Option.isNone_none, hcsp]
  · intro h2 h3 h4
    have h34 : ¬ (v.scheme = 3 ∨ v.scheme = 4) := by omega
    unfold choose_scheme
    simp only [hd, h2, h34, if_true, if_false]

/-- Every column of `columns_of` has one entry per row. -/
theorem columns_of_length (ncol : ℕ) (R : List (List ℚ)) (i : ℕ) (hi : i < ncol) :
    ((columns_of ncol R).getD i []).length = R.length := by
  unfold columns_of
  rw [getD_map_range _ ncol i [] hi]
  simp

/-- Whatever the column selection, `read_table_v` on an open stream either
leaves no columns (invalid arguments) or columns with one entry per row it
counts. -/
theorem read_table_v_shape (env : CEnv) (fname : String) (lines : List String) (hint ncol : ℕ)
    (selcol : Option (List ℕ)) (hncol : 1 ≤ ncol) :
    (read_table_v env (some fname) (some lines) (some hint) ncol (some none) selcol).col = none ∨
      ∃ R : List (List ℚ),
        (read_table_v env (some fname) (some lines) (some hint) ncol (some none) selcol).col =
          some (columns_of ncol R) ∧
        (read_table_v env (some fname) (some lines) (some hint) ncol (some none) selcol).nrow =
          some R.length := by
  have h1 : ¬ ncol < 1 := by omega
  by_cases hsel : ∀ sel, selcol = some sel → ∀ i, i < ncol → 1 ≤ sel.getD i 0
  · by_cases hmax : maxcol_of ncol selcol ≤ 500
    · right
      rw [read_table_v_valid env fname (some lines) lines hint ncol selcol (Or.inl rfl) hncol
        hsel hmax]
      obtain ⟨s1, s2, _, _⟩ := read_rows_spec env 100000 ncol selcol hsel lines
        (List.replicate (maxcol_of ncol selcol) 0) [] 0 (by simp) (by simp)
      simp only [List.length_nil, List.nil_append, Nat.sub_zero, zero_add] at s1 s2
      refine ⟨_, s1, ?_⟩
      rw [s2, List.length_take, Nat.min_comm]
    · left
      have h2 : maxcol_of ncol selcol > 500 := by omega
      cases selcol with
      | none =>
        simp only [maxcol_of] at h2
        simp only [read_table_v, h1, if_false, h2, if_true, Bool.false_eq_true]
      | some sel =>
        simp only [maxcol_of] at h2
        simp only [read_table_v, h1, if_false, h2, if_true]
        split_ifs <;> rfl
  · left
    push_neg at hsel
    obtain ⟨sel, hs, i, hi, hz⟩ := hsel
    subst hs
    have hany : (List.range ncol).any (fun icol => sel.getD icol 0 == 0) = true := by
      rw [List.any_eq_true]
      exact ⟨i, List.mem_range.mpr hi, by simp only [beq_iff_eq]; omega⟩
    simp only [read_table_v, h1, if_false, hany, if_true]

/-- The table of the format 1 branch: a 1-D table whose buffers `x` and `z`
have `nx` entries. -/
theorem read_format1_shape (env : CEnv) (fname : String) (f : List String) (o : ReadOpts)
    (raw : RpolTable) (h : read_format1 env fname f o = some raw) :
    raw.ndim = 1 ∧ ∃ xs zs : List ℚ, raw.x = some xs ∧ raw.z = some zs ∧ xs.length = raw.nx ∧
      zs.length = raw.nx := by
  unfold read_format1 at h
  simp only at h
  have key : ∀ r : ReadResult,
      (r.col = none ∨ ∃ R : List (List ℚ), r.col = some (columns_of 2 R) ∧
        r.nrow = some R.length) →
      (if (r.rc < 0 ∧ r.nrow.getD 0 = 0) ∨ r.col = none then none
        else some ({ aux := o.aux
                     x := some ((r.col.getD []).getD 0 [])
                     y := some ((r.col.getD []).getD 1 [])
                     z := some ((r.col.getD []).getD 1 [])
                     ndim := 1
                     nx := r.nrow.getD 0
                     ny := 0
                     zxreq := 0 } : RpolTable)) = some raw →
      raw.ndim = 1 ∧ ∃ xs zs : List ℚ, raw.x = some xs ∧ raw.z = some zs ∧
        xs.length = raw.nx ∧ zs.length = raw.nx := by
    intro r hr hraw
    rcases hr with hn | ⟨R, hc, hrow⟩
    · rw [if_pos (Or.inr hn)] at hraw
      exact absurd hraw (by simp)
    · split_ifs at hraw
      injection hraw with hraw
      rw [← hraw]
      refine ⟨rfl, _, _, rfl, rfl, ?_, ?_⟩
      · simp only [hc, hrow, Option.getD_some]
        exact columns_of_length 2 R 0 (by decide)
      · simp only [hc, hrow, Option.getD_some]
        exact columns_of_length 2 R 1 (by decide)
  by_cases hcols : o.xcol = 1 ∧ o.ycol = 2
  · rw [if_pos hcols] at h
    exact key _ (read_table_v_shape env fname f o.expect_rows 2 none (by decide)) h
  · rw [if_neg hcols] at h
    exact key _ (read_table_v_shape env fname f o.expect_rows 2 (some [o.xcol, o.ycol])
      (by decide)) h

/-- The loop over the first `n` entries keeps the length of the buffer. -/
theorem map_first_length (n : ℕ) (f : ℚ → ℚ) (l : List ℚ) : (map_first n f l).length = l.length := by
  unfold map_first
  simp only [List.length_append, List.length_map, List.length_take, List.length_drop]
  omega

/-- A conditional pass of such a loop over a buffer keeps the buffer and its
length. -/
theorem finish_buffer (c : Prop) [Decidable c] (k : ℕ) (f : ℚ → ℚ) (e : Option (List ℚ)) (n : ℕ)
    (h : ∃ l, e = some l ∧ l.length = n) :
    ∃ l, (if c then e.map (map_first k f) else e) = some l ∧ l.length = n := by
  obtain ⟨l, hl, hn⟩ := h
  subst hl
  by_cases hc : c
  · rw [if_pos hc]
    exact ⟨_, rfl, by rw [map_first_length]; exact hn⟩
  · rw [if_neg hc]
    exact ⟨l, rfl, hn⟩

/-- The finishing steps before `rpol_check_equi_range` on a table with `x`
and `z` buffers: the scheme is the requested one, the buffers keep their
lengths, and the sizes and spline parameters stay. -/
theorem finish_table_shape (env : CEnv) (nd : ℤ) (o : ReadOpts) (raw : RpolTable)
    (xs zs : List ℚ) (hx : raw.x = some xs) (hz : raw.z = some zs) :
    (finish_table env nd o raw).scheme = o.scheme_default ∧
      (finish_table env nd o raw).ndim = nd ∧ (finish_table env nd o raw).nx = raw.nx ∧
      (finish_table env nd o raw).csp = raw.csp ∧
      (∃ xs' : List ℚ, (finish_table env nd o raw).x = some xs' ∧ xs'.length = xs.length) ∧
      ∃ zs' : List ℚ, (finish_table env nd o raw).z = some zs' ∧ zs'.length = zs.length := by
  refine ⟨rfl, rfl, rfl, rfl, ?_, ?_⟩
  · unfold finish_table
    simp only [hx]
    exact finish_buffer _ _ _ _ _ (finish_buffer _ _ _ _ _ ⟨xs, rfl, rfl⟩)
  · unfold finish_table
    simp only [hz]
    exact finish_buffer _ _ _ _ _ (finish_buffer _ _ _ _ _ ⟨zs, rfl, rfl⟩)

/-- A table `read_content` returns has gone through one of the format
branches and the finishing steps. -/
theorem read_content_finish (env : CEnv) (fnclean : String) (nd0 nd : ℤ)
    (ymarker : Option String) (oe : String) (t : RpolTable)
    (h : read_content env fnclean nd0 nd ymarker oe = some t) :
    ∃ lines raw, env.fileopen fnclean = some lines ∧ raw.csp = none ∧
      (nd = 1 → read_format1 env fnclean
        (read_stream env lines nd0 nd (read_ymarker env lines nd0 ymarker))
        (read_options env lines nd0 nd oe) = some raw) ∧
      t = choose_scheme (rpol_check_equi_range
        (finish_table env nd (read_options env lines nd0 nd oe) raw)) := by
  unfold read_content at h
  cases hf : env.fileopen fnclean with
  | none => rw [hf] at h; exact absurd h (by simp)
  | some lines =>
    rw [hf] at h
    simp only at h
    split at h
    · exact absurd h (by simp)
    · rw [Option.map_eq_some'] at h
      obtain ⟨raw, hraw, e⟩ := h
      refine ⟨lines, raw, rfl, ?_, ?_, e.symm⟩
      · by_cases h1 : nd = 1
        · rw [if_pos h1] at hraw
          exact read_format_csp env fnclean _ none _ raw (Or.inl hraw)
        · rw [if_neg h1] at hraw
          by_cases h2 : nd = 2
          · rw [if_pos h2] at hraw
            exact read_format_csp env fnclean _ _ _ raw (Or.inr (Or.inl hraw))
          · rw [if_neg h2] at hraw
            by_cases h3 : nd = 3
            · rw [if_pos h3] at hraw
              exact read_format_csp env fnclean _ none _ raw (Or.inr (Or.inr hraw))
            · rw [if_neg h3] at hraw
              exact absurd hraw (by simp)
      · intro h1
        rw [if_pos h1] at hraw
        exact hraw

/-- A table `read_load` returns is what `read_content` returns for a format
1, 2 or 3, with the members set from the call. -/
theorem read_load_content (env : CEnv) (fnplus fnclean oe : String) (nd0 : ℤ)
    (ymarker options : Option String) (rpt : RpolTable)
    (h : read_load (fileSource env) fnplus fnclean oe nd0 ymarker options = some rpt) :
    ∃ nd t, (nd = 1 ∨ nd = 2 ∨ nd = 3) ∧ (0 < nd0 → nd = nd0) ∧
      read_content env fnclean nd0 nd ymarker oe = some t ∧
      rpt.ndim = nd ∧ rpt.nx = t.nx ∧ rpt.scheme = t.scheme ∧ rpt.csp = t.csp ∧ rpt.x = t.x ∧
      rpt.z = t.z ∧ rpt.use_count = 1 ∧ rpt.fname = some fnplus := by
  unfold read_load at h
  dsimp only at h
  split at h
  · exact absurd h (by simp)
  · rename_i nd hnd1
    split at h
    · exact absurd h (by simp)
    · rename_i hnd
      split at h
      · exact absurd h (by simp)
      · rename_i t0 hc
        injection h with h
        refine ⟨nd, t0, ?_, ?_, hc, ?_⟩
        · push_neg at hnd
          by_cases h1 : nd = 1
          · exact Or.inl h1
          · by_cases h2 : nd = 2
            · exact Or.inr (Or.inl h2)
            · exact Or.inr (Or.inr (hnd h1 h2))
        · intro hpos
          rw [if_neg (by omega)] at hnd1
          injection hnd1 with hnd1
          exact hnd1.symm
        · rw [← h]
          exact ⟨rfl, rfl, rfl, rfl, rfl, rfl, rfl, rfl⟩

/-- The table `read_load` returns, seen from the choice of its scheme: it
has the scheme, spline parameters, sizes and x values of `choose_scheme v`
for a table `v` without spline parameters, and for a 1-D table `v` is what
`rpol_check_equi_range` leaves of a table with the requested scheme (the
scheme itself when the x values are non-decreasing, -3 when not). -/
theorem read_load_shape (env : CEnv) (fnplus fnclean oe : String) (nd0 : ℤ)
    (ymarker options : Option String) (rpt : RpolTable)
    (h : read_load (fileSource env) fnplus fnclean oe nd0 ymarker options = some rpt) :
    ∃ lines v, env.fileopen fnclean = some lines ∧
      (rpt.ndim = 1 ∨ rpt.ndim = 2 ∨ rpt.ndim = 3) ∧ (0 < nd0 → rpt.ndim = nd0) ∧
      v.csp = none ∧ v.ndim = rpt.ndim ∧ v.nx = rpt.nx ∧
      rpt.scheme = (choose_scheme v).scheme ∧ rpt.csp = (choose_scheme v).csp ∧ rpt.x = v.x ∧
      (rpt.ndim = 1 → ∃ X : List ℚ, v.x = some X ∧ X.length = v.nx ∧
        (NonDecreasing (arr (some X)) v.nx →
          v.scheme = (read_options env lines nd0 1 oe).scheme_default) ∧
        (¬ NonDecreasing (arr (some X)) v.nx → v.scheme = -3)) := by
  obtain ⟨nd, t, hnd, hnd0, hc, r1, r2, r3, r4, r5, _⟩ :=
    read_load_content env fnplus fnclean oe nd0 ymarker options rpt h
  obtain ⟨lines, raw, hf, hcsp, hraw, ht⟩ := read_content_finish env fnclean nd0 nd ymarker oe t hc
  refine ⟨lines, rpol_check_equi_range (finish_table env nd (read_options env lines nd0 nd oe) raw),
    hf, by rw [r1]; exact hnd, by rw [r1]; exact hnd0, ?_, ?_, ?_, by rw [r3, ht],
    by rw [r4, ht], by rw [r5, ht]; rfl, ?_⟩
  · rw [finish_csp]; exact hcsp
  · rw [(check_equi_range_keeps _).2.1, r1]; rfl
  · rw [(check_equi_range_keeps _).2.2.1, r2, ht]
    show raw.nx = (rpol_check_equi_range _).nx
    rw [(check_equi_range_keeps _).2.2.1]; rfl
  · intro h1
    rw [r1] at h1
    subst h1
    obtain ⟨hrd, xs, zs, hx, hz, hlx, _⟩ := read_format1_shape env fnclean _ _ raw (hraw rfl)
    obtain ⟨f1, f2, f3, f4, ⟨xs', fx, flx⟩, ⟨zs', fz, _⟩⟩ :=
      finish_table_shape env 1 (read_options env lines nd0 1 oe) raw xs zs hx hz
    obtain ⟨X, c1, c2, c3, c4, _, c6, _⟩ := check_equi_range_1d_any
      (finish_table env 1 (read_options env lines nd0 1 oe) raw) xs' zs' fx fz f2
      (by rw [flx, hlx, f3])
    rw [c6]
    exact ⟨X, c1, c2, c3, c4⟩

/-- A call of `read_rpol_table` that appends a table to the heap has read it
with `read_load`. -/
theorem read_rpol_table_loads (src : TableSource) (s : RpolState) (fname : String) (nd : ℤ)
    (ymarker options : Option String) (t : RpolTable)
    (h : (read_rpol_table src s fname nd ymarker options).1.heap = s.heap ++ [some t]) :
    ∃ fnplus fnclean oe, read_names fname ymarker options = some (fnplus, fnclean, oe) ∧
      read_load src fnplus fnclean oe nd ymarker options = some t ∧
      (read_rpol_table src s fname nd ymarker options).2 = some s.heap.length := by
  have hne : ∀ l : List (Option RpolTable), l ≠ l ++ [some t] := by
    intro l hl
    have := congrArg List.length hl
    simp at this
  unfold read_rpol_table at h ⊢
  dsimp only at h ⊢
  split
  · rename_i hn
    rw [hn] at h
    exact absurd h (hne _)
  · rename_i fnplus fnclean oe hn
    rw [hn] at h
    simp only at h
    split
    · rename_i hfind
      rw [hfind] at h
      exact absurd h (hne _)
    · rename_i pos hfind
      rw [hfind] at h
      simp only at h
      split
      · rename_i a ha
        rw [ha] at h
        simp only at h
        split at h
        · have := congrArg List.length h
          simp at this
        · exact absurd h (hne _)
      · rename_i ha
        rw [ha] at h
        simp only at h
        split
        · rename_i hl
          rw [hl] at h
          exact absurd h (hne _)
        · rename_i rpt hl
          rw [hl] at h
          simp only at h
          have := List.append_cancel_left h
          injection this with this
          injection this with this
          subst this
          exact ⟨fnplus, fnclean, oe, hn, hl, rfl⟩

/-- The order of a buffer read through `arr`, in terms of its entries. -/
theorem nonincreasing_arr (X : List ℚ) (n : ℕ) :
    NonIncreasing (arr (some X)) n ↔ ∀ i, i + 1 < n → X.getD (i + 1) 0 ≤ X.getD i 0 := by
  constructor
  · intro h i hi
    have := h (i : ℤ) (by omega) (by exact_mod_cast hi)
    have e : ((i : ℤ) + 1).toNat = i + 1 := by omega
    simpa only [arr, Option.getD_some, Int.toNat_ofNat, e] using this
  · intro h i hi0 hin
    obtain ⟨k, rfl⟩ := Int.eq_ofNat_of_zero_le hi0
    have hk : k + 1 < n := by exact_mod_cast hin
    have e : ((k : ℤ) + 1).toNat = k + 1 := by omega
    simp only [arr, Option.getD_some, Int.toNat_ofNat, e]
    exact h k hk

/-- In a non-increasing buffer no entry is above an earlier one. -/
theorem noninc_chain (X : ℕ → ℚ) (n : ℕ) (h : ∀ i, i + 1 < n → X (i + 1) ≤ X i) (i : ℕ) :
    ∀ k, i + k < n → X (i + k) ≤ X i := by
  intro k
  induction k with
  | zero => intro _; exact le_refl _
  | succ k ih =>
    intro hk
    exact le_trans (h (i + k) (by omega)) (ih (by omega))

/-- In a non-decreasing buffer no entry is below an earlier one. -/
theorem nondec_chain (X : ℕ → ℚ) (n : ℕ) (h : ∀ i, i + 1 < n → X i ≤ X (i + 1)) (i : ℕ) :
    ∀ k, i + k < n → X i ≤ X (i + k) := by
  intro k
  induction k with
  | zero => intro _; exact le_refl _
  | succ k ih =>
    intro hk
    exact le_trans (ih (by omega)) (h (i + k) (by omega))

/-- A 1-D table whose x values are monotonic on input, non-decreasing or
non-increasing, has non-decreasing x values once `rpol_check_equi_range` has
run: a table whose last x value is below its first is reversed. -/
theorem monotonic_stored (u : RpolTable) (xs zs : List ℚ) (hx : u.x = some xs)
    (hz : u.z = some zs) (hd : u.ndim = 1) (hlx : xs.length = u.nx)
    (hmono : NonDecreasing (arr u.x) u.nx ∨ NonIncreasing (arr u.x) u.nx) :
    NonDecreasing (arr (rpol_check_equi_range u).x) u.nx := by
  by_cases hn2 : 2 ≤ u.nx
  · obtain ⟨k1, _⟩ := check_equi_range_1d u xs zs hx hz hd (by omega)
    rw [k1, nondecreasing_arr]
    rw [hx] at hmono
    rcases hmono with hup | hdown
    · have hup' := (nondecreasing_arr xs u.nx).mp hup
      have hends := nondec_chain (fun k => xs.getD k 0) u.nx hup' 0 (u.nx - 1) (by omega)
      simp only [Nat.zero_add] at hends
      rw [if_neg (fun hh => absurd hends (not_le.mpr hh.2))]
      exact hup'
    · have hdown' := (nonincreasing_arr xs u.nx).mp hdown
      by_cases c : u.nx > 1 ∧ xs.getD (u.nx - 1) 0 < xs.getD 0 0
      · rw [if_pos c, reverse_n_eq u.nx xs hlx]
        intro i hi
        rw [getD_reverse xs i (by omega), getD_reverse xs (i + 1) (by omega), hlx]
        have := hdown' (u.nx - 1 - (i + 1)) (by omega)
        have e : u.nx - 1 - (i + 1) + 1 = u.nx - 1 - i := by omega
        rw [e] at this
        exact this
      · rw [if_neg c]
        have hlast : xs.getD 0 0 ≤ xs.getD (u.nx - 1) 0 := by
          by_contra hc
          exact c ⟨by omega, not_le.mp hc⟩
        intro i hi
        have h1 := noninc_chain (fun k => xs.getD k 0) u.nx hdown' 0 i (by omega)
        have h2 := noninc_chain (fun k => xs.getD k 0) u.nx hdown' (i + 1) (u.nx - 1 - (i + 1))
          (by omega)
        have e : i + 1 + (u.nx - 1 - (i + 1)) = u.nx - 1 := by omega
        simp only [Nat.zero_add, e] at h1 h2
        linarith
  · intro i hi0 hin
    have : ((u.nx : ℕ) : ℤ) ≤ 1 := by exact_mod_cast (by omega : u.nx ≤ 1)
    omega


/-! ## The catalogue in every reachable memory -/

/-- On a chain of entries and a placeholder the search loop of
`read_rpol_table` ends at an entry or at the placeholder. -/
theorem rpt_list_find_catalogue (hit : ℕ → Bool) :
    ∀ (es : List ℕ) (p0 : ℕ), ∃ j, j ≤ es.length ∧
      rpt_list_find hit (es.map some ++ [none]) p0 = some (p0 + j) := by
  intro es
  induction es with
  | nil => intro p0; exact ⟨0, le_refl _, by simp [rpt_list_find]⟩
  | cons a es ih =>
    intro p0
    have hform : ∃ b rest, es.map some ++ [none] = b :: rest := by
      cases es with
      | nil => exact ⟨none, [], rfl⟩
      | cons c es' => exact ⟨some c, es'.map some ++ [none], by simp⟩
    obtain ⟨b, rest, hbr⟩ := hform
    simp only [List.map_cons, List.cons_append, hbr, rpt_list_find]
    by_cases hh : hit a = true
    · rw [if_pos hh]
      exact ⟨0, by simp, rfl⟩
    · rw [if_neg hh, ← hbr]
      obtain ⟨j, hj, e⟩ := ih (p0 + 1)
      refine ⟨j + 1, by simp; omega, ?_⟩
      rw [e]
      congr 1
      omega

/-- Reading a node of a chain of entries and a placeholder. -/
theorem catalogue_getD (es : List ℕ) (j : ℕ) (hj : j ≤ es.length) :
    (es.map some ++ [none]).getD j none = (if h : j < es.length then some (es.get ⟨j, h⟩) else none) := by
  by_cases h : j < es.length
  · rw [dif_pos h, List.getD_eq_getElem?_getD, List.getElem?_append_left (by simpa using h)]
    simp [h]
  · rw [dif_neg h]
    have e : j = es.length := by omega
    subst e
    rw [List.getD_eq_getElem?_getD, List.getElem?_append_right (by simp)]
    simp

/-- The unlinking loop of `rpol_free` leaves a chain alone that does not
hold the table. -/
theorem unlink_rest_absent (p : ℕ) :
    ∀ es : List ℕ, p ∉ es → unlink_rest p (es.map some ++ [none]) = es.map some ++ [none] := by
  intro es
  induction es with
  | nil => intro _; rfl
  | cons a es ih =>
    intro hp
    have hp' : p ∉ es := fun h => hp (List.mem_cons_of_mem a h)
    cases es with
    | nil => simp [unlink_rest]
    | cons b es' =>
      have hb : ¬ (some b = some p) := by
        intro h
        injection h with h
        exact hp (by rw [h]; simp)
      have := ih hp'
      simp only [List.map_cons, List.cons_append] at this ⊢
      rw [unlink_rest_skip p a hb, this]

/-- The unlinking loop of `rpol_free` on a chain that starts with another
table and holds no table twice: the table is taken out. -/
theorem unlink_rest_erase (p : ℕ) :
    ∀ (es : List ℕ) (a : ℕ), a ≠ p → (a :: es).Nodup →
      unlink_rest p ((a :: es).map some ++ [none]) = (a :: es.erase p).map some ++ [none] := by
  intro es
  induction es with
  | nil => intro a _ _; simp [unlink_rest]
  | cons b es ih =>
    intro a hap hnd
    have hnd' : (b :: es).Nodup := (List.nodup_cons.mp hnd).2
    by_cases hb : b = p
    · subst hb
      have hpes : b ∉ es := (List.nodup_cons.mp hnd').1
      have herase : (b :: es).erase b = es := by simp
      rw [herase]
      have hrest := unlink_rest_absent b es hpes
      cases es with
      | nil => simp [unlink_rest]
      | cons c es' =>
        simp only [List.map_cons, List.cons_append] at hrest ⊢
        simp only [unlink_rest, if_true]
        rw [hrest]
    · have hb' : ¬ (some b = some p) := by
        intro h; injection h with h; exact hb h
      have herase : (b :: es).erase p = b :: es.erase p := by
        rw [List.erase_cons_tail]
        simpa using hb
      rw [herase]
      have := ih b hb hnd'
      simp only [List.map_cons, List.cons_append] at this ⊢
      rw [unlink_rest_skip p a hb', this]

/-- The unlinking of `rpol_free` on a catalogue in regular form: the table
is taken out of the chain, and the base becomes NULL when the only entry is
taken out. -/
theorem unlink_catalogue (p : ℕ) (es : List ℕ) (hnd : es.Nodup) :
    (unlink_rest p (unlink_first p (es.map some ++ [none])) = [] ∧ es.erase p = []) ∨
      unlink_rest p (unlink_first p (es.map some ++ [none])) =
        (es.erase p).map some ++ [none] := by
  cases es with
  | nil => right; simp [unlink_first, unlink_rest]
  | cons a es =>
    by_cases ha : a = p
    · subst ha
      have hpes : a ∉ es := (List.nodup_cons.mp hnd).1
      have herase : (a :: es).erase a = es := by simp
      rw [herase]
      cases es with
      | nil => left; simp [unlink_first, unlink_rest]
      | cons b es' =>
        right
        have hfirst : unlink_first a ((a :: b :: es').map some ++ [none]) =
            (b :: es').map some ++ [none] := by
          simp [unlink_first]
        rw [hfirst]
        exact unlink_rest_absent a (b :: es') hpes
    · right
      have hfirst : unlink_first p ((a :: es).map some ++ [none]) =
          (a :: es).map some ++ [none] := by
        have : ¬ (some a = some p) := by intro h; injection h with h; exact ha h
        simp [unlink_first, this]
      have herase : (a :: es).erase p = a :: es.erase p := by
        rw [List.erase_cons_tail]
        simpa using ha
      rw [hfirst, herase]
      exact unlink_rest_erase p es a ha hnd

/-- On a chain of entries and a placeholder the unlinking loop of
`rpol_free` never finds the table in the last node. -/
theorem unlink_recreates_catalogue (p : ℕ) :
    ∀ (n : ℕ) (es : List ℕ), es.length ≤ n →
      unlink_recreates p (es.map some ++ [none]) = false := by
  intro n
  induction n with
  | zero =>
    intro es hes
    have : es = [] := List.length_eq_zero.mp (by omega)
    subst this
    rfl
  | succ n ih =>
    intro es hes
    cases es with
    | nil => rfl
    | cons a es =>
      cases es with
      | nil => simp [unlink_recreates]
      | cons b es' =>
        have hlen : es'.length ≤ n := by simp at hes; omega
        have hform : ∃ c rest, es'.map some ++ [none] = c :: rest := by
          cases es' with
          | nil => exact ⟨none, [], rfl⟩
          | cons c es'' => exact ⟨some c, es''.map some ++ [none], by simp⟩
        obtain ⟨c, rest, hcr⟩ := hform
        simp only [List.map_cons, List.cons_append, hcr, unlink_recreates]
        by_cases h : some b = some p
        · rw [if_pos h, ← hcr]
          exact ih es' hlen
        · rw [if_neg h, ← hcr]
          have := ih (b :: es') (by simp at hes ⊢; omega)
          simpa using this

/-- A live table lies inside the heap. -/
theorem deref_lt {s : RpolState} {a : ℕ} {t : RpolTable} (h : s.deref a = some t) :
    a < s.heap.length := by
  by_contra hc
  have : s.deref a = none := by
    simp [RpolState.deref, List.getD_eq_getElem?_getD, List.getElem?_eq_none (not_lt.mp hc)]
  rw [this] at h
  exact absurd h (by simp)

/-- Reading the heap after one table was replaced. -/
theorem deref_set_ne (heap : List (Option RpolTable)) (l : List (Option ℕ)) (p a : ℕ)
    (v : Option RpolTable) (h : a ≠ p) :
    RpolState.deref { heap := heap.set p v, rpt_list_base := l } a =
      RpolState.deref { heap := heap, rpt_list_base := l } a := by
  simp [RpolState.deref, List.getD_eq_getElem?_getD, List.getElem?_set_ne (Ne.symm h)]

/-- Reading the heap after a table was appended. -/
theorem deref_append (heap : List (Option RpolTable)) (l l' : List (Option ℕ)) (a : ℕ)
    (v : Option RpolTable) (h : a < heap.length) :
    RpolState.deref { heap := heap ++ [v], rpt_list_base := l } a =
      RpolState.deref { heap := heap, rpt_list_base := l' } a := by
  simp [RpolState.deref, List.getD_eq_getElem?_getD, List.getElem?_append_left h]

/-- The catalogue once `read_rpol_table` has made sure there is a first
node. -/
theorem catalogue_base {Q : RpolTable → Prop} {s : RpolState} {es : List ℕ}
    (h : RegistryInv Q s es) :
    (if s.rpt_list_base = [] then [none] else s.rpt_list_base) = es.map some ++ [none] := by
  rcases h.1 with ⟨h1, h2⟩ | h1
  · rw [if_pos h1, h2]
    rfl
  · rw [if_neg (by rw [h1]; simp), h1]

/-- A call of `read_rpol_table` keeps the catalogue in its regular form, and
a table it returns is an entry of the catalogue. -/
theorem read_keeps_inv (src : TableSource) (Q : RpolTable → Prop)
    (hload : ∀ (fnplus fnclean oe : String) (nd : ℤ) (ymarker options : Option String)
      (rpt : RpolTable), read_load src fnplus fnclean oe nd ymarker options = some rpt → Q rpt)
    (huse : ∀ t, Q t → Q (use_again t))
    (s : RpolState) (es : List ℕ) (h : RegistryInv Q s es) (fname : String) (nd : ℤ)
    (ymarker options : Option String) :
    ∃ es', RegistryInv Q (read_rpol_table src s fname nd ymarker options).1 es' ∧
      ∀ p, (read_rpol_table src s fname nd ymarker options).2 = some p → p ∈ es' := by
  have hbase := catalogue_base h
  obtain ⟨_, hnd, hlive⟩ := h
  have hinv0 : RegistryInv Q { s with rpt_list_base := es.map some ++ [none] } es :=
    ⟨Or.inr rfl, hnd, hlive⟩
  unfold read_rpol_table
  simp only [hbase]
  cases hn : read_names fname ymarker options with
  | none => exact ⟨es, hinv0, fun p hp => absurd hp (by simp)⟩
  | some n =>
    obtain ⟨fnplus, fnclean, oe⟩ := n
    simp only
    obtain ⟨j, hj, hfind⟩ := rpt_list_find_catalogue
      (read_hit { s with rpt_list_base := es.map some ++ [none] } fnplus nd) es 0
    rw [hfind]
    simp only [Nat.zero_add, catalogue_getD es j hj]
    by_cases hjl : j < es.length
    · rw [dif_pos hjl]
      simp only
      have hmem : es.get ⟨j, hjl⟩ ∈ es := List.get_mem es j hjl
      obtain ⟨t, ht, hc, hq⟩ := hlive _ hmem
      have ht' : RpolState.deref { s with rpt_list_base := es.map some ++ [none] }
          (es.get ⟨j, hjl⟩) = some t := ht
      rw [ht']
      simp only
      refine ⟨es, ⟨Or.inr rfl, hnd, ?_⟩, ?_⟩
      · intro a ha
        by_cases e : a = es.get ⟨j, hjl⟩
        · subst e
          refine ⟨use_again t, ?_, ?_, huse t hq⟩
          · exact deref_set (s := { s with rpt_list_base := es.map some ++ [none] })
              (deref_lt ht) _ _
          · simp only [use_again]
            omega
        · obtain ⟨t', ht'', hc', hq'⟩ := hlive a ha
          refine ⟨t', ?_, hc', hq'⟩
          rw [deref_set_ne _ _ _ _ _ e]
          exact ht''
      · intro p hp
        injection hp with hp
        rw [← hp]
        exact hmem
    · rw [dif_neg hjl]
      simp only
      have hje : j = es.length := by omega
      cases hl : read_load src fnplus fnclean oe nd ymarker options with
      | none => exact ⟨es, hinv0, fun p hp => absurd hp (by simp)⟩
      | some rpt =>
        simp only
        have htake : (es.map some ++ [none]).take j = es.map some := by
          rw [hje]
          have : (es.map some).length = es.length := by simp
          rw [← this, List.take_left]
        rw [htake]
        refine ⟨es ++ [s.heap.length], ⟨Or.inr (by simp), ?_, ?_⟩, ?_⟩
        · rw [List.nodup_append]
          refine ⟨hnd, by simp, ?_⟩
          intro a ha hb
          rw [List.mem_singleton] at hb
          obtain ⟨t, ht, _, _⟩ := hlive a ha
          have := deref_lt ht
          omega
        · intro a ha
          rcases List.mem_append.mp ha with ha | ha
          · obtain ⟨t, ht, hc, hq⟩ := hlive a ha
            refine ⟨t, ?_, hc, hq⟩
            rw [deref_append _ _ s.rpt_list_base _ _ (deref_lt ht)]
            exact ht
          · rw [List.mem_singleton] at ha
            subst ha
            refine ⟨rpt, ?_, ?_, hload _ _ _ _ _ _ _ hl⟩
            · simp [RpolState.deref, List.getD_eq_getElem?_getD]
            · rw [read_load_use_count hl]
        · intro p hp
          injection hp with hp
          rw [← hp]
          simp

/-- A call of `rpol_free` keeps the catalogue in its regular form, and does
not reach the branch of the unlinking loop that allocates a new trailing
node. -/
theorem free_keeps_inv (Q : RpolTable → Prop) (hless : ∀ t, Q t → Q (use_less t))
    (s : RpolState) (es : List ℕ) (h : RegistryInv Q s es) (rpt : Option ℕ) (removing : ℤ) :
    (∃ es', RegistryInv Q (rpol_free s rpt removing) es') ∧
      rpol_free_recreates s rpt = false := by
  obtain ⟨hshape, hnd, hlive⟩ := h
  cases rpt with
  | none => exact ⟨⟨es, hshape, hnd, hlive⟩, rfl⟩
  | some p =>
    unfold rpol_free rpol_free_recreates
    simp only
    cases hd : s.deref p with
    | none => exact ⟨⟨es, hshape, hnd, hlive⟩, rfl⟩
    | some t =>
      simp only
      by_cases h1 : t.use_count > 1
      · rw [if_pos h1, if_pos h1]
        refine ⟨⟨es, hshape, hnd, ?_⟩, rfl⟩
        intro a ha
        by_cases e : a = p
        · subst e
          refine ⟨use_less t, deref_set (deref_lt hd) _ _, ?_, ?_⟩
          · simp only [use_less]
            omega
          · obtain ⟨t', ht', _, hq'⟩ := hlive a ha
            rw [hd] at ht'
            injection ht' with ht'
            rw [ht']
            exact hless t' hq'
        · obtain ⟨t', ht', hc', hq'⟩ := hlive a ha
          refine ⟨t', ?_, hc', hq'⟩
          rw [deref_set_ne _ _ _ _ _ e]
          exact ht'
      · rw [if_neg h1, if_neg h1]
        by_cases h0 : t.use_count = 0
        · rw [if_pos h0, if_pos h0]
          exact ⟨⟨es, hshape, hnd, hlive⟩, rfl⟩
        · rw [if_neg h0, if_neg h0]
          have hlive' : ∀ a ∈ es.erase p, ∃ t',
              RpolState.deref
                { heap := s.heap.set p
                    (if removing ≠ 0 then none
                     else some (if (free_members t).use_count > 0 then use_less (free_members t)
                       else free_members t))
                  rpt_list_base :=
                    unlink_rest p (unlink_first p s.rpt_list_base) } a = some t' ∧
                1 ≤ t'.use_count ∧ Q t' := by
            intro a ha
            have hmem := (List.Nodup.mem_erase_iff hnd).mp ha
            obtain ⟨t', ht', hc', hq'⟩ := hlive a hmem.2
            refine ⟨t', ?_, hc', hq'⟩
            rw [deref_set_ne _ _ _ _ _ hmem.1]
            exact ht'
          rcases hshape with ⟨hb, he⟩ | hb
          · rw [hb]
            subst he
            refine ⟨⟨[], Or.inl ⟨rfl, rfl⟩, List.nodup_nil, ?_⟩, rfl⟩
            intro a ha
            exact absurd ha (by simp)
          · rw [hb]
            constructor
            · rcases unlink_catalogue p es hnd with ⟨u1, u2⟩ | u1
              · refine ⟨es.erase p, Or.inl ⟨by rw [u1], u2⟩, hnd.erase p, ?_⟩
                rw [hb] at hlive'
                exact hlive'
              · refine ⟨es.erase p, Or.inr (by rw [u1]), hnd.erase p, ?_⟩
                rw [hb] at hlive'
                exact hlive'
            · cases es with
              | nil => simp [unlink_first, unlink_recreates]
              | cons a es' =>
                by_cases ha : a = p
                · subst ha
                  cases es' with
                  | nil => simp [unlink_first, unlink_recreates]
                  | cons b es'' =>
                    have hfirst : unlink_first a ((a :: b :: es'').map some ++ [none]) =
                        (b :: es'').map some ++ [none] := by
                      simp [unlink_first]
                    rw [hfirst]
                    exact unlink_recreates_catalogue a _ _ (le_refl _)
                · have hfirst : unlink_first p ((a :: es').map some ++ [none]) =
                      (a :: es').map some ++ [none] := by
                    have : ¬ (some a = some p) := by intro h; injection h with h; exact ha h
                    simp [unlink_first, this]
                  rw [hfirst]
                  exact unlink_recreates_catalogue p _ _ (le_refl _)

/-- A call of `simple_rpol1d_table` keeps the catalogue in its regular
form. -/
theorem simple_keeps_inv (Q : RpolTable → Prop) (s : RpolState) (es : List ℕ)
    (h : RegistryInv Q s es) (label : String) (x y : Option (List ℚ)) (n clip : ℤ) :
    RegistryInv Q (simple_rpol1d_table s label x y n clip).1 es := by
  obtain ⟨hshape, hnd, hlive⟩ := h
  have key : ∀ v : Option RpolTable, RegistryInv Q { s with heap := s.heap ++ [v] } es := by
    intro v
    refine ⟨hshape, hnd, ?_⟩
    intro a ha
    obtain ⟨t, ht, hc, hq⟩ := hlive a ha
    refine ⟨t, ?_, hc, hq⟩
    rw [deref_append _ _ s.rpt_list_base _ _ (deref_lt ht)]
    exact ht
  unfold simple_rpol1d_table
  split
  · exact ⟨hshape, hnd, hlive⟩
  · dsimp only
    split
    · exact key _
    · exact key _

/-- Every memory reached from the empty one by calls of `read_rpol_table`,
`rpol_free` and `simple_rpol1d_table` has its catalogue in regular form. -/
theorem run_keeps_inv (src : TableSource) (Q : RpolTable → Prop)
    (hload : ∀ (fnplus fnclean oe : String) (nd : ℤ) (ymarker options : Option String)
      (rpt : RpolTable), read_load src fnplus fnclean oe nd ymarker options = some rpt → Q rpt)
    (huse : ∀ t, Q t → Q (use_again t)) (hless : ∀ t, Q t → Q (use_less t)) :
    ∀ calls : List RegistryCall, ∃ es, RegistryInv Q (registry_run src calls) es := by
  intro calls
  induction calls using List.reverseRecOn with
  | nil => exact ⟨[], Or.inl ⟨rfl, rfl⟩, List.nodup_nil, fun a ha => absurd ha (by simp)⟩
  | append_singleton calls c ih =>
    obtain ⟨es, hinv⟩ := ih
    have hrun : registry_run src (calls ++ [c]) = registry_step src (registry_run src calls) c := by
      simp [registry_run, List.foldl_append]
    rw [hrun]
    cases c with
    | read fname nd ymarker options =>
      obtain ⟨es', h', _⟩ := read_keeps_inv src Q hload huse _ es hinv fname nd ymarker options
      exact ⟨es', h'⟩
    | release rpt removing =>
      exact (free_keeps_inv Q hless _ es hinv rpt removing).1
    | simple label x y n clip =>
      exact ⟨es, simple_keeps_inv Q _ es hinv label x y n clip⟩

/-- C29: in every memory reached from the initial one (empty heap, NULL
`rpt_list_base`) by any sequence of calls of `read_rpol_table` (hit, miss or
failure), `rpol_free` and `simple_rpol1d_table`, the catalogue is either
empty (NULL) or a chain of entries, each holding a table that is live and in
use and none entered twice, terminated by exactly one placeholder node; and
no call of `rpol_free` in such a memory reaches the branch that re-creates a
vanished trailing placeholder. -/
theorem catalogue_invariant (src : TableSource) (calls : List RegistryCall) :
    ((registry_run src calls).rpt_list_base = [] ∨
      ∃ es : List ℕ, (registry_run src calls).rpt_list_base = es.map some ++ [none] ∧
        es.Nodup ∧
        ∀ a ∈ es, ∃ t, (registry_run src calls).deref a = some t ∧ 1 ≤ t.use_count) ∧
      ∀ rpt : Option ℕ, rpol_free_recreates (registry_run src calls) rpt = false := by
  obtain ⟨es, hinv⟩ := run_keeps_inv src (fun _ => True) (fun _ _ _ _ _ _ _ _ => trivial)
    (fun _ _ => trivial) (fun _ _ => trivial) calls
  constructor
  · rcases hinv.1 with ⟨h1, _⟩ | h1
    · exact Or.inl h1
    · refine Or.inr ⟨es, h1, hinv.2.1, ?_⟩
      intro a ha
      obtain ⟨t, ht, hc, _⟩ := hinv.2.2 a ha
      exact ⟨t, ht, hc⟩
  · intro rpt
    exact (free_keeps_inv (fun _ => True) (fun _ _ => trivial) _ es hinv rpt 0).2

/-- The spline parameters of a table read by `read_load`: present exactly
for a 1-D table with scheme 3 or 4 and at least 4 points. -/
theorem read_load_csp (env : CEnv) (fnplus fnclean oe : String) (nd0 : ℤ)
    (ymarker options : Option String) (rpt : RpolTable)
    (h : read_load (fileSource env) fnplus fnclean oe nd0 ymarker options = some rpt) :
    rpt.csp ≠ none ↔ rpt.ndim = 1 ∧ (rpt.scheme = 3 ∨ rpt.scheme = 4) ∧ 4 ≤ rpt.nx := by
  obtain ⟨lines, v, _, _, _, hcsp, hd, hn, hs, hc, _, _⟩ :=
    read_load_shape env fnplus fnclean oe nd0 ymarker options rpt h
  rw [hc, hs, ← hd, ← hn]
  exact choose_scheme_csp v hcsp

/-- C22 (amended): for every table returned by `read_rpol_table`, in any
memory reached by calls of `read_rpol_table`, `rpol_free` and
`simple_rpol1d_table`, cubic spline parameters (`csp`) are present if and
only if the table is 1-D, its scheme is cubic (3 or 4) and `nx ≥ 4`. -/
theorem csp_present (env : CEnv) (calls : List RegistryCall) (fname : String) (nd : ℤ)
    (ymarker options : Option String) (p : ℕ) (t : RpolTable)
    (hret : (read_rpol_table (fileSource env) (registry_run (fileSource env) calls) fname nd
      ymarker options).2 = some p)
    (ht : (read_rpol_table (fileSource env) (registry_run (fileSource env) calls) fname nd
      ymarker options).1.deref p = some t) :
    t.csp ≠ none ↔ t.ndim = 1 ∧ (t.scheme = 3 ∨ t.scheme = 4) ∧ 4 ≤ t.nx := by
  obtain ⟨es, hinv⟩ := run_keeps_inv (fileSource env)
    (fun t => t.csp ≠ none ↔ t.ndim = 1 ∧ (t.scheme = 3 ∨ t.scheme = 4) ∧ 4 ≤ t.nx)
    (fun fnplus fnclean oe nd ymarker options rpt h =>
      read_load_csp env fnplus fnclean oe nd ymarker options rpt h)
    (fun _ h => h) (fun _ h => h) calls
  obtain ⟨es', hinv', hmem⟩ := read_keeps_inv (fileSource env)
    (fun t => t.csp ≠ none ↔ t.ndim = 1 ∧ (t.scheme = 3 ∨ t.scheme = 4) ∧ 4 ≤ t.nx)
    (fun fnplus fnclean oe nd ymarker options rpt h =>
      read_load_csp env fnplus fnclean oe nd ymarker options rpt h)
    (fun _ h => h) _ es hinv fname nd ymarker options
  obtain ⟨t', ht', _, hq⟩ := hinv'.2.2 p (hmem p hret)
  rw [ht] at ht'
  injection ht' with ht'
  rw [ht']
  exact hq

/-- The file `line4.dat` (4 strictly ascending points) read as format 1 with
the option `SCHEME=3`, into the empty memory. -/
theorem csp_present_witness :
    ∃ t, (read_rpol_table (fileSource (demoEnv demoFiles3)) {} "line4.dat" 1 none
        (some "SCHEME=3")).1.deref 0 = some t ∧
      t.ndim = 1 ∧ t.scheme = 3 ∧ t.nx = 4 ∧ t.csp ≠ none := by
  have hret : (read_rpol_table (fileSource (demoEnv demoFiles3))
      (registry_run (fileSource (demoEnv demoFiles3)) []) "line4.dat" 1 none
      (some "SCHEME=3")).2 = some 0 := by decide!
  have hfacts : ((read_rpol_table (fileSource (demoEnv demoFiles3))
      (registry_run (fileSource (demoEnv demoFiles3)) []) "line4.dat" 1 none
      (some "SCHEME=3")).1.deref 0).map (fun t => (t.ndim, t.scheme, t.nx)) =
      some (1, 3, 4) := by decide!
  cases hd : (read_rpol_table (fileSource (demoEnv demoFiles3))
      (registry_run (fileSource (demoEnv demoFiles3)) []) "line4.dat" 1 none
      (some "SCHEME=3")).1.deref 0 with
  | none => rw [hd] at hfacts; exact absurd hfacts (by simp)
  | some t =>
    rw [hd] at hfacts
    simp only [Option.map_some', Option.some.injEq, Prod.mk.injEq] at hfacts
    obtain ⟨f1, f2, f3⟩ := hfacts
    exact ⟨t, hd, f1, f2, f3,
      (csp_present (demoEnv demoFiles3) [] "line4.dat" 1 none (some "SCHEME=3") 0 t hret hd).mpr
        ⟨f1, Or.inl f2, by omega⟩⟩

/-- C22, the claim as stated fails: the format 2 file `grid4.dat` (4 rows of
2 values) read with the option `SCHEME=3` gives a table with scheme 3 and
`nx = 4` that has no spline parameters; the parameters are set up for 1-D
tables only. -/
theorem csp_present_counterexample :
    demoFiles3 "grid4.dat" = some ["0 10", "0 1 2", "1 3 4", "2 5 6", "3 7 8"] ∧
      (first_table (read_rpol_table (fileSource (demoEnv demoFiles3)) {} "grid4.dat" 2 none
        (some "SCHEME=3"))).map (fun t => (t.csp, t.x, t.ndim, t.scheme, t.nx)) =
        some (none, some [0, 1, 2, 3], 2, 3, 4) := by
  refine ⟨by decide, by decide!⟩


/-! ## The stored scheme of a 1-D table -/

/-- C21 (amended): for every 1-D table loaded by `read_rpol_table` (read from
the file and appended to the heap) whose stored x values are non-decreasing
(monotonic x; a descending table is stored reversed), the stored scheme is
determined by the requested scheme `s` (the `SCHEME=` value the options end
up with, 1 without one), the number of points `nx` and the strictness of the
order: `s = 2` becomes 1 when `nx < 3`; `s` in `{3, 4}` becomes 1 when
`nx < 3`, becomes 2 when `nx = 3`, stays `s` (with spline parameters) when
`nx ≥ 4` and x is strictly ascending, and becomes 1 (without spline
parameters) when `nx ≥ 4` and x is not strictly ascending; every other `s` is
left unchanged.  When the stored x values are not non-decreasing the scheme
is -3. -/
theorem stored_scheme (env : CEnv) (s : RpolState) (fname : String) (nd0 : ℤ)
    (ymarker options : Option String) (fnplus fnclean oe : String) (lines : List String)
    (t : RpolTable)
    (hnames : read_names fname ymarker options = some (fnplus, fnclean, oe))
    (hopen : env.fileopen fnclean = some lines)
    (hload : (read_rpol_table (fileSource env) s fname nd0 ymarker options).1.heap =
      s.heap ++ [some t])
    (h1 : t.ndim = 1) :
    (NonDecreasing (arr t.x) t.nx →
      ((read_options env lines nd0 1 oe).scheme_default = 2 →
        t.scheme = if t.nx < 3 then 1 else 2) ∧
      ((read_options env lines nd0 1 oe).scheme_default = 3 ∨
          (read_options env lines nd0 1 oe).scheme_default = 4 →
        (t.nx < 3 → t.scheme = 1) ∧ (t.nx = 3 → t.scheme = 2) ∧
        (4 ≤ t.nx → Ascending (arr t.x) t.nx →
          t.scheme = (read_options env lines nd0 1 oe).scheme_default ∧ t.csp ≠ none) ∧
        (4 ≤ t.nx → ¬ Ascending (arr t.x) t.nx → t.scheme = 1 ∧ t.csp = none)) ∧
      ((read_options env lines nd0 1 oe).scheme_default ≠ 2 →
        (read_options env lines nd0 1 oe).scheme_default ≠ 3 →
        (read_options env lines nd0 1 oe).scheme_default ≠ 4 →
        t.scheme = (read_options env lines nd0 1 oe).scheme_default)) ∧
      (¬ NonDecreasing (arr t.x) t.nx → t.scheme = -3) := by
  obtain ⟨fnplus', fnclean', oe', hn', hl, _⟩ :=
    read_rpol_table_loads (fileSource env) s fname nd0 ymarker options t hload
  rw [hnames] at hn'
  injection hn' with hn'
  injection hn' with e1 hn'
  injection hn' with e2 e3
  subst e1 e2 e3
  obtain ⟨lines', v, hf, _, _, hcsp, hd, hn, hs, hc, hx, h1d⟩ :=
    read_load_shape env fnplus fnclean oe nd0 ymarker options t hl
  rw [hopen] at hf
  injection hf with hf
  subst hf
  obtain ⟨X, vx, vlen, vup, vdown⟩ := h1d h1
  have hvd : v.ndim = 1 := by rw [hd, h1]
  obtain ⟨_, _, c2, c34, cother⟩ := choose_scheme_1d v hvd hcsp
  rw [hs, hc, hx, ← hn]
  constructor
  · intro hup
    rw [vx] at hup
    have hreq := vup hup
    rw [hreq] at c2 c34 cother
    refine ⟨c2, ?_, cother⟩
    intro h34
    obtain ⟨a1, a2, a3, a4⟩ := c34 h34
    exact ⟨a1, a2, a3, a4⟩
  · intro hnot
    rw [vx] at hnot
    have hbad := vdown hnot
    rw [← hbad]
    exact cother (by rw [hbad]; norm_num) (by rw [hbad]; norm_num) (by rw [hbad]; norm_num)

/-- The x values `0, 1, 2, 3` are strictly ascending. -/
theorem line4_ascending : Ascending (arr (some [0, 1, 2, 3])) ((4 : ℕ) : ℤ) := by
  intro i hi0 hin
  have h4 : i < 3 := by
    have : i + 1 < 4 := by exact_mod_cast hin
    omega
  interval_cases i <;> decide!

/-- The file `line4.dat` (x values `0, 1, 2, 3`) loaded as format 1 with the
option `SCHEME=3`: the scheme stays 3 and the spline parameters are set. -/
theorem stored_scheme_witness :
    ∃ t, (read_rpol_table (fileSource (demoEnv demoFiles3)) {} "line4.dat" 1 none
        (some "SCHEME=3")).1.heap = [some t] ∧
      t.nx = 4 ∧ t.scheme = 3 ∧ t.csp ≠ none := by
  have hfacts : (read_rpol_table (fileSource (demoEnv demoFiles3)) {} "line4.dat" 1 none
      (some "SCHEME=3")).1.heap.map (fun o => o.map (fun t => (t.x, t.ndim, t.nx))) =
      [some (some [0, 1, 2, 3], 1, 4)] := by decide!
  obtain ⟨o, ho, hfo⟩ : ∃ o, (read_rpol_table (fileSource (demoEnv demoFiles3)) {} "line4.dat" 1
      none (some "SCHEME=3")).1.heap = [o] ∧
      o.map (fun t => (t.x, t.ndim, t.nx)) = some (some [0, 1, 2, 3], 1, 4) := by
    generalize (read_rpol_table (fileSource (demoEnv demoFiles3)) {} "line4.dat" 1 none
      (some "SCHEME=3")).1.heap = H at hfacts
    cases H with
    | nil => exact absurd hfacts (by simp)
    | cons o rest =>
      cases rest with
      | nil =>
        simp only [List.map_cons, List.map_nil, List.cons.injEq, and_true] at hfacts
        exact ⟨o, rfl, hfacts⟩
      | cons o2 rest2 => exact absurd hfacts (by simp)
  cases o with
  | none => exact absurd hfo (by simp)
  | some t =>
    simp only [Option.map_some', Option.some.injEq, Prod.mk.injEq] at hfo
    obtain ⟨fx, fd, fn⟩ := hfo
    have hreq : (read_options (demoEnv demoFiles3) ["0 0", "1 1", "2 8", "3 27"] 1 1
        "SCHEME=3").scheme_default = 3 := by decide!
    have hasc : Ascending (arr t.x) t.nx := by
      rw [fx, fn]
      exact line4_ascending
    have hup : NonDecreasing (arr t.x) t.nx := fun i hi0 hin => le_of_lt (hasc i hi0 hin)
    obtain ⟨fnplus, hn⟩ := read_names_plain "line4.dat" "SCHEME=3" none (by decide) (by decide)
      (by decide) (by decide)
    have h := ((stored_scheme (demoEnv demoFiles3) {} "line4.dat" 1 none (some "SCHEME=3")
      fnplus "line4.dat" "SCHEME=3" ["0 0", "1 1", "2 8", "3 27"] t
      hn (by decide) ho fd).1 hup).2.1 (Or.inl hreq)
    obtain ⟨h3, h4⟩ := h.2.2.1 (by omega) hasc
    exact ⟨t, ho, fn, by rw [h3, hreq], h4⟩

/-- C21, the claim as stated fails: the file `ties.dat` holds the monotonic x
values `0, 1, 1, 2`; loaded as format 1 with the option `SCHEME=3` the
requested scheme 3 with `nx = 4` is none of the cases the claim lists as
changing the scheme, yet the stored scheme is 1: `set_1d_cubic_params`
returns NULL for x values that are not strictly ascending, and the scheme
falls back to linear. -/
theorem stored_scheme_counterexample :
    demoFiles3 "ties.dat" = some ["0 0", "1 1", "1 2", "2 3"] ∧
      (read_options (demoEnv demoFiles3) ["0 0", "1 1", "1 2", "2 3"] 1 1
        "SCHEME=3").scheme_default = 3 ∧
      (first_table (read_rpol_table (fileSource (demoEnv demoFiles3)) {} "ties.dat" 1 none
        (some "SCHEME=3"))).map (fun t => (t.x, t.csp, t.ndim, t.scheme, t.nx)) =
        some (some [0, 1, 1, 2], none, 1, 1, 4) := by
  refine ⟨by decide, by decide!, by decide!⟩

/-- The forward sweep on a strictly ascending table, for both spline kinds:
`l[i] > 0` and `0 ≤ M[i] ≤ 1/2` for `i ≤ n-2`. -/
theorem cs_fwd_pivots {x : Arr} {n : ℤ} (y : Arr) (h : Ascending x n) (clamped : ℤ) :
    ∀ i : ℕ, (i : ℤ) ≤ n - 2 →
      0 < (cs_fwd x y n clamped i).1 ∧ 0 ≤ (cs_fwd x y n clamped i).2.1 ∧
        (cs_fwd x y n clamped i).2.1 ≤ 1 / 2 := by
  intro i
  induction i with
  | zero =>
    intro hi
    have h01 : x 0 < x 1 := h 0 (le_refl _) (by omega)
    have hh : 0 < cs_h x 0 := by
      unfold cs_h
      exact sub_pos.mpr (by simpa using h01)
    by_cases hcl : clamped ≠ 0
    · simp only [cs_fwd, if_pos hcl]
      refine ⟨by linarith, by norm_num, le_refl _⟩
    · simp only [cs_fwd, if_neg hcl]
      refine ⟨by norm_num, le_refl _, by norm_num⟩
  | succ i ih =>
    intro hi
    obtain ⟨_, m0, m1⟩ := ih (by push_cast at hi; omega)
    have hi' : (i : ℤ) + 2 < n := by push_cast at hi; omega
    have ha : x (i : ℤ) < x ((i : ℤ) + 1) := h i (by omega) (by omega)
    have hb : x ((i : ℤ) + 1) < x ((i : ℤ) + 1 + 1) := h ((i : ℤ) + 1) (by omega) (by omega)
    have e2 : (i : ℤ) + 1 + 1 = (i : ℤ) + 2 := by ring
    rw [e2] at hb
    simp only [cs_fwd]
    have hhi : cs_h x (i : ℤ) = x ((i : ℤ) + 1) - x i := rfl
    have hhi1 : cs_h x ((i : ℤ) + 1) = x ((i : ℤ) + 2) - x ((i : ℤ) + 1) := by
      unfold cs_h
      rw [e2]
    have hp0 : 0 < cs_h x (i : ℤ) := by rw [hhi]; exact sub_pos.mpr ha
    have hp1 : 0 < cs_h x ((i : ℤ) + 1) := by rw [hhi1]; exact sub_pos.mpr hb
    have hsum : x ((i : ℤ) + 2) - x i = cs_h x (i : ℤ) + cs_h x ((i : ℤ) + 1) := by
      rw [hhi, hhi1]; ring
    have hm : cs_h x (i : ℤ) * (cs_fwd x y n clamped i).2.1 ≤ cs_h x (i : ℤ) * (1 / 2) :=
      mul_le_mul_of_nonneg_left m1 (le_of_lt hp0)
    have hl : 2 * cs_h x ((i : ℤ) + 1) <
        2 * (x ((i : ℤ) + 2) - x i) - cs_h x (i : ℤ) * (cs_fwd x y n clamped i).2.1 := by
      rw [hsum]; linarith
    have hlpos : 0 <
        2 * (x ((i : ℤ) + 2) - x i) - cs_h x (i : ℤ) * (cs_fwd x y n clamped i).2.1 := by
      linarith
    refine ⟨hlpos, le_of_lt (div_pos hp1 hlpos), ?_⟩
    rw [div_le_iff₀ hlpos]
    linarith

/-- Every interval width of a strictly ascending table is positive. -/
theorem cs_h_pos {x : Arr} {n : ℤ} (h : Ascending x n) (i : ℤ) (hi0 : 0 ≤ i) (hin : i < n - 1) :
    0 < cs_h x i := by
  unfold cs_h
  exact sub_pos.mpr (h i hi0 (by omega))

/-- Every pivot of the elimination is positive on a strictly ascending
table, for both spline kinds. -/
theorem cs_l_pos {x : Arr} {n : ℤ} (y : Arr) (h : Ascending x n) (hn2 : 2 ≤ n) (clamped : ℤ)
    (i : ℤ) (hin : i ≤ n - 1) : 0 < cs_l x y n clamped i := by
  unfold cs_l
  by_cases c : i = n - 1
  · rw [if_pos c]
    by_cases hcl : clamped ≠ 0
    · rw [if_pos hcl]
      obtain ⟨_, m0, m1⟩ := cs_fwd_pivots y h clamped (n - 2).toNat (by omega)
      have hh := cs_h_pos h (n - 2) (by omega) (by omega)
      exact mul_pos hh (by linarith)
    · rw [if_neg hcl]
      norm_num
  · rw [if_neg c]
    exact (cs_fwd_pivots y h clamped i.toNat (by omega)).1

/-- One step of the backward sweep: `c[j] = z[j] - M[j]*c[j+1]` for
`0 ≤ j ≤ n-2`. -/
theorem cs_c_step (x y : Arr) (n clamped : ℤ) (j : ℤ) (hj0 : 0 ≤ j) (hjn : j ≤ n - 2) :
    cs_c x y n clamped (n - 1 - j).toNat =
      (cs_fwd x y n clamped j.toNat).2.2 -
        (cs_fwd x y n clamped j.toNat).2.1 * cs_c x y n clamped (n - 1 - (j + 1)).toNat := by
  have e1 : (n - 1 - j).toNat = (n - 1 - (j + 1)).toNat + 1 := by omega
  rw [e1]
  simp only [cs_c]
  have e2 : (n - 2 - ((n - 1 - (j + 1)).toNat : ℤ)).toNat = j.toNat := by omega
  rw [e2]

/-- The elimination solves the tridiagonal system: row `k` of it, for
`1 ≤ k ≤ n-2`, holds for the `c` of the backward sweep. -/
theorem cs_c_row {x : Arr} {n : ℤ} (y : Arr) (h : Ascending x n) (clamped : ℤ)
    (k : ℤ) (hk1 : 1 ≤ k) (hkn : k ≤ n - 2) :
    cs_h x (k - 1) * cs_c x y n clamped (n - 1 - (k - 1)).toNat +
      2 * (cs_h x (k - 1) + cs_h x k) * cs_c x y n clamped (n - 1 - k).toNat +
      cs_h x k * cs_c x y n clamped (n - 1 - (k + 1)).toNat = cs_A x y n clamped k := by
  have s1 := cs_c_step x y n clamped (k - 1) (by omega) (by omega)
  have s2 := cs_c_step x y n clamped k (by omega) hkn
  have ek : k - 1 + 1 = k := by ring
  rw [ek] at s1
  obtain ⟨i, hi⟩ : ∃ i : ℕ, k = (i : ℤ) + 1 := ⟨(k - 1).toNat, by omega⟩
  have t1 : (k - 1).toNat = i := by omega
  have t2 : k.toNat = i + 1 := by omega
  rw [t1] at s1
  rw [t2] at s2
  obtain ⟨lpos, _, _⟩ := cs_fwd_pivots y h clamped (i + 1) (by push_cast; omega)
  have hl : (cs_fwd x y n clamped (i + 1)).1 =
      2 * (x ((i : ℤ) + 2) - x i) - cs_h x i * (cs_fwd x y n clamped i).2.1 := by
    simp only [cs_fwd]
  have hM : (cs_fwd x y n clamped (i + 1)).2.1 =
      cs_h x ((i : ℤ) + 1) / (cs_fwd x y n clamped (i + 1)).1 := by
    simp only [cs_fwd]
  have hz : (cs_fwd x y n clamped (i + 1)).2.2 =
      (cs_A x y n clamped ((i : ℤ) + 1) - cs_h x i * (cs_fwd x y n clamped i).2.2) /
        (cs_fwd x y n clamped (i + 1)).1 := by
    simp only [cs_fwd]
  have hsum : x ((i : ℤ) + 2) - x i = cs_h x (i : ℤ) + cs_h x ((i : ℤ) + 1) := by
    unfold cs_h
    have : (i : ℤ) + 1 + 1 = (i : ℤ) + 2 := by ring
    rw [this]; ring
  have ek1 : k - 1 = (i : ℤ) := by omega
  rw [s1, s2, hM, hz, ek1, hi]
  rw [hi] at s1 s2
  generalize cs_c x y n clamped (n - 1 - ((i : ℤ) + 1 + 1)).toNat = c2
  generalize (cs_fwd x y n clamped i).2.2 = z0 at *
  generalize (cs_fwd x y n clamped i).2.1 = M0 at *
  generalize (cs_fwd x y n clamped (i + 1)).1 = l at *
  have hlne : l ≠ 0 := ne_of_gt lpos
  rw [hsum] at hl
  field_simp
  rw [hl]
  ring

/-- C36: `set_1d_cubic_params` returns NULL exactly when `n < 4` or `x` is
not strictly ascending; and for every strictly ascending `x` with `n ≥ 4`,
for the natural and for the clamped spline, every divisor in it is positive:
every interval width `h[i]`, `0 ≤ i ≤ n-2`, and every pivot `l[i]`,
`0 ≤ i ≤ n-1`, of the elimination. -/
theorem cubic_params_divisors (x y : Arr) (n clamped : ℤ) :
    (set_1d_cubic_params x y n clamped = none ↔ n < 4 ∨ ¬ Ascending x n) ∧
      (4 ≤ n ∧ Ascending x n →
        (∀ i : ℤ, 0 ≤ i → i ≤ n - 2 → 0 < cs_h x i) ∧
          ∀ i : ℤ, 0 ≤ i → i ≤ n - 1 → 0 < cs_l x y n clamped i) := by
  constructor
  · have e := cubic_params_isSome x y n clamped
    constructor
    · intro hnone
      by_contra hc
      push_neg at hc
      have := e.mpr ⟨hc.1, hc.2⟩
      rw [hnone] at this
      exact absurd this (by simp)
    · intro hc
      cases hs : set_1d_cubic_params x y n clamped with
      | none => rfl
      | some cp =>
        have := e.mp (by rw [hs]; rfl)
        rcases hc with hc | hc
        · omega
        · exact absurd this.2 hc
  · rintro ⟨hn4, h⟩
    exact ⟨fun i hi0 hin => cs_h_pos h i hi0 (by omega),
      fun i _ hin => cs_l_pos y h (by omega) clamped i hin⟩

/-- The pivots of the natural and of the clamped spline through
`(0, 0), (1, 1), (2, 8), (3, 27)`, and a table of three points. -/
theorem cubic_params_divisors_witness :
    (set_1d_cubic_params rampArr cubeArr 3 0 = none) ∧
      (List.range 4).map (fun i => cs_l rampArr cubeArr 4 0 i) = [1, 4, 15 / 4, 1] ∧
      (List.range 4).map (fun i => cs_l rampArr cubeArr 4 1 i) = [2, 7 / 2, 26 / 7, 45 / 26] :=
  ⟨((cubic_params_divisors rampArr cubeArr 3 0).1).mpr (Or.inl (by decide)),
    by decide!, by decide!⟩

/-- C35: for every strictly ascending `x` of length `n ≥ 4`, every `y` and
both spline kinds, `set_1d_cubic_params` returns parameters of a piecewise
cubic that is twice continuously differentiable at every interior node: for
each `i` with `0 ≤ i ≤ n-3` and `h = x[i+1] - x[i]`, the value
`csx(h, &cp[i])` is `a[i+1] = y[i+1]`, the first derivative
`b[i] + 2*c[i]*h + 3*d[i]*h^2` is `b[i+1]`, and the second derivative
`2*c[i] + 6*d[i]*h` is `2*c[i+1]`. -/
theorem spline_twice_differentiable (x y : Arr) (n clamped : ℤ) (h : Ascending x n)
    (hn4 : 4 ≤ n) :
    ∃ cp, set_1d_cubic_params x y n clamped = some cp ∧
      ∀ i : ℤ, 0 ≤ i → i ≤ n - 3 →
        csx (x (i + 1) - x i) (cp i) = (cp (i + 1)).a ∧ (cp (i + 1)).a = y (i + 1) ∧
        (cp i).b + 2 * (cp i).c * (x (i + 1) - x i) + 3 * (cp i).d * (x (i + 1) - x i) ^ 2 =
          (cp (i + 1)).b ∧
        2 * (cp i).c + 6 * (cp i).d * (x (i + 1) - x i) = 2 * (cp (i + 1)).c := by
  obtain ⟨cp, hcp, hform⟩ := cubic_params_form y hn4 h clamped
  refine ⟨cp, hcp, ?_⟩
  intro i hi0 hin
  have f0 := hform i hi0 (by omega)
  have f1 := hform (i + 1) (by omega) (by omega)
  have row := cs_c_row y h clamped (i + 1) (by omega) (by omega)
  have e1 : i + 1 - 1 = i := by ring
  rw [e1] at row
  have hA : cs_A x y n clamped (i + 1) =
      3 * (y (i + 1 + 1) - y (i + 1)) / cs_h x (i + 1) - 3 * (y (i + 1) - y i) / cs_h x i := by
    unfold cs_A
    rw [if_neg (by omega), if_neg (by omega), e1]
  rw [hA] at row
  have hh0 : cs_h x i = x (i + 1) - x i := rfl
  have hp0 : 0 < cs_h x i := cs_h_pos h i hi0 (by omega)
  have hp1 : 0 < cs_h x (i + 1) := cs_h_pos h (i + 1) (by omega) (by omega)
  rw [f0, f1]
  simp only [csx]
  rw [← hh0]
  generalize cs_c x y n clamped (n - 1 - i).toNat = c0 at *
  generalize cs_c x y n clamped (n - 1 - (i + 1)).toNat = c1 at *
  generalize cs_c x y n clamped (n - 1 - (i + 1 + 1)).toNat = c2 at *
  generalize cs_h x i = h0 at *
  generalize cs_h x (i + 1) = h1 at *
  have hn0 : h0 ≠ 0 := ne_of_gt hp0
  have hn1 : h1 ≠ 0 := ne_of_gt hp1
  refine ⟨?_, trivial, ?_, ?_⟩
  · field_simp
    ring
  · have row2 : (y (i + 1 + 1) - y (i + 1)) / h1 - (y (i + 1) - y i) / h0 =
        (h0 * c0 + 2 * (h0 + h1) * c1 + h1 * c2) / 3 := by
      rw [row]; ring
    have : (y (i + 1 + 1) - y (i + 1)) / h1 =
        (y (i + 1) - y i) / h0 + (h0 * c0 + 2 * (h0 + h1) * c1 + h1 * c2) / 3 := by
      linarith
    rw [this]
    field_simp
    ring
  · field_simp
    ring

/-- The natural spline through `(0, 0), (1, 1), (2, 8), (3, 27)`. -/
theorem spline_twice_differentiable_witness :
    ∃ cp, set_1d_cubic_params rampArr cubeArr 4 0 = some cp ∧
      ∀ i : ℤ, 0 ≤ i → i ≤ 4 - 3 →
        csx (rampArr (i + 1) - rampArr i) (cp i) = (cp (i + 1)).a ∧
        (cp (i + 1)).a = cubeArr (i + 1) ∧
        (cp i).b + 2 * (cp i).c * (rampArr (i + 1) - rampArr i) +
            3 * (cp i).d * (rampArr (i + 1) - rampArr i) ^ 2 = (cp (i + 1)).b ∧
        2 * (cp i).c + 6 * (cp i).d * (rampArr (i + 1) - rampArr i) = 2 * (cp (i + 1)).c :=
  spline_twice_differentiable rampArr cubeArr 4 0 (rampArr_ascending 4) (by decide)

/-- On a table of a polynomial of degree at most 2 every second order
Lagrange polynomial through three supporting points is that polynomial. -/
theorem parabola2_quadratic {x : Arr} {n : ℤ} (h : Ascending x n) (y : Arr) (a b c : ℚ)
    (hy : ∀ i, 0 ≤ i → i < n → y i = a + b * x i + c * x i ^ 2) (xp : ℚ) (k : ℤ) (k0 : 0 ≤ k)
    (kn : k + 2 < n) : parabola2 x y k xp = a + b * xp + c * xp ^ 2 := by
  unfold parabola2
  rw [hy k k0 (by omega), hy (k + 1) (by omega) (by omega), hy (k + 2) (by omega) kn]
  have d01 : x k < x (k + 1) := asc_lt h k0 (by omega) (by omega)
  have d12 : x (k + 1) < x (k + 2) := asc_lt h (by omega) (by omega) (by omega)
  exact lagrange2_exact _ _ _ xp a b c (ne_of_lt d01) (ne_of_lt (lt_trans d01 d12)) (ne_of_lt d12)

/-- In the first interval both second order fits of `rpol_2nd_order` are the
polynomial through the points `0, 1, 2`. -/
theorem blend2_first (x y : Arr) (n : ℤ) (hn3 : 3 ≤ n) (xp r : ℚ) :
    blend2 x y n xp 1 r = parabola2 x y 0 xp := by
  unfold blend2 parabola2
  rw [if_pos (by norm_num), if_pos (by omega)]
  simp only [sub_self, zero_add]
  ring

/-- In the last interval both second order fits of `rpol_2nd_order` are the
polynomial through the points `n-3, n-2, n-1`. -/
theorem blend2_last (x y : Arr) (n : ℤ) (hn3 : 3 ≤ n) (xp r : ℚ) :
    blend2 x y n xp (n - 1) r = parabola2 x y (n - 3) xp := by
  unfold blend2 parabola2
  rw [if_neg (by omega), if_neg (by omega)]
  have e0 : n - 1 - 2 = n - 3 := by ring
  rw [e0]
  ring

/-- With fraction 0 only the left-sided fit counts. -/
theorem blend2_zero (x y : Arr) (n : ℤ) (xp : ℚ) (j : ℤ) (hj : 2 ≤ j) :
    blend2 x y n xp j 0 = parabola2 x y (j - 2) xp := by
  unfold blend2 parabola2
  rw [if_neg (by omega)]
  ring

/-- With fraction 1 only the right-sided fit counts. -/
theorem blend2_one (x y : Arr) (n : ℤ) (xp : ℚ) (j : ℤ) (hj : j < n - 1) :
    blend2 x y n xp j 1 = parabola2 x y (j - 1) xp := by
  unfold blend2 parabola2
  rw [if_pos hj]
  ring

/-- C34 (amended): for every strictly ascending `x` with `3 ≤ n < 2^30`
points, every `xp` with `x[0] ≤ xp ≤ x[n-1]` and every `clip`: when
`y[i] = p(x[i])` for a polynomial `p(t) = a + b t + c t^2` of degree at most
2, `rpol_2nd_order(x, y, n, xp, 0, clip) = p(xp)`, which is also the Lagrange
parabola through the first three and through the last three supporting
points.  For every `y`, the result in the first interval is the Lagrange
parabola through the points `0, 1, 2`, and in the last interval the one
through the points `n-3, n-2, n-1`. -/
theorem rpol_2nd_order_parabola (x y : Arr) (n : ℤ) (h : Ascending x n) (hn3 : 3 ≤ n)
    (hn : n < 2 ^ 30) (xp : ℚ) (hlo : x 0 ≤ xp) (hhi : xp ≤ x (n - 1)) (clip : ℤ) :
    (∀ a b c : ℚ, (∀ i, 0 ≤ i → i < n → y i = a + b * x i + c * x i ^ 2) →
        rpol_2nd_order x y n xp 0 clip = a + b * xp + c * xp ^ 2 ∧
          rpol_2nd_order x y n xp 0 clip = parabola2 x y 0 xp ∧
          rpol_2nd_order x y n xp 0 clip = parabola2 x y (n - 3) xp) ∧
      (xp ≤ x 1 → rpol_2nd_order x y n xp 0 clip = parabola2 x y 0 xp) ∧
      (x (n - 2) ≤ xp → rpol_2nd_order x y n xp 0 clip = parabola2 x y (n - 3) xp) := by
  have h01 : x 0 < x 1 := h 0 (le_refl _) (by omega)
  have hb := locate_bracket h (by omega) hn hlo hhi 0 (fun hh => absurd rfl hh)
  have hr : 1 ≤ (locate x n xp 0).1 ∧ (locate x n xp 0).1 ≤ n - 1 := ⟨hb.1, hb.2.1⟩
  have e : rpol_2nd_order x y n xp 0 clip =
      blend2 x y n xp (locate x n xp 0).1 (locate x n xp 0).2 := by
    unfold rpol_2nd_order
    rw [if_neg (by omega), if_neg (not_le.mpr h01), if_neg (not_lt.mpr hlo),
      if_neg (not_lt.mpr hhi)]
    dsimp only
    rw [if_neg (by have := hr.2; omega), if_neg (by have := hr.1; omega)]
  rw [e]
  refine ⟨?_, ?_⟩
  · intro a b c hy
    rw [blend2_quadratic h hn3 y a b c hy xp _ hr.1 hr.2 _,
      parabola2_quadratic h y a b c hy xp 0 (le_refl _) (by omega),
      parabola2_quadratic h y a b c hy xp (n - 3) (by omega) (by omega)]
    exact ⟨rfl, rfl, rfl⟩
  · obtain ⟨j1, jn, blo, bhi, br⟩ := hb
    constructor
    · intro hx1
      have hj2 : (locate x n xp 0).1 - 1 ≤ 1 := by
        by_contra hc
        have := asc_lt h (by omega : (0 : ℤ) ≤ 1) (by omega : 1 < (locate x n xp 0).1 - 1)
          (by omega)
        linarith
      by_cases c : (locate x n xp 0).1 = 1
      · rw [c]
        exact blend2_first x y n hn3 xp _
      · have c2 : (locate x n xp 0).1 = 2 := by omega
        rw [c2] at blo br ⊢
        have e1 : (2 : ℤ) - 1 = 1 := by norm_num
        rw [e1] at blo br
        have hx : xp = x 1 := le_antisymm hx1 blo
        have r0 : (locate x n xp 0).2 = 0 := by
          rw [br, hx]; simp
        rw [r0, blend2_zero x y n xp 2 (le_refl _)]
        rfl
    · intro hx2
      have hj2 : n - 2 ≤ (locate x n xp 0).1 := by
        by_contra hc
        have := asc_lt h (by omega : (0 : ℤ) ≤ (locate x n xp 0).1)
          (by omega : (locate x n xp 0).1 < n - 2) (by omega)
        linarith
      by_cases c : (locate x n xp 0).1 = n - 1
      · rw [c]
        exact blend2_last x y n hn3 xp _
      · have c2 : (locate x n xp 0).1 = n - 2 := by omega
        rw [c2] at blo bhi br ⊢
        have hx : xp = x (n - 2) := le_antisymm bhi hx2
        have d : x (n - 2 - 1) < x (n - 2) := asc_lt h (by omega) (by omega) (by omega)
        have r1 : (locate x n xp 0).2 = 1 := by
          rw [br, hx]
          exact div_self (sub_ne_zero.mpr (ne_of_gt d))
        rw [r1, blend2_one x y n xp (n - 2) (by omega)]
        have e3 : n - 2 - 1 = n - 3 := by ring
        rw [e3]

/-- The table `x = 0, 1, 2, 3` of `p(t) = t^2` read at `5/2`, and the table
of `t^3` at the same abscissas read in the first and in the last interval. -/
theorem rpol_2nd_order_parabola_witness :
    rpol_2nd_order rampArr sqArr 4 (5 / 2) 0 0 = 25 / 4 ∧
      rpol_2nd_order rampArr cubeArr 4 (1 / 2) 0 0 = parabola2 rampArr cubeArr 0 (1 / 2) ∧
      rpol_2nd_order rampArr cubeArr 4 (5 / 2) 0 0 = parabola2 rampArr cubeArr 1 (5 / 2) ∧
      parabola2 rampArr cubeArr 0 (1 / 2) = -1 / 4 ∧
      parabola2 rampArr cubeArr 1 (5 / 2) = 16 :=
  ⟨(((rpol_2nd_order_parabola rampArr sqArr 4 (rampArr_ascending 4) (by decide) (by norm_num)
      (5 / 2) (by decide!) (by decide!) 0).1 0 0 1
        (fun i _ _ => by simp [sqArr, rampArr]; ring)).1).trans (by norm_num),
    (rpol_2nd_order_parabola rampArr cubeArr 4 (rampArr_ascending 4) (by decide) (by norm_num)
      (1 / 2) (by decide!) (by decide!) 0).2.1 (by decide!),
    (rpol_2nd_order_parabola rampArr cubeArr 4 (rampArr_ascending 4) (by decide) (by norm_num)
      (5 / 2) (by decide!) (by decide!) 0).2.2 (by decide!),
    by decide!, by decide!⟩

/-- C34, the claim as stated fails for very large tables: on the strictly
ascending table `x[i] = i` with `n = 2^30` points and the values `y[i] = 1`
of the constant polynomial 1, the query `2^30 - 3/2` lies inside the range;
the thirty steps of the binary search do not reach its interval, the outputs
keep `ipl = 1`, `rpl = 0`, and the Lagrange fit through the points `0, 1, 2`,
evaluated in double precision about `2^30` intervals away from them, gives 0
instead of 1. -/
theorem rpol_2nd_order_parabola_counterexample :
    Ascending rampArr (2 ^ 30) ∧
      (∀ i : ℤ, oneArr i = 1 + 0 * rampArr i + 0 * rampArr i ^ 2) ∧
      rampArr 0 ≤ (2 ^ 30 - 3 / 2 : ℚ) ∧ (2 ^ 30 - 3 / 2 : ℚ) ≤ rampArr (2 ^ 30 - 1) ∧
      rpol_2nd_order_dbl to_double rampArr oneArr (2 ^ 30) (2 ^ 30 - 3 / 2) 0 0 = 0 ∧
      (1 : ℚ) + 0 * (2 ^ 30 - 3 / 2) + 0 * (2 ^ 30 - 3 / 2) ^ 2 = 1 :=
  ⟨rampArr_ascending _, fun i => by simp [oneArr], by decide!, by decide!, by decide!,
    by norm_num⟩

/-- Cutting at the first `#` and then at the first `%` is cutting at the
first of the two. -/
theorem takeWhile_markers (line : List Char) :
    (line.takeWhile (fun c => c != '#')).takeWhile (fun c => c != '%') =
      line.takeWhile (fun c => c != '#' && c != '%') := by
  induction line with
  | nil => rfl
  | cons a l ih =>
    by_cases h1 : a = '#'
    · subst h1
      simp [List.takeWhile]
    · by_cases h2 : a = '%'
      · subst h2
        simp [List.takeWhile]
      · have e1 : (a != '#') = true := by simpa using h1
        have e2 : (a != '%') = true := by simpa using h2
        simp only [List.takeWhile_cons, e1, e2, if_true, Bool.and_self, ih]

/-- Removing the trailing characters with property `p` splits a list in the
rest and a tail of characters with `p`. -/
theorem rstrip_append (p : Char → Bool) (l : List Char) :
    l = (l.reverse.dropWhile p).reverse ++ (l.reverse.takeWhile p).reverse ∧
      ∀ c ∈ (l.reverse.takeWhile p).reverse, p c = true := by
  constructor
  · rw [← List.reverse_append, List.takeWhile_append_dropWhile, List.reverse_reverse]
  · intro c hc
    exact (List.mem_takeWhile_imp (List.mem_reverse.mp hc))

/-- What is left after removing the trailing characters with property `p`
does not end in one. -/
theorem rstrip_last (p : Char → Bool) (l : List Char) (c : Char)
    (h : ((l.reverse.dropWhile p).reverse).getLast? = some c) : p c = false := by
  rw [List.getLast?_reverse] at h
  generalize hd : l.reverse.dropWhile p = d at h
  cases d with
  | nil => simp at h
  | cons a d' =>
    simp only [List.head?_cons, Option.some.injEq] at h
    subst h
    have := List.head_dropWhile_not p l.reverse (by rw [hd]; simp)
    simpa [hd] using this

/-- C33: for every input line, with `P` the longest prefix of the line that
contains neither `#` nor `%`, `strip_comments` yields `P` with all trailing
blanks, tabs and newlines removed: `P` is the result followed by such white
space only, and the result does not end in such white space; the result
contains no comment marker, and `strip_comments` applied to it changes
nothing. -/
theorem strip_comments_prefix (line : List Char) :
    line.takeWhile (fun c => c != '#' && c != '%') <+: line ∧
      (∀ c ∈ line.takeWhile (fun c => c != '#' && c != '%'), c ≠ '#' ∧ c ≠ '%') ∧
      (∀ q : List Char, q <+: line → (∀ c ∈ q, c ≠ '#' ∧ c ≠ '%') →
        q <+: line.takeWhile (fun c => c != '#' && c != '%')) ∧
      (∃ w : List Char,
        line.takeWhile (fun c => c != '#' && c != '%') = strip_comments line ++ w ∧
          ∀ c ∈ w, c = '\n' ∨ c = '\t' ∨ c = ' ') ∧
      (∀ c, (strip_comments line).getLast? = some c → c ≠ '\n' ∧ c ≠ '\t' ∧ c ≠ ' ') ∧
      (∀ c ∈ strip_comments line, c ≠ '#' ∧ c ≠ '%') ∧
      strip_comments line <+: line ∧
      strip_comments (strip_comments line) = strip_comments line := by
  obtain ⟨P, hP⟩ : ∃ P, P = line.takeWhile (fun c => c != '#' && c != '%') := ⟨_, rfl⟩
  obtain ⟨ws, hws⟩ : ∃ ws : Char → Bool, ws = fun c => c == '\n' || c == '\t' || c == ' ' :=
    ⟨_, rfl⟩
  have hS : strip_comments line = (P.reverse.dropWhile ws).reverse := by
    unfold strip_comments
    dsimp only
    rw [takeWhile_markers, ← hP, hws]
  have hclean : ∀ c ∈ P, c ≠ '#' ∧ c ≠ '%' := by
    intro c hc
    rw [hP] at hc
    have := List.mem_takeWhile_imp hc
    simpa using this
  have hpre : P <+: line := by rw [hP]; exact List.takeWhile_prefix _
  obtain ⟨hsplit, htail⟩ := rstrip_append ws P
  have hSP : strip_comments line <+: P := by
    rw [hS]
    exact ⟨_, hsplit.symm⟩
  have hSclean : ∀ c ∈ strip_comments line, c ≠ '#' ∧ c ≠ '%' :=
    fun c hc => hclean c (hSP.subset hc)
  have hlast : ∀ c, (strip_comments line).getLast? = some c → ws c = false := by
    intro c hc
    rw [hS] at hc
    exact rstrip_last ws P c hc
  rw [← hP]
  refine ⟨hpre, hclean, ?_, ⟨_, by rw [hS]; exact hsplit, ?_⟩, ?_, hSclean,
    hSP.trans hpre, ?_⟩
  · intro q hq hqc
    obtain ⟨t, ht⟩ := hq
    rw [hP, ← ht, List.takeWhile_append_of_pos]
    · exact List.prefix_append _ _
    · intro c hc
      have := hqc c hc
      simpa using this
  · intro c hc
    have := htail c hc
    rw [hws] at this
    simpa [or_assoc] using this
  · intro c hc
    have := hlast c hc
    rw [hws] at this
    simpa [not_or, and_assoc] using this
  · generalize hR : strip_comments line = R at *
    unfold strip_comments
    dsimp only
    rw [takeWhile_markers]
    have t1 : R.takeWhile (fun c => c != '#' && c != '%') = R := by
      rw [List.takeWhile_eq_self_iff]
      intro c hc
      have := hSclean c hc
      simpa using this
    rw [t1, ← hws]
    have t2 : R.reverse.dropWhile ws = R.reverse := by
      rw [List.dropWhile_eq_self_iff]
      have hrev : R.getLast? = R.reverse.head? := (List.head?_reverse R).symm
      generalize R.reverse = rr at hrev
      cases rr with
      | nil => intro hl; simp at hl
      | cons a rr' =>
        intro hl
        have := hlast a (by rw [hrev]; rfl)
        simp [this]
    rw [t2, List.reverse_reverse]

/-- A data line with a comment, and a line where the percent sign comes
first. -/
theorem strip_comments_examples :
    strip_comments "1 2 \t # x % y\n".data = "1 2".data ∧
      strip_comments " a%b#c".data = " a".data ∧
      strip_comments "#only".data = [] ∧ strip_comments "plain".data = "plain".data := by
  decide

/-- A call of `read_rpol_table` that returns NULL leaves the heap as it was,
and the linked list too, but for the placeholder node made for an empty
list. -/
theorem read_null_state (src : TableSource) (s : RpolState) (fname : String) (nd : ℤ)
    (ymarker options : Option String)
    (h : (read_rpol_table src s fname nd ymarker options).2 = none) :
    (read_rpol_table src s fname nd ymarker options).1 =
      { s with rpt_list_base := if s.rpt_list_base = [] then [none] else s.rpt_list_base } := by
  unfold read_rpol_table at h ⊢
  dsimp only at h ⊢
  split
  · rfl
  · rename_i fnplus fnclean oe hn
    rw [hn] at h
    dsimp only at h
    split
    · rfl
    · rename_i pos hp
      rw [hp] at h
      dsimp only at h
      split
      · rename_i a ha
        rw [ha] at h
        dsimp only at h
        split at h <;> exact absurd h (by simp)
      · rename_i hnone
        rw [hnone] at h
        dsimp only at h
        split
        · rfl
        · rename_i rpt hl
          rw [hl] at h
          exact absurd h (by simp)

/-- The source cannot be opened: nothing is loaded. -/
theorem read_load_unopened (env : CEnv) (fnplus fnclean oe : String) (nd : ℤ)
    (ymarker options : Option String) (h : env.fileopen fnclean = none) :
    read_load (fileSource env) fnplus fnclean oe nd ymarker options = none := by
  unfold read_load
  dsimp only
  by_cases c : nd ≤ 0
  · simp only [if_pos c, fileSource, h]
  · simp only [if_neg c]
    by_cases c2 : nd ≠ 1 ∧ nd ≠ 2 ∧ nd ≠ 3
    · rw [if_pos c2]
    · rw [if_neg c2]
      simp only [fileSource, read_content, h]

/-- The header is invalid (auto-detection finds no format number): nothing
is loaded. -/
theorem read_load_bad_header (env : CEnv) (fnplus fnclean oe : String) (nd : ℤ)
    (ymarker options : Option String) (lines : List String) (hnd : nd ≤ 0)
    (hopen : env.fileopen fnclean = some lines) (h : header_block env lines nd = none) :
    read_load (fileSource env) fnplus fnclean oe nd ymarker options = none := by
  unfold read_load
  dsimp only
  simp only [if_pos hnd, fileSource, hopen, h, Option.map_none']

/-- A format given in the call, and the format branch returns NULL: nothing is
loaded. -/
theorem read_load_no_table (env : CEnv) (fnplus fnclean oe : String) (nd : ℤ)
    (ymarker options : Option String) (hnd : 0 < nd)
    (h : read_content env fnclean nd nd ymarker oe = none) :
    read_load (fileSource env) fnplus fnclean oe nd ymarker options = none := by
  unfold read_load
  dsimp only
  rw [if_neg (by omega)]
  dsimp only
  by_cases c2 : nd ≠ 1 ∧ nd ≠ 2 ∧ nd ≠ 3
  · rw [if_pos c2]
  · rw [if_neg c2]
    simp only [fileSource, h]

/-- Format 2 given in the call and no line of y values in the file: the
reading returns NULL. -/
theorem read_content_no_yline (env : CEnv) (fnclean oe : String) (ymarker : Option String)
    (lines : List String) (hopen : env.fileopen fnclean = some lines)
    (h : find_yline ((ymarker.map String.data).getD []).length
      ((ymarker.map String.data).getD []) lines = none) :
    read_content env fnclean 2 2 ymarker oe = none := by
  have ym : read_ymarker env lines 2 ymarker = ymarker.map String.data := by
    unfold read_ymarker
    cases ymarker with
    | none => simp
    | some m => simp
  unfold read_content
  simp only [hopen]
  rw [if_neg (by norm_num)]
  simp only [ym]
  have hs : read_stream env lines 2 2 (ymarker.map String.data) = lines := by
    unfold read_stream
    rw [if_neg (by norm_num)]
  rw [hs]
  have h1 : ¬ (2 : ℤ) = 1 := by norm_num
  simp only [h1, if_false, if_true, read_format2, h, Option.map_none']

/-- Format 3 given in the call and the format 3 branch (the grid check in it)
fails: the reading returns NULL. -/
theorem read_content_no_grid (env : CEnv) (fnclean oe : String) (ymarker : Option String)
    (lines : List String) (hopen : env.fileopen fnclean = some lines)
    (h : read_format3 env fnclean lines (read_options env lines 3 3 oe) = none) :
    read_content env fnclean 3 3 ymarker oe = none := by
  unfold read_content
  simp only [hopen]
  rw [if_neg (by norm_num)]
  have hs : ∀ ym, read_stream env lines 3 3 ym = lines := by
    intro ym
    unfold read_stream
    rw [if_neg (by norm_num)]
  have h1 : ¬ (3 : ℤ) = 1 := by norm_num
  have h2 : ¬ (3 : ℤ) = 2 := by norm_num
  simp only [hs, h1, h2, if_false, if_true, h, Option.map_none']

/-- The grid check of the format 3 branch fails on the rows read: the branch
returns NULL. -/
theorem read_format3_no_grid (env : CEnv) (fname : String) (f : List String) (o : ReadOpts)
    (r : ReadResult)
    (hr : r = (if o.xcol = 1 ∧ o.ycol = 2 ∧ o.zcol = 3 then
      read_table_v env (some fname) (some f) (some (to_size_t (-(o.expect_rows : ℤ)))) 3
        (some none) none
      else read_table_v env (some fname) (some f) (some (to_size_t (-(o.expect_rows : ℤ)))) 3
        (some none) (some [o.xcol, o.ycol, o.zcol])))
    (h : grid3 r.rc (r.nrow.getD 0)
        (fun i => ((r.col.getD []).getD 0 []).getD i 0)
        (fun i => ((r.col.getD []).getD 1 []).getD i 0)
        (fun i => ((r.col.getD []).getD 2 []).getD i 0) = none) :
    read_format3 env fname f o = none := by
  unfold read_format3
  dsimp only
  rw [← hr]
  split_ifs
  · rfl
  · rw [h]

/-- Each cause of a failing read makes the loading part return NULL. -/
theorem read_load_failure (env : CEnv) (fnplus fnclean oe : String) (nd : ℤ)
    (ymarker options : Option String) (h : ReadFailure env fnclean oe nd ymarker) :
    read_load (fileSource env) fnplus fnclean oe nd ymarker options = none := by
  rcases h with h | ⟨lines, hopen, h | h | h⟩
  · exact read_load_unopened env fnplus fnclean oe nd ymarker options h
  · exact read_load_bad_header env fnplus fnclean oe nd ymarker options lines h.1 hopen h.2
  · obtain ⟨hnd, hy⟩ := h
    subst hnd
    exact read_load_no_table env fnplus fnclean oe 2 ymarker options (by norm_num)
      (read_content_no_yline env fnclean oe ymarker lines hopen hy)
  · obtain ⟨hnd, r, hr, hg⟩ := h
    subst hnd
    exact read_load_no_table env fnplus fnclean oe 3 ymarker options (by norm_num)
      (read_content_no_grid env fnclean oe ymarker lines hopen
        (read_format3_no_grid env fnclean lines _ r hr hg))

/-- When the loading part returns NULL, `read_rpol_table` returns NULL or a
table it found in the catalogue. -/
theorem read_unloaded (src : TableSource) (s : RpolState) (fname : String) (nd : ℤ)
    (ymarker options : Option String) (fnplus fnclean oe : String)
    (hn : read_names fname ymarker options = some (fnplus, fnclean, oe))
    (hl : read_load src fnplus fnclean oe nd ymarker options = none) :
    (read_rpol_table src s fname nd ymarker options).2 = none ∨
      ∃ a, some a ∈ s.rpt_list_base ∧
        (read_rpol_table src s fname nd ymarker options).2 = some a := by
  unfold read_rpol_table
  dsimp only
  rw [hn]
  dsimp only
  split
  · left; rfl
  · rename_i pos hp
    split
    · rename_i a ha
      right
      refine ⟨a, ?_, ?_⟩
      · have hmem : some a ∈ (if s.rpt_list_base = [] then [none] else s.rpt_list_base) := by
          have hlt : pos < (if s.rpt_list_base = [] then [none] else s.rpt_list_base).length := by
            by_contra hc
            rw [List.getD_eq_getElem?_getD, List.getElem?_eq_none (not_lt.mp hc)] at ha
            exact absurd ha (by simp)
          rw [List.getD_eq_getElem?_getD, List.getElem?_eq_getElem hlt] at ha
          simp only [Option.getD_some] at ha
          rw [← ha]
          exact List.getElem_mem _
        by_cases c : s.rpt_list_base = []
        · rw [if_pos c] at hmem
          simp at hmem
        · rw [if_neg c] at hmem
          exact hmem
      · split <;> rfl
    · rw [hl]
      left; rfl

/-- C39: whenever `read_rpol_table` returns NULL, the heap is as before the
call and the catalogue holds the same tables in the same order, each with the
same contents (use count and data).  The causes named in the claim lead
there: when the source cannot be opened, the header gives no valid format,
no line of y values is found (format 2) or the grid check fails (format 3),
the call returns NULL, unless it returns a table found in the catalogue. -/
theorem failed_read_frame (env : CEnv) (s : RpolState) (fname : String) (nd : ℤ)
    (ymarker options : Option String) :
    ((read_rpol_table (fileSource env) s fname nd ymarker options).2 = none →
      (read_rpol_table (fileSource env) s fname nd ymarker options).1.heap = s.heap ∧
        catalogue (read_rpol_table (fileSource env) s fname nd ymarker options).1 = catalogue s ∧
        ∀ a, (read_rpol_table (fileSource env) s fname nd ymarker options).1.deref a =
          s.deref a) ∧
      ∀ fnplus fnclean oe : String,
        read_names fname ymarker options = some (fnplus, fnclean, oe) →
        ReadFailure env fnclean oe nd ymarker →
          (read_rpol_table (fileSource env) s fname nd ymarker options).2 = none ∨
            ∃ a, some a ∈ s.rpt_list_base ∧
              (read_rpol_table (fileSource env) s fname nd ymarker options).2 = some a := by
  constructor
  · intro h
    rw [read_null_state (fileSource env) s fname nd ymarker options h]
    refine ⟨rfl, ?_, fun a => rfl⟩
    unfold catalogue
    by_cases c : s.rpt_list_base = []
    · simp [c]
    · simp [c]
  · intro fnplus fnclean oe hn hf
    exact read_unloaded (fileSource env) s fname nd ymarker options fnplus fnclean oe hn
      (read_load_failure env fnplus fnclean oe nd ymarker options hf)

/-- With `ramp.dat` loaded, four failing calls: a file that is not there, a
file without header line read with `nd = 0`, a file without line of y values
read as format 2, and a listing that is no full grid read as format 3.  Each
returns NULL and leaves the one table in the catalogue. -/
theorem failed_read_frame_witness :
    catalogue demoLoaded = [0] ∧
      (read_rpol_table (fileSource (demoEnv demoFiles4)) demoLoaded "none.dat" 1 none none).2 =
        none ∧
      catalogue (read_rpol_table (fileSource (demoEnv demoFiles4)) demoLoaded "none.dat" 1
        none none).1 = catalogue demoLoaded ∧
      catalogue (read_rpol_table (fileSource (demoEnv demoFiles4)) demoLoaded "ramp.dat" 0
        none none).1 = catalogue demoLoaded ∧
      catalogue (read_rpol_table (fileSource (demoEnv demoFiles4)) demoLoaded "void.dat" 2
        none none).1 = catalogue demoLoaded ∧
      catalogue (read_rpol_table (fileSource (demoEnv demoFiles4)) demoLoaded "torn.dat" 3
        none none).1 = catalogue demoLoaded :=
  ⟨by decide!, by decide!,
    ((failed_read_frame (demoEnv demoFiles4) demoLoaded "none.dat" 1 none none).1
      (by decide!)).2.1,
    ((failed_read_frame (demoEnv demoFiles4) demoLoaded "ramp.dat" 0 none none).1
      (by decide!)).2.1,
    ((failed_read_frame (demoEnv demoFiles4) demoLoaded "void.dat" 2 none none).1
      (by decide!)).2.1,
    ((failed_read_frame (demoEnv demoFiles4) demoLoaded "torn.dat" 3 none none).1
      (by decide!)).2.1⟩

/-- The tables of a catalogue in regular form are its entries. -/
theorem catalogue_of_inv {Q : RpolTable → Prop} {s : RpolState} {es : List ℕ}
    (h : RegistryInv Q s es) : catalogue s = es := by
  unfold catalogue
  rcases h.1 with ⟨h1, h2⟩ | h1
  · rw [h1, h2]; rfl
  · rw [h1, List.filterMap_append, List.filterMap_map]
    simp

/-- The search loop of `read_rpol_table` on a regular catalogue ends at the
first entry that passes the test, and at the placeholder if none does. -/
theorem rpt_list_find_first (hit : ℕ → Bool) :
    ∀ (es : List ℕ) (p0 : ℕ), ∃ pos,
      rpt_list_find hit (es.map some ++ [none]) p0 = some (p0 + pos) ∧
        (es.map some ++ [none]).getD pos none = es.find? hit := by
  intro es
  induction es with
  | nil => intro p0; exact ⟨0, by simp [rpt_list_find], by simp⟩
  | cons a es ih =>
    intro p0
    have hform : ∃ b rest, es.map some ++ [none] = b :: rest := by
      cases es with
      | nil => exact ⟨none, [], rfl⟩
      | cons c es' => exact ⟨some c, es'.map some ++ [none], by simp⟩
    obtain ⟨b, rest, hbr⟩ := hform
    by_cases hh : hit a = true
    · refine ⟨0, ?_, ?_⟩
      · simp only [List.map_cons, List.cons_append, hbr, rpt_list_find, hh, if_true, add_zero]
      · simp [List.find?_cons, hh]
    · obtain ⟨pos, h1, h2⟩ := ih (p0 + 1)
      refine ⟨pos + 1, ?_, ?_⟩
      · simp only [List.map_cons, List.cons_append, hbr, rpt_list_find, hh, Bool.false_eq_true,
          if_false]
        rw [← hbr, h1]
        congr 1
        omega
      · have hf : hit a = false := by simpa using hh
        simp only [List.map_cons, List.cons_append, List.getD_cons_succ, List.find?_cons, hf]
        exact h2

/-- The test of a catalogue entry looks at the heap only. -/
theorem read_hit_heap (s s' : RpolState) (fnplus : String) (nd : ℤ) (a : ℕ)
    (h : s'.deref a = s.deref a) : read_hit s' fnplus nd a = read_hit s fnplus nd a := by
  unfold read_hit
  rw [h]

/-- A call of `read_rpol_table` whose key is met in a regular catalogue
returns the first entry with that key and adds one to its counter; nothing
else changes. -/
theorem read_hits_first (src : TableSource) (s : RpolState) (es : List ℕ)
    (hinv : RegistryInv (fun _ => True) s es) (fname : String) (nd : ℤ)
    (ymarker options : Option String) (fnplus fnclean oe : String)
    (hn : read_names fname ymarker options = some (fnplus, fnclean, oe)) (b : ℕ)
    (hb : es.find? (fun c => read_hit s fnplus nd c) = some b) :
    ∃ tb, s.deref b = some tb ∧
      read_rpol_table src s fname nd ymarker options =
        ({ heap := s.heap.set b (some (use_again tb)), rpt_list_base := s.rpt_list_base },
          some b) := by
  have hbase := catalogue_base hinv
  have hbes : b ∈ es := List.mem_of_find?_eq_some hb
  obtain ⟨tb, htb, _, _⟩ := hinv.2.2 b hbes
  have hs : s.rpt_list_base = es.map some ++ [none] := by
    rcases hinv.1 with ⟨_, h2⟩ | h1
    · rw [h2] at hbes
      exact absurd hbes (by simp)
    · exact h1
  refine ⟨tb, htb, ?_⟩
  obtain ⟨pos, h1, h2⟩ := rpt_list_find_first (fun c => read_hit s fnplus nd c) es 0
  rw [zero_add] at h1
  rw [hb] at h2
  unfold read_rpol_table
  simp only [hbase, hn]
  have e1 : rpt_list_find
      (read_hit { heap := s.heap, rpt_list_base := es.map some ++ [none] } fnplus nd)
      (es.map some ++ [none]) 0 = some pos := h1
  rw [e1]
  simp only [h2]
  have e2 : RpolState.deref { heap := s.heap, rpt_list_base := es.map some ++ [none] } b =
      some tb := htb
  rw [e2, hs]

/-- The call `rpol_free` that removes an entry `p` of a regular catalogue:
the entries left are the other ones in their order, and no other table of the
heap changes. -/
theorem free_removes (s : RpolState) (es : List ℕ) (hinv : RegistryInv (fun _ => True) s es)
    (p : ℕ) (t : RpolTable) (hp : p ∈ es) (ht : s.deref p = some t) (hc : t.use_count = 1)
    (removing : ℤ) :
    RegistryInv (fun _ => True) (rpol_free s (some p) removing) (es.erase p) ∧
      ∀ a, a ≠ p → (rpol_free s (some p) removing).deref a = s.deref a := by
  obtain ⟨hshape, hnd, hlive⟩ := hinv
  have hs : s.rpt_list_base = es.map some ++ [none] := by
    rcases hshape with ⟨_, h2⟩ | h1
    · rw [h2] at hp
      exact absurd hp (by simp)
    · exact h1
  unfold rpol_free
  simp only [ht]
  rw [if_neg (by omega), if_neg (by omega), hs]
  constructor
  · have hlive' : ∀ (l : List (Option ℕ)) (v : Option RpolTable), ∀ a ∈ es.erase p, ∃ t',
        RpolState.deref { heap := s.heap.set p v, rpt_list_base := l } a = some t' ∧
          1 ≤ t'.use_count ∧ True := by
      intro l v a ha
      have hmem := (List.Nodup.mem_erase_iff hnd).mp ha
      obtain ⟨t', ht', hc', hq'⟩ := hlive a hmem.2
      refine ⟨t', ?_, hc', hq'⟩
      rw [deref_set_ne _ _ _ _ _ hmem.1]
      exact ht'
    rcases unlink_catalogue p es hnd with ⟨u1, u2⟩ | u1
    · exact ⟨Or.inl ⟨by rw [u1], u2⟩, hnd.erase p, hlive' _ _⟩
    · exact ⟨Or.inr (by rw [u1]), hnd.erase p, hlive' _ _⟩
  · intro a ha
    rw [deref_set_ne _ _ _ _ _ ha]
    rfl

/-- Erasing another entry does not change which entry is found first. -/
theorem find_erase (hit : ℕ → Bool) (p a : ℕ) (ha : a ≠ p) :
    ∀ es : List ℕ, es.find? hit = some a → (es.erase p).find? hit = some a := by
  intro es
  induction es with
  | nil => intro h; simp at h
  | cons c es ih =>
    intro h
    by_cases hc : hit c = true
    · have e : c = a := by simpa [List.find?_cons, hc] using h
      subst e
      rw [List.erase_cons_tail (by simpa using ha)]
      simp [List.find?_cons, hc]
    · have hf : hit c = false := by simpa using hc
      have h' : es.find? hit = some a := by simpa [List.find?_cons, hf] using h
      by_cases e : c = p
      · subst e
        rw [List.erase_cons_head]
        exact h'
      · rw [List.erase_cons_tail (by simpa using e)]
        simp only [List.find?_cons, hf]
        exact ih h'

/-- Two tests that agree on a list find the same entry first. -/
theorem find_agree (f g : ℕ → Bool) :
    ∀ es : List ℕ, (∀ c ∈ es, f c = g c) → es.find? f = es.find? g := by
  intro es
  induction es with
  | nil => intro _; rfl
  | cons c es ih =>
    intro h
    rw [List.find?_cons, List.find?_cons, h c (List.mem_cons_self c es),
      ih (fun d hd => h d (List.mem_cons_of_mem c hd))]

/-- C40: in every memory reached from the initial one by calls of
`read_rpol_table`, `rpol_free` and `simple_rpol1d_table`, when `rpol_free`
removes the catalogued table `p` (its use count is 1), wherever in the
catalogue it stands: the catalogue afterwards is the one before without `p`,
in the same order; every other table of the heap is unchanged (use count and
data); and a later `read_rpol_table` whose key meets another catalogued table
`a` is a hit: it reads nothing, returns the first catalogued table with that
key (the table `a` itself, if the call would have returned `a` before) and
adds one to its use count. -/
theorem free_frame (src : TableSource) (calls : List RegistryCall) (p : ℕ) (t : RpolTable)
    (removing : ℤ) (hp : p ∈ catalogue (registry_run src calls))
    (ht : (registry_run src calls).deref p = some t) (hc : t.use_count = 1) :
    catalogue (rpol_free (registry_run src calls) (some p) removing) =
        (catalogue (registry_run src calls)).erase p ∧
      (∀ a, a ≠ p → (rpol_free (registry_run src calls) (some p) removing).deref a =
        (registry_run src calls).deref a) ∧
      ∀ (fname : String) (nd : ℤ) (ymarker options : Option String) (fnplus fnclean oe : String),
        read_names fname ymarker options = some (fnplus, fnclean, oe) →
        ∀ a ∈ catalogue (registry_run src calls), a ≠ p →
          read_hit (registry_run src calls) fnplus nd a = true →
          ∃ b tb, b ∈ catalogue (registry_run src calls) ∧ b ≠ p ∧
            read_hit (registry_run src calls) fnplus nd b = true ∧
            (registry_run src calls).deref b = some tb ∧
            ((catalogue (registry_run src calls)).find?
              (fun c => read_hit (registry_run src calls) fnplus nd c) = some a → b = a) ∧
            read_rpol_table src (rpol_free (registry_run src calls) (some p) removing)
                fname nd ymarker options =
              ({ heap := (rpol_free (registry_run src calls) (some p) removing).heap.set b
                   (some (use_again tb))
                 rpt_list_base :=
                   (rpol_free (registry_run src calls) (some p) removing).rpt_list_base },
                some b) := by
  obtain ⟨es, hinv⟩ := run_keeps_inv src (fun _ => True) (fun _ _ _ _ _ _ _ _ => trivial)
    (fun _ _ => trivial) (fun _ _ => trivial) calls
  generalize registry_run src calls = s at *
  have hcat := catalogue_of_inv hinv
  rw [hcat] at hp ⊢
  obtain ⟨hinv', hframe⟩ := free_removes s es hinv p t hp ht hc removing
  refine ⟨catalogue_of_inv hinv', hframe, ?_⟩
  intro fname nd ymarker options fnplus fnclean oe hn a ha hap hhit
  have hnd := hinv.2.1
  have hcongr : (es.erase p).find? (fun c => read_hit (rpol_free s (some p) removing) fnplus nd c) =
      (es.erase p).find? (fun c => read_hit s fnplus nd c) := by
    apply find_agree
    intro c hc'
    have hmem := (List.Nodup.mem_erase_iff hnd).mp hc'
    exact read_hit_heap _ _ fnplus nd c (hframe c hmem.1)
  have ha' : a ∈ es.erase p := (List.Nodup.mem_erase_iff hnd).mpr ⟨hap, ha⟩
  have hsome : ((es.erase p).find? (fun c => read_hit s fnplus nd c)).isSome = true := by
    rw [List.find?_isSome]
    exact ⟨a, ha', hhit⟩
  obtain ⟨b, hb⟩ := Option.isSome_iff_exists.mp hsome
  have hbm : b ∈ es.erase p := List.mem_of_find?_eq_some hb
  have hbm' := (List.Nodup.mem_erase_iff hnd).mp hbm
  have hbhit : read_hit s fnplus nd b = true := List.find?_some hb
  obtain ⟨tb, htb, hread⟩ := read_hits_first src (rpol_free s (some p) removing) (es.erase p)
    hinv' fname nd ymarker options fnplus fnclean oe hn b (by rw [hcongr]; exact hb)
  rw [hframe b hbm'.1] at htb
  refine ⟨b, tb, hbm'.2, hbm'.1, hbhit, htb, ?_, hread⟩
  intro hfirst
  have := find_erase (fun c => read_hit s fnplus nd c) p a hap es hfirst
  rw [this] at hb
  exact (Option.some.inj hb).symm

/-- Three tables loaded, then the first, the middle or the last one removed:
the other two stay in order, and after the middle one is gone a call for the
last one is a hit. -/
theorem free_frame_witness :
    catalogue (registry_run (fileSource (demoEnv demoFiles4)) demoCalls3) = [0, 1, 2] ∧
      catalogue (rpol_free (registry_run (fileSource (demoEnv demoFiles4)) demoCalls3)
        (some 0) 1) = [1, 2] ∧
      catalogue (rpol_free (registry_run (fileSource (demoEnv demoFiles4)) demoCalls3)
        (some 1) 1) = [0, 2] ∧
      catalogue (rpol_free (registry_run (fileSource (demoEnv demoFiles4)) demoCalls3)
        (some 2) 1) = [0, 1] ∧
      (read_rpol_table (fileSource (demoEnv demoFiles4))
        (rpol_free (registry_run (fileSource (demoEnv demoFiles4)) demoCalls3) (some 1) 1)
        "yfast.dat" 3 none none).2 = some 2 := by
  have hcat : catalogue (registry_run (fileSource (demoEnv demoFiles4)) demoCalls3) = [0, 1, 2] := by
    decide!
  have hcount : ∀ p : ℕ, p < 3 →
      ((registry_run (fileSource (demoEnv demoFiles4)) demoCalls3).deref p).map
        (fun t => t.use_count) = some 1 := by
    intro p hp
    interval_cases p <;> decide!
  have key : ∀ p : ℕ, p < 3 → ∃ t,
      (registry_run (fileSource (demoEnv demoFiles4)) demoCalls3).deref p = some t ∧
        t.use_count = 1 := by
    intro p hp
    have hm := hcount p hp
    cases hd : (registry_run (fileSource (demoEnv demoFiles4)) demoCalls3).deref p with
    | none => rw [hd] at hm; simp at hm
    | some t =>
      rw [hd] at hm
      exact ⟨t, rfl, by simpa using hm⟩
  obtain ⟨t0, h0, c0⟩ := key 0 (by norm_num)
  obtain ⟨t1, h1, c1⟩ := key 1 (by norm_num)
  obtain ⟨t2, h2, c2⟩ := key 2 (by norm_num)
  have f0 := free_frame (fileSource (demoEnv demoFiles4)) demoCalls3 0 t0 1
    (by rw [hcat]; decide) h0 c0
  have f1 := free_frame (fileSource (demoEnv demoFiles4)) demoCalls3 1 t1 1
    (by rw [hcat]; decide) h1 c1
  have f2 := free_frame (fileSource (demoEnv demoFiles4)) demoCalls3 2 t2 1
    (by rw [hcat]; decide) h2 c2
  refine ⟨hcat, ?_, ?_, ?_, ?_⟩
  · rw [f0.1, hcat]; decide
  · rw [f1.1, hcat]; decide
  · rw [f2.1, hcat]; decide
  · obtain ⟨b, tb, _, _, _, _, hfirst, hread⟩ := f1.2.2 "yfast.dat" 3 none none "yfast.dat"
      "yfast.dat" "" (read_names_bare "yfast.dat" (by decide) (by decide)) 2
      (by rw [hcat]; decide) (by decide) (by decide!)
    have hb : b = 2 := hfirst (by rw [hcat]; decide!)
    rw [hread, hb]

/-- C38: the two option chains of `read_rpol_table` agree: for every
environment, every option word, every format number `nd` and every prior
state of the settings (clipping, scheme, expected rows and columns, aux,
x/y/z column, x/y/z scale, x/y/z log, envelope request, verbosity), the chain
run on the `OPTIONS:` clause of the header line and the chain run on the
options argument leave the same settings; and so do the two loops over a
whole text of options. -/
theorem option_chains_agree (env : CEnv) (nd : ℤ) (o : ReadOpts) :
    (∀ word : List Char, header_option env nd o word = apply_option env nd o word) ∧
      ∀ s : List Char, header_options env nd o s = parse_options env nd o s := by
  have h : header_option env nd = apply_option env nd := by
    funext o word
    rfl
  refine ⟨fun word => by rw [h], fun s => ?_⟩
  unfold header_options parse_options
  rw [h]

/-- The two chains on the words `ZCOL=3` (for a 1-D table), `clip=off` and
`bogus`, from the initial settings. -/
theorem option_chains_examples :
    (header_option (demoEnv demoFiles) 1 {} "ZCOL=3".data).ycol = 3 ∧
      (apply_option (demoEnv demoFiles) 1 {} "ZCOL=3".data).ycol = 3 ∧
      (header_option (demoEnv demoFiles) 2 { clip_default := 1 } "clip=off".data).clip_default = 0 ∧
      (apply_option (demoEnv demoFiles) 2 { clip_default := 1 } "clip=off".data).clip_default = 0 ∧
      header_option (demoEnv demoFiles) 2 {} "bogus".data = {} ∧
      apply_option (demoEnv demoFiles) 2 {} "bogus".data = {} := by
  refine ⟨by decide!, by decide!, by decide!, by decide!, by decide!, by decide!⟩

/-- The members `rpol_check_equi_range` leaves in a table it accepts (buffers
there, at least one point on each axis in use): the buffers `x` and `z`
(reversed only for a 1-D table), the bits of `equidistant`, the envelopes and
the flags it does not touch. -/
theorem check_equi_range_fields (t : RpolTable) (xs0 zs0 : List ℚ) (hx : t.x = some xs0)
    (hz : t.z = some zs0) (h1 : ¬ (t.ndim ≥ 2 ∧ t.y = none))
    (h2 : ¬ (t.nx < 1 ∨ (t.ndim ≥ 2 ∧ t.ny < 1))) :
    ∃ xs zs : List ℚ, (rpol_check_equi_range t).x = some xs ∧
      (rpol_check_equi_range t).z = some zs ∧ (t.ndim ≠ 1 → xs = xs0 ∧ zs = zs0) ∧
      (rpol_check_equi_range t).equidistant =
        (if decide (t.ndim = 2 ∨ t.ndim = 3) then
          (if axis_uneven t.ny (fun i => (t.y.getD []).getD i 0) then
            Int.land (Int.lor
              (if axis_uneven t.nx (fun i => xs.getD i 0) then Int.land 1 2 else 1) 2) 1
           else Int.lor (if axis_uneven t.nx (fun i => xs.getD i 0) then Int.land 1 2 else 1) 2)
         else (if axis_uneven t.nx (fun i => xs.getD i 0) then Int.land 1 2 else 1)) ∧
      (rpol_check_equi_range t).zxmax =
        (if decide (t.ndim > 1 ∧ t.zxreq ≠ 0) then
          some ((List.range t.nx).map (row_max t.ny (fun i => zs.getD i 0)))
         else t.zxmax) ∧
      (rpol_check_equi_range t).zxmin =
        (if decide (t.ndim > 1 ∧ t.zxreq ≠ 0) then
          some ((List.range t.nx).map (row_min t.ny (fun i => zs.getD i 0)))
         else t.zxmin) ∧
      (rpol_check_equi_range t).y = t.y ∧ (rpol_check_equi_range t).xlog = t.xlog ∧
      (rpol_check_equi_range t).ylog = t.ylog ∧ (rpol_check_equi_range t).zlog = t.zlog ∧
      (rpol_check_equi_range t).logs = t.logs := by
  unfold rpol_check_equi_range
  dsimp only
  simp only [hx, hz]
  rw [if_neg h1, if_neg h2]
  refine ⟨_, _, rfl, rfl, ?_, rfl, rfl, rfl, rfl, rfl, rfl, rfl, rfl⟩
  intro hd
  have hrev : decide (t.ndim = 1 ∧ t.nx > 1 ∧ xs0.getD (t.nx - 1) 0 < xs0.getD 0 0) = false :=
    decide_eq_false (fun hh => hd hh.1)
  simp only [hrev, Bool.false_eq_true, if_false, and_self]

/-- Bit 0 of the bit pair the two axis loops leave. -/
theorem equidistant_land (two ux uy : Bool) :
    Int.land (if two then
        (if uy then Int.land (Int.lor (if ux then Int.land 1 2 else 1) 2) 1
         else Int.lor (if ux then Int.land 1 2 else 1) 2)
       else (if ux then Int.land 1 2 else 1)) 1 = (if ux then 0 else 1) ∧
      Int.land (if two then
        (if uy then Int.land (Int.lor (if ux then Int.land 1 2 else 1) 2) 1
         else Int.lor (if ux then Int.land 1 2 else 1) 2)
       else (if ux then Int.land 1 2 else 1)) 2 = (if two && !uy then 2 else 0) := by
  cases two <;> cases ux <;> cases uy <;> decide

/-- What the loop over one axis tests, for `n ≥ 2` points: with a step
`dx ≠ 0` it clears the bit exactly when some point lies farther than
`1e-10*|dx|` from its place on the even grid; with `dx = 0` it never clears
the bit. -/
theorem axis_uneven_iff (n : ℕ) (X : ℕ → ℚ) (hn : 2 ≤ n) :
    ((X (n - 1) - X 0) / ((n : ℚ) - 1) ≠ 0 →
      (axis_uneven n X = false ↔
        ∀ i, i < n → |X 0 + (i : ℚ) * ((X (n - 1) - X 0) / ((n : ℚ) - 1)) - X i| ≤
          |(X (n - 1) - X 0) / ((n : ℚ) - 1)| / 10 ^ 10)) ∧
      ((X (n - 1) - X 0) / ((n : ℚ) - 1) = 0 → axis_uneven n X = false) := by
  have hn1 : n > 1 := by omega
  unfold axis_uneven
  simp only [if_pos hn1]
  generalize (X (n - 1) - X 0) / ((n : ℚ) - 1) = dx
  constructor
  · intro hdx
    rw [if_pos hdx, List.any_eq_false]
    have hpos : 0 < |dx| := abs_pos.mpr hdx
    constructor
    · intro h i hi
      have := h i (List.mem_range.mpr hi)
      rw [decide_eq_true_eq, not_lt, abs_mul, abs_div, abs_one, mul_one_div,
        div_le_iff₀ hpos] at this
      rw [le_div_iff₀ (by positivity)]
      linarith
    · intro h i hi
      have := h i (List.mem_range.mp hi)
      rw [decide_eq_true_eq, not_lt, abs_mul, abs_div, abs_one, mul_one_div,
        div_le_iff₀ hpos]
      rw [le_div_iff₀ (by positivity)] at this
      linarith
  · intro hdx
    rw [if_neg (not_not.mpr hdx), List.any_eq_false]
    intro i _
    simp

/-- C31 (amended): after `rpol_check_equi_range` on a table with `nx ≥ 2`
(buffers there; for 2-D also `ny ≥ 1`), with `x` the buffer the call leaves
and `dx = (x[nx-1] - x[0])/(nx-1)`: when `x[nx-1] ≠ x[0]`, bit 0 of
`equidistant` is set exactly when every `x[i]` lies within `1e-10*|dx|` of
`x[0] + i*dx`; when `x[nx-1] = x[0]` (then `dx = 0` and `dxi` is set to 0)
bit 0 is set whatever the x values are.  The bit is 0 or 1 in any case. -/
theorem equidistant_bit (t : RpolTable) (xs0 zs0 : List ℚ) (hx : t.x = some xs0)
    (hz : t.z = some zs0) (hy : t.ndim ≥ 2 → t.y ≠ none ∧ 1 ≤ t.ny) (hn : 2 ≤ t.nx) :
    ∃ xs : List ℚ, (rpol_check_equi_range t).x = some xs ∧
      (xs.getD (t.nx - 1) 0 ≠ xs.getD 0 0 →
        (Int.land (rpol_check_equi_range t).equidistant 1 = 1 ↔
          ∀ i, i < t.nx →
            |xs.getD 0 0 + (i : ℚ) * ((xs.getD (t.nx - 1) 0 - xs.getD 0 0) / ((t.nx : ℚ) - 1)) -
                xs.getD i 0| ≤
              |(xs.getD (t.nx - 1) 0 - xs.getD 0 0) / ((t.nx : ℚ) - 1)| / 10 ^ 10)) ∧
      (xs.getD (t.nx - 1) 0 = xs.getD 0 0 →
        Int.land (rpol_check_equi_range t).equidistant 1 = 1) ∧
      (Int.land (rpol_check_equi_range t).equidistant 1 = 0 ∨
        Int.land (rpol_check_equi_range t).equidistant 1 = 1) := by
  have h1 : ¬ (t.ndim ≥ 2 ∧ t.y = none) := fun hh => (hy hh.1).1 hh.2
  have h2 : ¬ (t.nx < 1 ∨ (t.ndim ≥ 2 ∧ t.ny < 1)) := by
    rintro (hh | hh)
    · omega
    · have := (hy hh.1).2
      omega
  obtain ⟨xs, zs, ex, _, _, eq, _⟩ := check_equi_range_fields t xs0 zs0 hx hz h1 h2
  refine ⟨xs, ex, ?_⟩
  rw [eq, (equidistant_land _ _ _).1]
  obtain ⟨a1, a2⟩ := axis_uneven_iff t.nx (fun i => xs.getD i 0) hn
  have hq : ((t.nx : ℚ) - 1) ≠ 0 := by
    have : (2 : ℚ) ≤ (t.nx : ℚ) := by exact_mod_cast hn
    intro hh
    linarith
  refine ⟨?_, ?_, ?_⟩
  · intro hne
    have hdx : (xs.getD (t.nx - 1) 0 - xs.getD 0 0) / ((t.nx : ℚ) - 1) ≠ 0 :=
      div_ne_zero (sub_ne_zero.mpr hne) hq
    rw [← a1 hdx]
    cases axis_uneven t.nx (fun i => xs.getD i 0) <;> simp
  · intro he
    have hdx : (xs.getD (t.nx - 1) 0 - xs.getD 0 0) / ((t.nx : ℚ) - 1) = 0 := by
      rw [he, sub_self, zero_div]
    rw [a2 hdx]
    rfl
  · cases axis_uneven t.nx (fun i => xs.getD i 0)
    · right; rfl
    · left; rfl

/-- The even table `x = 0, 1, 2`. -/
theorem equidistant_bit_witness :
    ∃ xs : List ℚ,
      (rpol_check_equi_range { ndim := 1, nx := 3, x := some [0, 1, 2], z := some [0, 2, 4] }).x =
        some xs ∧
      (xs.getD (3 - 1) 0 ≠ xs.getD 0 0 →
        (Int.land (rpol_check_equi_range
            { ndim := 1, nx := 3, x := some [0, 1, 2], z := some [0, 2, 4] }).equidistant 1 = 1 ↔
          ∀ i : ℕ, i < 3 →
            |xs.getD 0 0 + (i : ℚ) * ((xs.getD (3 - 1) 0 - xs.getD 0 0) / (((3 : ℕ) : ℚ) - 1)) -
                xs.getD i 0| ≤
              |(xs.getD (3 - 1) 0 - xs.getD 0 0) / (((3 : ℕ) : ℚ) - 1)| / 10 ^ 10)) ∧
      (xs.getD (3 - 1) 0 = xs.getD 0 0 →
        Int.land (rpol_check_equi_range
          { ndim := 1, nx := 3, x := some [0, 1, 2], z := some [0, 2, 4] }).equidistant 1 = 1) ∧
      (Int.land (rpol_check_equi_range
          { ndim := 1, nx := 3, x := some [0, 1, 2], z := some [0, 2, 4] }).equidistant 1 = 0 ∨
        Int.land (rpol_check_equi_range
          { ndim := 1, nx := 3, x := some [0, 1, 2], z := some [0, 2, 4] }).equidistant 1 = 1) :=
  equidistant_bit { ndim := 1, nx := 3, x := some [0, 1, 2], z := some [0, 2, 4] }
    [0, 1, 2] [0, 2, 4] rfl rfl (fun h => absurd h (by decide)) (by decide)

/-- C31, the claim as stated fails.  On the table `x = 0, 1, 0` the steps are
`1` and `-1`, `dx` is 0 and `x[1] = 1` is not within `1e-10*|dx| = 0` of
`x[0] + 1*dx = 0`, but bit 0 of `equidistant` is set.  On the table
`x = 0, 1, 2 + 1e-11` the steps `1` and `1 + 1e-11` are not equal, and bit 0
is set, the table being even within the tolerance.  (On `x = 0, 1, 3` the bit
is clear.) -/
theorem equidistant_bit_counterexample :
    (rpol_check_equi_range { ndim := 1, nx := 3, x := some [0, 1, 0], z := some [0, 0, 0] }).x =
        some [0, 1, 0] ∧
      Int.land (rpol_check_equi_range
        { ndim := 1, nx := 3, x := some [0, 1, 0], z := some [0, 0, 0] }).equidistant 1 = 1 ∧
      ((1 : ℚ) - 0 ≠ 0 - 1) ∧
      ¬ (|(0 : ℚ) + 1 * ((0 - 0) / (3 - 1)) - 1| ≤ |((0 : ℚ) - 0) / (3 - 1)| / 10 ^ 10) ∧
      (rpol_check_equi_range
        { ndim := 1, nx := 3, x := some [0, 1, 2 + 1 / 10 ^ 11], z := some [0, 0, 0] }).x =
        some [0, 1, 2 + 1 / 10 ^ 11] ∧
      Int.land (rpol_check_equi_range
        { ndim := 1, nx := 3, x := some [0, 1, 2 + 1 / 10 ^ 11],
          z := some [0, 0, 0] }).equidistant 1 = 1 ∧
      ((1 : ℚ) - 0 ≠ (2 + 1 / 10 ^ 11) - 1) ∧
      Int.land (rpol_check_equi_range
        { ndim := 1, nx := 3, x := some [0, 1, 3], z := some [0, 0, 0] }).equidistant 1 = 0 := by
  refine ⟨by decide!, by decide!, by norm_num, by norm_num, by decide!, by decide!, by norm_num,
    by decide!⟩

/-- The running maximum over `f 0, …, f n`: it is one of the values and no
value lies above it. -/
theorem fold_max_spec (f : ℕ → ℚ) :
    ∀ n : ℕ,
      (∃ j, j ≤ n ∧ (List.range n).foldl
        (fun m k => if f (k + 1) > m then f (k + 1) else m) (f 0) = f j) ∧
      ∀ j, j ≤ n → f j ≤ (List.range n).foldl
        (fun m k => if f (k + 1) > m then f (k + 1) else m) (f 0) := by
  intro n
  induction n with
  | zero =>
    refine ⟨⟨0, le_refl _, rfl⟩, ?_⟩
    intro j hj
    have : j = 0 := by omega
    subst this
    exact le_refl _
  | succ n ih =>
    obtain ⟨⟨j0, hj0, e0⟩, hmax⟩ := ih
    rw [List.range_succ, List.foldl_append]
    simp only [List.foldl_cons, List.foldl_nil]
    generalize (List.range n).foldl (fun m k => if f (k + 1) > m then f (k + 1) else m) (f 0) = m
      at e0 hmax
    by_cases c : f (n + 1) > m
    · rw [if_pos c]
      refine ⟨⟨n + 1, le_refl _, rfl⟩, ?_⟩
      intro j hj
      by_cases e : j = n + 1
      · rw [e]
      · exact le_trans (hmax j (by omega)) (le_of_lt c)
    · rw [if_neg c]
      refine ⟨⟨j0, by omega, e0⟩, ?_⟩
      intro j hj
      by_cases e : j = n + 1
      · rw [e]; exact not_lt.mp c
      · exact hmax j (by omega)

/-- The running minimum over `f 0, …, f n`: it is one of the values and no
value lies below it. -/
theorem fold_min_spec (f : ℕ → ℚ) :
    ∀ n : ℕ,
      (∃ j, j ≤ n ∧ (List.range n).foldl
        (fun m k => if f (k + 1) < m then f (k + 1) else m) (f 0) = f j) ∧
      ∀ j, j ≤ n → (List.range n).foldl
        (fun m k => if f (k + 1) < m then f (k + 1) else m) (f 0) ≤ f j := by
  intro n
  induction n with
  | zero =>
    refine ⟨⟨0, le_refl _, rfl⟩, ?_⟩
    intro j hj
    have : j = 0 := by omega
    subst this
    exact le_refl _
  | succ n ih =>
    obtain ⟨⟨j0, hj0, e0⟩, hmin⟩ := ih
    rw [List.range_succ, List.foldl_append]
    simp only [List.foldl_cons, List.foldl_nil]
    generalize (List.range n).foldl (fun m k => if f (k + 1) < m then f (k + 1) else m) (f 0) = m
      at e0 hmin
    by_cases c : f (n + 1) < m
    · rw [if_pos c]
      refine ⟨⟨n + 1, le_refl _, rfl⟩, ?_⟩
      intro j hj
      by_cases e : j = n + 1
      · rw [e]
      · exact le_trans (le_of_lt c) (hmin j (by omega))
    · rw [if_neg c]
      refine ⟨⟨j0, by omega, e0⟩, ?_⟩
      intro j hj
      by_cases e : j = n + 1
      · rw [e]; exact not_lt.mp c
      · exact hmin j (by omega)

/-- The value `zxmax[i]` is the maximum of row `i` of `z`. -/
theorem row_max_spec (ny : ℕ) (Z : ℕ → ℚ) (i : ℕ) (hny : 1 ≤ ny) :
    (∃ j, j < ny ∧ row_max ny Z i = Z (i * ny + j)) ∧
      ∀ j, j < ny → Z (i * ny + j) ≤ row_max ny Z i := by
  obtain ⟨⟨j, hj, e⟩, hmax⟩ := fold_max_spec (fun j => Z (i * ny + j)) (ny - 1)
  exact ⟨⟨j, by omega, e⟩, fun j hj => hmax j (by omega)⟩

/-- The value `zxmin[i]` is the minimum of row `i` of `z`. -/
theorem row_min_spec (ny : ℕ) (Z : ℕ → ℚ) (i : ℕ) (hny : 1 ≤ ny) :
    (∃ j, j < ny ∧ row_min ny Z i = Z (i * ny + j)) ∧
      ∀ j, j < ny → row_min ny Z i ≤ Z (i * ny + j) := by
  obtain ⟨⟨j, hj, e⟩, hmin⟩ := fold_min_spec (fun j => Z (i * ny + j)) (ny - 1)
  exact ⟨⟨j, by omega, e⟩, fun j hj => hmin j (by omega)⟩

/-- Without the request flag, and for a table of at most one dimension,
`rpol_check_equi_range` leaves the envelope members as they are. -/
theorem check_equi_range_no_envelope (t : RpolTable) (h : t.ndim ≤ 1 ∨ t.zxreq = 0) :
    (rpol_check_equi_range t).zxmax = t.zxmax ∧ (rpol_check_equi_range t).zxmin = t.zxmin := by
  have henv : decide (t.ndim > 1 ∧ t.zxreq ≠ 0) = false := by
    apply decide_eq_false
    rintro ⟨a, b⟩
    rcases h with h | h
    · omega
    · exact b h
  unfold rpol_check_equi_range
  dsimp only
  split
  · by_cases h1 : t.ndim ≥ 2 ∧ t.y = none
    · rw [if_pos h1]
      exact ⟨rfl, rfl⟩
    · rw [if_neg h1]
      by_cases h2 : t.nx < 1 ∨ (t.ndim ≥ 2 ∧ t.ny < 1)
      · rw [if_pos h2]
        exact ⟨rfl, rfl⟩
      · rw [if_neg h2]
        simp only [henv, Bool.false_eq_true, if_false, and_self]
  · exact ⟨rfl, rfl⟩

/-- The format 1 branch leaves a 1-D table without envelope request. -/
theorem read_format1_no_request (env : CEnv) (fname : String) (f : List String) (o : ReadOpts)
    (t : RpolTable) (h : read_format1 env fname f o = some t) : t.ndim = 1 ∧ t.zxreq = 0 := by
  unfold read_format1 at h
  dsimp only at h
  split_ifs at h <;> (injection h with h; rw [← h]; exact ⟨rfl, rfl⟩)

/-- C32: for every 2-D table (`ndim` 2 or 3, buffers there, `nx ≥ 1`,
`ny ≥ 1`) with the envelope request flag set, `rpol_check_equi_range` leaves
envelopes of `nx` entries in which `zxmax[i]` is the maximum and `zxmin[i]`
the minimum of `z[i*ny + j]` over all `j < ny`, for every `i < nx`.  For every
table of at most one dimension and every table without the request flag the
envelope members stay as they were, and the format 1 branch of
`read_rpol_table` clears the request flag of the 1-D table it builds. -/
theorem envelope_projection (t : RpolTable) :
    (∀ xs ys zs : List ℚ, t.x = some xs → t.y = some ys → t.z = some zs →
      (t.ndim = 2 ∨ t.ndim = 3) → 1 ≤ t.nx → 1 ≤ t.ny → t.zxreq ≠ 0 →
      ∃ M m : List ℚ, (rpol_check_equi_range t).zxmax = some M ∧
        (rpol_check_equi_range t).zxmin = some m ∧ M.length = t.nx ∧ m.length = t.nx ∧
        (rpol_check_equi_range t).z = some zs ∧
        ∀ i, i < t.nx →
          (∃ j, j < t.ny ∧ M.getD i 0 = zs.getD (i * t.ny + j) 0) ∧
          (∀ j, j < t.ny → zs.getD (i * t.ny + j) 0 ≤ M.getD i 0) ∧
          (∃ j, j < t.ny ∧ m.getD i 0 = zs.getD (i * t.ny + j) 0) ∧
          (∀ j, j < t.ny → m.getD i 0 ≤ zs.getD (i * t.ny + j) 0)) ∧
      ((t.ndim ≤ 1 ∨ t.zxreq = 0) →
        (rpol_check_equi_range t).zxmax = t.zxmax ∧
          (rpol_check_equi_range t).zxmin = t.zxmin) ∧
      ∀ (env : CEnv) (fname : String) (f : List String) (o : ReadOpts) (t1 : RpolTable),
        read_format1 env fname f o = some t1 → t1.ndim = 1 ∧ t1.zxreq = 0 := by
  refine ⟨?_, check_equi_range_no_envelope t, read_format1_no_request⟩
  intro xs ys zs hx hy hz hd hnx hny hreq
  have h1 : ¬ (t.ndim ≥ 2 ∧ t.y = none) := by
    rintro ⟨_, hh⟩
    rw [hy] at hh
    exact absurd hh (by simp)
  have h2 : ¬ (t.nx < 1 ∨ (t.ndim ≥ 2 ∧ t.ny < 1)) := by
    rintro (hh | hh) <;> omega
  obtain ⟨xs', zs', _, ez, hsame, _, emax, emin, _⟩ :=
    check_equi_range_fields t xs zs hx hz h1 h2
  obtain ⟨_, hzs⟩ := hsame (by omega)
  subst hzs
  have henv : decide (t.ndim > 1 ∧ t.zxreq ≠ 0) = true :=
    decide_eq_true ⟨by omega, hreq⟩
  rw [henv, if_pos rfl] at emax emin
  refine ⟨_, _, emax, emin, by simp, by simp, ez, ?_⟩
  intro i hi
  rw [getD_map_range _ _ _ _ hi, getD_map_range _ _ _ _ hi]
  obtain ⟨a1, a2⟩ := row_max_spec t.ny (fun k => zs'.getD k 0) i hny
  obtain ⟨b1, b2⟩ := row_min_spec t.ny (fun k => zs'.getD k 0) i hny
  exact ⟨a1, a2, b1, b2⟩

/-- The table `z = 1 5 3 / 4 2 6` over two x and three y values: with the
request flag the envelopes are `5, 6` and `1, 2`; without it, and for a 1-D
table with it, none is made. -/
theorem envelope_projection_witness :
    (rpol_check_equi_range
        { ndim := 2, nx := 2, ny := 3, x := some [0, 1], y := some [0, 1, 2],
          z := some [1, 5, 3, 4, 2, 6], zxreq := 1 }).zxmax = some [5, 6] ∧
      (rpol_check_equi_range
        { ndim := 2, nx := 2, ny := 3, x := some [0, 1], y := some [0, 1, 2],
          z := some [1, 5, 3, 4, 2, 6], zxreq := 1 }).zxmin = some [1, 2] ∧
      (rpol_check_equi_range
        { ndim := 2, nx := 2, ny := 3, x := some [0, 1], y := some [0, 1, 2],
          z := some [1, 5, 3, 4, 2, 6] }).zxmax = none ∧
      (rpol_check_equi_range
        { ndim := 1, nx := 2, x := some [0, 1], z := some [1, 5], zxreq := 1 }).zxmax = none :=
  ⟨by decide!, by decide!,
    ((envelope_projection
      { ndim := 2, nx := 2, ny := 3, x := some [0, 1], y := some [0, 1, 2],
        z := some [1, 5, 3, 4, 2, 6] }).2.1 (Or.inr rfl)).1,
    ((envelope_projection
      { ndim := 1, nx := 2, x := some [0, 1], z := some [1, 5], zxreq := 1 }).2.1
      (Or.inl (by decide))).1⟩

/-- The interval search of one axis of `rpol_2d_linear` on an ascending axis,
wherever the query lies: an index `1 ≤ ipl ≤ n-1` and a fraction
`0 ≤ rpl ≤ 1`. -/
theorem locate2d_in_range {x : Arr} {n : ℤ} (h : Ascending x n) (hn2 : 2 ≤ n) (xp : ℚ)
    (e : ℤ) (heq : e ≠ 0 → Equidistant x n) :
    1 ≤ (locate2d x n xp e).1 ∧ (locate2d x n xp e).1 ≤ n - 1 ∧
      0 ≤ (locate2d x n xp e).2 ∧ (locate2d x n xp e).2 ≤ 1 := by
  by_cases c1 : xp < x 0
  · unfold locate2d
    rw [if_pos c1]
    exact ⟨le_refl _, by omega, le_refl _, by norm_num⟩
  · by_cases c2 : xp > x (n - 1)
    · unfold locate2d
      rw [if_neg c1, if_pos c2]
      exact ⟨by omega, le_refl _, by norm_num, le_refl _⟩
    · rw [locate2d_inside x n (not_lt.mp c1) (not_lt.mp c2) e]
      exact locate_in_range h hn2 (not_lt.mp c1) (not_lt.mp c2) e heq

/-- Without clipping `rpol_linear` is the linear formula on the pair the
interval search of `rpol_2d_linear` finds for that axis, also outside the
range. -/
theorem rpol_linear_locate2d (x y : Arr) (n : ℤ) (hn2 : 2 ≤ n) (h01 : x 0 < x 1) (xp : ℚ)
    (e : ℤ) :
    rpol_linear x y n xp e 0 =
      y ((locate2d x n xp e).1 - 1) * (1 - (locate2d x n xp e).2) +
        y (locate2d x n xp e).1 * (locate2d x n xp e).2 := by
  unfold rpol_linear
  rw [if_neg (by omega), if_neg (not_le.mpr h01)]
  by_cases c1 : xp < x 0
  · rw [if_pos c1]
    unfold locate2d
    rw [if_pos c1]
    simp
  · rw [if_neg c1]
    by_cases c2 : xp > x (n - 1)
    · rw [if_pos c2]
      unfold locate2d
      rw [if_neg c1, if_pos c2]
      simp
    · rw [if_neg c2, locate2d_inside x n (not_lt.mp c1) (not_lt.mp c2) e]

/-- Without clipping `rpol_2d_linear` is the bilinear formula on the pairs
found for the two axes. -/
theorem rpol_2d_linear_form (x y z : Arr) (nx ny : ℤ) (hnx : 2 ≤ nx) (hny : 2 ≤ ny)
    (hx01 : x 0 < x 1) (hy01 : y 0 < y 1) (xp yp : ℚ) (eq : ℤ) :
    rpol_2d_linear x y z nx ny xp yp eq 0 =
      (z (((locate2d x nx xp (Int.land eq 1)).1 - 1) * ny +
            ((locate2d y ny yp (Int.land eq 2)).1 - 1)) *
          (1 - (locate2d x nx xp (Int.land eq 1)).2) +
        z ((locate2d x nx xp (Int.land eq 1)).1 * ny +
            ((locate2d y ny yp (Int.land eq 2)).1 - 1)) *
          (locate2d x nx xp (Int.land eq 1)).2) * (1 - (locate2d y ny yp (Int.land eq 2)).2) +
      (z (((locate2d x nx xp (Int.land eq 1)).1 - 1) * ny +
            (locate2d y ny yp (Int.land eq 2)).1) *
          (1 - (locate2d x nx xp (Int.land eq 1)).2) +
        z ((locate2d x nx xp (Int.land eq 1)).1 * ny + (locate2d y ny yp (Int.land eq 2)).1) *
          (locate2d x nx xp (Int.land eq 1)).2) * (locate2d y ny yp (Int.land eq 2)).2 := by
  unfold rpol_2d_linear
  rw [if_neg (by omega), if_neg (by
    rintro (hh | hh)
    · exact absurd hx01 (not_lt.mpr hh)
    · exact absurd hy01 (not_lt.mpr hh))]
  rw [if_neg (by rintro ⟨_, hh⟩; exact hh rfl)]
  dsimp only
  rw [if_neg (by rintro ⟨_, hh⟩; exact hh rfl)]

/-- A bilinear mean of four values lies below the linear mean of two bounds
of theirs. -/
theorem bilinear_le (z00 z10 z01 z11 m0 m1 r s : ℚ) (hr0 : 0 ≤ r) (hr1 : r ≤ 1) (hs0 : 0 ≤ s)
    (hs1 : s ≤ 1) (a : z00 ≤ m0) (b : z01 ≤ m0) (c : z10 ≤ m1) (d : z11 ≤ m1) :
    (z00 * (1 - r) + z10 * r) * (1 - s) + (z01 * (1 - r) + z11 * r) * s ≤
      m0 * (1 - r) + m1 * r := by
  have h1 : 0 ≤ 1 - r := by linarith
  have h2 : 0 ≤ 1 - s := by linarith
  have t1 : (z00 * (1 - r) + z10 * r) ≤ m0 * (1 - r) + m1 * r := by
    have := mul_le_mul_of_nonneg_right a h1
    have := mul_le_mul_of_nonneg_right c hr0
    linarith
  have t2 : (z01 * (1 - r) + z11 * r) ≤ m0 * (1 - r) + m1 * r := by
    have := mul_le_mul_of_nonneg_right b h1
    have := mul_le_mul_of_nonneg_right d hr0
    linarith
  have u1 := mul_le_mul_of_nonneg_right t1 h2
  have u2 := mul_le_mul_of_nonneg_right t2 hs0
  nlinarith

/-- A bilinear mean of four values lies above the linear mean of two bounds
of theirs. -/
theorem bilinear_ge (z00 z10 z01 z11 m0 m1 r s : ℚ) (hr0 : 0 ≤ r) (hr1 : r ≤ 1) (hs0 : 0 ≤ s)
    (hs1 : s ≤ 1) (a : m0 ≤ z00) (b : m0 ≤ z01) (c : m1 ≤ z10) (d : m1 ≤ z11) :
    m0 * (1 - r) + m1 * r ≤
      (z00 * (1 - r) + z10 * r) * (1 - s) + (z01 * (1 - r) + z11 * r) * s := by
  have h1 : 0 ≤ 1 - r := by linarith
  have h2 : 0 ≤ 1 - s := by linarith
  have t1 : m0 * (1 - r) + m1 * r ≤ (z00 * (1 - r) + z10 * r) := by
    have := mul_le_mul_of_nonneg_right a h1
    have := mul_le_mul_of_nonneg_right c hr0
    linarith
  have t2 : m0 * (1 - r) + m1 * r ≤ (z01 * (1 - r) + z11 * r) := by
    have := mul_le_mul_of_nonneg_right b h1
    have := mul_le_mul_of_nonneg_right d hr0
    linarith
  have u1 := mul_le_mul_of_nonneg_right t1 h2
  have u2 := mul_le_mul_of_nonneg_right t2 hs0
  nlinarith

/-- Without clipping, on ascending axes whose equidistant bits are set only
for exactly equidistant axes, the bilinear value lies between the linear
values of a lower and an upper bound of the rows of `z`. -/
theorem rpol_2d_linear_between (x y z lo up : Arr) (nx ny : ℤ) (hnx : 2 ≤ nx) (hny : 2 ≤ ny)
    (hax : Ascending x nx) (hay : Ascending y ny) (eq : ℤ)
    (hex : Int.land eq 1 ≠ 0 → Equidistant x nx) (hey : Int.land eq 2 ≠ 0 → Equidistant y ny)
    (hlo : ∀ i j : ℤ, 0 ≤ i → i < nx → 0 ≤ j → j < ny → lo i ≤ z (i * ny + j))
    (hup : ∀ i j : ℤ, 0 ≤ i → i < nx → 0 ≤ j → j < ny → z (i * ny + j) ≤ up i)
    (xp yp : ℚ) :
    rpol_linear x lo nx xp (Int.land eq 1) 0 ≤ rpol_2d_linear x y z nx ny xp yp eq 0 ∧
      rpol_2d_linear x y z nx ny xp yp eq 0 ≤ rpol_linear x up nx xp (Int.land eq 1) 0 := by
  have hx01 : x 0 < x 1 := hax 0 (le_refl _) (by omega)
  have hy01 : y 0 < y 1 := hay 0 (le_refl _) (by omega)
  rw [rpol_linear_locate2d x lo nx hnx hx01, rpol_linear_locate2d x up nx hnx hx01,
    rpol_2d_linear_form x y z nx ny hnx hny hx01 hy01]
  obtain ⟨i1, i2, r0, r1⟩ := locate2d_in_range hax hnx xp (Int.land eq 1) hex
  obtain ⟨j1, j2, s0, s1⟩ := locate2d_in_range hay hny yp (Int.land eq 2) hey
  generalize (locate2d x nx xp (Int.land eq 1)).1 = i at *
  generalize (locate2d x nx xp (Int.land eq 1)).2 = r at *
  generalize (locate2d y ny yp (Int.land eq 2)).1 = j at *
  generalize (locate2d y ny yp (Int.land eq 2)).2 = s at *
  constructor
  · exact bilinear_ge _ _ _ _ _ _ r s r0 r1 s0 s1
      (hlo (i - 1) (j - 1) (by omega) (by omega) (by omega) (by omega))
      (hlo (i - 1) j (by omega) (by omega) (by omega) (by omega))
      (hlo i (j - 1) (by omega) (by omega) (by omega) (by omega))
      (hlo i j (by omega) (by omega) (by omega) (by omega))
  · exact bilinear_le _ _ _ _ _ _ r s r0 r1 s0 s1
      (hup (i - 1) (j - 1) (by omega) (by omega) (by omega) (by omega))
      (hup (i - 1) j (by omega) (by omega) (by omega) (by omega))
      (hup i (j - 1) (by omega) (by omega) (by omega) (by omega))
      (hup i j (by omega) (by omega) (by omega) (by omega))

/-- C37: for every 2-D table (`ndim` 2 or 3) without log flags, with clipping
off, strictly ascending `x` and `y` (`nx, ny ≥ 2`) and the envelope request
flag, after `rpol_check_equi_range` has computed the envelopes, and provided
a bit of `equidistant` is set only for an exactly equidistant axis: for all
queries `(x, y)` the lower-envelope value `rpolate_1d(rpt, x, -2)` is at most
`rpolate_2d(rpt, x, y, 1)`, which is at most the upper-envelope value
`rpolate_1d(rpt, x, -1)`. -/
theorem envelope_bounds (expf logf : ℚ → ℚ) (t : RpolTable) (xs ys zs : List ℚ)
    (hx : t.x = some xs) (hy : t.y = some ys) (hz : t.z = some zs)
    (hd : t.ndim = 2 ∨ t.ndim = 3) (hnx : 2 ≤ t.nx) (hny : 2 ≤ t.ny) (hreq : t.zxreq ≠ 0)
    (hclip : t.clipping = 0) (hxl : t.xlog = 0) (hyl : t.ylog = 0) (hzl : t.zlog = 0)
    (hax : Ascending (arr t.x) t.nx) (hay : Ascending (arr t.y) t.ny)
    (hex : Int.land (rpol_check_equi_range t).equidistant 1 ≠ 0 → Equidistant (arr t.x) t.nx)
    (hey : Int.land (rpol_check_equi_range t).equidistant 2 ≠ 0 → Equidistant (arr t.y) t.ny)
    (xq yq : ℚ) :
    rpolate_1d expf logf (some (rpol_check_equi_range t)) xq (-2) ≤
        rpolate_2d expf logf (some (rpol_check_equi_range t)) xq yq 1 ∧
      rpolate_2d expf logf (some (rpol_check_equi_range t)) xq yq 1 ≤
        rpolate_1d expf logf (some (rpol_check_equi_range t)) xq (-1) := by
  have h1 : ¬ (t.ndim ≥ 2 ∧ t.y = none) := by
    rintro ⟨_, hh⟩
    rw [hy] at hh
    exact absurd hh (by simp)
  have h2 : ¬ (t.nx < 1 ∨ (t.ndim ≥ 2 ∧ t.ny < 1)) := by
    rintro (hh | hh) <;> omega
  obtain ⟨xs', zs', ex, ez, hsame, _, emax, emin, ey, exl, eyl, ezl, _⟩ :=
    check_equi_range_fields t xs zs hx hz h1 h2
  obtain ⟨hxs, hzs⟩ := hsame (by omega)
  subst hxs hzs
  obtain ⟨kc, kd, kx, ky⟩ := check_equi_range_keeps t
  have henv : decide (t.ndim > 1 ∧ t.zxreq ≠ 0) = true :=
    decide_eq_true ⟨by omega, hreq⟩
  rw [henv, if_pos rfl] at emax emin
  rw [hx] at hax hex
  rw [hy] at hay hey
  have hlo : ∀ i j : ℤ, 0 ≤ i → i < (t.nx : ℤ) → 0 ≤ j → j < (t.ny : ℤ) →
      arr (some ((List.range t.nx).map (row_min t.ny (fun i => zs'.getD i 0)))) i ≤
        arr (some zs') (i * (t.ny : ℤ) + j) := by
    intro i j i0 i1 j0 j1
    obtain ⟨i', rfl⟩ := Int.eq_ofNat_of_zero_le i0
    obtain ⟨j', rfl⟩ := Int.eq_ofNat_of_zero_le j0
    have hi' : i' < t.nx := by exact_mod_cast i1
    have hj' : j' < t.ny := by exact_mod_cast j1
    have e1 : ((i' : ℤ) * (t.ny : ℤ) + (j' : ℤ)).toNat = i' * t.ny + j' := by
      have : ((i' : ℤ) * (t.ny : ℤ) + (j' : ℤ)) = ((i' * t.ny + j' : ℕ) : ℤ) := by push_cast; ring
      rw [this, Int.toNat_natCast]
    simp only [arr, Option.getD_some, Int.toNat_natCast, e1]
    rw [getD_map_range _ _ _ _ hi']
    exact (row_min_spec t.ny (fun k => zs'.getD k 0) i' (by omega)).2 j' hj'
  have hup : ∀ i j : ℤ, 0 ≤ i → i < (t.nx : ℤ) → 0 ≤ j → j < (t.ny : ℤ) →
      arr (some zs') (i * (t.ny : ℤ) + j) ≤
        arr (some ((List.range t.nx).map (row_max t.ny (fun i => zs'.getD i 0)))) i := by
    intro i j i0 i1 j0 j1
    obtain ⟨i', rfl⟩ := Int.eq_ofNat_of_zero_le i0
    obtain ⟨j', rfl⟩ := Int.eq_ofNat_of_zero_le j0
    have hi' : i' < t.nx := by exact_mod_cast i1
    have hj' : j' < t.ny := by exact_mod_cast j1
    have e1 : ((i' : ℤ) * (t.ny : ℤ) + (j' : ℤ)).toNat = i' * t.ny + j' := by
      have : ((i' : ℤ) * (t.ny : ℤ) + (j' : ℤ)) = ((i' * t.ny + j' : ℕ) : ℤ) := by push_cast; ring
      rw [this, Int.toNat_natCast]
    simp only [arr, Option.getD_some, Int.toNat_natCast, e1]
    rw [getD_map_range _ _ _ _ hi']
    exact (row_max_spec t.ny (fun k => zs'.getD k 0) i' (by omega)).2 j' hj'
  have key := rpol_2d_linear_between (arr (some xs')) (arr (some ys)) (arr (some zs'))
    (arr (some ((List.range t.nx).map (row_min t.ny (fun i => zs'.getD i 0)))))
    (arr (some ((List.range t.nx).map (row_max t.ny (fun i => zs'.getD i 0)))))
    t.nx t.ny (by exact_mod_cast hnx) (by exact_mod_cast hny) hax hay
    (rpol_check_equi_range t).equidistant hex hey hlo hup xq yq
  clear hex hey hlo hup
  generalize rpol_check_equi_range t = r at *
  have e1 : rpolate_1d expf logf (some r) xq (-1) =
      rpol_linear (arr (some xs'))
        (arr (some ((List.range t.nx).map (row_max t.ny (fun i => zs'.getD i 0))))) t.nx xq
        (Int.land r.equidistant 1) 0 := by
    unfold rpolate_1d
    simp only [exl, hxl, ne_eq, not_true_eq_false, false_and, if_false, ezl, hzl, kd, emax, ex,
      kx, kc, hclip]
    rw [if_pos ⟨trivial, by omega, by simp⟩]
  have e2 : rpolate_1d expf logf (some r) xq (-2) =
      rpol_linear (arr (some xs'))
        (arr (some ((List.range t.nx).map (row_min t.ny (fun i => zs'.getD i 0))))) t.nx xq
        (Int.land r.equidistant 1) 0 := by
    unfold rpolate_1d
    simp only [exl, hxl, ne_eq, not_true_eq_false, false_and, if_false, ezl, hzl, kd, emin, ex,
      kx, kc, hclip]
    rw [if_neg (by rintro ⟨hh, _⟩; exact absurd hh (by decide)),
      if_pos ⟨trivial, by omega, by simp⟩]
  have e3 : rpolate_2d expf logf (some r) xq yq 1 =
      rpol_2d_linear (arr (some xs')) (arr (some ys)) (arr (some zs')) t.nx t.ny xq yq
        r.equidistant 0 := by
    unfold rpolate_2d
    simp only [kd, exl, eyl, ezl, hxl, hyl, hzl, ne_eq, not_true_eq_false, and_false, false_and,
      if_false, ex, ey, hy, ez, kx, ky, kc, hclip]
    rw [if_neg (by omega)]
    simp
  rw [e1, e2, e3]
  exact key

/-- The table `z = 1 5 3 / 4 2 6` read at `(1/2, 1/2)`: the envelopes give
`3/2` and `11/2`, the bilinear value is `3`. -/
theorem envelope_bounds_witness :
    rpolate_1d expTaylor expTaylor (some (rpol_check_equi_range demoEnvelope)) (1 / 2) (-2) ≤
        rpolate_2d expTaylor expTaylor (some (rpol_check_equi_range demoEnvelope)) (1 / 2)
          (1 / 2) 1 ∧
      rpolate_2d expTaylor expTaylor (some (rpol_check_equi_range demoEnvelope)) (1 / 2)
          (1 / 2) 1 ≤
        rpolate_1d expTaylor expTaylor (some (rpol_check_equi_range demoEnvelope)) (1 / 2) (-1) :=
  envelope_bounds expTaylor expTaylor demoEnvelope [0, 1] [0, 1, 2] [1, 5, 3, 4, 2, 6] rfl rfl rfl
    (Or.inl rfl) (by decide) (by decide) (by decide) rfl rfl rfl rfl
    (by
      intro i h0 h1
      have h2 : i + 1 < 2 := h1
      have e : i = 0 := by omega
      subst e
      decide!)
    (by
      intro i h0 h1
      have h2 : i + 1 < 3 := h1
      have e : i = 0 ∨ i = 1 := by omega
      rcases e with e | e <;> subst e <;> decide!)
    (by
      intro _ i h0 h1
      have h2 : i < 2 := h1
      have e : i = 0 ∨ i = 1 := by omega
      rcases e with e | e <;> subst e <;> decide!)
    (by
      intro _ i h0 h1
      have h2 : i < 3 := h1
      have e : i = 0 ∨ i = 1 ∨ i = 2 := by omega
      rcases e with e | e | e <;> subst e <;> decide!)
    (1 / 2) (1 / 2)

/-- The values of the example: lower envelope, bilinear value and upper
envelope at `(1/2, 1/2)`. -/
theorem envelope_bounds_values :
    rpolate_1d expTaylor expTaylor (some (rpol_check_equi_range demoEnvelope)) (1 / 2) (-2) =
        3 / 2 ∧
      rpolate_2d expTaylor expTaylor (some (rpol_check_equi_range demoEnvelope)) (1 / 2) (1 / 2)
        1 = 3 ∧
      rpolate_1d expTaylor expTaylor (some (rpol_check_equi_range demoEnvelope)) (1 / 2) (-1) =
        11 / 2 := by
  refine ⟨by decide!, by decide!, by decide!⟩

/-! ## Double precision: the rounding function and the nearest value -/

/-- The power of two is the power with integer exponent of the rationals. -/
theorem two_pow_eq (s : ℤ) : two_pow s = (2 : ℚ) ^ s := by
  unfold two_pow
  by_cases c : 0 ≤ s
  · rw [if_pos c]
    obtain ⟨k, rfl⟩ := Int.eq_ofNat_of_zero_le c
    simp
  · rw [if_neg c]
    obtain ⟨k, hk⟩ : ∃ k : ℕ, -s = (k : ℤ) := ⟨(-s).toNat, by omega⟩
    have e : s = -(k : ℤ) := by omega
    rw [hk, e]
    simp

theorem two_pow_pos (s : ℤ) : 0 < two_pow s := by
  rw [two_pow_eq]
  positivity

/-- The bit length of a positive number bounds it from below. -/
theorem bit_length_le : ∀ (fuel n : ℕ), n ≤ fuel → 0 < n → 2 ^ (bit_length fuel n - 1) ≤ n := by
  intro fuel
  induction fuel with
  | zero => intro n h1 h2; omega
  | succ f ih =>
    intro n h1 h2
    simp only [bit_length, if_neg (by omega : ¬ n = 0)]
    by_cases c : n / 2 = 0
    · have : n = 1 := by omega
      subst this
      cases f <;> simp [bit_length]
    · have h3 := ih (n / 2) (by omega) (by omega)
      have hb : 1 ≤ bit_length f (n / 2) := by
        cases f with
        | zero => omega
        | succ g => simp only [bit_length, if_neg c]; omega
      have e : bit_length f (n / 2) + 1 - 1 = (bit_length f (n / 2) - 1) + 1 := by omega
      rw [e, pow_succ]
      omega

/-- A number lies below the power of two of its bit length. -/
theorem lt_bit_length : ∀ (fuel n : ℕ), n ≤ fuel → n < 2 ^ bit_length fuel n := by
  intro fuel
  induction fuel with
  | zero => intro n h1; have : n = 0 := by omega
            subst this; simp [bit_length]
  | succ f ih =>
    intro n h1
    by_cases c0 : n = 0
    · subst c0; simp [bit_length]
    · simp only [bit_length, if_neg c0]
      have h3 := ih (n / 2) (by omega)
      rw [pow_succ]
      omega

/-- The exponent found for a positive rational is not too high. -/
theorem bin_exp_le (q : ℚ) (hq : 0 < q) : two_pow (bin_exp q) ≤ q := by
  unfold bin_exp
  dsimp only
  by_cases c : q < two_pow ((bit_length q.num.toNat q.num.toNat : ℤ) - (bit_length q.den q.den : ℤ))
  · rw [if_pos c]
    have hnum : 0 < q.num := Rat.num_pos.mpr hq
    obtain ⟨a, ha⟩ : ∃ a : ℕ, q.num = (a : ℤ) := ⟨q.num.toNat, by omega⟩
    have ha0 : 0 < a := by omega
    have hden : 0 < q.den := q.den_pos
    rw [ha, Int.toNat_natCast]
    have l1 := bit_length_le a a (le_refl _) ha0
    have l2 := lt_bit_length q.den q.den (le_refl _)
    have hb : 1 ≤ bit_length a a := by
      cases a with
      | zero => omega
      | succ g => simp only [bit_length, if_neg (by omega : ¬ g + 1 = 0)]; omega
    rw [two_pow_eq]
    have e : ((bit_length a a : ℤ) - (bit_length q.den q.den : ℤ) - 1) =
        ((bit_length a a - 1 : ℕ) : ℤ) - ((bit_length q.den q.den : ℕ) : ℤ) := by
      omega
    rw [e, zpow_sub₀ (by norm_num), zpow_natCast, zpow_natCast]
    have hq' : (a : ℚ) / (q.den : ℚ) = q := by
      have := Rat.num_div_den q
      rw [ha] at this
      simpa using this
    have l1' : (2 : ℚ) ^ (bit_length a a - 1) ≤ (a : ℚ) := by exact_mod_cast l1
    have l2' : (q.den : ℚ) ≤ (2 : ℚ) ^ bit_length q.den q.den := by exact_mod_cast le_of_lt l2
    have hd : (0 : ℚ) < (q.den : ℚ) := by exact_mod_cast hden
    calc (2 : ℚ) ^ (bit_length a a - 1) / (2 : ℚ) ^ bit_length q.den q.den
        ≤ (a : ℚ) / (q.den : ℚ) := div_le_div₀ (by positivity) l1' hd l2'
      _ = q := hq'
  · rw [if_neg c]
    exact not_lt.mp c

/-- With exact arithmetic in place of the rounding, the double precision
reading of the loop of `interp` is the exact one. -/
theorem interpLoop_dbl_exact (x : ℚ) (v : Arr) (n lm : ℤ) :
    ∀ (fuel : ℕ) (l m : ℤ),
      interpLoop_dbl (fun q => q) x v n lm fuel l m = interpLoop x v n lm fuel l m := by
  intro fuel
  induction fuel with
  | zero => intro l m; rfl
  | succ f ih =>
    intro l m
    simp only [interpLoop_dbl, interpLoop, ih]

/-- The exponent found for a positive rational is not too low: with
`bin_exp_le`, `2^e ≤ q < 2^(e+1)`. -/
theorem lt_bin_exp (q : ℚ) (hq : 0 < q) : q < two_pow (bin_exp q + 1) := by
  unfold bin_exp
  dsimp only
  by_cases c : q < two_pow ((bit_length q.num.toNat q.num.toNat : ℤ) - (bit_length q.den q.den : ℤ))
  · rw [if_pos c]
    have e : ∀ z : ℤ, z - 1 + 1 = z := fun z => by ring
    rw [e]
    exact c
  · rw [if_neg c]
    have hnum : 0 < q.num := Rat.num_pos.mpr hq
    obtain ⟨a, ha⟩ : ∃ a : ℕ, q.num = (a : ℤ) := ⟨q.num.toNat, by omega⟩
    have hden : 0 < q.den := q.den_pos
    rw [ha, Int.toNat_natCast]
    have l1 := lt_bit_length a a (le_refl _)
    have l2 := bit_length_le q.den q.den (le_refl _) hden
    have hb : 1 ≤ bit_length q.den q.den := by
      obtain ⟨g, hg⟩ : ∃ g, q.den = g + 1 := ⟨q.den - 1, by omega⟩
      rw [hg]
      simp only [bit_length, if_neg (by omega : ¬ g + 1 = 0)]
      omega
    rw [two_pow_eq]
    have e : ((bit_length a a : ℤ) - (bit_length q.den q.den : ℤ) + 1) =
        ((bit_length a a : ℕ) : ℤ) - ((bit_length q.den q.den - 1 : ℕ) : ℤ) := by
      omega
    rw [e, zpow_sub₀ (by norm_num), zpow_natCast, zpow_natCast]
    have hq' : (a : ℚ) / (q.den : ℚ) = q := by
      have := Rat.num_div_den q
      rw [ha] at this
      simpa using this
    have l1' : (a : ℚ) < (2 : ℚ) ^ bit_length a a := by exact_mod_cast l1
    have l2' : (2 : ℚ) ^ (bit_length q.den q.den - 1) ≤ (q.den : ℚ) := by exact_mod_cast l2
    have hp : (0 : ℚ) < (2 : ℚ) ^ (bit_length q.den q.den - 1) := by positivity
    have ha0 : (0 : ℚ) ≤ (a : ℚ) := by positivity
    calc q = (a : ℚ) / (q.den : ℚ) := hq'.symm
      _ ≤ (a : ℚ) / (2 : ℚ) ^ (bit_length q.den q.den - 1) :=
        div_le_div_of_nonneg_left ha0 hp l2'
      _ < (2 : ℚ) ^ bit_length a a / (2 : ℚ) ^ (bit_length q.den q.den - 1) :=
        div_lt_div_of_pos_right l1' hp

/-- The significand that `to_double` rounds has 53 binary digits before the
point: it lies between `2^52` and `2^53`. -/
theorem significand_range (q : ℚ) (hq : q ≠ 0) :
    2 ^ 52 ≤ |q| / two_pow (bin_exp |q| - 52) ∧ |q| / two_pow (bin_exp |q| - 52) < 2 ^ 53 := by
  have ha : 0 < |q| := abs_pos.mpr hq
  have h1 := bin_exp_le |q| ha
  have h2 := lt_bin_exp |q| ha
  have hP := two_pow_pos (bin_exp |q| - 52)
  have e1 : two_pow (bin_exp |q|) = 2 ^ 52 * two_pow (bin_exp |q| - 52) := by
    rw [two_pow_eq, two_pow_eq, zpow_sub₀ (by norm_num)]
    field_simp
    ring
  have e2 : two_pow (bin_exp |q| + 1) = 2 ^ 53 * two_pow (bin_exp |q| - 52) := by
    rw [two_pow_eq, two_pow_eq, zpow_sub₀ (by norm_num), zpow_add₀ (by norm_num)]
    field_simp
    ring
  constructor
  · rw [le_div_iff₀ hP, ← e1]
    exact h1
  · rw [div_lt_iff₀ hP, ← e2]
    exact h2

/-- The rounding on known values: the doubles nearest to `1/10` and `1/49`,
numbers of 53 bits kept as they are, and ties going to the even
significand. -/
theorem to_double_examples :
    to_double (1 / 10) = 3602879701896397 / 2 ^ 55 ∧
      to_double (1 / 49) = 5882252574524729 / 2 ^ 58 ∧
      to_double (49 / 2) = 49 / 2 ∧ to_double (-3) = -3 ∧
      to_double (2 ^ 53 + 1) = 2 ^ 53 ∧ to_double (2 ^ 53 + 3) = 2 ^ 53 + 4 := by
  refine ⟨by decide!, by decide!, by decide!, by decide!, by decide!, by decide!⟩

/-- With exact arithmetic in place of the rounding, the double precision
reading of the interval search is the exact one. -/
theorem locate_dbl_exact (x : Arr) (n : ℤ) (xp : ℚ) (eq : ℤ) :
    locate_dbl (fun q => q) x n xp eq = locate x n xp eq := by
  unfold locate_dbl locate interp_dbl interp
  simp only [interpLoop_dbl_exact]

/-- With exact arithmetic in place of the rounding, the double precision
readings of `rpol_nearest`, `rpol_linear` and `rpol_2nd_order` are the exact
functions. -/
theorem rpol_dbl_exact (x y : Arr) (n : ℤ) (xp : ℚ) (eq clip : ℤ) :
    rpol_nearest_dbl (fun q => q) x y n xp eq clip = rpol_nearest x y n xp eq clip ∧
    rpol_linear_dbl (fun q => q) x y n xp eq clip = rpol_linear x y n xp eq clip ∧
    rpol_2nd_order_dbl (fun q => q) x y n xp eq clip = rpol_2nd_order x y n xp eq clip := by
  have hl : rpol_linear_dbl (fun q => q) x y n xp eq clip = rpol_linear x y n xp eq clip := by
    unfold rpol_linear_dbl rpol_linear
    simp only [locate_dbl_exact]
  refine ⟨?_, hl, ?_⟩
  · unfold rpol_nearest_dbl rpol_nearest
    simp only [locate_dbl_exact]
  · unfold rpol_2nd_order_dbl rpol_2nd_order blend2_dbl blend2
    simp only [locate_dbl_exact, hl]

end Rpolator
